import Mathlib

/-!
# ImgFS store: a shallow embedding of the C sources

The store operations `do_create`, `do_insert`, `do_delete`, `do_read`,
`lazily_resize` and `do_name_and_content_dedup` are embedded as pure
functions over an explicit store value (`imgfs_file`): the backing file is a
list of bytes, the in-memory header and metadata table are Lean structures.
The listing `do_list`, the command `do_create_cmd` and the HTTP protocol
layer of `http_prot.c` (`get_next_token`, `http_parse_headers`,
`http_parse_message`, `http_get_var`) are embedded in the same way, and so
are `http_reply` of `http_net.c`, the handlers of `imgfs_server_service.c`
and the commands `do_delete_cmd` and `do_insert_cmd`.

Conventions of the embedding
* bytes and machine integers are `Nat`; where the C code narrows to a fixed
  width (`uint32_t` counters and sizes) the reduction modulo `2 ^ 32` is
  explicit;
* a `char` array is the list of its bytes, a C string argument is a list of
  bytes read up to its first `0`;
* every checked stdio call of a function is numbered in program order and an
  oracle `stdio : Nat → Bool` says whether that call succeeds; a failing call
  leaves the file as it was;
* pointer arguments are non-NULL and the store handle is open; `calloc`
  succeeds;
* in the HTTP layer a `const char*` is the list of the bytes from the
  pointed byte on, `NULL` is `none`; `atoi` of libc and the conversions
  `atouint32` and `atouint16` of `util.c` are parameters;
* the codec (libvips), SHA-256 and the struct layouts of `imgfs.h` are not
  part of the sources and are supplied through `Env`; the error texts, the
  libm value of `log10`, the outcome of `tcp_send` and the listening port
  are supplied through `server_env`;
* two connection threads are a schedule of steps (lock, the parts of
  `do_insert` one by one, unlock) over the shared store and the owner of
  `imgfs_mutex`.
-/

set_option maxRecDepth 100000

namespace ImgFS

/-! ## Constants of `imgfs.h` and `error.h` -/

/-- Modelled from the spec: the validity flag EMPTY of `imgfs.h` (the header
is not among the sources); `calloc`-ed entries are EMPTY, hence `0`. -/
def EMPTY : Nat := 0

/-- Modelled from the spec: the validity flag NON_EMPTY of `imgfs.h`. -/
def NON_EMPTY : Nat := 1

/-- Modelled from the spec: index of the thumbnail resolution in `imgfs.h`;
`lazily_resize` reads `resized_res[2 * resolution]`, so thumbnail and small
are `0` and `1`. -/
def THUMB_RES : Int := 0

/-- Modelled from the spec: index of the small resolution in `imgfs.h`. -/
def SMALL_RES : Int := 1

/-- Modelled from the spec: index of the original resolution in `imgfs.h`. -/
def ORIG_RES : Int := 2

/-- Modelled from the spec: number of resolutions in `imgfs.h`. -/
def NB_RES : Int := 3

/-- Modelled from the spec: maximal length of an image id in `imgfs.h`; the
field `img_id` has `MAX_IMG_ID + 1` bytes. -/
def MAX_IMG_ID : Nat := 127

/-- Modelled from the spec: maximal length of the store name in `imgfs.h`. -/
def MAX_IMGFS_NAME : Nat := 31

/-- Modelled from the spec: the error kinds of `error.h` (section 7 of the
specification); `ERR_NONE` is success. -/
inductive error_code where
  | ERR_NONE
  | ERR_IO
  | ERR_RUNTIME
  | ERR_OUT_OF_MEMORY
  | ERR_NOT_ENOUGH_ARGUMENTS
  | ERR_INVALID_FILENAME
  | ERR_INVALID_COMMAND
  | ERR_INVALID_ARGUMENT
  | ERR_THREADING
  | ERR_MAX_FILES
  | ERR_RESOLUTIONS
  | ERR_INVALID_IMGID
  | ERR_IMGFS_FULL
  | ERR_IMAGE_NOT_FOUND
  | ERR_DUPLICATE_ID
  | ERR_IMGLIB
  deriving DecidableEq, Repr

open error_code

/-! ## Data model -/

/-- Modelled from the spec: an array `T x[NB_RES]` of `imgfs.h`, one cell per
resolution (the sizes and offsets of section 3). -/
structure res_array where
  thumb : Nat
  small : Nat
  orig : Nat
  deriving DecidableEq, Repr

/-- Array read `x[r]`; an index outside `0 .. NB_RES - 1` is undefined in C
and reads as `0` here. -/
def res_array.get (a : res_array) (r : Int) : Nat :=
  if r = THUMB_RES then a.thumb
  else if r = SMALL_RES then a.small
  else if r = ORIG_RES then a.orig
  else 0

/-- Array write `x[r] = v`; an index outside `0 .. NB_RES - 1` is undefined
in C and writes nothing here. -/
def res_array.set (a : res_array) (r : Int) (v : Nat) : res_array :=
  if r = THUMB_RES then { a with thumb := v }
  else if r = SMALL_RES then { a with small := v }
  else if r = ORIG_RES then { a with orig := v }
  else a

/-- Modelled from the spec: the record `struct imgfs_header` of `imgfs.h`
(store header of section 3), with the fields the sources use. -/
structure imgfs_header where
  name : List Nat
  version : Nat
  nb_files : Nat
  max_files : Nat
  resized_res : List Nat
  unused_32 : Nat
  unused_64 : Nat
  deriving DecidableEq, Repr

/-- Modelled from the spec: the record `struct img_metadata` of `imgfs.h`
(metadata entry of section 3), with the fields the sources use; `orig_res`
is `(orig_res[0], orig_res[1])`, that is (width, height). -/
structure img_metadata where
  img_id : List Nat
  SHA : List Nat
  orig_res : Nat × Nat
  size : res_array
  offset : res_array
  is_valid : Nat
  unused_16 : Nat
  deriving DecidableEq, Repr

/-- Modelled from the spec: the record `struct imgfs_file` of `imgfs.h`: the
bytes of the backing file, the in-memory header and the in-memory metadata
table. -/
structure imgfs_file where
  file : List Nat
  header : imgfs_header
  metadata : List img_metadata
  deriving DecidableEq, Repr

/-- A decoded image as the store sees it: its dimensions and pixel data. -/
structure VipsImage where
  Xsize : Nat
  Ysize : Nat
  pixels : List Nat
  deriving DecidableEq, Repr

/-- Everything the store code uses that is not in the sources: the struct
layouts and the name constant of `imgfs.h`, OpenSSL's SHA256 and the three
libvips calls. -/
structure Env where
  CAT_TXT : List Nat
  sizeof_imgfs_header : Nat
  sizeof_img_metadata : Nat
  header_repr : imgfs_header → List Nat
  metadata_repr : img_metadata → List Nat
  SHA256 : List Nat → List Nat
  vips_jpegload_buffer : List Nat → Option VipsImage
  vips_thumbnail_image : VipsImage → Nat → Nat → Option VipsImage
  vips_jpegsave_buffer : VipsImage → Option (List Nat)

/-! ## C library primitives -/

/-- The string a `char` array holds: its bytes up to the first NUL. -/
def c_str (s : List Nat) : List Nat := s.takeWhile (fun c => c != 0)

/-- The test `strncmp(a, b, n) == 0`. -/
def strncmp_eq (a b : List Nat) (n : Nat) : Bool :=
  c_str (a.take n) == c_str (b.take n)

/-- The call `strncpy(dst, src, n)`: the first `n` bytes of `dst` become the
string `src` cut at `n` bytes and padded with NUL, the rest of `dst` is kept. -/
def strncpy (dst src : List Nat) (n : Nat) : List Nat :=
  (c_str src).take n ++ List.replicate (n - ((c_str src).take n).length) 0 ++ dst.drop n

/-- The object representation written by `fwrite(&x, sizeof x, 1, file)`:
exactly `n` bytes. -/
def object_bytes (n : Nat) (repr : List Nat) : List Nat :=
  (repr ++ List.replicate n 0).take n

/-- A successful `fseek(file, pos, SEEK_SET)` followed by a successful
`fwrite` of `data`: the bytes at `pos` are overwritten, the file grows when
the write passes its end (a gap is zero-filled). -/
def fwrite_at (file : List Nat) (pos : Nat) (data : List Nat) : List Nat :=
  file.take pos ++ List.replicate (pos - file.length) 0 ++ data ++ file.drop (pos + data.length)

/-- A `fseek(file, pos, SEEK_SET)` followed by an `fread` of `n` bytes: all
`n` bytes when they lie inside the file (or when `n` is `0`), a short read
(`none`) otherwise. -/
def fread_at (file : List Nat) (pos n : Nat) : Option (List Nat) :=
  if n = 0 ∨ pos + n ≤ file.length then some ((file.drop pos).take n) else none

/-- File position of metadata entry `i`:
`sizeof(struct imgfs_header) + i * sizeof(struct img_metadata)`. -/
def metadata_pos (env : Env) (i : Nat) : Nat :=
  env.sizeof_imgfs_header + i * env.sizeof_img_metadata

/-- Bytes written for the header. -/
def header_bytes (env : Env) (h : imgfs_header) : List Nat :=
  object_bytes env.sizeof_imgfs_header (env.header_repr h)

/-- Bytes written for one metadata entry. -/
def metadata_bytes (env : Env) (m : img_metadata) : List Nat :=
  object_bytes env.sizeof_img_metadata (env.metadata_repr m)

/-- An all-zero metadata entry, as `calloc` returns it. -/
def zero_metadata : img_metadata :=
  { img_id := List.replicate (MAX_IMG_ID + 1) 0
    SHA := List.replicate 32 0
    orig_res := (0, 0)
    size := ⟨0, 0, 0⟩
    offset := ⟨0, 0, 0⟩
    is_valid := 0
    unused_16 := 0 }

/-- Array read `imgfs_file->metadata[i]`. -/
def imgfs_file.entry (f : imgfs_file) (i : Nat) : img_metadata :=
  f.metadata.getD i zero_metadata

/-- Array write `imgfs_file->metadata[i] = m`. -/
def imgfs_file.set_entry (f : imgfs_file) (i : Nat) (m : img_metadata) : imgfs_file :=
  { f with metadata := f.metadata.set i m }

/-! ## `image_content.c` -/

/-- The function `get_resolution` of `image_content.c`: `(height, width)` of
the decoded image, or `ERR_IMGLIB` (here `none`) when the codec rejects the
buffer. -/
def get_resolution (env : Env) (image_buffer : List Nat) : Option (Nat × Nat) :=
  match env.vips_jpegload_buffer image_buffer with
  | none => none
  | some original => some (original.Ysize % 2 ^ 32, original.Xsize % 2 ^ 32)

/-- Lines 47-78 of `lazily_resize`: the original is decoded, rendered at the
dimensions `resized_res[2 * resolution]`, `resized_res[2 * resolution + 1]`
of the header and encoded again; `none` stands for `ERR_IMGLIB`. -/
def resize_buffer (env : Env) (header : imgfs_header) (resolution : Int) (orig_buf : List Nat) :
    Option (List Nat) :=
  match env.vips_jpegload_buffer orig_buf with
  | none => none
  | some in_image =>
    let target_width := header.resized_res.getD (resolution * 2).toNat 0
    let target_height := header.resized_res.getD (resolution * 2 + 1).toNat 0
    match env.vips_thumbnail_image in_image target_width target_height with
    | none => none
    | some out_image => env.vips_jpegsave_buffer out_image

/-- Lines 80-109 of `lazily_resize`: the variant `buf` is appended to the
file, the entry records its position and size and is written back. Checked
stdio calls: `2` seek to the end, `3` write of the variant (one item of
`len` bytes, so an empty variant counts as a failed write), `4` seek to the
entry, `5` write of the entry. -/
def append_variant (env : Env) (stdio : Nat → Bool) (resolution : Int) (f : imgfs_file)
    (index : Nat) (buf : List Nat) : error_code × imgfs_file :=
  if ¬ stdio 2 then ( ERR_IO, f)
  else if ¬ stdio 3 ∨ buf.length = 0 then ( ERR_IO, f)
  else
    let metadata := f.entry index
    let file1 := f.file ++ buf
    let metadata1 : img_metadata :=
      { metadata with
        offset := metadata.offset.set resolution (file1.length - buf.length)
        size := metadata.size.set resolution (buf.length % 2 ^ 32) }
    let f1 : imgfs_file := { f with file := file1, metadata := f.metadata.set index metadata1 }
    if ¬ stdio 4 then ( ERR_IO, f1)
    else if ¬ stdio 5 then ( ERR_IO, f1)
    else
      (ERR_NONE,
        { f1 with file := fwrite_at f1.file (metadata_pos env index) (metadata_bytes env metadata1) })

/-- The function `lazily_resize` of `image_content.c`. Checked stdio calls:
`0` seek to the original, `1` read of the original (one item of
`size[ORIG_RES]` bytes, so an empty original counts as a failed read), then
those of `append_variant`. -/
def lazily_resize (env : Env) (stdio : Nat → Bool) (resolution : Int) (f : imgfs_file)
    (index : Nat) : error_code × imgfs_file :=
  if ¬ (index < f.header.max_files ∧ (f.entry index).is_valid ≠ 0) then (ERR_INVALID_IMGID, f)
  else if resolution < 0 ∨ resolution ≥ NB_RES then (ERR_INVALID_IMGID, f)
  else if (f.entry index).is_valid ≠ NON_EMPTY then (ERR_INVALID_IMGID, f)
  else if (f.entry index).size.get resolution ≠ 0 then (ERR_NONE, f)
  else if ¬ stdio 0 then ( ERR_IO, f)
  else if ¬ stdio 1 ∨ (f.entry index).size.get ORIG_RES = 0 then ( ERR_IO, f)
  else
    match fread_at f.file ((f.entry index).offset.get ORIG_RES)
        ((f.entry index).size.get ORIG_RES) with
    | none => ( ERR_IO, f)
    | some orig_buf =>
      match resize_buffer env f.header resolution orig_buf with
      | none => (ERR_IMGLIB, f)
      | some buf => append_variant env stdio resolution f index buf

/-! ## `image_dedup.c` -/

/-- Outcome of the scan of `do_name_and_content_dedup`. -/
inductive dedup_scan where
  | duplicate
  | shared (current : img_metadata)
  | fresh
  deriving DecidableEq, Repr

/-- The `for` loop of `do_name_and_content_dedup`, from slot `i` on, over the
remaining entries: the first entry other than `index` that is not EMPTY and
has the target's id ends the scan with `duplicate`; the first one that has
the target's SHA ends it (`break`) with `shared`. -/
def dedup_loop (target : img_metadata) (index : Nat) : Nat → List img_metadata → dedup_scan
  | _, [] => dedup_scan.fresh
  | i, current :: rest =>
    if i ≠ index ∧ current.is_valid ≠ EMPTY then
      if strncmp_eq current.img_id target.img_id MAX_IMG_ID then dedup_scan.duplicate
      else if current.SHA = target.SHA then dedup_scan.shared current
      else dedup_loop target index (i + 1) rest
    else dedup_loop target index (i + 1) rest

/-- The function `do_name_and_content_dedup` of
`grading/projectFinal/done/image_dedup.c`. -/
def do_name_and_content_dedup (f : imgfs_file) (index : Nat) : error_code × imgfs_file :=
  if index ≥ f.header.max_files then (ERR_IMAGE_NOT_FOUND, f)
  else
    let target_metadata := f.entry index
    if target_metadata.is_valid = EMPTY then (ERR_NONE, f)
    else
      match dedup_loop target_metadata index 0 (f.metadata.take f.header.max_files) with
      | dedup_scan.duplicate => (ERR_DUPLICATE_ID, f)
      | dedup_scan.shared current =>
        (ERR_NONE, f.set_entry index
          { target_metadata with offset := current.offset, size := current.size })
      | dedup_scan.fresh =>
        (ERR_NONE, f.set_entry index
          { target_metadata with offset := target_metadata.offset.set ORIG_RES 0 })

/-! ## `imgfs_create.c` -/

/-- The function `do_create` of `imgfs_create.c`; the caller has set
`header.max_files` and `header.resized_res`. Checked stdio calls: `0` the
`fopen`, `1` write of the header, `2` write of the metadata table. On an
error the file is closed and the store value is of no further use. -/
def do_create (env : Env) (stdio : Nat → Bool) (f : imgfs_file) : error_code × imgfs_file :=
  let header : imgfs_header :=
    { f.header with
      name := strncpy f.header.name env.CAT_TXT (MAX_IMGFS_NAME + 1)
      version := 0
      nb_files := 0
      unused_32 := 0
      unused_64 := 0 }
  let f0 : imgfs_file := { f with header := header }
  if ¬ stdio 0 then ( ERR_IO, f0)
  else if ¬ stdio 1 then ( ERR_IO, { f0 with file := [] })
  else
    let file1 := header_bytes env header
    let metadata := List.replicate header.max_files zero_metadata
    if ¬ stdio 2 then ( ERR_IO, { f0 with file := file1, metadata := [] })
    else
      (ERR_NONE,
        { file := file1 ++ (metadata.map (metadata_bytes env)).flatten
          header := header
          metadata := metadata })

/-! ## `imgfs_insert.c` -/

/-- Lines 22-30 of `do_insert`: the lowest slot below `max_files` whose
`is_valid` is EMPTY (`none` stands for `UINT32_MAX`). -/
def find_free_index (f : imgfs_file) : Option Nat :=
  (f.metadata.take f.header.max_files).findIdx? (fun m => m.is_valid == EMPTY)

/-- Lines 72-77 of `do_insert`: the image is appended when the deduplication
pass left `offset[ORIG_RES]` at `0`. Checked stdio calls: `0` seek to the
end, `1` write of the image. -/
def insert_append (stdio : Nat → Bool) (image_buffer : List Nat) (free_index : Nat)
    (f : imgfs_file) : error_code × imgfs_file :=
  let metadata := f.entry free_index
  if metadata.offset.get ORIG_RES = 0 then
    if ¬ stdio 0 then ( ERR_IO, f)
    else
      let f1 := f.set_entry free_index
        { metadata with offset := metadata.offset.set ORIG_RES f.file.length }
      if ¬ stdio 1 then ( ERR_IO, f1)
      else (ERR_NONE, { f1 with file := f1.file ++ image_buffer })
  else (ERR_NONE, f)

/-- Lines 79-89 of `do_insert`: the counters are bumped, then the header and
the entry are written back. Checked stdio calls: `2` seek to the header,
`3` write of the header, `4` seek to the entry, `5` write of the entry. -/
def insert_write_back (env : Env) (stdio : Nat → Bool) (free_index : Nat) (f : imgfs_file) :
    error_code × imgfs_file :=
  let header1 : imgfs_header :=
    { f.header with
      nb_files := (f.header.nb_files + 1) % 2 ^ 32
      version := (f.header.version + 1) % 2 ^ 32 }
  let f1 : imgfs_file := { f with header := header1 }
  if ¬ stdio 2 then ( ERR_IO, f1)
  else if ¬ stdio 3 then ( ERR_IO, f1)
  else
    let f2 : imgfs_file := { f1 with file := fwrite_at f1.file 0 (header_bytes env header1) }
    if ¬ stdio 4 then ( ERR_IO, f2)
    else if ¬ stdio 5 then ( ERR_IO, f2)
    else
      (ERR_NONE,
        { f2 with
          file := fwrite_at f2.file (metadata_pos env free_index)
            (metadata_bytes env (f2.entry free_index)) })

/-- Lines 35-63 of `do_insert`: the tentative entry written into the free
slot once the codec has given the dimensions. -/
def tentative_metadata (env : Env) (image_buffer : List Nat) (img_id : List Nat)
    (oldmetadata : img_metadata) (height width : Nat) : img_metadata :=
  { img_id := strncpy oldmetadata.img_id img_id MAX_IMG_ID
    SHA := env.SHA256 image_buffer
    orig_res := (width, height)
    size := ((oldmetadata.size.set ORIG_RES (image_buffer.length % 2 ^ 32)).set THUMB_RES 0).set
      SMALL_RES 0
    offset := ((oldmetadata.offset.set ORIG_RES 0).set SMALL_RES 0).set THUMB_RES 0
    is_valid := NON_EMPTY
    unused_16 := 0 }

/-- The function `do_insert` of `imgfs_insert.c`; `image_size` is the length
of `image_buffer`. The stdio calls are those of `insert_append` and
`insert_write_back`. -/
def do_insert (env : Env) (stdio : Nat → Bool) (image_buffer : List Nat) (img_id : List Nat)
    (f : imgfs_file) : error_code × imgfs_file :=
  if f.header.nb_files ≥ f.header.max_files then (ERR_IMGFS_FULL, f)
  else
    match find_free_index f with
    | none => (ERR_IMGFS_FULL, f)
    | some free_index =>
      let oldmetadata := f.entry free_index
      match get_resolution env image_buffer with
      | none =>
        (ERR_IMGLIB, f.set_entry free_index
          { oldmetadata with
            SHA := env.SHA256 image_buffer
            img_id := strncpy oldmetadata.img_id img_id MAX_IMG_ID
            size := oldmetadata.size.set ORIG_RES (image_buffer.length % 2 ^ 32) })
      | some (height, width) =>
        let dedup := do_name_and_content_dedup
          (f.set_entry free_index (tentative_metadata env image_buffer img_id oldmetadata height width))
          free_index
        if dedup.1 ≠ ERR_NONE then (dedup.1, dedup.2.set_entry free_index oldmetadata)
        else
          let appended := insert_append stdio image_buffer free_index dedup.2
          if appended.1 ≠ ERR_NONE then appended
          else insert_write_back env stdio free_index appended.2

/-! ## `imgfs_delete.c` -/

/-- The `while` loop of `do_delete`: the lowest slot below `max_files` that is
NON_EMPTY and whose id equals `img_id`. -/
def find_delete_index (img_id : List Nat) (f : imgfs_file) : Option Nat :=
  (f.metadata.take f.header.max_files).findIdx?
    (fun m => m.is_valid == NON_EMPTY && strncmp_eq m.img_id img_id MAX_IMG_ID)

/-- The function `do_delete` of `done/imgfs_delete.c`. Checked stdio calls:
`0` write of the entry, `1` write of the header (the two `fseek` results are
not checked by the code and are taken to succeed). -/
def do_delete (env : Env) (stdio : Nat → Bool) (img_id : List Nat) (f : imgfs_file) :
    error_code × imgfs_file :=
  if f.header.nb_files = 0 then (ERR_IMAGE_NOT_FOUND, f)
  else
    match find_delete_index img_id f with
    | none => (ERR_IMAGE_NOT_FOUND, f)
    | some i =>
      let metadata1 : img_metadata := { f.entry i with is_valid := EMPTY }
      let f1 := f.set_entry i metadata1
      if ¬ stdio 0 then ( ERR_IO, f1)
      else
        let f2 : imgfs_file :=
          { f1 with file := fwrite_at f1.file (metadata_pos env i) (metadata_bytes env metadata1) }
        let header1 : imgfs_header :=
          { f2.header with
            nb_files := (f2.header.nb_files + 2 ^ 32 - 1) % 2 ^ 32
            version := (f2.header.version + 1) % 2 ^ 32 }
        let f3 : imgfs_file := { f2 with header := header1 }
        if ¬ stdio 1 then ( ERR_IO, f3)
        else (ERR_NONE, { f3 with file := fwrite_at f3.file 0 (header_bytes env header1) })

/-! ## `imgfs_read.c` -/

/-- Lines 20-28 of `do_read`: the lowest slot below `max_files` whose id
equals `img_id` (`none` stands for `-1`). -/
def find_read_index (img_id : List Nat) (f : imgfs_file) : Option Nat :=
  (f.metadata.take f.header.max_files).findIdx?
    (fun m => strncmp_eq m.img_id img_id MAX_IMG_ID)

/-- The function `do_read` of `imgfs_read.c`; the third component is
`(*image_buffer, *image_size)` when the call succeeds. Checked stdio calls:
`0 .. 5` are those of `lazily_resize`, `6` is the final seek and read. -/
def do_read (env : Env) (stdio : Nat → Bool) (img_id : List Nat) (resolution : Int)
    (f : imgfs_file) : error_code × imgfs_file × Option (List Nat × Nat) :=
  match find_read_index img_id f with
  | none => (ERR_IMAGE_NOT_FOUND, f, none)
  | some found_index =>
    let resized : error_code × imgfs_file :=
      if (f.entry found_index).size.get resolution = 0 then
        lazily_resize env stdio resolution f found_index
      else (ERR_NONE, f)
    match resized with
    | (ERR_NONE, f1) =>
      let size := (f1.entry found_index).size.get resolution
      let offset := (f1.entry found_index).offset.get resolution
      if ¬ stdio 6 then ( ERR_IO, f1, none)
      else
        match fread_at f1.file offset size with
        | none => ( ERR_IO, f1, none)
        | some image_buffer => (ERR_NONE, f1, some (image_buffer, size))
    | (err, f1) => (err, f1, none)

/-! ## Auxiliary definitions used by the statements -/

/-- Lines 72-89 of `do_insert` as one step: append, then write back. -/
def insert_commit (env : Env) (stdio : Nat → Bool) (image_buffer : List Nat) (free_index : Nat)
    (f : imgfs_file) : error_code × imgfs_file :=
  if (insert_append stdio image_buffer free_index f).1 ≠ ERR_NONE then
    insert_append stdio image_buffer free_index f
  else insert_write_back env stdio free_index (insert_append stdio image_buffer free_index f).2

/-- The header after a successful insert: `nb_files++` and `version++`. -/
def bump_header (h : imgfs_header) : imgfs_header :=
  { h with nb_files := (h.nb_files + 1) % 2 ^ 32, version := (h.version + 1) % 2 ^ 32 }

/-- The header after a successful delete: `nb_files--` and `version++`. -/
def drop_header (h : imgfs_header) : imgfs_header :=
  { h with nb_files := (h.nb_files + 2 ^ 32 - 1) % 2 ^ 32, version := (h.version + 1) % 2 ^ 32 }

/-- Number of metadata entries whose `is_valid` is NON_EMPTY. -/
def count_non_empty (f : imgfs_file) : Nat :=
  f.metadata.countP (fun m => m.is_valid == NON_EMPTY)

/-- The count invariant together with the typing facts it is preserved
with: the table has `max_files` entries and `max_files` is a `uint32_t`. -/
def count_inv (f : imgfs_file) : Prop :=
  f.metadata.length = f.header.max_files ∧ f.header.max_files < 2 ^ 32 ∧
    f.header.nb_files = count_non_empty f

instance (f : imgfs_file) : Decidable (count_inv f) := by
  unfold count_inv; infer_instance

/-- Sharing of the original image: the table has `max_files` entries, the
file is not empty, every live entry has a non-zero `offset[ORIG_RES]`, and
two live entries with the same SHA have the same `offset[ORIG_RES]` and
`size[ORIG_RES]`. -/
def share_inv (f : imgfs_file) : Prop :=
  f.metadata.length = f.header.max_files ∧ 0 < f.file.length ∧
    (∀ i, i < f.metadata.length → (f.entry i).is_valid ≠ EMPTY →
      (f.entry i).offset.get ORIG_RES ≠ 0) ∧
    ∀ i, i < f.metadata.length → ∀ j, j < f.metadata.length →
      (f.entry i).is_valid ≠ EMPTY → (f.entry j).is_valid ≠ EMPTY →
      (f.entry i).SHA = (f.entry j).SHA →
      (f.entry i).offset.get ORIG_RES = (f.entry j).offset.get ORIG_RES ∧
        (f.entry i).size.get ORIG_RES = (f.entry j).size.get ORIG_RES

/-- The ids of the NON_EMPTY entries, in slot order, as `strncmp` with bound
`MAX_IMG_ID` sees them. -/
def live_ids (f : imgfs_file) : List (List Nat) :=
  (f.metadata.filter (fun m => m.is_valid == NON_EMPTY)).map
    (fun m => c_str (m.img_id.take MAX_IMG_ID))

/-- The ids of the NON_EMPTY entries are pairwise distinct. -/
def unique_ids (f : imgfs_file) : Prop := (live_ids f).Nodup

instance (f : imgfs_file) : Decidable (unique_ids f) := by
  unfold unique_ids; infer_instance

/-- The part of the data-model invariants (section 3 of the specification)
that content deduplication relies on: the table has `max_files` entries, the
file holds the header and the whole table, every flag is EMPTY or NON_EMPTY,
and a NON_EMPTY entry has a non-zero `offset[ORIG_RES]` (its image lies
after the table). -/
def well_formed (env : Env) (f : imgfs_file) : Prop :=
  f.metadata.length = f.header.max_files ∧
    metadata_pos env f.header.max_files ≤ f.file.length ∧
    ∀ m ∈ f.metadata, (m.is_valid = EMPTY ∨ m.is_valid = NON_EMPTY) ∧
      (m.is_valid = NON_EMPTY → m.offset.get ORIG_RES ≠ 0)

instance (env : Env) (f : imgfs_file) : Decidable (well_formed env f) := by
  unfold well_formed; infer_instance

/-- One call of the store interface, with the outcome of its stdio calls. -/
inductive store_op where
  | insert (stdio : Nat → Bool) (image_buffer : List Nat) (img_id : List Nat)
  | delete (stdio : Nat → Bool) (img_id : List Nat)
  | read (stdio : Nat → Bool) (img_id : List Nat) (resolution : Int)

/-- Effect of one call on the store, with its return code. -/
def step (env : Env) (op : store_op) (f : imgfs_file) : error_code × imgfs_file :=
  match op with
  | store_op.insert stdio image_buffer img_id => do_insert env stdio image_buffer img_id f
  | store_op.delete stdio img_id => do_delete env stdio img_id f
  | store_op.read stdio img_id resolution =>
    ((do_read env stdio img_id resolution f).1, (do_read env stdio img_id resolution f).2.1)

/-- A sequence of calls, one after the other: the return codes in call order
and the final store. -/
def run (env : Env) : List store_op → imgfs_file → List error_code × imgfs_file
  | [], f => ([], f)
  | op :: ops, f =>
    ((step env op f).1 :: (run env ops (step env op f).2).1, (run env ops (step env op f).2).2)

/-! ## A small concrete environment and stores -/

/-- A toy environment: a 4-byte header, 2-byte entries, the identity as
digest, and a codec that accepts the buffers starting with `255, 216`. -/
def sample_env : Env :=
  { CAT_TXT := [69, 80, 70, 76]
    sizeof_imgfs_header := 4
    sizeof_img_metadata := 2
    header_repr := fun h => [h.version, h.nb_files, h.max_files]
    metadata_repr := fun m => [m.is_valid, m.size.orig]
    SHA256 := fun b => b
    vips_jpegload_buffer := fun b =>
      if b.take 2 = [255, 216] then some ⟨b.length, 1, b.drop 2⟩ else none
    vips_thumbnail_image := fun i w h => some ⟨w, h, i.pixels.take 1⟩
    vips_jpegsave_buffer := fun i => some (255 :: 216 :: i.pixels) }

/-- Every stdio call succeeds. -/
def stdio_ok : Nat → Bool := fun _ => true

/-- The caller's store value before `do_create`, with `max_files = n`. -/
def blank_store (n : Nat) : imgfs_file :=
  { file := []
    header := ⟨[], 0, 0, n, [64, 64, 256, 256], 0, 0⟩
    metadata := [] }

/-- A freshly created store with three slots. -/
def store_empty : imgfs_file := (do_create sample_env stdio_ok (blank_store 3)).2

/-- After inserting image `255, 216, 1` under the id `a`. -/
def store_a : imgfs_file := (do_insert sample_env stdio_ok [255, 216, 1] [97] store_empty).2

/-- After also inserting image `255, 216, 2` under the id `b`. -/
def store_ab : imgfs_file := (do_insert sample_env stdio_ok [255, 216, 2] [98] store_a).2

/-- A sequence of calls on a two-slot store that meets every outcome but an
I/O error: success, codec error, duplicate id, missing id, full store. -/
def sample_ops : List store_op :=
  [ store_op.insert stdio_ok [255, 216, 1] [97],
    store_op.insert stdio_ok [7, 7] [98],
    store_op.insert stdio_ok [255, 216, 2] [97],
    store_op.delete stdio_ok [122],
    store_op.insert stdio_ok [255, 216, 2] [98],
    store_op.insert stdio_ok [255, 216, 3] [99],
    store_op.read stdio_ok [97] THUMB_RES,
    store_op.delete stdio_ok [97],
    store_op.insert stdio_ok [255, 216, 1] [100] ]

/-- The same image stored under the ids `a` and `c`, then read as a thumbnail
under each id. -/
def sample_share_ops : List store_op :=
  [ store_op.insert stdio_ok [255, 216, 1] [97],
    store_op.insert stdio_ok [255, 216, 1] [99],
    store_op.read stdio_ok [97] THUMB_RES,
    store_op.read stdio_ok [99] THUMB_RES ]

/-! ## `imgfs_list.c` -/

/-- Modelled from the spec: the enumeration `do_list_mode` of `imgfs.h`;
`NB_DO_LIST_MODES` stands for every value other than `STDOUT` and `JSON`. -/
inductive do_list_mode where
  | STDOUT
  | JSON
  | NB_DO_LIST_MODES
  deriving DecidableEq, Repr

/-- A JSON array of strings, as json-c builds it with
`json_object_new_array`, `json_object_new_string` and
`json_object_array_add`. -/
abbrev json_array := List (List Nat)

/-- A JSON object whose members are arrays of strings, as json-c builds it
with `json_object_new_object` and `json_object_object_add`. The text that
`json_object_to_json_string` renders is represented by the object itself. -/
structure json_object where
  members : List (String × json_array)
  deriving DecidableEq, Repr

/-- The `for` loop of lines 52-62 of `do_list` over the remaining slots:
every NON_EMPTY entry adds its `img_id`, read as a C string, at the end of
the array. -/
def list_loop : json_array → List img_metadata → json_array
  | json_arr, [] => json_arr
  | json_arr, m :: rest =>
    if m.is_valid = NON_EMPTY then list_loop (json_arr ++ [c_str m.img_id]) rest
    else list_loop json_arr rest

/-- The function `do_list` of `grading/projectFinal/done/imgfs_list.c`; the
second component is `*json_output`. The text printed in `STDOUT` mode is not
modelled, and the json-c allocations and `strdup` are taken to succeed. -/
def do_list (f : imgfs_file) (output_mode : do_list_mode) : error_code × Option json_object :=
  match output_mode with
  | do_list_mode.STDOUT => (ERR_NONE, none)
  | do_list_mode.JSON =>
    (ERR_NONE, some ⟨[("Images", list_loop [] (f.metadata.take f.header.max_files))]⟩)
  | do_list_mode.NB_DO_LIST_MODES => (ERR_INVALID_ARGUMENT, none)

/-- A fresh three-slot store whose version counter holds the largest
`uint32_t` value. -/
def store_last_version : imgfs_file :=
  { store_empty with header := { store_empty.header with version := 4294967295 } }

/-! ## `imgfscmd_functions.c`: the `create` command -/

/-- The constant `default_max_files` of `imgfscmd_functions.c`. -/
def default_max_files : Nat := 128

/-- The constant `default_thumb_res` of `imgfscmd_functions.c`. -/
def default_thumb_res : Nat := 64

/-- The constant `default_small_res` of `imgfscmd_functions.c`. -/
def default_small_res : Nat := 256

/-- The constant `MAX_THUMB_RES` of `imgfscmd_functions.c`. -/
def MAX_THUMB_RES : Nat := 128

/-- The constant `MAX_SMALL_RES` of `imgfscmd_functions.c`. -/
def MAX_SMALL_RES : Nat := 512

/-- The constant `UINT32_MAX` of `stdint.h`. -/
def UINT32_MAX : Nat := 2 ^ 32 - 1

/-- One iteration of the `for` loop of lines 120-155 of `do_create_cmd`:
`arg` is `argv[i]`, `rest` the arguments after it, `header` is
`imgfs_file.header`; the result is the header and the arguments left for the
next iteration. The conversions `atouint32` and `atouint16` of `util.c` are
not among the sources and are parameters; their results are a `uint32_t`
and a `uint16_t`. The test `strncmp(argv[i], opt, MIN(strlen(argv[i]),
strlen(opt)) + 1) == 0` is equality of the two strings. -/
def create_option_step (atouint32 atouint16 : String → Nat) (header : imgfs_header)
    (arg : String) (rest : List String) : Except error_code (imgfs_header × List String) :=
  if arg = "-max_files" then
    match rest with
    | [] => Except.error ERR_NOT_ENOUGH_ARGUMENTS
    | v :: rest1 =>
      if atouint32 v % 2 ^ 32 = 0 ∨ atouint32 v % 2 ^ 32 > UINT32_MAX then
        Except.error ERR_MAX_FILES
      else Except.ok ({ header with max_files := atouint32 v % 2 ^ 32 }, rest1)
  else if arg = "-thumb_res" then
    match rest with
    | w :: h :: rest2 =>
      if atouint16 w % 2 ^ 16 = 0 ∨ atouint16 w % 2 ^ 16 > MAX_THUMB_RES ∨
          atouint16 h % 2 ^ 16 = 0 ∨ atouint16 h % 2 ^ 16 > MAX_THUMB_RES then
        Except.error ERR_RESOLUTIONS
      else
        Except.ok
          ({ header with
             resized_res :=
               (header.resized_res.set 0 (atouint16 w % 2 ^ 16)).set 1 (atouint16 h % 2 ^ 16) },
            rest2)
    | _ => Except.error ERR_NOT_ENOUGH_ARGUMENTS
  else if arg = "-small_res" then
    match rest with
    | w :: h :: rest2 =>
      if atouint16 w % 2 ^ 16 = 0 ∨ atouint16 w % 2 ^ 16 > MAX_SMALL_RES ∨
          atouint16 h % 2 ^ 16 = 0 ∨ atouint16 h % 2 ^ 16 > MAX_SMALL_RES then
        Except.error ERR_RESOLUTIONS
      else
        Except.ok
          ({ header with
             resized_res :=
               (header.resized_res.set 2 (atouint16 w % 2 ^ 16)).set 3 (atouint16 h % 2 ^ 16) },
            rest2)
    | _ => Except.error ERR_NOT_ENOUGH_ARGUMENTS
  else Except.error ERR_INVALID_ARGUMENT

/-- The `for` loop of lines 120-155 of `do_create_cmd`; the first argument
bounds the number of iterations, as `argc` does in the source (every
iteration consumes at least one argument). -/
def create_options_loop (atouint32 atouint16 : String → Nat) :
    Nat → imgfs_header → List String → Except error_code imgfs_header
  | _, header, [] => Except.ok header
  | 0, header, _ :: _ => Except.ok header
  | argc + 1, header, arg :: rest =>
    match create_option_step atouint32 atouint16 header arg rest with
    | Except.error err => Except.error err
    | Except.ok (header1, rest1) => create_options_loop atouint32 atouint16 argc header1 rest1

/-- The loop of `do_create_cmd` over all the arguments after the file name. -/
def create_options (atouint32 atouint16 : String → Nat) (header : imgfs_header)
    (options : List String) : Except error_code imgfs_header :=
  create_options_loop atouint32 atouint16 options.length header options

/-- The function `do_create_cmd` of
`grading/projectFinal/done/imgfscmd_functions.c`. `local_file` is the
uninitialised local `imgfs_file`; the second component is the result of the
call of `do_create`, `none` when `do_create` is not called. -/
def do_create_cmd (env : Env) (atouint32 atouint16 : String → Nat) (stdio : Nat → Bool)
    (local_file : imgfs_file) (argv : List String) :
    error_code × Option (error_code × imgfs_file) :=
  match argv with
  | [] => (ERR_NOT_ENOUGH_ARGUMENTS, none)
  | _ :: options =>
    match create_options atouint32 atouint16
        { local_file.header with
          max_files := default_max_files
          resized_res :=
            [default_thumb_res, default_thumb_res, default_small_res, default_small_res] }
        options with
    | Except.error err => (err, none)
    | Except.ok header =>
      ((do_create env stdio { local_file with header := header }).1,
        some (do_create env stdio { local_file with header := header }))

/-- An option of the `create` command, as the command line gives it. -/
inductive create_option where
  | max_files (v : String)
  | thumb_res (w h : String)
  | small_res (w h : String)
  deriving DecidableEq, Repr

/-- The command-line arguments that spell an option. -/
def create_option.args : create_option → List String
  | create_option.max_files v => ["-max_files", v]
  | create_option.thumb_res w h => ["-thumb_res", w, h]
  | create_option.small_res w h => ["-small_res", w, h]

/-- Validation of one option as the specification states it: `max_files >=
1`, thumbnail components in (0, 128], small components in (0, 512]; `none`
when the option is valid. -/
def create_option.invalid (atouint32 atouint16 : String → Nat) :
    create_option → Option error_code
  | create_option.max_files v => if atouint32 v % 2 ^ 32 = 0 then some ERR_MAX_FILES else none
  | create_option.thumb_res w h =>
    if atouint16 w % 2 ^ 16 = 0 ∨ 128 < atouint16 w % 2 ^ 16 ∨
        atouint16 h % 2 ^ 16 = 0 ∨ 128 < atouint16 h % 2 ^ 16 then some ERR_RESOLUTIONS
    else none
  | create_option.small_res w h =>
    if atouint16 w % 2 ^ 16 = 0 ∨ 512 < atouint16 w % 2 ^ 16 ∨
        atouint16 h % 2 ^ 16 = 0 ∨ 512 < atouint16 h % 2 ^ 16 then some ERR_RESOLUTIONS
    else none

/-- The error of the first option that fails validation, if any. -/
def first_invalid (atouint32 atouint16 : String → Nat) : List create_option → Option error_code
  | [] => none
  | o :: rest =>
    match o.invalid atouint32 atouint16 with
    | some err => some err
    | none => first_invalid atouint32 atouint16 rest

/-- The value an option gives for `max_files`, if it is a `-max_files`
option. -/
def create_option.max_files_value (atouint32 : String → Nat) : create_option → Option Nat
  | create_option.max_files v => some (atouint32 v % 2 ^ 32)
  | _ => none

/-- The resolution an option gives for the thumbnail, if it is a
`-thumb_res` option. -/
def create_option.thumb_res_value (atouint16 : String → Nat) :
    create_option → Option (Nat × Nat)
  | create_option.thumb_res w h => some (atouint16 w % 2 ^ 16, atouint16 h % 2 ^ 16)
  | _ => none

/-- The resolution an option gives for the small variant, if it is a
`-small_res` option. -/
def create_option.small_res_value (atouint16 : String → Nat) :
    create_option → Option (Nat × Nat)
  | create_option.small_res w h => some (atouint16 w % 2 ^ 16, atouint16 h % 2 ^ 16)
  | _ => none

/-- The value of `max_files` the options ask for: that of the last
`-max_files` option, 128 when there is none. -/
def requested_max_files (atouint32 : String → Nat) (options : List create_option) : Nat :=
  ((options.filterMap (create_option.max_files_value atouint32)).getLast?).getD 128

/-- The thumbnail resolution the options ask for: that of the last
`-thumb_res` option, 64 x 64 when there is none. -/
def requested_thumb_res (atouint16 : String → Nat) (options : List create_option) : Nat × Nat :=
  ((options.filterMap (create_option.thumb_res_value atouint16)).getLast?).getD (64, 64)

/-- The small resolution the options ask for: that of the last `-small_res`
option, 256 x 256 when there is none. -/
def requested_small_res (atouint16 : String → Nat) (options : List create_option) : Nat × Nat :=
  ((options.filterMap (create_option.small_res_value atouint16)).getLast?).getD (256, 256)

/-- The header after the loop of `do_create_cmd` has accepted one option. -/
def create_option.store (atouint32 atouint16 : String → Nat) (header : imgfs_header) :
    create_option → imgfs_header
  | create_option.max_files v => { header with max_files := atouint32 v % 2 ^ 32 }
  | create_option.thumb_res w h =>
    { header with
      resized_res :=
        (header.resized_res.set 0 (atouint16 w % 2 ^ 16)).set 1 (atouint16 h % 2 ^ 16) }
  | create_option.small_res w h =>
    { header with
      resized_res :=
        (header.resized_res.set 2 (atouint16 w % 2 ^ 16)).set 3 (atouint16 h % 2 ^ 16) }

/-! ## `http_prot.c`: the HTTP protocol layer

A `const char*` is the list of the bytes from the pointed byte to the end of
the buffer; `NULL` is `none`. As in `c_str`, the end of the list stands for
the zero bytes that follow the received bytes (`http_prot.h`: "all
characters of stream that are not filled by reading are set to 0"). -/

/-- The bytes of a string literal of the source. -/
def ascii (s : String) : List Nat := s.toList.map Char.toNat

/-- The constant `MAX_HEADERS` of `http_prot.h`. -/
def MAX_HEADERS : Nat := 40

/-- The constant `HTTP_HDR_KV_DELIM` of `http_prot.h`. -/
def HTTP_HDR_KV_DELIM : List Nat := ascii ": "

/-- The constant `HTTP_LINE_DELIM` of `http_prot.h`. -/
def HTTP_LINE_DELIM : List Nat := ascii "\r\n"

/-- The constant `HTTP_HDR_END_DELIM` of `http_prot.h`. -/
def HTTP_HDR_END_DELIM : List Nat := HTTP_LINE_DELIM ++ HTTP_LINE_DELIM

/-- The constant `HTTP_PROTOCOL_ID` of `http_prot.h`. -/
def HTTP_PROTOCOL_ID : List Nat := ascii "HTTP/1.1 "

/-- The struct `http_string` of `http_prot.h`: `val` is not NUL-terminated,
it runs on into the rest of the buffer. -/
structure http_string where
  val : List Nat
  len : Nat
  deriving DecidableEq, Repr

/-- The `len` bytes an `http_string` designates. -/
def http_string.bytes (s : http_string) : List Nat := s.val.take s.len

/-- The struct `http_header` of `http_prot.h`. -/
structure http_header where
  key : http_string
  value : http_string
  deriving DecidableEq, Repr

/-- The struct `http_message` of `http_prot.h`; `headers` holds the first
`num_headers` cells of the array, so `num_headers` is its length. -/
structure http_message where
  method : http_string
  uri : http_string
  headers : List http_header
  body : http_string
  deriving DecidableEq, Repr

/-- The field `num_headers` of `http_message`. -/
def http_message.num_headers (m : http_message) : Nat := m.headers.length

/-- An `http_message` after `memset(out, 0, sizeof(struct http_message))`. -/
def zero_message : http_message :=
  { method := { val := [], len := 0 }, uri := { val := [], len := 0 }, headers := [],
    body := { val := [], len := 0 } }

/-- The function `strlen` of libc. -/
def strlen (s : List Nat) : Nat := (c_str s).length

/-- The first offset of `s` at which `needle` starts, if any. -/
def find_sub (needle : List Nat) : List Nat → Option Nat
  | [] => if needle = [] then some 0 else none
  | c :: t =>
    if needle.isPrefixOf (c :: t) then some 0 else (find_sub needle t).map (fun p => p + 1)

/-- The function `strstr` of libc: the offset in `haystack` of the first
occurrence of the C string `needle` in the C string `haystack`, `none` for
`NULL`. -/
def strstr (haystack needle : List Nat) : Option Nat := find_sub (c_str needle) (c_str haystack)

/-- The function `strchr` of libc, for a character `c` other than NUL: the
offset of the first `c` in the C string `s`, `none` for `NULL`. -/
def strchr (s : List Nat) (c : Nat) : Option Nat := (c_str s).findIdx? (fun x => x == c)

/-- The conversion `(int)` of a `size_t`: reduction modulo `2 ^ 32` into
the range of `int`. -/
def to_int (n : Nat) : Int :=
  if n % 2 ^ 32 < 2 ^ 31 then ((n % 2 ^ 32 : Nat) : Int) else ((n % 2 ^ 32 : Nat) : Int) - 2 ^ 32

/-- The function `get_next_token` of `http_prot.c`, called with a non-NULL
`message`, `delimiter` and `output`: the token written to `output` and the
returned pointer. -/
def get_next_token (message delimiter : List Nat) : http_string × Option (List Nat) :=
  match strstr message delimiter with
  | none => ({ val := message, len := strlen message }, none)
  | some delim_pos =>
    ({ val := message, len := delim_pos }, some (message.drop (delim_pos + strlen delimiter)))

/-- Lines 66-70 of `http_parse_headers`: the pair is stored in the next
free cell when fewer than `MAX_HEADERS` headers are stored, and dropped
otherwise. -/
def store_header (output : http_message) (key value : http_string) : http_message :=
  if output.num_headers < MAX_HEADERS then
    { output with headers := output.headers ++ [{ key := key, value := value }] }
  else output

/-- The `while` loop of `http_parse_headers`: at most `fuel` iterations from
`current_pos`, giving the returned pointer and the message. An iteration in
which a delimiter is missing leaves `current_pos` NULL, which ends the loop
with the result NULL. -/
def http_parse_headers_loop : Nat → List Nat → http_message → Option (List Nat) × http_message
  | 0, _, output => (none, output)
  | fuel + 1, current_pos, output =>
    if current_pos.headD 0 = 0 then (none, output)
    else
      match (get_next_token current_pos HTTP_HDR_KV_DELIM).2 with
      | none => (none, output)
      | some pos1 =>
        match (get_next_token pos1 HTTP_LINE_DELIM).2 with
        | none => (none, output)
        | some pos2 =>
          if strncmp_eq pos2 HTTP_LINE_DELIM (strlen HTTP_LINE_DELIM) then
            (some (pos2.drop (strlen HTTP_LINE_DELIM)),
              store_header output (get_next_token current_pos HTTP_HDR_KV_DELIM).1
                (get_next_token pos1 HTTP_LINE_DELIM).1)
          else
            http_parse_headers_loop fuel pos2
              (store_header output (get_next_token current_pos HTTP_HDR_KV_DELIM).1
                (get_next_token pos1 HTTP_LINE_DELIM).1)

/-- The function `http_parse_headers` of `http_prot.c`. Every iteration that
does not end the loop moves `current_pos` forward, so the length of the
input bounds the number of iterations. -/
def http_parse_headers (header_start : List Nat) (output : http_message) :
    Option (List Nat) × http_message :=
  http_parse_headers_loop (header_start.length + 1) header_start output

/-- The `for` loop of lines 170-178 of `http_parse_message` over the stored
headers, from the value `content_len` has before it: the first header whose
key passes `strncmp(key.val, "Content-Length", key.len) == 0` gives
`atoi` of its value and ends the loop. The value goes through the buffer
`char content_length_str[32]`, so `atoi` reads the C string made of the
`value.len` bytes of the value; a value of 32 bytes or more overflows the
buffer, which is undefined behaviour and gives `none`. The function `atoi`
of libc is a parameter. -/
def content_length_loop (atoi : List Nat → Int) : List http_header → Int → Option Int
  | [], content_len => some content_len
  | h :: rest, content_len =>
    if strncmp_eq h.key.val (ascii "Content-Length") h.key.len then
      if 32 ≤ h.value.len then none else some (atoi (c_str (h.value.val.take h.value.len)))
    else content_length_loop atoi rest content_len

/-- The function `http_parse_message` of `http_prot.c`: the returned `int`,
the message `out` and `*content_len` after the call, from their values
before it; `none` when the behaviour is undefined (see
`content_length_loop`). The sum `body_offset + content_len` is taken to fit
a `size_t`. -/
def http_parse_message (atoi : List Nat → Int) (stream : List Nat) (bytes_received : Nat)
    (out : http_message) (content_len : Int) : Option (Int × http_message × Int) :=
  match strstr stream HTTP_HDR_END_DELIM with
  | none => some (0, out, content_len)
  | some headers_end =>
    let out1 := { zero_message with method := (get_next_token stream (ascii " ")).1 }
    match (get_next_token stream (ascii " ")).2 with
    | none => some (-1, out1, 0)
    | some pos1 =>
      let out2 := { out1 with uri := (get_next_token pos1 (ascii " ")).1 }
      match (get_next_token pos1 (ascii " ")).2 with
      | none => some (-1, out2, 0)
      | some pos2 =>
        let http_version := (get_next_token pos2 HTTP_LINE_DELIM).1
        match (get_next_token pos2 HTTP_LINE_DELIM).2 with
        | none => some (-1, out2, 0)
        | some pos3 =>
          if strncmp_eq http_version.val HTTP_PROTOCOL_ID http_version.len = false then
            some (-1, out2, 0)
          else
            match http_parse_headers pos3 out2 with
            | (none, out3) => some (-1, out3, 0)
            | (some _, out3) =>
              match content_length_loop atoi out3.headers 0 with
              | none => none
              | some len =>
                if 0 < len then
                  if bytes_received < headers_end + strlen HTTP_HDR_END_DELIM + len.toNat then
                    some (0, out3, len)
                  else
                    some (1,
                      { out3 with
                        body :=
                          { val := stream.drop (headers_end + strlen HTTP_HDR_END_DELIM)
                            len := len.toNat } },
                      len)
                else some (1, out3, len)

/-- An `int` returned by a function of the HTTP layer: one of the error
codes of `error.h`, or a count. -/
inductive int_result where
  | error (code : error_code)
  | value (n : Int)
  deriving DecidableEq, Repr

/-- The pointer `start` of `http_get_var` once it has been moved past
`name=`, as an offset from `url->val`; `none` when the function returns 0
because `strstr` finds no `name=` or finds it at or after `url->val +
url->len`. The text `param` is `name` followed by `=`. -/
def get_var_start (url : http_string) (name : List Nat) : Option Nat :=
  match strstr url.val (c_str name ++ ascii "=") with
  | none => none
  | some start0 =>
    if url.len ≤ start0 then none else some (start0 + strlen (c_str name ++ ascii "="))

/-- The pointer `end` of `http_get_var`, as an offset from `url->val`: the
first `&` from `start` on, or the end of the URL when there is none before
it. -/
def get_var_end (url : http_string) (start : Nat) : Nat :=
  match strchr (url.val.drop start) 38 with
  | none => url.len
  | some e => if url.len ≤ start + e then url.len else start + e

/-- The variable `value_len` of `http_get_var`: `end - start` reduced
modulo `2 ^ 64`, as the conversion to `size_t` does. -/
def get_var_value_len (url : http_string) (start : Nat) : Nat :=
  (((get_var_end url start : Int) - (start : Int)) % 2 ^ 64).toNat

/-- The function `http_get_var` of `http_prot.c`: the returned `int` (an
error code of `error.h`, or the value of `(int)value_len`) and the buffer
`out` after the call. `calloc` is taken to succeed. -/
def http_get_var (url : http_string) (name out : List Nat) (out_len : Nat) :
    int_result × List Nat :=
  match get_var_start url name with
  | none => (int_result.value 0, out)
  | some start =>
    if out_len ≤ get_var_value_len url start then (int_result.error ERR_RUNTIME, out)
    else
      (int_result.value (to_int (get_var_value_len url start)),
        (strncpy out (url.val.drop start) (get_var_value_len url start)).set
          (get_var_value_len url start) 0)

/-- A URI as `http_parse_message` leaves it in a message: `val` runs on
into the rest of the request. -/
def sample_uri (uri : String) : http_string :=
  { val := ascii uri ++ ascii " HTTP/1.1\r\nHost: localhost\r\n\r\n", len := (ascii uri).length }

/-- A reading of `atoi` for the examples: the value of the leading decimal
digits, without sign or white space. -/
def sample_atoi (s : List Nat) : Int :=
  (((s.takeWhile (fun c => decide (48 ≤ c ∧ c ≤ 57))).foldl (fun acc c => acc * 10 + (c - 48)) 0 :
    Nat) : Int)

/-- A request whose only header has the key `Content`, with no body. -/
def request_content_key : List Nat := ascii "GET / HTTP/1.1\r\nContent: 7\r\n\r\n"

/-- A request with two headers and a body of three bytes. -/
def request_with_body : List Nat :=
  ascii "POST /imgfs/insert?name=a HTTP/1.1\r\nHost: localhost\r\nContent-Length: 3\r\n\r\nabc"

/-- A request with 41 headers, the last of which is `Content-Length: 3`,
and a body of three bytes. -/
def request_many_headers : List Nat :=
  ascii "GET / HTTP/1.1\r\n" ++ (List.replicate 40 (ascii "A: b\r\n")).flatten ++
    ascii "Content-Length: 3\r\n\r\nabc"

/-- The result of `http_parse_message` on `request_with_body` once all its
bytes are received. -/
def parsed_with_body : Int × http_message × Int :=
  (http_parse_message sample_atoi request_with_body request_with_body.length zero_message 0).getD
    (-1, zero_message, 0)

/-! ## Requests as the specification describes them -/

/-- The header lines `Key: Value CRLF` of the pairs `lines`, in order,
followed by the bytes `rest`. -/
def header_block : List (List Nat × List Nat) → List Nat → List Nat
  | [], rest => rest
  | kv :: lines, rest =>
    kv.1 ++ (HTTP_HDR_KV_DELIM ++ (kv.2 ++ (HTTP_LINE_DELIM ++ header_block lines rest)))

/-- A request from its URI on: the URI, ` HTTP/1.1 CRLF`, the header lines
of `lines`, a blank line and the body. -/
def request_from_uri (uri : List Nat) (lines : List (List Nat × List Nat)) (body : List Nat) :
    List Nat :=
  uri ++ (ascii " " ++ (ascii "HTTP/1.1" ++
    (HTTP_LINE_DELIM ++ header_block lines (HTTP_LINE_DELIM ++ body))))

/-- The request made of the request line `METHOD SP URI SP HTTP/1.1 CRLF`,
the header lines of `lines`, a blank line and the body. -/
def request (method uri : List Nat) (lines : List (List Nat × List Nat)) (body : List Nat) :
    List Nat :=
  method ++ (ascii " " ++ request_from_uri uri lines body)

/-- The number of bytes of a request up to and including the blank line. -/
def head_length (method uri : List Nat) (lines : List (List Nat × List Nat)) : Nat :=
  (request method uri lines []).length

/-- The body length a request declares: `atoi` of the value of the first
header with the key `Content-Length` among the first `MAX_HEADERS` headers,
0 when there is none. -/
def declared_length (atoi : List Nat → Int) (lines : List (List Nat × List Nat)) : Int :=
  match (lines.take MAX_HEADERS).find? (fun kv => kv.1 == ascii "Content-Length") with
  | some kv => atoi kv.2
  | none => 0

/-- The header `http_parse_headers` reads from the first line of
`header_block (kv :: lines) rest`: key and value point into the block. -/
def block_header (kv : List Nat × List Nat) (lines : List (List Nat × List Nat))
    (rest : List Nat) : http_header :=
  { key := { val := header_block (kv :: lines) rest, len := kv.1.length }
    value := { val := kv.2 ++ (HTTP_LINE_DELIM ++ header_block lines rest), len := kv.2.length } }

/-- The headers `http_parse_headers` reads from `header_block lines rest`. -/
def block_headers : List (List Nat × List Nat) → List Nat → List http_header
  | [], _ => []
  | kv :: lines, rest => block_header kv lines rest :: block_headers lines rest

/-- The message `http_parse_message` builds from the head of `request method
uri lines rest`: method and URI point into the stream, the headers are the
first `MAX_HEADERS` ones, the body is still zero. -/
def parsed_head (method uri : List Nat) (lines : List (List Nat × List Nat)) (rest : List Nat) :
    http_message :=
  { method := { val := request method uri lines rest, len := method.length }
    uri := { val := request_from_uri uri lines rest, len := uri.length }
    headers := (block_headers lines (HTTP_LINE_DELIM ++ rest)).take MAX_HEADERS
    body := { val := [], len := 0 } }

/-- The header lines of the example request. -/
def sample_lines : List (List Nat × List Nat) :=
  [(ascii "Host", ascii "localhost"), (ascii "Content-Length", ascii "3")]

/-- An example request: an insertion with a body of three bytes. -/
def sample_request : List Nat :=
  request (ascii "POST") (ascii "/imgfs/insert?name=a") sample_lines (ascii "abc")

/-! ## `http_net.c`: replies -/

/-- The digits of `decimal`: at most `fuel` of them, most significant
first, in front of `acc`. -/
def decimal_loop : Nat → Nat → List Nat → List Nat
  | 0, _, acc => acc
  | fuel + 1, n, acc =>
    if n < 10 then (48 + n) :: acc else decimal_loop fuel (n / 10) ((48 + n % 10) :: acc)

/-- The text the conversions `%zu` and `%d` of `printf` give for a natural
number: its decimal digits. -/
def decimal (n : Nat) : List Nat := decimal_loop (n + 1) n []

/-- The C string `snprintf(buf, size, ...)` leaves in `buf` for the
formatted text `text`: at most `size - 1` characters. -/
def snprintf (size : Nat) (text : List Nat) : List Nat := text.take (size - 1)

/-- The call `memcpy(dst + pos, src, n)` inside the buffer `dst`. -/
def memcpy_at (dst : List Nat) (pos : Nat) (src : List Nat) (n : Nat) : List Nat :=
  dst.take pos ++ src.take n ++ dst.drop (pos + n)

/-- The variable `total_size` of `http_reply`; `log10_size n` is the value of
`(size_t)log10((double)n)`, which libm computes. -/
def reply_total_size (log10_size : Nat → Nat) (status headers : List Nat) (body_len : Nat) :
    Nat :=
  strlen HTTP_PROTOCOL_ID + 1 + strlen status + strlen HTTP_LINE_DELIM + strlen headers +
    strlen (ascii "Content-Length: ") + strlen HTTP_HDR_END_DELIM +
    (if body_len = 0 then 0 else log10_size body_len)

/-- The text `http_reply` formats with `"%s%s%s%sContent-Length: %zu%s"`. -/
def reply_text (status headers : List Nat) (body_len : Nat) : List Nat :=
  c_str HTTP_PROTOCOL_ID ++ (c_str status ++ (c_str HTTP_LINE_DELIM ++ (c_str headers ++
    (ascii "Content-Length: " ++ (decimal body_len ++ c_str HTTP_HDR_END_DELIM)))))

/-- The function `http_reply` of `http_net.c`: the returned code and the
bytes handed to `tcp_send`, `none` when `tcp_send` is not called. `body` is
`none` for a NULL pointer and otherwise holds at least `body_len` bytes;
`tcp_send_ok` says whether `tcp_send` returns a non-negative count; `calloc`
is taken to succeed. The buffer `response` has `total_size + body_len + 1`
zero bytes, `snprintf` puts at most `total_size` characters of the text in
it, `memcpy` puts the body at `total_size`. -/
def http_reply (log10_size : Nat → Nat) (tcp_send_ok : Bool) (status headers : List Nat)
    (body : Option (List Nat)) (body_len : Nat) : error_code × Option (List Nat) :=
  if body = none ∧ body_len ≠ 0 then (ERR_INVALID_ARGUMENT, none)
  else
    let total_size := reply_total_size log10_size status headers body_len
    let response0 := List.replicate (total_size + body_len + 1) 0
    let text := snprintf (total_size + 1) (reply_text status headers body_len)
    let response1 := text ++ response0.drop text.length
    let response2 :=
      match body with
      | none => response1
      | some b => if 0 < body_len then memcpy_at response1 total_size b body_len else response1
    (if tcp_send_ok then ERR_NONE else ERR_IO, some (response2.take (total_size + body_len)))

/-- A stand-in for `(size_t)log10((double)n)` in the examples: the number
of decimal digits of `n`, less one. -/
def sample_log10 (n : Nat) : Nat := (decimal n).length - 1

/-! ## `imgfs_server_service.c`: the HTTP handlers -/

/-- What the handlers use that is not in the sources, and the static
`server_port`: the texts of `ERR_MSG` (`error.h`), the libm value
`(size_t)log10((double)n)`, whether `tcp_send` succeeds, the rendering of
json-c and the content of the file `index.html`, `none` when it cannot be
opened. -/
structure server_env where
  ERR_MSG : error_code → List Nat
  log10_size : Nat → Nat
  tcp_send_ok : Bool
  server_port : Nat
  json_object_to_json_string : json_object → List Nat
  index_html : Option (List Nat)

/-- The constant `ERR_MSG_SIZE` of `imgfs_server_service.c`. -/
def ERR_MSG_SIZE : Nat := 256

/-- The constant `HTTP_OK` of `http_prot.h`. -/
def HTTP_OK : List Nat := ascii "200 OK"

/-- Modelled from the spec: the function `resolution_atoi` of
`imgfs_tools.c`, which is not among the sources: `thumb` and `thumbnail`
give THUMB_RES, `small` gives SMALL_RES, `orig` and `original` give
ORIG_RES, every other string gives -1. -/
def resolution_atoi (str : List Nat) : Int :=
  if c_str str = ascii "thumb" ∨ c_str str = ascii "thumbnail" then THUMB_RES
  else if c_str str = ascii "small" then SMALL_RES
  else if c_str str = ascii "orig" ∨ c_str str = ascii "original" then ORIG_RES
  else -1

/-- The test `n <= 0` on the result of `http_get_var`; the error codes of
`error.h` are not positive. -/
def int_result.le_zero : int_result → Bool
  | int_result.error _ => true
  | int_result.value n => decide (n ≤ 0)

/-- The outcome of a handler: the returned code, the bytes handed to
`tcp_send` and the store `fs_file` after the call. -/
structure handler_result where
  code : error_code
  sent : Option (List Nat)
  fs_file : imgfs_file
  deriving DecidableEq, Repr

/-- The function `reply_error_msg` of `imgfs_server_service.c`; `snprintf`
is taken not to fail. -/
def reply_error_msg (senv : server_env) (error : error_code) : error_code × Option (List Nat) :=
  http_reply senv.log10_size senv.tcp_send_ok (ascii "500 Internal Server Error") (ascii "")
    (some (snprintf ERR_MSG_SIZE (ascii "Error: " ++ c_str (senv.ERR_MSG error) ++ ascii "\n")))
    (strlen (snprintf ERR_MSG_SIZE (ascii "Error: " ++ c_str (senv.ERR_MSG error) ++ ascii "\n")))

/-- The function `reply_302_msg` of `imgfs_server_service.c`; `snprintf` is
taken not to fail. -/
def reply_302_msg (senv : server_env) : error_code × Option (List Nat) :=
  http_reply senv.log10_size senv.tcp_send_ok (ascii "302 Found")
    (snprintf ERR_MSG_SIZE
      (ascii "Location: http://localhost:" ++ decimal senv.server_port ++ ascii "/index.html" ++
        HTTP_LINE_DELIM))
    (some (ascii "")) 0

/-- The function `http_match_uri` of `http_prot.c`. -/
def http_match_uri (message : http_message) (target_uri : List Nat) : Bool :=
  if message.uri.len < strlen target_uri then false
  else strncmp_eq message.uri.val target_uri (strlen target_uri)

/-- The function `http_match_verb` of `http_prot.c`. -/
def http_match_verb (method : http_string) (verb : List Nat) : Bool :=
  if method.len ≠ strlen verb then false else strncmp_eq method.val verb (strlen verb)

/-- The function `http_serve_file` of `http_net.c`, called for `index.html`;
once the file is open, `ftell`, `calloc` and `fread` are taken to succeed. -/
def http_serve_file (senv : server_env) : error_code × Option (List Nat) :=
  match senv.index_html with
  | none =>
    http_reply senv.log10_size senv.tcp_send_ok (ascii "404 Not Found") (ascii "")
      (some (ascii "")) 0
  | some buffer =>
    http_reply senv.log10_size senv.tcp_send_ok HTTP_OK
      (ascii "Content-Type: text/html; charset=utf-8" ++ HTTP_LINE_DELIM) (some buffer)
      buffer.length

/-- The function `handle_list_call` of `imgfs_server_service.c`; `do_list`
in JSON mode always gives an object. -/
def handle_list_call (senv : server_env) (f : imgfs_file) : handler_result :=
  if (do_list f do_list_mode.JSON).1 ≠ ERR_NONE then
    { code := (reply_error_msg senv (do_list f do_list_mode.JSON).1).1
      sent := (reply_error_msg senv (do_list f do_list_mode.JSON).1).2
      fs_file := f }
  else
    let json_output :=
      match (do_list f do_list_mode.JSON).2 with
      | none => []
      | some obj => senv.json_object_to_json_string obj
    let reply := http_reply senv.log10_size senv.tcp_send_ok (ascii "200 OK")
      (snprintf 256 (ascii "Content-Type: application/json" ++ HTTP_LINE_DELIM))
      (some json_output) (strlen json_output)
    { code := reply.1, sent := reply.2, fs_file := f }

/-- The function `handle_read_call` of `imgfs_server_service.c`; `res` and
`img_id` are the uninitialised local arrays of 10 and `MAX_IMG_ID` bytes;
`image_buffer` and `image_size` are those `do_read` gives, NULL and 0 when
it gives none. -/
def handle_read_call (senv : server_env) (env : Env) (stdio : Nat → Bool) (msg : http_message)
    (res img_id : List Nat) (f : imgfs_file) : handler_result :=
  if (http_get_var msg.uri (ascii "res") res 10).1.le_zero then
    { code := (reply_error_msg senv ERR_NOT_ENOUGH_ARGUMENTS).1
      sent := (reply_error_msg senv ERR_NOT_ENOUGH_ARGUMENTS).2
      fs_file := f }
  else if resolution_atoi (http_get_var msg.uri (ascii "res") res 10).2 = -1 then
    { code := (reply_error_msg senv ERR_RESOLUTIONS).1
      sent := (reply_error_msg senv ERR_RESOLUTIONS).2
      fs_file := f }
  else if (http_get_var msg.uri (ascii "img_id") img_id MAX_IMG_ID).1.le_zero then
    { code := (reply_error_msg senv ERR_NOT_ENOUGH_ARGUMENTS).1
      sent := (reply_error_msg senv ERR_NOT_ENOUGH_ARGUMENTS).2
      fs_file := f }
  else
    let read := do_read env stdio (http_get_var msg.uri (ascii "img_id") img_id MAX_IMG_ID).2
      (resolution_atoi (http_get_var msg.uri (ascii "res") res 10).2) f
    if read.1 ≠ ERR_NONE then
      { code := (reply_error_msg senv read.1).1
        sent := (reply_error_msg senv read.1).2
        fs_file := read.2.1 }
    else
      let reply := http_reply senv.log10_size senv.tcp_send_ok (ascii "200 OK")
        (snprintf 256 (ascii "Content-Type: image/jpeg" ++ HTTP_LINE_DELIM))
        (read.2.2.map (fun image => image.1)) (read.2.2.elim 0 (fun image => image.2))
      { code := reply.1, sent := reply.2, fs_file := read.2.1 }

/-- The function `handle_insert_call` of `imgfs_server_service.c`;
`img_name` is the uninitialised local array of 128 bytes, `calloc` is taken
to succeed. -/
def handle_insert_call (senv : server_env) (env : Env) (stdio : Nat → Bool)
    (msg : http_message) (img_name : List Nat) (f : imgfs_file) : handler_result :=
  if (http_get_var msg.uri (ascii "name") img_name 128).1.le_zero then
    { code := (reply_error_msg senv ERR_NOT_ENOUGH_ARGUMENTS).1
      sent := (reply_error_msg senv ERR_NOT_ENOUGH_ARGUMENTS).2
      fs_file := f }
  else if msg.body.len = 0 then
    { code := (reply_error_msg senv ERR_INVALID_ARGUMENT).1
      sent := (reply_error_msg senv ERR_INVALID_ARGUMENT).2
      fs_file := f }
  else
    let result := do_insert env stdio (msg.body.val.take msg.body.len)
      (http_get_var msg.uri (ascii "name") img_name 128).2 f
    if result.1 ≠ ERR_NONE then
      { code := (reply_error_msg senv result.1).1
        sent := (reply_error_msg senv result.1).2
        fs_file := result.2 }
    else { code := (reply_302_msg senv).1, sent := (reply_302_msg senv).2, fs_file := result.2 }

/-- The function `handle_delete_call` of `imgfs_server_service.c`; `img_id`
is the uninitialised local array of `MAX_IMG_ID` bytes. -/
def handle_delete_call (senv : server_env) (env : Env) (stdio : Nat → Bool)
    (msg : http_message) (img_id : List Nat) (f : imgfs_file) : handler_result :=
  if (http_get_var msg.uri (ascii "img_id") img_id MAX_IMG_ID).1.le_zero then
    { code := (reply_error_msg senv ERR_NOT_ENOUGH_ARGUMENTS).1
      sent := (reply_error_msg senv ERR_NOT_ENOUGH_ARGUMENTS).2
      fs_file := f }
  else
    let result := do_delete env stdio
      (http_get_var msg.uri (ascii "img_id") img_id MAX_IMG_ID).2 f
    if result.1 ≠ ERR_NONE then
      { code := (reply_error_msg senv result.1).1
        sent := (reply_error_msg senv result.1).2
        fs_file := result.2 }
    else { code := (reply_302_msg senv).1, sent := (reply_302_msg senv).2, fs_file := result.2 }

/-- The function `handle_http_message` of `imgfs_server_service.c`; `res`,
`img_id` and `img_name` are the local arrays of the handlers. -/
def handle_http_message (senv : server_env) (env : Env) (stdio : Nat → Bool)
    (msg : http_message) (res img_id img_name : List Nat) (f : imgfs_file) : handler_result :=
  if http_match_verb msg.uri (ascii "/") || http_match_uri msg (ascii "/index.html") then
    { code := (http_serve_file senv).1, sent := (http_serve_file senv).2, fs_file := f }
  else if http_match_uri msg (ascii "/imgfs/list") then handle_list_call senv f
  else if http_match_uri msg (ascii "/imgfs/read") then
    handle_read_call senv env stdio msg res img_id f
  else if http_match_uri msg (ascii "/imgfs/insert") && http_match_verb msg.method (ascii "POST")
  then handle_insert_call senv env stdio msg img_name f
  else if http_match_uri msg (ascii "/imgfs/delete") then
    handle_delete_call senv env stdio msg img_id f
  else
    { code := (reply_error_msg senv ERR_INVALID_COMMAND).1
      sent := (reply_error_msg senv ERR_INVALID_COMMAND).2
      fs_file := f }

/-- The routes of the server, as the specification names them. -/
inductive route where
  | index
  | list
  | read
  | insert
  | delete
  | invalid_command
  deriving DecidableEq, Repr

/-- The route table as the specification states it: `index.html` for the
URI `/` and for a URI that starts with `/index.html`; otherwise list, read
and delete for a URI that starts with `/imgfs/list`, `/imgfs/read`,
`/imgfs/delete`, whatever the method, and insert for a URI that starts with
`/imgfs/insert` when the method is `POST`; nothing else is a route. -/
def route_of (msg : http_message) : route :=
  if msg.uri.bytes = ascii "/" ∨ ascii "/index.html" <+: msg.uri.bytes then route.index
  else if ascii "/imgfs/list" <+: msg.uri.bytes then route.list
  else if ascii "/imgfs/read" <+: msg.uri.bytes then route.read
  else if ascii "/imgfs/insert" <+: msg.uri.bytes ∧ msg.method.bytes = ascii "POST" then
    route.insert
  else if ascii "/imgfs/delete" <+: msg.uri.bytes then route.delete
  else route.invalid_command

/-- Texts for the error codes in the examples, named after the error kinds
of the specification. -/
def sample_err_msg : error_code → List Nat
  | ERR_NONE => ascii "no error"
  | ERR_IO => ascii "I/O Error"
  | ERR_RUNTIME => ascii "Runtime error"
  | ERR_OUT_OF_MEMORY => ascii "Out of memory"
  | ERR_NOT_ENOUGH_ARGUMENTS => ascii "Not enough arguments"
  | ERR_INVALID_FILENAME => ascii "Invalid filename"
  | ERR_INVALID_COMMAND => ascii "Invalid command"
  | ERR_INVALID_ARGUMENT => ascii "Invalid argument"
  | ERR_THREADING => ascii "Threading error"
  | ERR_MAX_FILES => ascii "Invalid max_files number"
  | ERR_RESOLUTIONS => ascii "Invalid resolution(s)"
  | ERR_INVALID_IMGID => ascii "Invalid image ID"
  | ERR_IMGFS_FULL => ascii "imgFS is full"
  | ERR_IMAGE_NOT_FOUND => ascii "Image not found"
  | ERR_DUPLICATE_ID => ascii "Existing image ID"
  | ERR_IMGLIB => ascii "Image manipulation library error"

/-- A server environment for the examples: port 8000, every send succeeds. -/
def sample_senv : server_env :=
  { ERR_MSG := sample_err_msg
    log10_size := sample_log10
    tcp_send_ok := true
    server_port := 8000
    json_object_to_json_string := fun _ => ascii "{}"
    index_html := some (ascii "<html></html>") }

/-- A parsed request for the examples: method, URI and body point to their
own bytes. -/
def sample_msg (method uri : String) (body : List Nat) : http_message :=
  { method := { val := ascii method, len := (ascii method).length }
    uri := sample_uri uri
    headers := []
    body := { val := body, len := body.length } }

/-! ## `imgfscmd_functions.c`: the `delete` and `insert` commands -/

/-- The function `do_delete_cmd` of
`grading/projectFinal/done/imgfscmd_functions.c`; `argc` is the length of
`argv`. The function `do_open` is not part of the sources: `opened` is the
result of `do_open(argv[0], "rb+", &imgfs_file)`, an error code and the store
it loaded. The second component of the result is the store at `do_close`,
`none` when the store was not opened. -/
def do_delete_cmd (env : Env) (stdio : Nat → Bool) (opened : error_code × imgfs_file)
    (argv : List (List Nat)) : error_code × Option imgfs_file :=
  if argv.length > 2 then (ERR_INVALID_ARGUMENT, none)
  else if argv.length < 2 then (ERR_NOT_ENOUGH_ARGUMENTS, none)
  else
    let id := argv.getD 1 []
    if strlen id > MAX_IMG_ID then (ERR_INVALID_IMGID, none)
    else if opened.1 ≠ ERR_NONE then (opened.1, none)
    else
      let delete := do_delete env stdio id opened.2
      (delete.1, some delete.2)

/-- The function `do_insert_cmd` of
`grading/projectFinal/done/imgfscmd_functions.c`; `argc` is the length of
`argv`, `opened` is the result of `do_open(argv[0], "rb+", &myfile)` and
`read_disk_image` gives, for a path, the error code and the content that the
static function of that name reads from the disk. The second component of
the result is the store at `do_close`, `none` when the store was not opened. -/
def do_insert_cmd (env : Env) (stdio : Nat → Bool) (opened : error_code × imgfs_file)
    (read_disk_image : List Nat → error_code × List Nat) (argv : List (List Nat)) :
    error_code × Option imgfs_file :=
  if argv.length ≠ 3 then (ERR_NOT_ENOUGH_ARGUMENTS, none)
  else if opened.1 ≠ ERR_NONE then (opened.1, none)
  else
    let image := read_disk_image (argv.getD 2 [])
    if image.1 ≠ ERR_NONE then (image.1, some opened.2)
    else
      let inserted := do_insert env stdio image.2 (argv.getD 1 []) opened.2
      (inserted.1, some inserted.2)

/-- A disk on which every path holds the three bytes `255, 216, 3`. -/
def sample_disk : List Nat → error_code × List Nat := fun _ => (ERR_NONE, [255, 216, 3])

/-- The bytes of `file` from the offset `base` on are kept in `file2`: every
offset `p` with `base ≤ p` that exists in `file` holds the same byte in
`file2`, and `file2` is not shorter than `file`. -/
def blob_kept (base : Nat) (file file2 : List Nat) : Prop :=
  file.length ≤ file2.length ∧ ∀ p, base ≤ p → p < file.length → file2[p]? = file[p]?

/-! ## Two connection threads inserting at once

`http_receive` starts one thread per connection; lines 266-268 of
`handle_insert_call` run `do_insert` on the shared `fs_file` between
`pthread_mutex_lock(&imgfs_mutex)` and `pthread_mutex_unlock(&imgfs_mutex)`.
A thread runs `do_insert` part by part, and between two parts the other
thread may move: the threads are interleaved by a schedule, a list that
names the thread taking the next step. Nothing in a step of `do_insert`
looks at the mutex; only `pthread_mutex_lock` does. -/

/-- Where a connection thread stands in lines 266-268 of
`handle_insert_call`: before `pthread_mutex_lock`; inside `do_insert`, before
the capacity test and the search of a free slot (lines 20-33), before the
tentative entry is written (lines 36-63), before the deduplication pass
(lines 66-70, with the snapshot `oldmetadata`), before the append (lines
72-77), before the write-back (lines 80-89); before `pthread_mutex_unlock`
with the `result` of `do_insert`; and after it. -/
inductive insert_pc where
  | at_lock
  | at_search
  | at_fill (free_index : Nat)
  | at_dedup (free_index : Nat) (oldmetadata : img_metadata)
  | at_append (free_index : Nat)
  | at_write_back (free_index : Nat)
  | at_unlock (result : error_code)
  | done (result : error_code)
  deriving DecidableEq, Repr

/-- The positions between `pthread_mutex_lock` and `pthread_mutex_unlock`. -/
def insert_pc.holding : insert_pc → Bool
  | insert_pc.at_lock => false
  | insert_pc.done _ => false
  | _ => true

/-- What a connection thread passes to `do_insert`: the body of its request,
the value of `name`, and the outcome of the stdio calls of its `do_insert`. -/
structure insert_request where
  stdio : Nat → Bool
  image_buffer : List Nat
  img_name : List Nat

/-- The part of `do_insert` that starts at `pc`, on the shared store: the
next position of the thread and the store it leaves. A `return` of
`do_insert` leads to `at_unlock` with the returned code. The free index and
the snapshot `oldmetadata` are locals of the thread. -/
def insert_step (env : Env) (req : insert_request) (pc : insert_pc) (fs_file : imgfs_file) :
    insert_pc × imgfs_file :=
  match pc with
  | insert_pc.at_search =>
    if fs_file.header.nb_files ≥ fs_file.header.max_files then
      (insert_pc.at_unlock ERR_IMGFS_FULL, fs_file)
    else
      match find_free_index fs_file with
      | none => (insert_pc.at_unlock ERR_IMGFS_FULL, fs_file)
      | some free_index => (insert_pc.at_fill free_index, fs_file)
  | insert_pc.at_fill free_index =>
    match get_resolution env req.image_buffer with
    | none =>
      (insert_pc.at_unlock ERR_IMGLIB,
        fs_file.set_entry free_index
          { fs_file.entry free_index with
            SHA := env.SHA256 req.image_buffer
            img_id := strncpy (fs_file.entry free_index).img_id req.img_name MAX_IMG_ID
            size := (fs_file.entry free_index).size.set ORIG_RES
              (req.image_buffer.length % 2 ^ 32) })
    | some (height, width) =>
      (insert_pc.at_dedup free_index (fs_file.entry free_index),
        fs_file.set_entry free_index
          (tentative_metadata env req.image_buffer req.img_name (fs_file.entry free_index)
            height width))
  | insert_pc.at_dedup free_index oldmetadata =>
    if (do_name_and_content_dedup fs_file free_index).1 ≠ ERR_NONE then
      (insert_pc.at_unlock (do_name_and_content_dedup fs_file free_index).1,
        (do_name_and_content_dedup fs_file free_index).2.set_entry free_index oldmetadata)
    else (insert_pc.at_append free_index, (do_name_and_content_dedup fs_file free_index).2)
  | insert_pc.at_append free_index =>
    if (insert_append req.stdio req.image_buffer free_index fs_file).1 ≠ ERR_NONE then
      (insert_pc.at_unlock (insert_append req.stdio req.image_buffer free_index fs_file).1,
        (insert_append req.stdio req.image_buffer free_index fs_file).2)
    else
      (insert_pc.at_write_back free_index,
        (insert_append req.stdio req.image_buffer free_index fs_file).2)
  | insert_pc.at_write_back free_index =>
    (insert_pc.at_unlock (insert_write_back env req.stdio free_index fs_file).1,
      (insert_write_back env req.stdio free_index fs_file).2)
  | insert_pc.at_lock => (insert_pc.at_lock, fs_file)
  | insert_pc.at_unlock result => (insert_pc.at_unlock result, fs_file)
  | insert_pc.done result => (insert_pc.done result, fs_file)

/-- The global `fs_file`, the owner of `imgfs_mutex` (`none` when it is
free, `some false` the first thread, `some true` the second) and the
positions of the two threads. -/
structure server_state where
  fs_file : imgfs_file
  mutex : Option Bool
  first : insert_pc
  second : insert_pc
  deriving DecidableEq, Repr

/-- One step of the thread `me` standing at `pc`. `pthread_mutex_lock` takes
the mutex when it is free and blocks (the step changes nothing) otherwise;
`pthread_mutex_unlock` frees the mutex; a thread that is done stays so; at
every other position the thread runs its next part of `do_insert` on the
shared store, whatever the state of the mutex is. -/
def thread_step (env : Env) (req : insert_request) (me : Bool) (pc : insert_pc)
    (mutex : Option Bool) (fs_file : imgfs_file) : insert_pc × Option Bool × imgfs_file :=
  match pc with
  | insert_pc.at_lock =>
    if mutex = none then (insert_pc.at_search, some me, fs_file)
    else (insert_pc.at_lock, mutex, fs_file)
  | insert_pc.at_unlock result => (insert_pc.done result, none, fs_file)
  | insert_pc.done result => (insert_pc.done result, mutex, fs_file)
  | insert_pc.at_search =>
    ((insert_step env req insert_pc.at_search fs_file).1, mutex,
      (insert_step env req insert_pc.at_search fs_file).2)
  | insert_pc.at_fill i =>
    ((insert_step env req (insert_pc.at_fill i) fs_file).1, mutex,
      (insert_step env req (insert_pc.at_fill i) fs_file).2)
  | insert_pc.at_dedup i old =>
    ((insert_step env req (insert_pc.at_dedup i old) fs_file).1, mutex,
      (insert_step env req (insert_pc.at_dedup i old) fs_file).2)
  | insert_pc.at_append i =>
    ((insert_step env req (insert_pc.at_append i) fs_file).1, mutex,
      (insert_step env req (insert_pc.at_append i) fs_file).2)
  | insert_pc.at_write_back i =>
    ((insert_step env req (insert_pc.at_write_back i) fs_file).1, mutex,
      (insert_step env req (insert_pc.at_write_back i) fs_file).2)

/-- One step of the server: the thread `t` named by the schedule moves. -/
def server_step (env : Env) (first second : insert_request) (s : server_state) (t : Bool) :
    server_state :=
  if t then
    { fs_file := (thread_step env second true s.second s.mutex s.fs_file).2.2
      mutex := (thread_step env second true s.second s.mutex s.fs_file).2.1
      first := s.first
      second := (thread_step env second true s.second s.mutex s.fs_file).1 }
  else
    { fs_file := (thread_step env first false s.first s.mutex s.fs_file).2.2
      mutex := (thread_step env first false s.first s.mutex s.fs_file).2.1
      first := (thread_step env first false s.first s.mutex s.fs_file).1
      second := s.second }

/-- The two threads before their `pthread_mutex_lock`, the mutex free. -/
def server_start (f : imgfs_file) : server_state :=
  { fs_file := f, mutex := none, first := insert_pc.at_lock, second := insert_pc.at_lock }

/-- The server state after the steps of a schedule. -/
def server_run (env : Env) (first second : insert_request) (schedule : List Bool)
    (s : server_state) : server_state :=
  schedule.foldl (server_step env first second) s

/-- The position of the thread `t`. -/
def server_state.pc (s : server_state) (t : Bool) : insert_pc :=
  if t then s.second else s.first

/-- The request of the thread `t`. -/
def request_of (first second : insert_request) (t : Bool) : insert_request :=
  if t then second else first

/-- The state in which the thread `me` stands at `mine` and the other thread
at `other`. -/
def server_state.of (me : Bool) (fs_file : imgfs_file) (mutex : Option Bool)
    (mine other : insert_pc) : server_state :=
  if me then { fs_file := fs_file, mutex := mutex, first := other, second := mine }
  else { fs_file := fs_file, mutex := mutex, first := mine, second := other }

/-- A thread alone: `n` parts of `do_insert` from a position and a store. -/
def insert_run (env : Env) (req : insert_request) :
    Nat → insert_pc × imgfs_file → insert_pc × imgfs_file
  | 0, x => x
  | n + 1, x => insert_run env req n (insert_step env req x.1 x.2)

/-- The states of the runs in which the thread `me` takes the mutex first:
`me` is inside `do_insert` after some parts of it while the other thread
waits at `pthread_mutex_lock`; `me` is done and the other thread has not
locked yet; the other thread is inside its `do_insert`, on the store that
`me` left; both are done. -/
def serial_order (env : Env) (first second : insert_request) (f : imgfs_file) (me : Bool)
    (s : server_state) : Prop :=
  (∃ k, s = server_state.of me
      (insert_run env (request_of first second me) k (insert_pc.at_search, f)).2 (some me)
      (insert_run env (request_of first second me) k (insert_pc.at_search, f)).1
      insert_pc.at_lock) ∨
    s = server_state.of me
      (do_insert env (request_of first second me).stdio (request_of first second me).image_buffer
        (request_of first second me).img_name f).2 none
      (insert_pc.done
        (do_insert env (request_of first second me).stdio
          (request_of first second me).image_buffer (request_of first second me).img_name f).1)
      insert_pc.at_lock ∨
    (∃ k, s = server_state.of me
      (insert_run env (request_of first second (!me)) k
        (insert_pc.at_search,
          (do_insert env (request_of first second me).stdio
            (request_of first second me).image_buffer
            (request_of first second me).img_name f).2)).2
      (some (!me))
      (insert_pc.done
        (do_insert env (request_of first second me).stdio
          (request_of first second me).image_buffer (request_of first second me).img_name f).1)
      (insert_run env (request_of first second (!me)) k
        (insert_pc.at_search,
          (do_insert env (request_of first second me).stdio
            (request_of first second me).image_buffer
            (request_of first second me).img_name f).2)).1) ∨
    s = server_state.of me
      (do_insert env (request_of first second (!me)).stdio
        (request_of first second (!me)).image_buffer (request_of first second (!me)).img_name
        (do_insert env (request_of first second me).stdio
          (request_of first second me).image_buffer
          (request_of first second me).img_name f).2).2
      none
      (insert_pc.done
        (do_insert env (request_of first second me).stdio
          (request_of first second me).image_buffer (request_of first second me).img_name f).1)
      (insert_pc.done
        (do_insert env (request_of first second (!me)).stdio
          (request_of first second (!me)).image_buffer
          (request_of first second (!me)).img_name
          (do_insert env (request_of first second me).stdio
            (request_of first second me).image_buffer
            (request_of first second me).img_name f).2).1)

/-- The states that the runs from `server_start f` go through. -/
def serial_states (env : Env) (first second : insert_request) (f : imgfs_file)
    (s : server_state) : Prop :=
  s = server_start f ∨ ∃ me, serial_order env first second f me s

/-- The number of steps a thread that is not blocked takes at most until it
is done. -/
def insert_pc.todo : insert_pc → Nat
  | insert_pc.at_lock => 7
  | insert_pc.at_search => 6
  | insert_pc.at_fill _ => 5
  | insert_pc.at_dedup _ _ => 4
  | insert_pc.at_append _ => 3
  | insert_pc.at_write_back _ => 2
  | insert_pc.at_unlock _ => 1
  | insert_pc.done _ => 0

/-- The schedule that lets the first thread take seven steps, then the
second, then the first again: it ends every run that has started. -/
def closing_schedule : List Bool :=
  List.replicate 7 false ++ List.replicate 7 true ++ List.replicate 7 false

/-- A request that inserts the image `255, 216, 3` under the id `c`. -/
def insert_c_first : insert_request :=
  { stdio := stdio_ok, image_buffer := [255, 216, 3], img_name := ascii "c" }

/-- A request that inserts the image `255, 216, 4` under the id `c`. -/
def insert_c_second : insert_request :=
  { stdio := stdio_ok, image_buffer := [255, 216, 4], img_name := ascii "c" }

/-! ## Basic facts about the table accessors -/

theorem entry_set_entry_same (f : imgfs_file) (k : Nat) (m : img_metadata)
    (hk : k < f.metadata.length) : (f.set_entry k m).entry k = m := by
  simp [imgfs_file.entry, imgfs_file.set_entry, hk]

theorem entry_set_entry_ne (f : imgfs_file) (k i : Nat) (m : img_metadata) (h : k ≠ i) :
    (f.set_entry k m).entry i = f.entry i := by
  simp [imgfs_file.entry, imgfs_file.set_entry, List.getElem?_set_ne h]

theorem metadata_set_entry_self (l : List img_metadata) (k : Nat) :
    l.set k (l[k]?.getD zero_metadata) = l := by
  by_cases hk : k < l.length
  · apply List.ext_getElem (by simp)
    intro i h1 h2
    by_cases hik : k = i
    · subst hik; simp [List.getElem?_eq_getElem hk]
    · simp [List.getElem_set_ne hik]
  · exact List.set_eq_of_length_le (by omega)

theorem set_entry_entry_self (f : imgfs_file) (k : Nat) : f.set_entry k (f.entry k) = f := by
  cases f with
  | mk file header metadata =>
    simp [imgfs_file.set_entry, imgfs_file.entry, metadata_set_entry_self]

theorem set_entry_set_entry (f : imgfs_file) (k : Nat) (a b : img_metadata) :
    (f.set_entry k a).set_entry k b = f.set_entry k b := by
  simp [imgfs_file.set_entry, List.set_set]

theorem find_free_index_some {f : imgfs_file} {k : Nat} (hk : find_free_index f = some k) :
    k < f.header.max_files ∧ k < f.metadata.length ∧ (f.entry k).is_valid = EMPTY ∧
      ∀ j, j < k → (f.entry j).is_valid ≠ EMPTY := by
  unfold find_free_index at hk
  rw [List.findIdx?_eq_some_iff_getElem] at hk
  obtain ⟨h, hp, hlt⟩ := hk
  have h1 : k < f.header.max_files ∧ k < f.metadata.length := by
    simpa [List.length_take] using h
  refine ⟨h1.1, h1.2, ?_, ?_⟩
  · simpa [imgfs_file.entry, List.getElem_take, h1.2] using hp
  · intro j hj
    have hj2 : j < f.metadata.length := by omega
    have := hlt j hj
    simpa [imgfs_file.entry, List.getElem_take, hj2] using this

/-! ## The deduplication scan -/

theorem dedup_loop_duplicate {t : img_metadata} {k : Nat} {l : List img_metadata} {i : Nat}
    (h : dedup_loop t k i l = dedup_scan.duplicate) :
    ∃ n, n < l.length ∧ i + n ≠ k ∧ (l.getD n zero_metadata).is_valid ≠ EMPTY ∧
      strncmp_eq (l.getD n zero_metadata).img_id t.img_id MAX_IMG_ID = true := by
  induction l generalizing i with
  | nil => simp [dedup_loop] at h
  | cons c rest ih =>
    unfold dedup_loop at h
    split at h
    · rename_i hc
      split at h
      · rename_i hid
        exact ⟨0, by simp, by simpa using hc.1, by simpa using hc.2, by simpa using hid⟩
      · split at h
        · cases h
        · obtain ⟨n, hn, h1, h2, h3⟩ := ih h
          exact ⟨n + 1, by simpa using hn, by omega, by simpa using h2, by simpa using h3⟩
    · obtain ⟨n, hn, h1, h2, h3⟩ := ih h
      exact ⟨n + 1, by simpa using hn, by omega, by simpa using h2, by simpa using h3⟩

theorem dedup_loop_fresh {t : img_metadata} {k : Nat} {l : List img_metadata} {i : Nat}
    (h : dedup_loop t k i l = dedup_scan.fresh) :
    ∀ n, n < l.length → i + n ≠ k → (l.getD n zero_metadata).is_valid ≠ EMPTY →
      (l.getD n zero_metadata).SHA ≠ t.SHA ∧
        strncmp_eq (l.getD n zero_metadata).img_id t.img_id MAX_IMG_ID = false := by
  induction l generalizing i with
  | nil => intro n hn; simp at hn
  | cons c rest ih =>
    unfold dedup_loop at h
    intro n hn hne hv
    split at h
    · rename_i hc
      split at h
      · cases h
      · rename_i hid
        split at h
        · cases h
        · rename_i hsha
          cases n with
          | zero => exact ⟨by simpa using hsha, by simpa using hid⟩
          | succ n =>
            have := ih h n (by simpa using hn) (by omega) (by simpa using hv)
            simpa using this
    · rename_i hc
      cases n with
      | zero =>
        exfalso
        apply hc
        exact ⟨by simpa using hne, by simpa using hv⟩
      | succ n =>
        have := ih h n (by simpa using hn) (by omega) (by simpa using hv)
        simpa using this

theorem dedup_loop_shared {t : img_metadata} {k : Nat} {l : List img_metadata} {i : Nat}
    {cur : img_metadata} (h : dedup_loop t k i l = dedup_scan.shared cur) :
    ∃ n, n < l.length ∧ i + n ≠ k ∧ l.getD n zero_metadata = cur ∧ cur.is_valid ≠ EMPTY ∧
      cur.SHA = t.SHA ∧ strncmp_eq cur.img_id t.img_id MAX_IMG_ID = false ∧
      ∀ n', n' < n → i + n' ≠ k → (l.getD n' zero_metadata).is_valid ≠ EMPTY →
        (l.getD n' zero_metadata).SHA ≠ t.SHA ∧
          strncmp_eq (l.getD n' zero_metadata).img_id t.img_id MAX_IMG_ID = false := by
  induction l generalizing i with
  | nil => simp [dedup_loop] at h
  | cons c rest ih =>
    unfold dedup_loop at h
    split at h
    · rename_i hc
      split at h
      · cases h
      · rename_i hid
        split at h
        · rename_i hsha
          injection h with h
          subst h
          exact ⟨0, by simp, by simpa using hc.1, by simp, hc.2, hsha, by simpa using hid,
            fun n' hn' => by omega⟩
        · rename_i hsha
          obtain ⟨n, hn, h1, h2, h3, h4, h4b, h5⟩ := ih h
          refine ⟨n + 1, by simpa using hn, by omega, by simpa using h2, h3, h4, h4b, ?_⟩
          intro n' hn' hne hv
          cases n' with
          | zero => exact ⟨by simpa using hsha, by simpa using hid⟩
          | succ n' =>
            have := h5 n' (by omega) (by omega) (by simpa using hv)
            simpa using this
    · rename_i hc
      obtain ⟨n, hn, h1, h2, h3, h4, h4b, h5⟩ := ih h
      refine ⟨n + 1, by simpa using hn, by omega, by simpa using h2, h3, h4, h4b, ?_⟩
      intro n' hn' hne hv
      cases n' with
      | zero =>
        exfalso
        apply hc
        exact ⟨by simpa using hne, by simpa using hv⟩
      | succ n' =>
        have := h5 n' (by omega) (by omega) (by simpa using hv)
        simpa using this

/-! ## Unfolding `do_insert` -/

theorem tentative_offset (env : Env) (b id : List Nat) (old : img_metadata) (h w : Nat) :
    (tentative_metadata env b id old h w).offset = ⟨0, 0, 0⟩ := by
  simp [tentative_metadata, res_array.set, THUMB_RES, SMALL_RES, ORIG_RES]

theorem dedup_eq (f : imgfs_file) (k : Nat) (hk : k < f.header.max_files)
    (hv : (f.entry k).is_valid ≠ EMPTY) :
    do_name_and_content_dedup f k =
      match dedup_loop (f.entry k) k 0 (f.metadata.take f.header.max_files) with
      | dedup_scan.duplicate => (ERR_DUPLICATE_ID, f)
      | dedup_scan.shared current =>
        (ERR_NONE, f.set_entry k
          { f.entry k with offset := current.offset, size := current.size })
      | dedup_scan.fresh =>
        (ERR_NONE, f.set_entry k
          { f.entry k with offset := (f.entry k).offset.set ORIG_RES 0 }) := by
  unfold do_name_and_content_dedup
  rw [if_neg (Nat.not_le.mpr hk)]
  simp only [hv, if_false]

theorem do_insert_eq (env : Env) (stdio : Nat → Bool) (b id : List Nat) (f : imgfs_file)
    (k h w : Nat) (hnf : f.header.nb_files < f.header.max_files)
    (hk : find_free_index f = some k) (hr : get_resolution env b = some (h, w)) :
    do_insert env stdio b id f =
      match dedup_loop (tentative_metadata env b id (f.entry k) h w) k 0
          ((f.metadata.set k (tentative_metadata env b id (f.entry k) h w)).take
            f.header.max_files) with
      | dedup_scan.duplicate => (ERR_DUPLICATE_ID, f)
      | dedup_scan.shared cur =>
        insert_commit env stdio b k
          (f.set_entry k
            { tentative_metadata env b id (f.entry k) h w with
              offset := cur.offset, size := cur.size })
      | dedup_scan.fresh =>
        insert_commit env stdio b k (f.set_entry k (tentative_metadata env b id (f.entry k) h w)) := by
  obtain ⟨hkm, hkl, hkv, -⟩ := find_free_index_some hk
  have hent : ((f.set_entry k (tentative_metadata env b id (f.entry k) h w)).entry k) =
      tentative_metadata env b id (f.entry k) h w := entry_set_entry_same f k _ hkl
  have hvalid : (tentative_metadata env b id (f.entry k) h w).is_valid ≠ EMPTY := by
    simp [tentative_metadata, NON_EMPTY, EMPTY]
  have hmax : (f.set_entry k (tentative_metadata env b id (f.entry k) h w)).header.max_files =
      f.header.max_files := rfl
  have hmd : (f.set_entry k (tentative_metadata env b id (f.entry k) h w)).metadata =
      f.metadata.set k (tentative_metadata env b id (f.entry k) h w) := rfl
  have hded := dedup_eq (f.set_entry k (tentative_metadata env b id (f.entry k) h w)) k
    (by rw [hmax]; exact hkm) (by rw [hent]; exact hvalid)
  rw [hent, hmd, hmax] at hded
  unfold do_insert
  rw [if_neg (Nat.not_le.mpr hnf)]
  simp only [hk, hr]
  rw [hded]
  cases hs : dedup_loop (tentative_metadata env b id (f.entry k) h w) k 0
      ((f.metadata.set k (tentative_metadata env b id (f.entry k) h w)).take f.header.max_files) with
  | duplicate => simp [set_entry_set_entry, set_entry_entry_self]
  | shared cur => simp [set_entry_set_entry, insert_commit]
  | fresh =>
    have : ({ tentative_metadata env b id (f.entry k) h w with
        offset := (tentative_metadata env b id (f.entry k) h w).offset.set ORIG_RES 0 } :
        img_metadata) = tentative_metadata env b id (f.entry k) h w := by
      rw [tentative_offset]
      simp [tentative_metadata, res_array.set, THUMB_RES, SMALL_RES, ORIG_RES]
    simp [set_entry_set_entry, insert_commit, this]

/-! ## The commit step of `do_insert` -/

theorem insert_append_code (stdio : Nat → Bool) (b : List Nat) (k : Nat) (g : imgfs_file) :
    (insert_append stdio b k g).1 = ERR_NONE ∨ (insert_append stdio b k g).1 = ERR_IO := by
  unfold insert_append
  simp only
  split
  · split
    · right; rfl
    · split
      · right; rfl
      · left; rfl
  · left; rfl

theorem insert_write_back_code (env : Env) (stdio : Nat → Bool) (k : Nat) (g : imgfs_file) :
    (insert_write_back env stdio k g).1 = ERR_NONE ∨
      (insert_write_back env stdio k g).1 = ERR_IO := by
  unfold insert_write_back
  simp only
  split
  · right; rfl
  · split
    · right; rfl
    · split
      · right; rfl
      · split
        · right; rfl
        · left; rfl

theorem insert_commit_code (env : Env) (stdio : Nat → Bool) (b : List Nat) (k : Nat)
    (g : imgfs_file) :
    (insert_commit env stdio b k g).1 = ERR_NONE ∨ (insert_commit env stdio b k g).1 = ERR_IO := by
  unfold insert_commit
  split
  · rcases insert_append_code stdio b k g with h | h
    · rename_i hne; exact absurd h hne
    · right; exact h
  · exact insert_write_back_code env stdio k _

theorem insert_write_back_ok (env : Env) (stdio : Nat → Bool) (k : Nat) (g : imgfs_file)
    (h : (insert_write_back env stdio k g).1 = ERR_NONE) :
    insert_write_back env stdio k g =
      (ERR_NONE,
        { file := fwrite_at (fwrite_at g.file 0 (header_bytes env (bump_header g.header)))
            (metadata_pos env k) (metadata_bytes env (g.entry k))
          header := bump_header g.header
          metadata := g.metadata }) := by
  unfold insert_write_back at h ⊢
  simp only at h ⊢
  split at h
  · cases h
  · split at h
    · cases h
    · split at h
      · cases h
      · split at h
        · cases h
        · rename_i h2 h3 h4 h5
          simp [h2, h3, h4, h5, bump_header, imgfs_file.entry]

/-- Shared case of the commit: the deduplication pass copied a non-zero
`offset[ORIG_RES]`, nothing is appended. -/
theorem insert_commit_shared_ok (env : Env) (stdio : Nat → Bool) (b : List Nat) (k : Nat)
    (g : imgfs_file) (hoff : (g.entry k).offset.get ORIG_RES ≠ 0)
    (h : (insert_commit env stdio b k g).1 = ERR_NONE) :
    insert_commit env stdio b k g =
      (ERR_NONE,
        { file := fwrite_at (fwrite_at g.file 0 (header_bytes env (bump_header g.header)))
            (metadata_pos env k) (metadata_bytes env (g.entry k))
          header := bump_header g.header
          metadata := g.metadata }) := by
  have ha : insert_append stdio b k g = (ERR_NONE, g) := by
    unfold insert_append
    simp [hoff]
  unfold insert_commit at h ⊢
  rw [ha] at h ⊢
  simp only [ne_eq, not_true_eq_false, if_false] at h ⊢
  exact insert_write_back_ok env stdio k g h

/-- Fresh case of the commit: `offset[ORIG_RES]` is `0`, the image is
appended at the end of the file and the entry records that position. -/
theorem insert_commit_fresh_ok (env : Env) (stdio : Nat → Bool) (b : List Nat) (k : Nat)
    (g : imgfs_file) (hoff : (g.entry k).offset.get ORIG_RES = 0)
    (h : (insert_commit env stdio b k g).1 = ERR_NONE) :
    insert_commit env stdio b k g =
      (ERR_NONE,
        { file := fwrite_at (fwrite_at (g.file ++ b) 0 (header_bytes env (bump_header g.header)))
            (metadata_pos env k)
            (metadata_bytes env
              ((g.set_entry k
                { g.entry k with offset := (g.entry k).offset.set ORIG_RES g.file.length }).entry k))
          header := bump_header g.header
          metadata := g.metadata.set k
            { g.entry k with offset := (g.entry k).offset.set ORIG_RES g.file.length } }) := by
  have ha : (insert_append stdio b k g).1 = ERR_NONE →
      insert_append stdio b k g = (ERR_NONE,
        { g.set_entry k
            { g.entry k with offset := (g.entry k).offset.set ORIG_RES g.file.length } with
          file := g.file ++ b }) := by
    unfold insert_append
    simp only [hoff, if_true]
    split
    · intro h; cases h
    · split
      · intro h; cases h
      · intro _; rfl
  unfold insert_commit at h ⊢
  by_cases hc : (insert_append stdio b k g).1 = ERR_NONE
  · rw [ha hc] at h ⊢
    simp only [ne_eq, not_true_eq_false, if_false] at h ⊢
    rw [insert_write_back_ok env stdio k _ h]
    rfl
  · rw [if_pos hc] at h
    exact absurd h hc

/-! ## Ids as `strncpy` stores them and `strncmp` compares them -/

theorem takeWhile_take_comm (p : Nat → Bool) (l : List Nat) (n : Nat) :
    (l.take n).takeWhile p = (l.takeWhile p).take n := by
  induction l generalizing n with
  | nil => simp
  | cons a l ih =>
    cases n with
    | zero => simp
    | succ n =>
      simp only [List.take_succ_cons, List.takeWhile_cons]
      split
      · simp [ih]
      · simp

theorem c_str_strncpy (dst src : List Nat) (n : Nat) :
    c_str ((strncpy dst src n).take n) = c_str (src.take n) := by
  have hlen : ((c_str src).take n ++
      List.replicate (n - ((c_str src).take n).length) 0).length = n := by
    simp only [List.length_append, List.length_replicate, List.length_take]
    omega
  have htake : (strncpy dst src n).take n =
      (c_str src).take n ++ List.replicate (n - ((c_str src).take n).length) 0 := by
    unfold strncpy
    rw [List.take_append_of_le_length (by omega)]
    exact List.take_of_length_le (by omega)
  have hall : ∀ a ∈ (c_str src).take n, (fun c : Nat => c != 0) a = true := by
    intro a ha
    have hmem : a ∈ List.takeWhile (fun c : Nat => c != 0) src := List.mem_of_mem_take ha
    exact List.mem_takeWhile_imp (p := fun c : Nat => c != 0) hmem
  rw [htake]
  unfold c_str at hall ⊢
  rw [List.takeWhile_append_of_pos hall, takeWhile_take_comm]
  have hz : ∀ m : Nat, (List.replicate m 0).takeWhile (fun c : Nat => c != 0) = [] := by
    intro m
    cases m with
    | zero => rfl
    | succ m => simp [List.replicate_succ]
  rw [hz]
  simp

theorem strncmp_eq_strncpy (a dst src : List Nat) (n : Nat) :
    strncmp_eq a (strncpy dst src n) n = strncmp_eq a src n := by
  unfold strncmp_eq
  rw [c_str_strncpy]

theorem tentative_img_id (env : Env) (b id : List Nat) (old : img_metadata) (h w : Nat)
    (a : List Nat) :
    strncmp_eq a (tentative_metadata env b id old h w).img_id MAX_IMG_ID =
      strncmp_eq a id MAX_IMG_ID := by
  simp [tentative_metadata, strncmp_eq_strncpy]

/-! ## The table seen by the deduplication scan of `do_insert` -/

theorem length_take_set (l : List img_metadata) (k mx : Nat) (t : img_metadata) :
    (List.take mx (l.set k t)).length = min mx l.length := by
  simp

theorem getD_take_set (l : List img_metadata) (k n mx : Nat) (t : img_metadata)
    (hn : n < min mx l.length) :
    (List.take mx (l.set k t)).getD n zero_metadata =
      if n = k then t else l.getD n zero_metadata := by
  have h1 : n < mx := by omega
  have h2 : n < l.length := by omega
  have h3 : n < (List.take mx (l.set k t)).length := by simpa using hn
  rw [List.getD_eq_getElem _ _ h3, List.getElem_take, List.getD_eq_getElem _ _ h2]
  by_cases hnk : n = k
  · subst hnk; simp
  · have hkn : k ≠ n := fun h => hnk h.symm
    simp [hnk, List.getElem_set_ne hkn]

/-! ## File writes -/

theorem length_object_bytes (n : Nat) (r : List Nat) : (object_bytes n r).length = n := by
  simp [object_bytes]

theorem length_header_bytes (env : Env) (h : imgfs_header) :
    (header_bytes env h).length = env.sizeof_imgfs_header := by
  simp [header_bytes, length_object_bytes]

theorem length_metadata_bytes (env : Env) (m : img_metadata) :
    (metadata_bytes env m).length = env.sizeof_img_metadata := by
  simp [metadata_bytes, length_object_bytes]

theorem length_fwrite_at_inside (file : List Nat) (pos : Nat) (data : List Nat)
    (h : pos + data.length ≤ file.length) : (fwrite_at file pos data).length = file.length := by
  simp only [fwrite_at, List.length_append, List.length_take, List.length_replicate,
    List.length_drop]
  omega

theorem length_fwrite_at_ge (file : List Nat) (pos : Nat) (data : List Nat) :
    file.length ≤ (fwrite_at file pos data).length := by
  simp only [fwrite_at, List.length_append, List.length_take, List.length_replicate,
    List.length_drop]
  omega

theorem metadata_pos_succ_le (env : Env) (k n : Nat) (h : k < n) :
    metadata_pos env k + env.sizeof_img_metadata ≤ metadata_pos env n := by
  unfold metadata_pos
  have : (k + 1) * env.sizeof_img_metadata ≤ n * env.sizeof_img_metadata :=
    Nat.mul_le_mul_right _ h
  rw [Nat.add_mul, Nat.one_mul] at this
  omega

theorem sizeof_header_le_metadata_pos (env : Env) (n : Nat) :
    env.sizeof_imgfs_header ≤ metadata_pos env n := by
  unfold metadata_pos
  omega

/-- Both write-backs of a successful insert stay inside a file that already
holds the header and the whole metadata table. -/
theorem length_write_back (env : Env) (file : List Nat) (hd : imgfs_header) (m : img_metadata)
    (k n : Nat) (hk : k < n) (hfile : metadata_pos env n ≤ file.length) :
    (fwrite_at (fwrite_at file 0 (header_bytes env hd)) (metadata_pos env k)
      (metadata_bytes env m)).length = file.length := by
  have h1 : (fwrite_at file 0 (header_bytes env hd)).length = file.length := by
    apply length_fwrite_at_inside
    rw [length_header_bytes]
    have := sizeof_header_le_metadata_pos env n
    omega
  rw [length_fwrite_at_inside, h1]
  rw [h1, length_metadata_bytes]
  have := metadata_pos_succ_le env k n hk
  omega

theorem entry_mem (f : imgfs_file) (i : Nat) (h : i < f.metadata.length) :
    f.entry i ∈ f.metadata := by
  unfold imgfs_file.entry
  rw [List.getD_eq_getElem _ _ h]
  exact List.getElem_mem h

/-- What a successful `do_insert` went through: room, a free slot, a decoded
image. -/
theorem do_insert_ok_inv (env : Env) (stdio : Nat → Bool) (b id : List Nat) (f : imgfs_file)
    (hok : (do_insert env stdio b id f).1 = ERR_NONE) :
    f.header.nb_files < f.header.max_files ∧
      ∃ k h w, find_free_index f = some k ∧ get_resolution env b = some (h, w) := by
  by_cases hnf : f.header.nb_files < f.header.max_files
  · refine ⟨hnf, ?_⟩
    cases hk : find_free_index f with
    | none =>
      unfold do_insert at hok
      rw [if_neg (Nat.not_le.mpr hnf)] at hok
      simp only [hk] at hok
      cases hok
    | some k =>
      cases hr : get_resolution env b with
      | none =>
        unfold do_insert at hok
        rw [if_neg (Nat.not_le.mpr hnf)] at hok
        simp only [hk, hr] at hok
        cases hok
      | some hw => exact ⟨k, hw.1, hw.2, rfl, rfl⟩
  · unfold do_insert at hok
    rw [if_pos (by omega)] at hok
    cases hok

/-! ## Effect of `lazily_resize` and `do_read` on the store -/

theorem res_array_get_set_orig (a : res_array) (r : Int) (v : Nat) (h : r ≠ ORIG_RES) :
    (a.set r v).get ORIG_RES = a.get ORIG_RES := by
  simp only [ORIG_RES] at h
  by_cases h0 : r = 0 <;> by_cases h1 : r = 1 <;>
    simp [res_array.set, res_array.get, THUMB_RES, SMALL_RES, ORIG_RES, h0, h1, h]

theorem append_variant_effect (env : Env) (stdio : Nat → Bool) (resolution : Int)
    (f : imgfs_file) (index : Nat) (buf : List Nat) :
    (append_variant env stdio resolution f index buf).2 = f ∨
      ∃ a b file1, f.file.length ≤ file1.length ∧
        (append_variant env stdio resolution f index buf).2 =
          { file := file1
            header := f.header
            metadata := f.metadata.set index
              { f.entry index with
                offset := (f.entry index).offset.set resolution a
                size := (f.entry index).size.set resolution b } } := by
  unfold append_variant
  split
  · left; rfl
  split
  · left; rfl
  dsimp only
  split
  · right
    exact ⟨_, _, f.file ++ buf, by simp, rfl⟩
  split
  · right
    exact ⟨_, _, f.file ++ buf, by simp, rfl⟩
  · right
    refine ⟨_, _, _, ?_, rfl⟩
    exact Nat.le_trans (by simp) (length_fwrite_at_ge _ _ _)

theorem lazily_resize_effect (env : Env) (stdio : Nat → Bool) (resolution : Int)
    (f : imgfs_file) (index : Nat) :
    (lazily_resize env stdio resolution f index).2 = f ∨
      ∃ a b file1, resolution ≠ ORIG_RES ∧ f.file.length ≤ file1.length ∧
        (f.entry index).is_valid = NON_EMPTY ∧
        (lazily_resize env stdio resolution f index).2 =
          { file := file1
            header := f.header
            metadata := f.metadata.set index
              { f.entry index with
                offset := (f.entry index).offset.set resolution a
                size := (f.entry index).size.set resolution b } } := by
  unfold lazily_resize
  split
  · left; rfl
  split
  · left; rfl
  split
  · left; rfl
  rename_i hvalid
  split
  · left; rfl
  rename_i hsz
  split
  · left; rfl
  split
  · left; rfl
  rename_i horig
  have hres : resolution ≠ ORIG_RES := by
    intro hr
    rw [hr] at hsz
    exact horig (Or.inr (by simpa using hsz))
  split
  · left; rfl
  split
  · left; rfl
  rename_i buf _
  rcases append_variant_effect env stdio resolution f index buf with h | ⟨a, b, file1, h1, h2⟩
  · left; exact h
  · right
    exact ⟨a, b, file1, hres, h1, by simpa using hvalid, h2⟩

theorem do_read_state (env : Env) (stdio : Nat → Bool) (img_id : List Nat) (resolution : Int)
    (f : imgfs_file) :
    (do_read env stdio img_id resolution f).2.1 = f ∨
      ∃ i, (do_read env stdio img_id resolution f).2.1 =
        (lazily_resize env stdio resolution f i).2 := by
  unfold do_read
  split
  · left; rfl
  · rename_i i _
    dsimp only
    by_cases hsz : (f.entry i).size.get resolution = 0
    · right
      refine ⟨i, ?_⟩
      simp only [hsz, if_true]
      split
      · rename_i f1 heq
        rw [heq]
        dsimp only
        split
        · rfl
        · split <;> rfl
      · rename_i err f1 _ heq
        rw [heq]
    · left
      simp only [hsz, if_false]
      split
      · rfl
      · split <;> rfl

theorem step_read_effect (env : Env) (stdio : Nat → Bool) (img_id : List Nat)
    (resolution : Int) (f : imgfs_file) :
    (step env (store_op.read stdio img_id resolution) f).2 = f ∨
      ∃ i a b file1, resolution ≠ ORIG_RES ∧ f.file.length ≤ file1.length ∧
        (f.entry i).is_valid = NON_EMPTY ∧
        (step env (store_op.read stdio img_id resolution) f).2 =
          { file := file1
            header := f.header
            metadata := f.metadata.set i
              { f.entry i with
                offset := (f.entry i).offset.set resolution a
                size := (f.entry i).size.set resolution b } } := by
  show (do_read env stdio img_id resolution f).2.1 = f ∨ _
  rcases do_read_state env stdio img_id resolution f with h | ⟨i, h⟩
  · left; exact h
  · rcases lazily_resize_effect env stdio resolution f i with h2 | ⟨a, b, file1, h3, h4, h5, h6⟩
    · left; rw [h, h2]
    · right
      refine ⟨i, a, b, file1, h3, h4, h5, ?_⟩
      show (do_read env stdio img_id resolution f).2.1 = _
      rw [h, h6]

/-! ## Effect of a successful `do_insert` -/

theorem res_array_get_set_same_orig (a : res_array) (v : Nat) :
    (a.set ORIG_RES v).get ORIG_RES = v := by
  simp [res_array.set, res_array.get, THUMB_RES, SMALL_RES, ORIG_RES]

theorem insert_commit_ok (env : Env) (stdio : Nat → Bool) (b : List Nat) (k : Nat)
    (g : imgfs_file) (h : (insert_commit env stdio b k g).1 = ERR_NONE) :
    ∃ file1 m, insert_commit env stdio b k g =
        (ERR_NONE, { file := file1, header := bump_header g.header, metadata := g.metadata.set k m })
      ∧ g.file.length ≤ file1.length ∧
      (((g.entry k).offset.get ORIG_RES ≠ 0 ∧ m = g.entry k) ∨
        ((g.entry k).offset.get ORIG_RES = 0 ∧
          m = { g.entry k with offset := (g.entry k).offset.set ORIG_RES g.file.length })) := by
  by_cases hoff : (g.entry k).offset.get ORIG_RES = 0
  · have heq := insert_commit_fresh_ok env stdio b k g hoff h
    refine ⟨_, _, heq, ?_, Or.inr ⟨hoff, rfl⟩⟩
    refine Nat.le_trans ?_ (length_fwrite_at_ge _ _ _)
    refine Nat.le_trans ?_ (length_fwrite_at_ge _ _ _)
    simp
  · have heq := insert_commit_shared_ok env stdio b k g hoff h
    have hself : g.metadata.set k (g.entry k) = g.metadata :=
      congrArg imgfs_file.metadata (set_entry_entry_self g k)
    rw [← hself] at heq
    refine ⟨_, g.entry k, heq, ?_, Or.inl ⟨hoff, rfl⟩⟩
    refine Nat.le_trans ?_ (length_fwrite_at_ge _ _ _)
    exact length_fwrite_at_ge _ _ _

/-- Shape of the store after a successful `do_insert`: the free slot `k`
holds a NON_EMPTY entry `m` with the buffer's digest, the header counters are
bumped, and either `m` shares the offsets and sizes of a live entry with the
same digest, or the image was appended at the former end of the file. -/
theorem do_insert_ok (env : Env) (stdio : Nat → Bool) (b id : List Nat) (f : imgfs_file)
    (hok : (do_insert env stdio b id f).1 = ERR_NONE) :
    f.header.nb_files < f.header.max_files ∧
      ∃ k file1 m, find_free_index f = some k ∧
        do_insert env stdio b id f =
          (ERR_NONE,
            { file := file1, header := bump_header f.header, metadata := f.metadata.set k m }) ∧
        f.file.length ≤ file1.length ∧ m.is_valid = NON_EMPTY ∧ m.SHA = env.SHA256 b ∧
        ((∃ n, n < f.metadata.length ∧ n ≠ k ∧ (f.entry n).is_valid ≠ EMPTY ∧
            (f.entry n).SHA = env.SHA256 b ∧ (f.entry n).offset.get ORIG_RES ≠ 0 ∧
            m.offset = (f.entry n).offset ∧ m.size = (f.entry n).size) ∨
          (m.offset.get ORIG_RES = f.file.length ∧
            ((∃ n, n < f.metadata.length ∧ n ≠ k ∧ (f.entry n).is_valid ≠ EMPTY ∧
                (f.entry n).offset.get ORIG_RES = 0) ∨
              ∀ n, n < f.metadata.length → n < f.header.max_files → n ≠ k →
                (f.entry n).is_valid ≠ EMPTY → (f.entry n).SHA ≠ env.SHA256 b))) := by
  obtain ⟨hnf, k, h, w, hk, hr⟩ := do_insert_ok_inv env stdio b id f hok
  obtain ⟨hkm, hkl, hkv, -⟩ := find_free_index_some hk
  refine ⟨hnf, k, ?_⟩
  have hget : ∀ n, n < min f.header.max_files f.metadata.length → n ≠ k →
      (List.take f.header.max_files
        (f.metadata.set k (tentative_metadata env b id (f.entry k) h w))).getD n
          zero_metadata = f.entry n := by
    intro n hn hnk
    rw [getD_take_set _ _ _ _ _ hn, if_neg hnk]
    rfl
  have htsha : (tentative_metadata env b id (f.entry k) h w).SHA = env.SHA256 b := rfl
  rw [do_insert_eq env stdio b id f k h w hnf hk hr] at hok ⊢
  cases hs : dedup_loop (tentative_metadata env b id (f.entry k) h w) k 0
      ((f.metadata.set k (tentative_metadata env b id (f.entry k) h w)).take
        f.header.max_files) with
  | duplicate =>
    rw [hs] at hok
    cases hok
  | shared cur =>
    rw [hs] at hok
    simp only at hok ⊢
    obtain ⟨n, hn, hnk, hcur, hcv, hcs, -, -⟩ := dedup_loop_shared hs
    rw [length_take_set] at hn
    have hnk2 : n ≠ k := by omega
    have hnl : n < f.metadata.length := by omega
    have hcur2 : f.entry n = cur := by rw [← hget n hn hnk2]; exact hcur
    have hgk : ((f.set_entry k
        { tentative_metadata env b id (f.entry k) h w with
          offset := cur.offset, size := cur.size }).entry k) =
        { tentative_metadata env b id (f.entry k) h w with
          offset := cur.offset, size := cur.size } := entry_set_entry_same f k _ hkl
    obtain ⟨file1, m, heq, hfl, hm⟩ := insert_commit_ok env stdio b k _ hok
    refine ⟨file1, m, hk, ?_, hfl, ?_, ?_, ?_⟩
    · rw [heq]
      simp [imgfs_file.set_entry, List.set_set]
    · rcases hm with ⟨-, hm⟩ | ⟨-, hm⟩ <;> rw [hm, hgk] <;> rfl
    · rcases hm with ⟨-, hm⟩ | ⟨-, hm⟩ <;> rw [hm, hgk] <;> rfl
    · rcases hm with ⟨hoff, hm⟩ | ⟨hoff, hm⟩
      · left
        rw [hgk] at hoff hm
        refine ⟨n, hnl, hnk2, by rw [hcur2]; exact hcv, by rw [hcur2, hcs]; rfl, ?_, ?_, ?_⟩
        · rw [hcur2]; exact hoff
        · rw [hm, hcur2]
        · rw [hm, hcur2]
      · right
        rw [hgk] at hoff hm
        refine ⟨?_, Or.inl ⟨n, hnl, hnk2, by rw [hcur2]; exact hcv, by rw [hcur2]; exact hoff⟩⟩
        rw [hm]
        exact res_array_get_set_same_orig _ _
  | fresh =>
    rw [hs] at hok
    simp only at hok ⊢
    have hgk : ((f.set_entry k (tentative_metadata env b id (f.entry k) h w)).entry k) =
        tentative_metadata env b id (f.entry k) h w := entry_set_entry_same f k _ hkl
    obtain ⟨file1, m, heq, hfl, hm⟩ := insert_commit_ok env stdio b k _ hok
    have hoff0 : (tentative_metadata env b id (f.entry k) h w).offset.get ORIG_RES = 0 := by
      rw [tentative_offset]; rfl
    refine ⟨file1, m, hk, ?_, hfl, ?_, ?_, ?_⟩
    · rw [heq]
      simp [imgfs_file.set_entry, List.set_set]
    · rcases hm with ⟨-, hm⟩ | ⟨-, hm⟩ <;> rw [hm, hgk] <;> rfl
    · rcases hm with ⟨-, hm⟩ | ⟨-, hm⟩ <;> rw [hm, hgk] <;> rfl
    · rcases hm with ⟨hoff, hm⟩ | ⟨hoff, hm⟩
      · rw [hgk] at hoff
        exact absurd hoff0 hoff
      · right
        rw [hgk] at hm
        refine ⟨?_, Or.inr ?_⟩
        · rw [hm]
          exact res_array_get_set_same_orig _ _
        · intro n hnl hnm hnk hv
          have hmin : n < min f.header.max_files f.metadata.length := by omega
          have := (dedup_loop_fresh hs n (by rw [length_take_set]; exact hmin) (by omega)
            (by rw [hget n hmin hnk]; exact hv)).1
          rw [hget n hmin hnk, htsha] at this
          exact this

/-! ## Failed inserts, deletes -/

theorem do_insert_fail (env : Env) (stdio : Nat → Bool) (b id : List Nat) (f : imgfs_file)
    (hne : (do_insert env stdio b id f).1 ≠ ERR_NONE)
    (hio : (do_insert env stdio b id f).1 ≠ ERR_IO) :
    (do_insert env stdio b id f).2 = f ∨
      ∃ k m, find_free_index f = some k ∧ (do_insert env stdio b id f).2 = f.set_entry k m ∧
        m.is_valid = (f.entry k).is_valid := by
  by_cases hnf : f.header.nb_files < f.header.max_files
  · cases hk : find_free_index f with
    | none =>
      left
      unfold do_insert
      rw [if_neg (Nat.not_le.mpr hnf)]
      simp only [hk]
    | some k =>
      cases hr : get_resolution env b with
      | none =>
        right
        have heq : do_insert env stdio b id f =
            (ERR_IMGLIB, f.set_entry k
              { f.entry k with
                SHA := env.SHA256 b
                img_id := strncpy (f.entry k).img_id id MAX_IMG_ID
                size := (f.entry k).size.set ORIG_RES (b.length % 2 ^ 32) }) := by
          unfold do_insert
          rw [if_neg (Nat.not_le.mpr hnf)]
          simp only [hk, hr]
        exact ⟨k, { f.entry k with
                SHA := env.SHA256 b
                img_id := strncpy (f.entry k).img_id id MAX_IMG_ID
                size := (f.entry k).size.set ORIG_RES (b.length % 2 ^ 32) }, rfl, by rw [heq], rfl⟩
      | some hw =>
        obtain ⟨h, w⟩ := hw
        left
        rw [do_insert_eq env stdio b id f k h w hnf hk hr] at hne hio ⊢
        cases hs : dedup_loop (tentative_metadata env b id (f.entry k) h w) k 0
            ((f.metadata.set k (tentative_metadata env b id (f.entry k) h w)).take
              f.header.max_files) with
        | duplicate => rfl
        | shared cur =>
          rw [hs] at hne hio
          rcases insert_commit_code env stdio b k _ with hc | hc
          · exact absurd hc hne
          · exact absurd hc hio
        | fresh =>
          rw [hs] at hne hio
          rcases insert_commit_code env stdio b k _ with hc | hc
          · exact absurd hc hne
          · exact absurd hc hio
  · left
    unfold do_insert
    rw [if_pos (by omega)]

theorem find_delete_index_some {img_id : List Nat} {f : imgfs_file} {i : Nat}
    (hi : find_delete_index img_id f = some i) :
    i < f.header.max_files ∧ i < f.metadata.length ∧ (f.entry i).is_valid = NON_EMPTY ∧
      strncmp_eq (f.entry i).img_id img_id MAX_IMG_ID = true ∧
      ∀ j, j < i → ¬ ((f.entry j).is_valid = NON_EMPTY ∧
        strncmp_eq (f.entry j).img_id img_id MAX_IMG_ID = true) := by
  unfold find_delete_index at hi
  rw [List.findIdx?_eq_some_iff_getElem] at hi
  obtain ⟨h, hp, hlt⟩ := hi
  have h1 : i < f.header.max_files ∧ i < f.metadata.length := by
    simpa [List.length_take] using h
  have hp2 : (f.entry i).is_valid = NON_EMPTY ∧
      strncmp_eq (f.entry i).img_id img_id MAX_IMG_ID = true := by
    simpa [imgfs_file.entry, List.getElem_take, h1.2] using hp
  refine ⟨h1.1, h1.2, hp2.1, hp2.2, ?_⟩
  intro j hj
  have hj2 : j < f.metadata.length := by omega
  have := hlt j hj
  simpa [imgfs_file.entry, List.getElem_take, hj2] using this

theorem do_delete_cases (env : Env) (stdio : Nat → Bool) (img_id : List Nat) (f : imgfs_file) :
    (do_delete env stdio img_id f).1 = ERR_IO ∨
      do_delete env stdio img_id f = (ERR_IMAGE_NOT_FOUND, f) ∨
      (f.header.nb_files ≠ 0 ∧ ∃ i, find_delete_index img_id f = some i ∧
        do_delete env stdio img_id f =
          (ERR_NONE,
            { file := fwrite_at
                (fwrite_at f.file (metadata_pos env i)
                  (metadata_bytes env { f.entry i with is_valid := EMPTY }))
                0 (header_bytes env (drop_header f.header))
              header := drop_header f.header
              metadata := f.metadata.set i { f.entry i with is_valid := EMPTY } })) := by
  unfold do_delete
  split
  · right; left; rfl
  · rename_i hnb
    split
    · right; left; rfl
    · rename_i i hi
      dsimp only
      split
      · left; rfl
      · split
        · left; rfl
        · right; right
          exact ⟨hnb, i, hi, rfl⟩

/-! ## The count invariant -/

theorem countP_set_add {α : Type} (p : α → Bool) (d : α) (l : List α) (k : Nat) (a : α)
    (hk : k < l.length) :
    (l.set k a).countP p + (if p (l.getD k d) then 1 else 0) =
      l.countP p + (if p a then 1 else 0) := by
  induction l generalizing k with
  | nil => simp at hk
  | cons x xs ih =>
    cases k with
    | zero =>
      simp only [List.set_cons_zero, List.countP_cons, List.getD_cons_zero]
      omega
    | succ k =>
      have := ih k (by simpa using hk)
      simp only [List.set_cons_succ, List.countP_cons, List.getD_cons_succ]
      omega

theorem count_non_empty_le (f : imgfs_file) : count_non_empty f ≤ f.metadata.length :=
  List.countP_le_length _

theorem count_set_entry (f : imgfs_file) (k : Nat) (m : img_metadata)
    (hk : k < f.metadata.length) :
    count_non_empty (f.set_entry k m) + (if (f.entry k).is_valid = NON_EMPTY then 1 else 0) =
      count_non_empty f + (if m.is_valid = NON_EMPTY then 1 else 0) := by
  have := countP_set_add (fun m : img_metadata => m.is_valid == NON_EMPTY) zero_metadata
    f.metadata k m hk
  simpa [count_non_empty, imgfs_file.set_entry, imgfs_file.entry] using this

theorem count_set_entry_same (f : imgfs_file) (k : Nat) (m : img_metadata)
    (hk : k < f.metadata.length) (hm : m.is_valid = (f.entry k).is_valid) :
    count_non_empty (f.set_entry k m) = count_non_empty f := by
  have := count_set_entry f k m hk
  rw [hm] at this
  omega

theorem count_set_entry_fill (f : imgfs_file) (k : Nat) (m : img_metadata)
    (hk : k < f.metadata.length) (hold : (f.entry k).is_valid ≠ NON_EMPTY)
    (hm : m.is_valid = NON_EMPTY) :
    count_non_empty (f.set_entry k m) = count_non_empty f + 1 := by
  have := count_set_entry f k m hk
  rw [if_neg hold, if_pos hm] at this
  omega

theorem count_set_entry_clear (f : imgfs_file) (k : Nat) (m : img_metadata)
    (hk : k < f.metadata.length) (hold : (f.entry k).is_valid = NON_EMPTY)
    (hm : m.is_valid ≠ NON_EMPTY) :
    count_non_empty (f.set_entry k m) + 1 = count_non_empty f := by
  have := count_set_entry f k m hk
  rw [if_pos hold, if_neg hm] at this
  omega

theorem do_create_ok (env : Env) (stdio : Nat → Bool) (f0 s0 : imgfs_file)
    (hc : do_create env stdio f0 = (ERR_NONE, s0)) :
    s0.header.max_files = f0.header.max_files ∧ s0.header.nb_files = 0 ∧
      s0.header.version = 0 ∧ s0.header.resized_res = f0.header.resized_res ∧
      s0.metadata = List.replicate f0.header.max_files zero_metadata ∧
      s0.file = header_bytes env s0.header ++
        ((List.replicate f0.header.max_files zero_metadata).map (metadata_bytes env)).flatten := by
  unfold do_create at hc
  dsimp only at hc
  split at hc
  · cases hc
  · split at hc
    · cases hc
    · split at hc
      · cases hc
      · injection hc with _ hc
        subst hc
        exact ⟨rfl, rfl, rfl, rfl, rfl, rfl⟩

theorem count_inv_create (env : Env) (stdio : Nat → Bool) (f0 s0 : imgfs_file)
    (hmax : f0.header.max_files < 2 ^ 32) (hc : do_create env stdio f0 = (ERR_NONE, s0)) :
    count_inv s0 := by
  obtain ⟨h1, h2, -, -, h5, -⟩ := do_create_ok env stdio f0 s0 hc
  refine ⟨by rw [h5, h1]; simp, by rw [h1]; exact hmax, ?_⟩
  rw [h2]
  unfold count_non_empty
  rw [h5]
  simp [List.countP_replicate, zero_metadata, NON_EMPTY]

theorem count_inv_insert (env : Env) (stdio : Nat → Bool) (b id : List Nat) (f : imgfs_file)
    (hinv : count_inv f) (hio : (do_insert env stdio b id f).1 ≠ ERR_IO) :
    count_inv (do_insert env stdio b id f).2 := by
  obtain ⟨hlen, hmax, hcnt⟩ := hinv
  have hle := count_non_empty_le f
  by_cases hok : (do_insert env stdio b id f).1 = ERR_NONE
  · obtain ⟨hnf, k, file1, m, hk, heq, -, hmv, -, -⟩ := do_insert_ok env stdio b id f hok
    obtain ⟨hkm, hkl, hkv, -⟩ := find_free_index_some hk
    rw [heq]
    have hc := count_set_entry_fill f k m hkl (by rw [hkv]; simp [EMPTY, NON_EMPTY]) hmv
    refine ⟨by simpa using hlen, hmax, ?_⟩
    show (f.header.nb_files + 1) % 2 ^ 32 = count_non_empty (f.set_entry k m)
    rw [Nat.mod_eq_of_lt (by omega), hc, hcnt]
  · rcases do_insert_fail env stdio b id f hok hio with h | ⟨k, m, hk, h, hmv⟩
    · rw [h]; exact ⟨hlen, hmax, hcnt⟩
    · obtain ⟨hkm, hkl, hkv, -⟩ := find_free_index_some hk
      rw [h]
      have hc := count_set_entry_same f k m hkl hmv
      refine ⟨by simpa [imgfs_file.set_entry] using hlen, hmax, ?_⟩
      show f.header.nb_files = count_non_empty (f.set_entry k m)
      rw [hc, hcnt]

theorem count_inv_delete (env : Env) (stdio : Nat → Bool) (id : List Nat) (f : imgfs_file)
    (hinv : count_inv f) (hio : (do_delete env stdio id f).1 ≠ ERR_IO) :
    count_inv (do_delete env stdio id f).2 := by
  obtain ⟨hlen, hmax, hcnt⟩ := hinv
  rcases do_delete_cases env stdio id f with h | h | ⟨hnb, i, hi, h⟩
  · exact absurd h hio
  · rw [h]; exact ⟨hlen, hmax, hcnt⟩
  · obtain ⟨him, hil, hiv, -, -⟩ := find_delete_index_some hi
    rw [h]
    have hc := count_set_entry_clear f i { f.entry i with is_valid := EMPTY } hil hiv
      (by simp [EMPTY, NON_EMPTY])
    have hle := count_non_empty_le f
    refine ⟨by simpa using hlen, hmax, ?_⟩
    show (f.header.nb_files + 2 ^ 32 - 1) % 2 ^ 32 =
      count_non_empty (f.set_entry i { f.entry i with is_valid := EMPTY })
    have h1 : f.header.nb_files + 2 ^ 32 - 1 = (f.header.nb_files - 1) + 2 ^ 32 := by omega
    rw [h1, Nat.add_mod_right, Nat.mod_eq_of_lt (by omega)]
    exact (fun x (hx : x + 1 = count_non_empty f) =>
      (by omega : f.header.nb_files - 1 = x)) _ hc

theorem count_inv_read (env : Env) (stdio : Nat → Bool) (id : List Nat) (r : Int)
    (f : imgfs_file) (hinv : count_inv f) :
    count_inv (step env (store_op.read stdio id r) f).2 := by
  obtain ⟨hlen, hmax, hcnt⟩ := hinv
  rcases step_read_effect env stdio id r f with h | ⟨i, a, b, file1, -, -, hv, h⟩
  · rw [h]; exact ⟨hlen, hmax, hcnt⟩
  · rw [h]
    refine ⟨by simpa using hlen, hmax, ?_⟩
    by_cases hil : i < f.metadata.length
    · have hc := count_set_entry_same f i
        { f.entry i with
          offset := (f.entry i).offset.set r a
          size := (f.entry i).size.set r b } hil rfl
      show f.header.nb_files = count_non_empty (f.set_entry i _)
      rw [hc, hcnt]
    · show f.header.nb_files = count_non_empty (f.set_entry i _)
      have : f.set_entry i
          { f.entry i with
            offset := (f.entry i).offset.set r a
            size := (f.entry i).size.set r b } = f := by
        cases f with
        | mk file header metadata =>
          simp only [imgfs_file.set_entry]
          congr 1
          exact List.set_eq_of_length_le (by simpa using hil)
      rw [this]
      exact hcnt

theorem count_inv_step (env : Env) (op : store_op) (f : imgfs_file) (hinv : count_inv f)
    (hio : (step env op f).1 ≠ ERR_IO) : count_inv (step env op f).2 := by
  cases op with
  | insert stdio b id => exact count_inv_insert env stdio b id f hinv hio
  | delete stdio id => exact count_inv_delete env stdio id f hinv hio
  | read stdio id r => exact count_inv_read env stdio id r f hinv

theorem count_inv_run (env : Env) (ops : List store_op) (f : imgfs_file) (hinv : count_inv f)
    (hio : ERR_IO ∉ (run env ops f).1) : count_inv (run env ops f).2 := by
  induction ops generalizing f with
  | nil => exact hinv
  | cons op ops ih =>
    simp only [run, List.mem_cons, not_or] at hio ⊢
    exact ih _ (count_inv_step env op f hinv (fun h => hio.1 h.symm)) hio.2

/-! ## Sharing of the original image -/

theorem entry_update (f : imgfs_file) (file1 : List Nat) (header1 : imgfs_header) (k i : Nat)
    (m : img_metadata) (hi : i < f.metadata.length) :
    (imgfs_file.entry { file := file1, header := header1, metadata := f.metadata.set k m } i) =
      if i = k then m else f.entry i := by
  by_cases hik : i = k
  · subst hik
    simp [imgfs_file.entry, hi]
  · have hki : k ≠ i := fun h => hik h.symm
    simp [imgfs_file.entry, hik, List.getElem?_set_ne hki]

theorem share_inv_update (f : imgfs_file) (file1 : List Nat) (header1 : imgfs_header) (k : Nat)
    (m : img_metadata) (hinv : share_inv f)
    (hmax : header1.max_files = f.header.max_files) (hfl : f.file.length ≤ file1.length)
    (hb : m.is_valid ≠ EMPTY → m.offset.get ORIG_RES ≠ 0)
    (hc : m.is_valid ≠ EMPTY → ∀ j, j < f.metadata.length → j ≠ k →
      (f.entry j).is_valid ≠ EMPTY → (f.entry j).SHA = m.SHA →
      (f.entry j).offset.get ORIG_RES = m.offset.get ORIG_RES ∧
        (f.entry j).size.get ORIG_RES = m.size.get ORIG_RES) :
    share_inv { file := file1, header := header1, metadata := f.metadata.set k m } := by
  obtain ⟨hlen, hpos, hoff, hshare⟩ := hinv
  refine ⟨by simpa [hmax] using hlen, by simp only; omega, ?_, ?_⟩
  · intro i hi hv
    have hi2 : i < f.metadata.length := by simpa using hi
    rw [entry_update f file1 header1 k i m hi2] at hv ⊢
    by_cases hik : i = k
    · rw [if_pos hik] at hv ⊢
      exact hb hv
    · rw [if_neg hik] at hv ⊢
      exact hoff i hi2 hv
  · intro i hi j hj hvi hvj hsha
    have hi2 : i < f.metadata.length := by simpa using hi
    have hj2 : j < f.metadata.length := by simpa using hj
    rw [entry_update f file1 header1 k i m hi2] at hvi hsha ⊢
    rw [entry_update f file1 header1 k j m hj2] at hvj hsha ⊢
    by_cases hik : i = k <;> by_cases hjk : j = k
    · rw [if_pos hik, if_pos hjk]
      exact ⟨rfl, rfl⟩
    · rw [if_pos hik] at hvi hsha ⊢
      rw [if_neg hjk] at hvj hsha ⊢
      have := hc hvi j hj2 hjk hvj hsha.symm
      exact ⟨this.1.symm, this.2.symm⟩
    · rw [if_neg hik] at hvi hsha ⊢
      rw [if_pos hjk] at hvj hsha ⊢
      exact hc hvj i hi2 hik hvi hsha
    · rw [if_neg hik] at hvi hsha ⊢
      rw [if_neg hjk] at hvj hsha ⊢
      exact hshare i hi2 j hj2 hvi hvj hsha

theorem share_inv_create (env : Env) (stdio : Nat → Bool) (f0 s0 : imgfs_file)
    (hsz : 0 < env.sizeof_imgfs_header) (hc : do_create env stdio f0 = (ERR_NONE, s0)) :
    share_inv s0 := by
  obtain ⟨h1, -, -, -, h5, h6⟩ := do_create_ok env stdio f0 s0 hc
  have hent : ∀ i, (s0.entry i).is_valid = EMPTY := by
    intro i
    unfold imgfs_file.entry
    rw [h5]
    by_cases hi : i < f0.header.max_files
    · simp [List.getElem?_replicate, hi, zero_metadata, EMPTY]
    · simp [List.getElem?_replicate, hi, zero_metadata, EMPTY]
  refine ⟨by rw [h5, h1]; simp, ?_, ?_, ?_⟩
  · rw [h6]
    simp only [List.length_append, length_header_bytes]
    omega
  · intro i _ hv
    exact absurd (hent i) hv
  · intro i _ j _ hv
    exact absurd (hent i) hv

theorem share_inv_insert (env : Env) (stdio : Nat → Bool) (b id : List Nat) (f : imgfs_file)
    (hinv : share_inv f) (hok : (do_insert env stdio b id f).1 = ERR_NONE) :
    share_inv (do_insert env stdio b id f).2 := by
  obtain ⟨hnf, k, file1, m, hk, heq, hfl, hmv, hms, hcase⟩ := do_insert_ok env stdio b id f hok
  obtain ⟨hkm, hkl, hkv, -⟩ := find_free_index_some hk
  have hinv0 := hinv
  obtain ⟨hlen, hpos, hoff, hshare⟩ := hinv
  rw [heq]
  apply share_inv_update f file1 (bump_header f.header) k m hinv0 rfl hfl
  · intro _
    rcases hcase with ⟨n, hnl, hnk, hnv, hns, hno, hmo, hmsz⟩ | ⟨hmo, _⟩
    · rw [hmo]; exact hno
    · rw [hmo]; omega
  · intro _ j hj hjk hjv hjs
    rcases hcase with ⟨n, hnl, hnk, hnv, hns, hno, hmo, hmsz⟩ | ⟨hmo, hrest⟩
    · rw [hmo, hmsz]
      exact hshare j hj n hnl hjv hnv (by rw [hjs, hms, hns])
    · rcases hrest with ⟨n, hnl, hnk, hnv, hno⟩ | hfresh
      · exact absurd hno (hoff n hnl hnv)
      · exact absurd (hjs.trans hms) (hfresh j hj (by omega) hjk hjv)

theorem share_inv_delete (env : Env) (stdio : Nat → Bool) (id : List Nat) (f : imgfs_file)
    (hinv : share_inv f) (hok : (do_delete env stdio id f).1 = ERR_NONE) :
    share_inv (do_delete env stdio id f).2 := by
  rcases do_delete_cases env stdio id f with h | h | ⟨hnb, i, hi, h⟩
  · rw [h] at hok; cases hok
  · rw [h] at hok; cases hok
  · rw [h]
    apply share_inv_update f _ (drop_header f.header) i _ hinv rfl
    · refine Nat.le_trans ?_ (length_fwrite_at_ge _ _ _)
      exact length_fwrite_at_ge _ _ _
    · intro hv
      exact absurd rfl hv
    · intro hv
      exact absurd rfl hv

theorem share_inv_read (env : Env) (stdio : Nat → Bool) (id : List Nat) (r : Int)
    (f : imgfs_file) (hinv : share_inv f) :
    share_inv (step env (store_op.read stdio id r) f).2 := by
  rcases step_read_effect env stdio id r f with h | ⟨i, a, b, file1, hr, hfl, hv, h⟩
  · rw [h]; exact hinv
  · rw [h]
    have hinv0 := hinv
    obtain ⟨hlen, hpos, hoff, hshare⟩ := hinv
    have hil : i < f.metadata.length := by
      by_contra hil
      have : f.entry i = zero_metadata := by
        unfold imgfs_file.entry
        simp [List.getElem?_eq_none (Nat.le_of_not_lt hil)]
      rw [this] at hv
      simp [zero_metadata, NON_EMPTY] at hv
    have hvi : (f.entry i).is_valid ≠ EMPTY := by
      rw [hv]; simp [EMPTY, NON_EMPTY]
    apply share_inv_update f file1 f.header i _ hinv0 rfl hfl
    · intro _
      show ((f.entry i).offset.set r a).get ORIG_RES ≠ 0
      rw [res_array_get_set_orig _ _ _ hr]
      exact hoff i hil hvi
    · intro _ j hj hjk hjv hjs
      show (f.entry j).offset.get ORIG_RES = ((f.entry i).offset.set r a).get ORIG_RES ∧
        (f.entry j).size.get ORIG_RES = ((f.entry i).size.set r b).get ORIG_RES
      rw [res_array_get_set_orig _ _ _ hr, res_array_get_set_orig _ _ _ hr]
      exact hshare j hj i hil hjv hvi hjs

theorem share_inv_run (env : Env) (ops : List store_op) (f : imgfs_file) (hinv : share_inv f)
    (hok : ∀ e ∈ (run env ops f).1, e = ERR_NONE) : share_inv (run env ops f).2 := by
  induction ops generalizing f with
  | nil => exact hinv
  | cons op ops ih =>
    simp only [run, List.mem_cons, forall_eq_or_imp] at hok ⊢
    apply ih _ _ hok.2
    cases op with
    | insert stdio b id => exact share_inv_insert env stdio b id f hinv hok.1
    | delete stdio id => exact share_inv_delete env stdio id f hinv hok.1
    | read stdio id r => exact share_inv_read env stdio id r f hinv

/-! ## The claims -/

/-- C1. Count invariant: starting from the store written by a successful
`do_create`, after every finite sequence of store calls none of which
returns `ERR_IO` (so every `do_insert` and `do_delete` either succeeds or
fails with Full, DuplicateId, ImageNotFound or a codec error),
`header.nb_files` equals the number of metadata entries whose `is_valid` is
NON_EMPTY. -/
theorem count_invariant (env : Env) (stdio : Nat → Bool) (f0 s0 : imgfs_file)
    (ops : List store_op) (hmax : f0.header.max_files < 2 ^ 32)
    (hcreate : do_create env stdio f0 = (ERR_NONE, s0))
    (hio : ERR_IO ∉ (run env ops s0).1) :
    (run env ops s0).2.header.nb_files = count_non_empty (run env ops s0).2 :=
  (count_inv_run env ops s0 (count_inv_create env stdio f0 s0 hmax hcreate) hio).2.2

/-- Witness of C1: the calls of `sample_ops` on a fresh two-slot store return
success, `ERR_IMGLIB`, `ERR_DUPLICATE_ID`, `ERR_IMAGE_NOT_FOUND` and
`ERR_IMGFS_FULL`, and leave two NON_EMPTY entries. -/
theorem count_invariant_witness :
    (blank_store 2).header.max_files < 2 ^ 32 ∧
      (do_create sample_env stdio_ok (blank_store 2)).1 = ERR_NONE ∧
      (run sample_env sample_ops (do_create sample_env stdio_ok (blank_store 2)).2).1 =
        [ERR_NONE, ERR_IMGLIB, ERR_DUPLICATE_ID, ERR_IMAGE_NOT_FOUND, ERR_NONE, ERR_IMGFS_FULL,
          ERR_NONE, ERR_NONE, ERR_NONE] ∧
      (run sample_env sample_ops
        (do_create sample_env stdio_ok (blank_store 2)).2).2.header.nb_files = 2 ∧
      (run sample_env sample_ops (do_create sample_env stdio_ok (blank_store 2)).2).2.header.nb_files =
        count_non_empty
          (run sample_env sample_ops (do_create sample_env stdio_ok (blank_store 2)).2).2 :=
  ⟨by decide, by decide, by decide, by decide,
    count_invariant sample_env stdio_ok (blank_store 2)
      (do_create sample_env stdio_ok (blank_store 2)).2 sample_ops (by decide) (by decide)
      (by decide)⟩

/-- C2, evaluated at the failing input. The store `store_ab` holds `a` and
`b` with distinct ids; inserting the image already stored under `a` with the
id `b` succeeds (the scan stops at the content match in slot 0 before it
reaches slot 1), and the ids of the NON_EMPTY entries are no longer pairwise
distinct. -/
theorem do_insert_breaks_unique_ids :
    unique_ids store_ab ∧
      (do_insert sample_env stdio_ok [255, 216, 1] [98] store_ab).1 = ERR_NONE ∧
      live_ids (do_insert sample_env stdio_ok [255, 216, 1] [98] store_ab).2 =
        [[97], [98], [98]] ∧
      ¬ unique_ids (do_insert sample_env stdio_ok [255, 216, 1] [98] store_ab).2 := by
  decide

/-- C3, counterexample. The store `store_ab` is not full and holds a
NON_EMPTY entry with the id `a`, yet inserting under `a` a buffer the codec
rejects returns `ERR_IMGLIB`, not `ERR_DUPLICATE_ID`: the codec runs before
the deduplication pass. -/
theorem duplicate_id_codec_first :
    store_ab.header.nb_files < store_ab.header.max_files ∧
      (store_ab.entry 0).is_valid = NON_EMPTY ∧
      strncmp_eq (store_ab.entry 0).img_id [97] MAX_IMG_ID = true ∧
      (do_insert sample_env stdio_ok [7, 7] [97] store_ab).1 = ERR_IMGLIB ∧
      (do_insert sample_env stdio_ok [7, 7] [97] store_ab).1 ≠ ERR_DUPLICATE_ID := by
  decide

/-- C3, amended. In a store with `nb_files < max_files` and an EMPTY slot,
if slot `j` is NON_EMPTY with the id `img_id`, the codec decodes the buffer,
and no live entry stored below `j` has the buffer's SHA-256, then `do_insert`
returns `ERR_DUPLICATE_ID` and the store is unchanged. -/
theorem do_insert_duplicate_id (env : Env) (stdio : Nat → Bool) (image_buffer img_id : List Nat)
    (f : imgfs_file) (k j : Nat)
    (hnf : f.header.nb_files < f.header.max_files)
    (hk : find_free_index f = some k)
    (hdec : get_resolution env image_buffer ≠ none)
    (hj : j < f.header.max_files) (hjl : j < f.metadata.length)
    (hjv : (f.entry j).is_valid = NON_EMPTY)
    (hjid : strncmp_eq (f.entry j).img_id img_id MAX_IMG_ID = true)
    (hsha : ∀ i, i < j → (f.entry i).is_valid ≠ EMPTY →
      (f.entry i).SHA ≠ env.SHA256 image_buffer) :
    do_insert env stdio image_buffer img_id f = (ERR_DUPLICATE_ID, f) := by
  obtain ⟨hkm, hkl, hkv, -⟩ := find_free_index_some hk
  cases hr : get_resolution env image_buffer with
  | none => exact absurd hr hdec
  | some hw =>
    obtain ⟨h, w⟩ := hw
    have hjk : j ≠ k := by
      intro hjk
      rw [hjk, hkv] at hjv
      simp [EMPTY, NON_EMPTY] at hjv
    have hjne : (f.entry j).is_valid ≠ EMPTY := by
      rw [hjv]; simp [EMPTY, NON_EMPTY]
    have hget : ∀ n, n < min f.header.max_files f.metadata.length → n ≠ k →
        (List.take f.header.max_files
          (f.metadata.set k (tentative_metadata env image_buffer img_id (f.entry k) h w))).getD n
            zero_metadata = f.entry n := by
      intro n hn hnk
      rw [getD_take_set _ _ _ _ _ hn, if_neg hnk]
      rfl
    have hjmin : j < min f.header.max_files f.metadata.length := by omega
    rw [do_insert_eq env stdio image_buffer img_id f k h w hnf hk hr]
    cases hs : dedup_loop (tentative_metadata env image_buffer img_id (f.entry k) h w) k 0
        ((f.metadata.set k (tentative_metadata env image_buffer img_id (f.entry k) h w)).take
          f.header.max_files) with
    | duplicate => rfl
    | shared cur =>
      exfalso
      obtain ⟨n, hn, hnk, hcur, hcv, hcs, hcid, hbefore⟩ := dedup_loop_shared hs
      rw [length_take_set] at hn
      have hnk2 : n ≠ k := by omega
      have hcur2 : f.entry n = cur := by rw [← hget n hn hnk2]; exact hcur
      rcases Nat.lt_trichotomy j n with hlt | heq | hgt
      · have := (hbefore j hlt (by omega) (by rw [hget j hjmin hjk]; exact hjne)).2
        rw [hget j hjmin hjk, tentative_img_id, hjid] at this
        cases this
      · subst heq
        rw [← hcur2, tentative_img_id, hjid] at hcid
        cases hcid
      · apply hsha n hgt (by rw [hcur2]; exact hcv)
        rw [hcur2, hcs]
        rfl
    | fresh =>
      exfalso
      have := (dedup_loop_fresh hs j (by rw [length_take_set]; exact hjmin) (by omega)
        (by rw [hget j hjmin hjk]; exact hjne)).2
      rw [hget j hjmin hjk, tentative_img_id, hjid] at this
      cases this

/-- Witness of the amended C3: a new decodable image under the id `b`, which
slot 1 of `store_ab` already holds. -/
theorem do_insert_duplicate_id_witness :
    store_ab.header.nb_files < store_ab.header.max_files ∧
      find_free_index store_ab = some 2 ∧
      get_resolution sample_env [255, 216, 9] ≠ none ∧
      (store_ab.entry 1).is_valid = NON_EMPTY ∧
      strncmp_eq (store_ab.entry 1).img_id [98] MAX_IMG_ID = true ∧
      do_insert sample_env stdio_ok [255, 216, 9] [98] store_ab = (ERR_DUPLICATE_ID, store_ab) :=
  ⟨by decide, by decide, by decide, by decide, by decide,
    do_insert_duplicate_id sample_env stdio_ok [255, 216, 9] [98] store_ab 2 1
      (by decide) (by decide) (by decide) (by decide) (by decide) (by decide) (by decide)
      (by decide)⟩

/-- C4, evaluated at the failing input. After the successful insert of the
image `255, 216, 1` under the id `b` into `store_ab`, reading `b` at the
original resolution succeeds and returns the other image `255, 216, 2`. -/
theorem insert_then_read_other_image :
    (do_insert sample_env stdio_ok [255, 216, 1] [98] store_ab).1 = ERR_NONE ∧
      do_read sample_env stdio_ok [98] ORIG_RES
          (do_insert sample_env stdio_ok [255, 216, 1] [98] store_ab).2 =
        (ERR_NONE, (do_insert sample_env stdio_ok [255, 216, 1] [98] store_ab).2,
          some ([255, 216, 2], 3)) := by
  decide

/-- C5, evaluated at the failing input. After the successful delete of `a`
no NON_EMPTY entry has the id `a`, yet reading `a` at the original
resolution succeeds and returns the deleted image. -/
theorem read_after_delete_succeeds :
    (do_delete sample_env stdio_ok [97] store_a).1 = ERR_NONE ∧
      live_ids (do_delete sample_env stdio_ok [97] store_a).2 = [] ∧
      do_read sample_env stdio_ok [97] ORIG_RES (do_delete sample_env stdio_ok [97] store_a).2 =
        (ERR_NONE, (do_delete sample_env stdio_ok [97] store_a).2, some ([255, 216, 1], 3)) := by
  decide

/-- C6. Content deduplication appends nothing: in a well-formed store, a
successful `do_insert` of a buffer whose SHA-256 is the SHA of a NON_EMPTY
entry leaves the length of the file unchanged, and the new entry (the one in
the free slot `k`) has the `offset[ORIG_RES]` of a NON_EMPTY entry `n` with
that SHA, the first one the scan meets. -/
theorem dedup_insert_appends_nothing (env : Env) (stdio : Nat → Bool)
    (image_buffer img_id : List Nat) (f : imgfs_file) (j : Nat)
    (hwf : well_formed env f)
    (hj : j < f.metadata.length) (hjv : (f.entry j).is_valid = NON_EMPTY)
    (hjs : (f.entry j).SHA = env.SHA256 image_buffer)
    (hok : (do_insert env stdio image_buffer img_id f).1 = ERR_NONE) :
    (do_insert env stdio image_buffer img_id f).2.file.length = f.file.length ∧
      ∃ k n, find_free_index f = some k ∧ n < f.metadata.length ∧ n ≠ k ∧
        (f.entry n).is_valid = NON_EMPTY ∧ (f.entry n).SHA = env.SHA256 image_buffer ∧
        (∀ i, i < n → (f.entry i).is_valid = NON_EMPTY →
          (f.entry i).SHA ≠ env.SHA256 image_buffer) ∧
        ((do_insert env stdio image_buffer img_id f).2.entry k).is_valid = NON_EMPTY ∧
        ((do_insert env stdio image_buffer img_id f).2.entry k).offset.get ORIG_RES =
          (f.entry n).offset.get ORIG_RES := by
  obtain ⟨hlen, hfile, hent⟩ := hwf
  obtain ⟨hnf, k, h, w, hk, hr⟩ := do_insert_ok_inv env stdio image_buffer img_id f hok
  obtain ⟨hkm, hkl, hkv, -⟩ := find_free_index_some hk
  have hjk : j ≠ k := by
    intro hjk
    rw [hjk, hkv] at hjv
    simp [EMPTY, NON_EMPTY] at hjv
  have hne : NON_EMPTY ≠ EMPTY := by simp [EMPTY, NON_EMPTY]
  have hget : ∀ n, n < min f.header.max_files f.metadata.length → n ≠ k →
      (List.take f.header.max_files
        (f.metadata.set k (tentative_metadata env image_buffer img_id (f.entry k) h w))).getD n
          zero_metadata = f.entry n := by
    intro n hn hnk
    rw [getD_take_set _ _ _ _ _ hn, if_neg hnk]
    rfl
  have hjmin : j < min f.header.max_files f.metadata.length := by omega
  have htsha : (tentative_metadata env image_buffer img_id (f.entry k) h w).SHA =
      env.SHA256 image_buffer := rfl
  rw [do_insert_eq env stdio image_buffer img_id f k h w hnf hk hr] at hok ⊢
  cases hs : dedup_loop (tentative_metadata env image_buffer img_id (f.entry k) h w) k 0
      ((f.metadata.set k (tentative_metadata env image_buffer img_id (f.entry k) h w)).take
        f.header.max_files) with
  | duplicate =>
    rw [hs] at hok
    cases hok
  | fresh =>
    exfalso
    have := (dedup_loop_fresh hs j (by rw [length_take_set]; exact hjmin) (by omega)
      (by rw [hget j hjmin hjk, hjv]; exact hne)).1
    rw [hget j hjmin hjk, htsha] at this
    exact this hjs
  | shared cur =>
    rw [hs] at hok
    simp only at hok ⊢
    obtain ⟨n, hn, hnk, hcur, hcv, hcs, -, hbefore⟩ := dedup_loop_shared hs
    rw [length_take_set] at hn
    have hnk2 : n ≠ k := by omega
    have hnl : n < f.metadata.length := by omega
    have hcur2 : f.entry n = cur := by rw [← hget n hn hnk2]; exact hcur
    have hnv : (f.entry n).is_valid = NON_EMPTY := by
      rcases (hent _ (entry_mem f n hnl)).1 with h0 | h1
      · rw [hcur2] at h0; exact absurd h0 hcv
      · exact h1
    have hoff : cur.offset.get ORIG_RES ≠ 0 := by
      rw [← hcur2]
      exact (hent _ (entry_mem f n hnl)).2 hnv
    have hgk : ((f.set_entry k
        { tentative_metadata env image_buffer img_id (f.entry k) h w with
          offset := cur.offset, size := cur.size }).entry k) =
        { tentative_metadata env image_buffer img_id (f.entry k) h w with
          offset := cur.offset, size := cur.size } := entry_set_entry_same f k _ hkl
    rw [insert_commit_shared_ok env stdio image_buffer k _ (by rw [hgk]; exact hoff) hok]
    refine ⟨?_, k, n, hk, hnl, hnk2, hnv, ?_, ?_, ?_, ?_⟩
    · exact length_write_back env _ _ _ k f.header.max_files hkm hfile
    · rw [hcur2, hcs]; rfl
    · intro i hi hiv his
      have hik : i ≠ k := by
        intro hik
        rw [hik, hkv] at hiv
        exact hne hiv.symm
      have hil : i < min f.header.max_files f.metadata.length := by omega
      have := (hbefore i hi (by omega) (by rw [hget i hil hik, hiv]; exact hne)).1
      rw [hget i hil hik, htsha] at this
      exact this his
    · show ((f.set_entry k _).entry k).is_valid = NON_EMPTY
      rw [hgk]
      rfl
    · show ((f.set_entry k _).entry k).offset.get ORIG_RES = _
      rw [hgk, ← hcur2]

/-- Witness of C6: the image already stored under `a` is inserted again under
the new id `c` into the well-formed store `store_ab`. -/
theorem dedup_insert_appends_nothing_witness :
    well_formed sample_env store_ab ∧
      (store_ab.entry 0).is_valid = NON_EMPTY ∧
      (store_ab.entry 0).SHA = sample_env.SHA256 [255, 216, 1] ∧
      (do_insert sample_env stdio_ok [255, 216, 1] [99] store_ab).1 = ERR_NONE ∧
      (do_insert sample_env stdio_ok [255, 216, 1] [99] store_ab).2.file.length =
        store_ab.file.length :=
  ⟨by decide, by decide, by decide, by decide,
    (dedup_insert_appends_nothing sample_env stdio_ok [255, 216, 1] [99] store_ab 0
      (by decide) (by decide) (by decide) (by decide) (by decide)).1⟩

/-- C7, counterexample. On a fresh store the same image is inserted under
`a` and under `c` and then read as a thumbnail under each id; all four calls
succeed. Slots 0 and 1 are then NON_EMPTY with the same SHA and both have a
thumbnail (`size[THUMB_RES] > 0`), but at different offsets: each read
materialized its own copy. -/
theorem shared_variant_fails :
    (run sample_env sample_share_ops store_empty).1 = [ERR_NONE, ERR_NONE, ERR_NONE, ERR_NONE] ∧
      ((run sample_env sample_share_ops store_empty).2.entry 0).is_valid = NON_EMPTY ∧
      ((run sample_env sample_share_ops store_empty).2.entry 1).is_valid = NON_EMPTY ∧
      ((run sample_env sample_share_ops store_empty).2.entry 0).SHA =
        ((run sample_env sample_share_ops store_empty).2.entry 1).SHA ∧
      0 < ((run sample_env sample_share_ops store_empty).2.entry 0).size.get THUMB_RES ∧
      0 < ((run sample_env sample_share_ops store_empty).2.entry 1).size.get THUMB_RES ∧
      ((run sample_env sample_share_ops store_empty).2.entry 0).offset.get THUMB_RES ≠
        ((run sample_env sample_share_ops store_empty).2.entry 1).offset.get THUMB_RES := by
  decide

/-- C7, amended. After any sequence of successful `do_insert`, `do_read`
(with the `lazily_resize` it triggers) and `do_delete` calls on a freshly
created store, any two NON_EMPTY entries with equal SHA have the same
`offset[ORIG_RES]` and the same `size[ORIG_RES]`: the original image is
stored once. (The header struct is not empty, `sizeof > 0`.) -/
theorem shared_original (env : Env) (stdio : Nat → Bool) (f0 s0 : imgfs_file)
    (ops : List store_op) (i j : Nat) (hsz : 0 < env.sizeof_imgfs_header)
    (hcreate : do_create env stdio f0 = (ERR_NONE, s0))
    (hok : ∀ e ∈ (run env ops s0).1, e = ERR_NONE)
    (hi : i < (run env ops s0).2.metadata.length) (hj : j < (run env ops s0).2.metadata.length)
    (hvi : ((run env ops s0).2.entry i).is_valid = NON_EMPTY)
    (hvj : ((run env ops s0).2.entry j).is_valid = NON_EMPTY)
    (hsha : ((run env ops s0).2.entry i).SHA = ((run env ops s0).2.entry j).SHA) :
    ((run env ops s0).2.entry i).offset.get ORIG_RES =
        ((run env ops s0).2.entry j).offset.get ORIG_RES ∧
      ((run env ops s0).2.entry i).size.get ORIG_RES =
        ((run env ops s0).2.entry j).size.get ORIG_RES := by
  have hinv := share_inv_run env ops s0 (share_inv_create env stdio f0 s0 hsz hcreate) hok
  have hne : NON_EMPTY ≠ EMPTY := by simp [EMPTY, NON_EMPTY]
  exact hinv.2.2.2 i hi j hj (by rw [hvi]; exact hne) (by rw [hvj]; exact hne) hsha

/-- Witness of the amended C7: after the calls of `sample_share_ops` the
entries of `a` and `c` share the original image at offset 10 with size 3. -/
theorem shared_original_witness :
    0 < sample_env.sizeof_imgfs_header ∧
      do_create sample_env stdio_ok (blank_store 3) = (ERR_NONE, store_empty) ∧
      (∀ e ∈ (run sample_env sample_share_ops store_empty).1, e = ERR_NONE) ∧
      ((run sample_env sample_share_ops store_empty).2.entry 0).offset.get ORIG_RES = 10 ∧
      ((run sample_env sample_share_ops store_empty).2.entry 0).offset.get ORIG_RES =
          ((run sample_env sample_share_ops store_empty).2.entry 1).offset.get ORIG_RES ∧
      ((run sample_env sample_share_ops store_empty).2.entry 0).size.get ORIG_RES =
          ((run sample_env sample_share_ops store_empty).2.entry 1).size.get ORIG_RES :=
  ⟨by decide, by decide, by decide, by decide,
    shared_original sample_env stdio_ok (blank_store 3) store_empty sample_share_ops 0 1
      (by decide) (by decide) (by decide) (by decide) (by decide) (by decide) (by decide)
      (by decide)⟩

/-- C8. Capacity check comes first: when `header.nb_files` equals
`header.max_files`, `do_insert` returns `ERR_IMGFS_FULL` for every image
buffer and id, whatever the codec and the stdio calls would do, and the
header, every metadata entry and the file content are unchanged. -/
theorem do_insert_full_first (env : Env) (stdio : Nat → Bool) (image_buffer img_id : List Nat)
    (f : imgfs_file) (hfull : f.header.nb_files = f.header.max_files) :
    do_insert env stdio image_buffer img_id f = (ERR_IMGFS_FULL, f) := by
  unfold do_insert
  rw [if_pos (by omega)]

/-- Witness of C8: the three-slot store holding three images is full, and an
insert of a buffer the codec rejects is refused with `ERR_IMGFS_FULL`. -/
theorem do_insert_full_first_witness :
    (do_insert sample_env stdio_ok [255, 216, 3] [99] store_ab).2.header.nb_files =
        (do_insert sample_env stdio_ok [255, 216, 3] [99] store_ab).2.header.max_files ∧
      do_insert sample_env (fun _ => false) [0] [100]
          (do_insert sample_env stdio_ok [255, 216, 3] [99] store_ab).2 =
        (ERR_IMGFS_FULL, (do_insert sample_env stdio_ok [255, 216, 3] [99] store_ab).2) :=
  ⟨by decide, do_insert_full_first sample_env (fun _ => false) [0] [100] _ (by decide)⟩

/-- C9, evaluated at the failing inputs. An insert of a buffer the codec
rejects into the fresh store returns `ERR_IMGLIB`, and the chosen slot 0 no
longer has its former content: it holds the new id, digest and size. An
insert whose header write fails (stdio call `3`) returns `ERR_IO` and leaves
slot 0 NON_EMPTY and the in-memory counters bumped. -/
theorem failed_insert_leaves_trace :
    (do_insert sample_env stdio_ok [7, 7] [97] store_empty).1 = ERR_IMGLIB ∧
      (do_insert sample_env stdio_ok [7, 7] [97] store_empty).2.metadata ≠ store_empty.metadata ∧
      c_str ((do_insert sample_env stdio_ok [7, 7] [97] store_empty).2.entry 0).img_id = [97] ∧
      ((do_insert sample_env stdio_ok [7, 7] [97] store_empty).2.entry 0).SHA = [7, 7] ∧
      ((do_insert sample_env stdio_ok [7, 7] [97] store_empty).2.entry 0).size.get ORIG_RES = 2 ∧
      c_str (store_empty.entry 0).img_id = [] ∧
      (store_empty.entry 0).SHA ≠ [7, 7] ∧
      (do_insert sample_env (fun n => n != 3) [255, 216, 1] [97] store_empty).1 = ERR_IO ∧
      ((do_insert sample_env (fun n => n != 3) [255, 216, 1] [97] store_empty).2.entry 0).is_valid =
        NON_EMPTY ∧
      (store_empty.entry 0).is_valid = EMPTY ∧
      (do_insert sample_env (fun n => n != 3) [255, 216, 1] [97] store_empty).2.header ≠
        store_empty.header := by
  decide

/-- C10. DuplicateId is atomic: whenever `do_insert` returns
`ERR_DUPLICATE_ID`, the store after the call (in-memory header, every
metadata entry including the tentatively filled slot, and every byte of the
file) is the store before the call. -/
theorem do_insert_duplicate_atomic (env : Env) (stdio : Nat → Bool)
    (image_buffer img_id : List Nat) (f : imgfs_file)
    (hdup : (do_insert env stdio image_buffer img_id f).1 = ERR_DUPLICATE_ID) :
    (do_insert env stdio image_buffer img_id f).2 = f := by
  by_cases hnf : f.header.nb_files < f.header.max_files
  · cases hk : find_free_index f with
    | none =>
      unfold do_insert
      rw [if_neg (Nat.not_le.mpr hnf)]
      simp only [hk]
    | some k =>
      cases hr : get_resolution env image_buffer with
      | none =>
        unfold do_insert at hdup
        rw [if_neg (Nat.not_le.mpr hnf)] at hdup
        simp only [hk, hr] at hdup
        cases hdup
      | some hw =>
        obtain ⟨h, w⟩ := hw
        rw [do_insert_eq env stdio image_buffer img_id f k h w hnf hk hr] at hdup ⊢
        split at hdup
        · rfl
        · rcases insert_commit_code env stdio image_buffer k _ with hc | hc
          · rw [hc] at hdup; cases hdup
          · rw [hc] at hdup; cases hdup
        · rcases insert_commit_code env stdio image_buffer k _ with hc | hc
          · rw [hc] at hdup; cases hdup
          · rw [hc] at hdup; cases hdup
  · unfold do_insert
    rw [if_pos (by omega)]

/-- Witness of C10: inserting a new image under the id `b` that the store
already holds is refused with `ERR_DUPLICATE_ID` and changes nothing. -/
theorem do_insert_duplicate_atomic_witness :
    (do_insert sample_env stdio_ok [255, 216, 7] [98] store_ab).1 = ERR_DUPLICATE_ID ∧
      (do_insert sample_env stdio_ok [255, 216, 7] [98] store_ab).2 = store_ab :=
  ⟨by decide, do_insert_duplicate_atomic sample_env stdio_ok [255, 216, 7] [98] store_ab
    (by decide)⟩

/-! ## Layout written by `do_create` -/

theorem length_flatten_replicate (n : Nat) (l : List Nat) :
    (List.replicate n l).flatten.length = n * l.length := by
  induction n with
  | zero => simp
  | succ n ih =>
    rw [List.replicate_succ, List.flatten_cons, List.length_append, ih]
    rw [Nat.succ_mul]
    omega

/-- C15. Create layout: a successful `do_create`, for every `max_files`, writes
a file that is the header (version 0, nb_files 0, `max_files` and
`resized_res` as the caller supplied them) followed by exactly `max_files`
copies of the all-zero metadata entry and nothing else, so its size is
`sizeof(header) + max_files * sizeof(metadata)`, and the in-memory table
consists of `max_files` all-zero, hence EMPTY, entries. -/
theorem do_create_layout (env : Env) (stdio : Nat → Bool) (f0 s0 : imgfs_file)
    (hc : do_create env stdio f0 = (ERR_NONE, s0)) :
    s0.header.version = 0 ∧ s0.header.nb_files = 0 ∧
      s0.header.max_files = f0.header.max_files ∧
      s0.header.resized_res = f0.header.resized_res ∧
      s0.file = header_bytes env s0.header ++
        (List.replicate f0.header.max_files (metadata_bytes env zero_metadata)).flatten ∧
      s0.file.length =
        env.sizeof_imgfs_header + f0.header.max_files * env.sizeof_img_metadata ∧
      s0.metadata = List.replicate f0.header.max_files zero_metadata ∧
      (∀ i, (s0.entry i).is_valid = EMPTY) ∧
      zero_metadata =
        ⟨List.replicate (MAX_IMG_ID + 1) 0, List.replicate 32 0, (0, 0), ⟨0, 0, 0⟩, ⟨0, 0, 0⟩, 0,
          0⟩ := by
  obtain ⟨h1, h2, h3, h4, h5, h6⟩ := do_create_ok env stdio f0 s0 hc
  have hfile : s0.file = header_bytes env s0.header ++
      (List.replicate f0.header.max_files (metadata_bytes env zero_metadata)).flatten := by
    rw [h6, List.map_replicate]
  refine ⟨h3, h2, h1, h4, hfile, ?_, h5, ?_, rfl⟩
  · rw [hfile, List.length_append, length_header_bytes, length_flatten_replicate,
      length_metadata_bytes]
  · intro i
    unfold imgfs_file.entry
    rw [h5]
    by_cases hi : i < f0.header.max_files
    · simp [List.getElem?_replicate, hi, zero_metadata, EMPTY]
    · simp [List.getElem?_replicate, hi, zero_metadata, EMPTY]

/-- Witness of C15: creation of a two-slot store in the sample environment
(4-byte header, 2-byte entries) gives an 8-byte file. -/
theorem do_create_layout_witness :
    (do_create sample_env stdio_ok (blank_store 2)).1 = ERR_NONE ∧
      (do_create sample_env stdio_ok (blank_store 2)).2.file = [0, 0, 2, 0, 0, 0, 0, 0] ∧
      (do_create sample_env stdio_ok (blank_store 2)).2.file.length = 4 + 2 * 2 :=
  ⟨by decide, by decide,
    (do_create_layout sample_env stdio_ok (blank_store 2)
      (do_create sample_env stdio_ok (blank_store 2)).2 (by decide)).2.2.2.2.2.1⟩

/-! ## Listing -/

theorem list_loop_eq (acc : json_array) (l : List img_metadata) :
    list_loop acc l =
      acc ++ (l.filter (fun m => m.is_valid == NON_EMPTY)).map (fun m => c_str m.img_id) := by
  induction l generalizing acc with
  | nil => simp [list_loop]
  | cons m rest ih =>
    unfold list_loop
    by_cases hv : m.is_valid = NON_EMPTY
    · rw [if_pos hv, ih]
      simp [List.filter_cons, hv]
    · rw [if_neg hv, ih]
      simp [List.filter_cons, hv]

theorem filter_map_by_index {α β : Type} (d : α) (p : α → Bool) (g : α → β) (l : List α) :
    (l.filter p).map g =
      ((List.range l.length).filter (fun i => p (l.getD i d))).map (fun i => g (l.getD i d)) := by
  induction l using List.reverseRecOn with
  | nil => simp
  | append_singleton l a ih =>
    have hfilter : (List.range l.length).filter (fun i => p ((l ++ [a]).getD i d)) =
        (List.range l.length).filter (fun i => p (l.getD i d)) := by
      apply List.filter_congr
      intro i hi
      have hi2 : i < l.length := List.mem_range.mp hi
      simp [List.getElem?_append_left hi2]
    have hmap : ((List.range l.length).filter (fun i => p (l.getD i d))).map
        (fun i => g ((l ++ [a]).getD i d)) =
        ((List.range l.length).filter (fun i => p (l.getD i d))).map
          (fun i => g (l.getD i d)) := by
      apply List.map_congr_left
      intro i hi
      have hi2 : i < l.length := List.mem_range.mp (List.mem_filter.mp hi).1
      simp [List.getElem?_append_left hi2]
    have hlast : (l ++ [a]).getD l.length d = a := by simp
    rw [List.length_append, List.length_singleton, List.range_succ, List.filter_append,
      List.map_append, List.filter_append, List.map_append, hfilter, hmap, ← ih]
    congr 1
    by_cases hp : p a
    · simp [List.filter_cons, hp, hlast]
    · simp [List.filter_cons, hp, hlast]

/-- C14. List content and order: for every store (whose table has
`max_files` entries) `do_list` in JSON mode succeeds and returns an object
with the single key `Images` whose array is exactly the `img_id` strings of
the slots with `is_valid == NON_EMPTY`, in ascending slot index; its length
is the number of NON_EMPTY entries and EMPTY slots contribute nothing. -/
theorem do_list_json (f : imgfs_file) (hlen : f.metadata.length = f.header.max_files) :
    ∃ images : json_array,
      do_list f do_list_mode.JSON = (ERR_NONE, some ⟨[("Images", images)]⟩) ∧
      images =
        ((List.range f.header.max_files).filter
          (fun i => (f.entry i).is_valid == NON_EMPTY)).map (fun i => c_str (f.entry i).img_id) ∧
      images.length = count_non_empty f := by
  refine ⟨list_loop [] (f.metadata.take f.header.max_files), rfl, ?_, ?_⟩
  · rw [list_loop_eq, List.nil_append, List.take_of_length_le (by omega),
      filter_map_by_index zero_metadata, hlen]
    rfl
  · rw [list_loop_eq, List.nil_append, List.take_of_length_le (by omega), List.length_map]
    unfold count_non_empty
    rw [List.countP_eq_length_filter]

/-- Witness of C14: the store holding `a` and `b` and one EMPTY slot lists the
two ids in slot order. -/
theorem do_list_json_witness :
    store_ab.metadata.length = store_ab.header.max_files ∧
      do_list store_ab do_list_mode.JSON = (ERR_NONE, some ⟨[("Images", [[97], [98]])]⟩) ∧
      (∃ images : json_array,
        do_list store_ab do_list_mode.JSON = (ERR_NONE, some ⟨[("Images", images)]⟩) ∧
        images.length = count_non_empty store_ab) :=
  ⟨by decide, by decide,
    (do_list_json store_ab (by decide)).imp (fun _ h => ⟨h.1, h.2.2⟩)⟩

/-! ## Bytes kept by in-place writes -/

theorem getElem?_fwrite_at_outside (file : List Nat) (pos : Nat) (data : List Nat) (p : Nat)
    (hin : pos + data.length ≤ file.length) (hp : p < pos ∨ pos + data.length ≤ p) :
    (fwrite_at file pos data)[p]? = file[p]? := by
  have h0 : pos - file.length = 0 := by omega
  unfold fwrite_at
  rw [h0, List.replicate_zero, List.append_nil]
  rcases hp with hp | hp
  · rw [List.append_assoc, List.getElem?_append_left (by simp; omega)]
    rw [List.getElem?_take_of_lt hp]
  · rw [List.getElem?_append_right (by simp; omega)]
    simp only [List.length_append, List.length_take, List.getElem?_drop]
    congr 1
    omega

/-! ## The scan of `do_delete` -/

theorem find_delete_index_none {img_id : List Nat} {f : imgfs_file}
    (hlen : f.metadata.length = f.header.max_files)
    (hn : find_delete_index img_id f = none) (i : Nat) (hi : i < f.metadata.length) :
    ¬ ((f.entry i).is_valid = NON_EMPTY ∧
      strncmp_eq (f.entry i).img_id img_id MAX_IMG_ID = true) := by
  unfold find_delete_index at hn
  rw [List.findIdx?_eq_none_iff, List.take_of_length_le (by omega)] at hn
  have := hn (f.entry i) (entry_mem f i hi)
  simpa using this

theorem do_delete_none (env : Env) (stdio : Nat → Bool) (img_id : List Nat) (f : imgfs_file)
    (hn : find_delete_index img_id f = none) :
    do_delete env stdio img_id f = (ERR_IMAGE_NOT_FOUND, f) := by
  unfold do_delete
  split
  · rfl
  · simp only [hn]

theorem do_delete_some (env : Env) (stdio : Nat → Bool) (img_id : List Nat) (f : imgfs_file)
    (i : Nat) (hnb : f.header.nb_files ≠ 0) (hi : find_delete_index img_id f = some i)
    (h0 : stdio 0 = true) (h1 : stdio 1 = true) :
    do_delete env stdio img_id f =
      (ERR_NONE,
        { file := fwrite_at
            (fwrite_at f.file (metadata_pos env i)
              (metadata_bytes env { f.entry i with is_valid := EMPTY }))
            0 (header_bytes env (drop_header f.header))
          header := drop_header f.header
          metadata := f.metadata.set i { f.entry i with is_valid := EMPTY } }) := by
  unfold do_delete
  rw [if_neg hnb]
  simp only [hi, h0, h1]
  rfl

/-- C13. Delete specification: on a store satisfying the count invariant,
whose file holds the header and the table, and when both writes succeed,
`do_delete` returns `ERR_NONE` if and only if some NON_EMPTY entry has the
id `img_id`, and returns `ERR_IMAGE_NOT_FOUND` with the store unchanged
otherwise; on success the lowest-indexed such entry `i` is the only entry
that changes, only its `is_valid` changes (to EMPTY), `nb_files` decreases
by 1, and the file keeps its length and every byte of the blob region. -/
theorem do_delete_spec (env : Env) (stdio : Nat → Bool) (img_id : List Nat) (f : imgfs_file)
    (hinv : count_inv f) (hfile : metadata_pos env f.header.max_files ≤ f.file.length)
    (h0 : stdio 0 = true) (h1 : stdio 1 = true) :
    ((do_delete env stdio img_id f).1 = ERR_NONE ↔
        ∃ i, i < f.metadata.length ∧ (f.entry i).is_valid = NON_EMPTY ∧
          strncmp_eq (f.entry i).img_id img_id MAX_IMG_ID = true) ∧
      ((¬ ∃ i, i < f.metadata.length ∧ (f.entry i).is_valid = NON_EMPTY ∧
          strncmp_eq (f.entry i).img_id img_id MAX_IMG_ID = true) →
        do_delete env stdio img_id f = (ERR_IMAGE_NOT_FOUND, f)) ∧
      ∀ i, i < f.metadata.length → (f.entry i).is_valid = NON_EMPTY →
        strncmp_eq (f.entry i).img_id img_id MAX_IMG_ID = true →
        (∀ j, j < i → ¬ ((f.entry j).is_valid = NON_EMPTY ∧
          strncmp_eq (f.entry j).img_id img_id MAX_IMG_ID = true)) →
        (do_delete env stdio img_id f).1 = ERR_NONE ∧
          (do_delete env stdio img_id f).2.entry i = { f.entry i with is_valid := EMPTY } ∧
          (∀ j, j ≠ i → (do_delete env stdio img_id f).2.entry j = f.entry j) ∧
          (do_delete env stdio img_id f).2.metadata.length = f.metadata.length ∧
          (do_delete env stdio img_id f).2.header.nb_files + 1 = f.header.nb_files ∧
          (do_delete env stdio img_id f).2.file.length = f.file.length ∧
          ∀ p, metadata_pos env f.header.max_files ≤ p →
            (do_delete env stdio img_id f).2.file[p]? = f.file[p]? := by
  obtain ⟨hlen, hmax, hcnt⟩ := hinv
  have hle := count_non_empty_le f
  have hkey : ∀ i, find_delete_index img_id f = some i →
      (do_delete env stdio img_id f).1 = ERR_NONE ∧
        (do_delete env stdio img_id f).2.entry i = { f.entry i with is_valid := EMPTY } ∧
        (∀ j, j ≠ i → (do_delete env stdio img_id f).2.entry j = f.entry j) ∧
        (do_delete env stdio img_id f).2.metadata.length = f.metadata.length ∧
        (do_delete env stdio img_id f).2.header.nb_files + 1 = f.header.nb_files ∧
        (do_delete env stdio img_id f).2.file.length = f.file.length ∧
        ∀ p, metadata_pos env f.header.max_files ≤ p →
          (do_delete env stdio img_id f).2.file[p]? = f.file[p]? := by
    intro i hi
    obtain ⟨him, hil, hiv, -, -⟩ := find_delete_index_some hi
    have hpos : 0 < count_non_empty f := by
      unfold count_non_empty
      rw [List.countP_pos_iff]
      exact ⟨f.entry i, entry_mem f i hil, by simpa using hiv⟩
    have hnb : f.header.nb_files ≠ 0 := by omega
    have hmd : metadata_pos env i +
        (metadata_bytes env { f.entry i with is_valid := EMPTY }).length ≤ f.file.length := by
      rw [length_metadata_bytes]
      have := metadata_pos_succ_le env i f.header.max_files him
      omega
    have hmdl : (fwrite_at f.file (metadata_pos env i)
        (metadata_bytes env { f.entry i with is_valid := EMPTY })).length = f.file.length :=
      length_fwrite_at_inside _ _ _ hmd
    have hhd : 0 + (header_bytes env (drop_header f.header)).length ≤
        (fwrite_at f.file (metadata_pos env i)
          (metadata_bytes env { f.entry i with is_valid := EMPTY })).length := by
      rw [hmdl, length_header_bytes]
      have := sizeof_header_le_metadata_pos env f.header.max_files
      omega
    rw [do_delete_some env stdio img_id f i hnb hi h0 h1]
    refine ⟨rfl, ?_, ?_, ?_, ?_, ?_, ?_⟩
    · exact entry_set_entry_same f i _ hil
    · intro j hj
      exact entry_set_entry_ne f i j _ (fun h => hj h.symm)
    · simp
    · show (f.header.nb_files + 2 ^ 32 - 1) % 2 ^ 32 + 1 = f.header.nb_files
      have h2 : f.header.nb_files + 2 ^ 32 - 1 = (f.header.nb_files - 1) + 2 ^ 32 := by omega
      rw [h2, Nat.add_mod_right, Nat.mod_eq_of_lt (by omega)]
      omega
    · show (fwrite_at _ 0 _).length = f.file.length
      rw [length_fwrite_at_inside _ _ _ hhd, hmdl]
    · intro p hp
      show (fwrite_at _ 0 _)[p]? = f.file[p]?
      rw [getElem?_fwrite_at_outside _ _ _ _ hhd
        (Or.inr (by
          rw [length_header_bytes]
          have := sizeof_header_le_metadata_pos env f.header.max_files
          omega))]
      rw [getElem?_fwrite_at_outside _ _ _ _ hmd
        (Or.inr (by
          rw [length_metadata_bytes]
          have := metadata_pos_succ_le env i f.header.max_files him
          omega))]
  have hnone : (¬ ∃ i, i < f.metadata.length ∧ (f.entry i).is_valid = NON_EMPTY ∧
      strncmp_eq (f.entry i).img_id img_id MAX_IMG_ID = true) →
      find_delete_index img_id f = none := by
    intro hex
    cases hfd : find_delete_index img_id f with
    | none => rfl
    | some i =>
      obtain ⟨-, hil, hiv, hid, -⟩ := find_delete_index_some hfd
      exact absurd ⟨i, hil, hiv, hid⟩ hex
  refine ⟨⟨?_, ?_⟩, ?_, ?_⟩
  · intro hok
    cases hfd : find_delete_index img_id f with
    | none =>
      rw [do_delete_none env stdio img_id f hfd] at hok
      cases hok
    | some i =>
      obtain ⟨-, hil, hiv, hid, -⟩ := find_delete_index_some hfd
      exact ⟨i, hil, hiv, hid⟩
  · rintro ⟨i, hil, hiv, hid⟩
    cases hfd : find_delete_index img_id f with
    | none => exact absurd ⟨hiv, hid⟩ (find_delete_index_none hlen hfd i hil)
    | some k => exact (hkey k hfd).1
  · intro hex
    exact do_delete_none env stdio img_id f (hnone hex)
  · intro i hil hiv hid hlow
    cases hfd : find_delete_index img_id f with
    | none => exact absurd ⟨hiv, hid⟩ (find_delete_index_none hlen hfd i hil)
    | some k =>
      obtain ⟨-, hkl, hkv, hkid, hklow⟩ := find_delete_index_some hfd
      have hik : i = k := by
        rcases Nat.lt_trichotomy i k with h | h | h
        · exact absurd ⟨hiv, hid⟩ (hklow i h)
        · exact h
        · exact absurd ⟨hkv, hkid⟩ (hlow k h)
      subst hik
      exact hkey i hfd

/-- Witness of C13: deleting `a` from the store holding `a` and `b`. -/
theorem do_delete_spec_witness :
    count_inv store_ab ∧ metadata_pos sample_env store_ab.header.max_files ≤ store_ab.file.length ∧
      (do_delete sample_env stdio_ok [97] store_ab).1 = ERR_NONE ∧
      (do_delete sample_env stdio_ok [97] store_ab).2.header.nb_files = 1 ∧
      ((do_delete sample_env stdio_ok [97] store_ab).1 = ERR_NONE ↔
        ∃ i, i < store_ab.metadata.length ∧ (store_ab.entry i).is_valid = NON_EMPTY ∧
          strncmp_eq (store_ab.entry i).img_id [97] MAX_IMG_ID = true) :=
  ⟨by decide, by decide, by decide, by decide,
    (do_delete_spec sample_env stdio_ok [97] store_ab (by decide) (by decide) rfl rfl).1⟩

/-! ## The version counter -/

theorem lazily_resize_header (env : Env) (stdio : Nat → Bool) (resolution : Int)
    (f : imgfs_file) (index : Nat) :
    (lazily_resize env stdio resolution f index).2.header = f.header := by
  rcases lazily_resize_effect env stdio resolution f index with h | ⟨a, b, file1, -, -, -, h⟩
  · rw [h]
  · rw [h]

theorem do_read_header (env : Env) (stdio : Nat → Bool) (img_id : List Nat) (resolution : Int)
    (f : imgfs_file) : (do_read env stdio img_id resolution f).2.1.header = f.header := by
  rcases do_read_state env stdio img_id resolution f with h | ⟨i, h⟩
  · rw [h]
  · rw [h, lazily_resize_header]

/-- C12, counterexample. In a store whose version is `2 ^ 32 - 1` a
successful `do_insert` and a successful `do_delete` each leave the version
at `0`: the `uint32_t` counter wraps, it is neither `old + 1` nor greater
than before. -/
theorem version_wraps :
    store_last_version.header.version = 2 ^ 32 - 1 ∧
      (do_insert sample_env stdio_ok [255, 216, 1] [97] store_last_version).1 = ERR_NONE ∧
      (do_insert sample_env stdio_ok [255, 216, 1] [97] store_last_version).2.header.version = 0 ∧
      ¬ (store_last_version.header.version <
        (do_insert sample_env stdio_ok [255, 216, 1] [97] store_last_version).2.header.version) ∧
      (do_delete sample_env stdio_ok [97]
        { store_a with header := { store_a.header with version := 4294967295 } }).1 = ERR_NONE ∧
      (do_delete sample_env stdio_ok [97]
        { store_a with header := { store_a.header with version := 4294967295 } }).2.header.version
        = 0 := by
  decide

/-- C12, amended. Every successful `do_insert` and every successful
`do_delete` sets `header.version` to `(old + 1) mod 2 ^ 32`, which is
`old + 1` and strictly greater than `old` whenever `old < 2 ^ 32 - 1`; every
`do_insert` and `do_delete` that fails with an error other than `ERR_IO`
leaves the version unchanged; `lazily_resize` and `do_read` never change the
header, in particular neither `version` nor `nb_files`. -/
theorem version_discipline (env : Env) (stdio : Nat → Bool) (image_buffer img_id : List Nat)
    (resolution : Int) (index : Nat) (f : imgfs_file) :
    ((do_insert env stdio image_buffer img_id f).1 = ERR_NONE →
        (do_insert env stdio image_buffer img_id f).2.header.version =
          (f.header.version + 1) % 2 ^ 32 ∧
        (f.header.version < 2 ^ 32 - 1 →
          (do_insert env stdio image_buffer img_id f).2.header.version = f.header.version + 1 ∧
          f.header.version < (do_insert env stdio image_buffer img_id f).2.header.version)) ∧
      ((do_delete env stdio img_id f).1 = ERR_NONE →
        (do_delete env stdio img_id f).2.header.version = (f.header.version + 1) % 2 ^ 32 ∧
        (f.header.version < 2 ^ 32 - 1 →
          (do_delete env stdio img_id f).2.header.version = f.header.version + 1 ∧
          f.header.version < (do_delete env stdio img_id f).2.header.version)) ∧
      ((do_insert env stdio image_buffer img_id f).1 ≠ ERR_NONE →
        (do_insert env stdio image_buffer img_id f).1 ≠ ERR_IO →
        (do_insert env stdio image_buffer img_id f).2.header = f.header) ∧
      ((do_delete env stdio img_id f).1 ≠ ERR_NONE →
        (do_delete env stdio img_id f).1 ≠ ERR_IO →
        (do_delete env stdio img_id f).2 = f) ∧
      (lazily_resize env stdio resolution f index).2.header = f.header ∧
      (do_read env stdio img_id resolution f).2.1.header = f.header := by
  have hwrap : ∀ v : Nat, v < 2 ^ 32 - 1 → (v + 1) % 2 ^ 32 = v + 1 ∧ v < (v + 1) % 2 ^ 32 := by
    intro v hv
    rw [Nat.mod_eq_of_lt (by omega)]
    omega
  refine ⟨?_, ?_, ?_, ?_, lazily_resize_header env stdio resolution f index,
    do_read_header env stdio img_id resolution f⟩
  · intro hok
    obtain ⟨-, k, file1, m, -, heq, -⟩ := do_insert_ok env stdio image_buffer img_id f hok
    rw [heq]
    exact ⟨rfl, hwrap f.header.version⟩
  · intro hok
    rcases do_delete_cases env stdio img_id f with h | h | ⟨-, i, -, h⟩
    · rw [h] at hok; cases hok
    · rw [h] at hok; cases hok
    · rw [h]
      exact ⟨rfl, hwrap f.header.version⟩
  · intro hne hio
    rcases do_insert_fail env stdio image_buffer img_id f hne hio with h | ⟨k, m, -, h, -⟩
    · rw [h]
    · rw [h]; rfl
  · intro hne hio
    rcases do_delete_cases env stdio img_id f with h | h | ⟨-, i, -, h⟩
    · exact absurd h hio
    · rw [h]
    · rw [h] at hne
      exact absurd rfl hne

/-- Witness of the amended C12: on the store holding `a` and `b`, a
successful insert and a successful delete move the version from 2 to 3, and
a duplicate insert and a delete of a missing id leave it at 2. -/
theorem version_discipline_witness :
    store_ab.header.version = 2 ∧
      (do_insert sample_env stdio_ok [255, 216, 3] [99] store_ab).1 = ERR_NONE ∧
      (do_insert sample_env stdio_ok [255, 216, 3] [99] store_ab).2.header.version = 3 ∧
      (do_delete sample_env stdio_ok [97] store_ab).1 = ERR_NONE ∧
      (do_delete sample_env stdio_ok [97] store_ab).2.header.version = 3 ∧
      (do_insert sample_env stdio_ok [255, 216, 3] [98] store_ab).1 = ERR_DUPLICATE_ID ∧
      (do_delete sample_env stdio_ok [122] store_ab).1 = ERR_IMAGE_NOT_FOUND ∧
      (do_insert sample_env stdio_ok [255, 216, 3] [99] store_ab).2.header.version =
        (store_ab.header.version + 1) % 2 ^ 32 :=
  ⟨by decide, by decide, by decide, by decide, by decide, by decide, by decide,
    ((version_discipline sample_env stdio_ok [255, 216, 3] [99] THUMB_RES 0 store_ab).1
      (by decide)).1⟩

/-! ## The entry written by a successful `do_insert` -/

theorem tentative_size (env : Env) (b id : List Nat) (old : img_metadata) (h w : Nat) :
    (tentative_metadata env b id old h w).size = ⟨0, 0, b.length % 2 ^ 32⟩ := by
  simp [tentative_metadata, res_array.set, THUMB_RES, SMALL_RES, ORIG_RES]

theorem do_insert_ok_entry (env : Env) (stdio : Nat → Bool) (b id : List Nat) (f : imgfs_file)
    (hok : (do_insert env stdio b id f).1 = ERR_NONE) :
    ∃ k, find_free_index f = some k ∧
      ((do_insert env stdio b id f).2.entry k).img_id =
        strncpy (f.entry k).img_id id MAX_IMG_ID ∧
      ((do_insert env stdio b id f).2.entry k).SHA = env.SHA256 b ∧
      ((do_insert env stdio b id f).2.entry k).is_valid = NON_EMPTY ∧
      ((∃ n, n < f.metadata.length ∧ n ≠ k ∧ (f.entry n).is_valid ≠ EMPTY ∧
          (f.entry n).SHA = env.SHA256 b ∧
          ((do_insert env stdio b id f).2.entry k).size = (f.entry n).size) ∨
        (((do_insert env stdio b id f).2.entry k).size = ⟨0, 0, b.length % 2 ^ 32⟩ ∧
          ∀ n, n < f.metadata.length → n < f.header.max_files → n ≠ k →
            (f.entry n).is_valid ≠ EMPTY → (f.entry n).SHA ≠ env.SHA256 b)) := by
  obtain ⟨hnf, k, h, w, hk, hr⟩ := do_insert_ok_inv env stdio b id f hok
  obtain ⟨hkm, hkl, hkv, -⟩ := find_free_index_some hk
  refine ⟨k, hk, ?_⟩
  have hget : ∀ n, n < min f.header.max_files f.metadata.length → n ≠ k →
      (List.take f.header.max_files
        (f.metadata.set k (tentative_metadata env b id (f.entry k) h w))).getD n
          zero_metadata = f.entry n := by
    intro n hn hnk
    rw [getD_take_set _ _ _ _ _ hn, if_neg hnk]
    rfl
  have htsha : (tentative_metadata env b id (f.entry k) h w).SHA = env.SHA256 b := rfl
  rw [do_insert_eq env stdio b id f k h w hnf hk hr] at hok ⊢
  cases hs : dedup_loop (tentative_metadata env b id (f.entry k) h w) k 0
      ((f.metadata.set k (tentative_metadata env b id (f.entry k) h w)).take
        f.header.max_files) with
  | duplicate =>
    rw [hs] at hok
    cases hok
  | shared cur =>
    rw [hs] at hok
    simp only at hok ⊢
    obtain ⟨n, hn, hnk, hcur, hcv, hcs, -, -⟩ := dedup_loop_shared hs
    rw [length_take_set] at hn
    have hnk2 : n ≠ k := by omega
    have hnl : n < f.metadata.length := by omega
    have hcur2 : f.entry n = cur := by rw [← hget n hn hnk2]; exact hcur
    have hgk : ((f.set_entry k
        { tentative_metadata env b id (f.entry k) h w with
          offset := cur.offset, size := cur.size }).entry k) =
        { tentative_metadata env b id (f.entry k) h w with
          offset := cur.offset, size := cur.size } := entry_set_entry_same f k _ hkl
    have hkl2 : k < (f.set_entry k
        { tentative_metadata env b id (f.entry k) h w with
          offset := cur.offset, size := cur.size }).metadata.length := by
      simpa [imgfs_file.set_entry] using hkl
    obtain ⟨file1, m, heq, -, hm⟩ := insert_commit_ok env stdio b k _ hok
    have hek : (insert_commit env stdio b k (f.set_entry k
        { tentative_metadata env b id (f.entry k) h w with
          offset := cur.offset, size := cur.size })).2.entry k = m := by
      rw [heq]
      exact (entry_update _ file1 _ k k m hkl2).trans (if_pos rfl)
    rw [hek]
    have hmfields : m.img_id = strncpy (f.entry k).img_id id MAX_IMG_ID ∧
        m.SHA = env.SHA256 b ∧ m.is_valid = NON_EMPTY ∧ m.size = cur.size := by
      rcases hm with ⟨-, hm⟩ | ⟨-, hm⟩ <;> rw [hm, hgk] <;> exact ⟨rfl, rfl, rfl, rfl⟩
    refine ⟨hmfields.1, hmfields.2.1, hmfields.2.2.1, Or.inl ⟨n, hnl, hnk2, ?_, ?_, ?_⟩⟩
    · rw [hcur2]; exact hcv
    · rw [hcur2, hcs]; rfl
    · rw [hmfields.2.2.2, hcur2]
  | fresh =>
    rw [hs] at hok
    simp only at hok ⊢
    have hgk : ((f.set_entry k (tentative_metadata env b id (f.entry k) h w)).entry k) =
        tentative_metadata env b id (f.entry k) h w := entry_set_entry_same f k _ hkl
    have hkl2 : k < (f.set_entry k
        (tentative_metadata env b id (f.entry k) h w)).metadata.length := by
      simpa [imgfs_file.set_entry] using hkl
    obtain ⟨file1, m, heq, -, hm⟩ := insert_commit_ok env stdio b k _ hok
    have hek : (insert_commit env stdio b k
        (f.set_entry k (tentative_metadata env b id (f.entry k) h w))).2.entry k = m := by
      rw [heq]
      exact (entry_update _ file1 _ k k m hkl2).trans (if_pos rfl)
    rw [hek]
    have hmfields : m.img_id = strncpy (f.entry k).img_id id MAX_IMG_ID ∧
        m.SHA = env.SHA256 b ∧ m.is_valid = NON_EMPTY ∧
        m.size = ⟨0, 0, b.length % 2 ^ 32⟩ := by
      rcases hm with ⟨-, hm⟩ | ⟨-, hm⟩ <;> rw [hm, hgk] <;>
        exact ⟨rfl, rfl, rfl, tentative_size env b id (f.entry k) h w⟩
    refine ⟨hmfields.1, hmfields.2.1, hmfields.2.2.1, Or.inr ⟨hmfields.2.2.2, ?_⟩⟩
    intro n hnl hnm hnk hv
    have hmin : n < min f.header.max_files f.metadata.length := by omega
    have := (dedup_loop_fresh hs n (by rw [length_take_set]; exact hmin) (by omega)
      (by rw [hget n hmin hnk]; exact hv)).1
    rw [hget n hmin hnk, htsha] at this
    exact this

theorem take_strncpy (dst src : List Nat) (n : Nat) :
    (strncpy dst src n).take n =
      (c_str src).take n ++ List.replicate (n - ((c_str src).take n).length) 0 := by
  have hlen : ((c_str src).take n ++
      List.replicate (n - ((c_str src).take n).length) 0).length = n := by
    simp only [List.length_append, List.length_replicate, List.length_take]
    omega
  unfold strncpy
  rw [List.take_append_of_le_length (by omega)]
  exact List.take_of_length_le (by omega)

theorem c_str_take_of_short (src : List Nat) (n : Nat) (h : (c_str src).length ≤ n) :
    c_str (src.take n) = c_str src := by
  unfold c_str at h ⊢
  rw [takeWhile_take_comm]
  exact List.take_of_length_le h

/-- C11, counterexample. A successful `do_insert` with an id of 130 bytes
stores only its first `MAX_IMG_ID = 127` bytes: the entry does not hold
`img_id = id`. -/
theorem long_id_is_cut :
    (do_insert sample_env stdio_ok [255, 216, 1] (List.replicate 130 97) store_empty).1 =
        ERR_NONE ∧
      c_str ((do_insert sample_env stdio_ok [255, 216, 1] (List.replicate 130 97)
        store_empty).2.entry 0).img_id = List.replicate 127 97 ∧
      c_str ((do_insert sample_env stdio_ok [255, 216, 1] (List.replicate 130 97)
        store_empty).2.entry 0).img_id ≠ List.replicate 130 97 := by
  decide

/-- C11, amended. For every successful `do_insert` the entry that becomes
NON_EMPTY is the one at the smallest index `k` whose `is_valid` was EMPTY;
after the call the first `MAX_IMG_ID` bytes of its `img_id` are the id cut
at `MAX_IMG_ID` bytes and padded with NUL (so it holds the id itself when the
id has at most `MAX_IMG_ID` bytes), its SHA is `SHA256` of the buffer, its
`size[ORIG_RES]` is the buffer length modulo `2 ^ 32` when the image is
appended and the `size[ORIG_RES]` of the live entry with the same SHA when it
is deduplicated, and every entry at another index is unchanged. -/
theorem do_insert_slot (env : Env) (stdio : Nat → Bool) (image_buffer img_id : List Nat)
    (f : imgfs_file) (hok : (do_insert env stdio image_buffer img_id f).1 = ERR_NONE) :
    ∃ k, k < f.metadata.length ∧ (f.entry k).is_valid = EMPTY ∧
      (∀ j, j < k → (f.entry j).is_valid ≠ EMPTY) ∧
      ((do_insert env stdio image_buffer img_id f).2.entry k).is_valid = NON_EMPTY ∧
      ((do_insert env stdio image_buffer img_id f).2.entry k).img_id.take MAX_IMG_ID =
        (c_str img_id).take MAX_IMG_ID ++
          List.replicate (MAX_IMG_ID - ((c_str img_id).take MAX_IMG_ID).length) 0 ∧
      ((c_str img_id).length ≤ MAX_IMG_ID →
        c_str (((do_insert env stdio image_buffer img_id f).2.entry k).img_id.take MAX_IMG_ID) =
          c_str img_id) ∧
      ((do_insert env stdio image_buffer img_id f).2.entry k).SHA = env.SHA256 image_buffer ∧
      (((do_insert env stdio image_buffer img_id f).2.entry k).size.get ORIG_RES =
          image_buffer.length % 2 ^ 32 ∨
        ∃ n, n < f.metadata.length ∧ n ≠ k ∧ (f.entry n).is_valid ≠ EMPTY ∧
          (f.entry n).SHA = env.SHA256 image_buffer ∧
          ((do_insert env stdio image_buffer img_id f).2.entry k).size.get ORIG_RES =
            (f.entry n).size.get ORIG_RES) ∧
      (∀ j, j ≠ k → (do_insert env stdio image_buffer img_id f).2.entry j = f.entry j) ∧
      (do_insert env stdio image_buffer img_id f).2.metadata.length = f.metadata.length := by
  obtain ⟨k, hk, hid, hsha, hv, hsz⟩ := do_insert_ok_entry env stdio image_buffer img_id f hok
  obtain ⟨-, k2, file1, m, hk2, heq, -⟩ := do_insert_ok env stdio image_buffer img_id f hok
  obtain ⟨-, hkl, hkv, hlow⟩ := find_free_index_some hk
  have hkk : k2 = k := by
    rw [hk] at hk2
    exact (Option.some.inj hk2).symm
  subst hkk
  refine ⟨k2, hkl, hkv, hlow, hv, ?_, ?_, hsha, ?_, ?_, ?_⟩
  · rw [hid, take_strncpy]
  · intro hshort
    rw [hid, c_str_strncpy, c_str_take_of_short _ _ hshort]
  · rcases hsz with ⟨n, hnl, hnk, hnv, hns, hsize⟩ | ⟨hsize, -⟩
    · exact Or.inr ⟨n, hnl, hnk, hnv, hns, by rw [hsize]⟩
    · left
      rw [hsize]
      rfl
  · intro j hj
    rw [heq]
    exact entry_set_entry_ne f k2 j m (fun h => hj h.symm)
  · rw [heq]
    simp

/-- Witness of the amended C11: the insert of a new image under `c` into the
store holding `a` and `b` fills slot 2. -/
theorem do_insert_slot_witness :
    (do_insert sample_env stdio_ok [255, 216, 3] [99] store_ab).1 = ERR_NONE ∧
      ((do_insert sample_env stdio_ok [255, 216, 3] [99] store_ab).2.entry 2).is_valid =
        NON_EMPTY ∧
      ((do_insert sample_env stdio_ok [255, 216, 3] [99] store_ab).2.entry 2).size.get ORIG_RES =
        3 ∧
      ∃ k, k < store_ab.metadata.length ∧ (store_ab.entry k).is_valid = EMPTY ∧
        ((do_insert sample_env stdio_ok [255, 216, 3] [99] store_ab).2.entry k).SHA =
          sample_env.SHA256 [255, 216, 3] :=
  ⟨by decide, by decide, by decide,
    (do_insert_slot sample_env stdio_ok [255, 216, 3] [99] store_ab (by decide)).imp
      (fun _ h => ⟨h.1, h.2.1, h.2.2.2.2.2.2.1⟩)⟩

/-! ### C16 -/

theorem create_option_step_max_files (atouint32 atouint16 : String → Nat)
    (header : imgfs_header) (v : String) (rest : List String) :
    create_option_step atouint32 atouint16 header "-max_files" (v :: rest) =
      if atouint32 v % 2 ^ 32 = 0 ∨ atouint32 v % 2 ^ 32 > UINT32_MAX then
        Except.error ERR_MAX_FILES
      else Except.ok ({ header with max_files := atouint32 v % 2 ^ 32 }, rest) := rfl

theorem create_option_step_thumb_res (atouint32 atouint16 : String → Nat)
    (header : imgfs_header) (w h : String) (rest : List String) :
    create_option_step atouint32 atouint16 header "-thumb_res" (w :: h :: rest) =
      if atouint16 w % 2 ^ 16 = 0 ∨ atouint16 w % 2 ^ 16 > MAX_THUMB_RES ∨
          atouint16 h % 2 ^ 16 = 0 ∨ atouint16 h % 2 ^ 16 > MAX_THUMB_RES then
        Except.error ERR_RESOLUTIONS
      else
        Except.ok
          ({ header with
             resized_res :=
               (header.resized_res.set 0 (atouint16 w % 2 ^ 16)).set 1 (atouint16 h % 2 ^ 16) },
            rest) := rfl

theorem create_option_step_small_res (atouint32 atouint16 : String → Nat)
    (header : imgfs_header) (w h : String) (rest : List String) :
    create_option_step atouint32 atouint16 header "-small_res" (w :: h :: rest) =
      if atouint16 w % 2 ^ 16 = 0 ∨ atouint16 w % 2 ^ 16 > MAX_SMALL_RES ∨
          atouint16 h % 2 ^ 16 = 0 ∨ atouint16 h % 2 ^ 16 > MAX_SMALL_RES then
        Except.error ERR_RESOLUTIONS
      else
        Except.ok
          ({ header with
             resized_res :=
               (header.resized_res.set 2 (atouint16 w % 2 ^ 16)).set 3 (atouint16 h % 2 ^ 16) },
            rest) := rfl

theorem create_options_loop_args (atouint32 atouint16 : String → Nat)
    (options : List create_option) :
    ∀ (argc : Nat) (header : imgfs_header),
      (options.flatMap create_option.args).length ≤ argc →
      create_options_loop atouint32 atouint16 argc header (options.flatMap create_option.args) =
        match first_invalid atouint32 atouint16 options with
        | some err => Except.error err
        | none => Except.ok (options.foldl (create_option.store atouint32 atouint16) header) := by
  induction options with
  | nil => intro argc header _; cases argc <;> rfl
  | cons o rest ih =>
    intro argc header hlen
    cases o with
    | max_files v =>
      have hl : (create_option.max_files v :: rest).flatMap create_option.args =
          "-max_files" :: v :: rest.flatMap create_option.args := rfl
      rw [hl] at hlen ⊢
      obtain ⟨n, rfl⟩ : ∃ n, argc = n + 1 := ⟨argc - 1, by simp only [List.length_cons] at hlen; omega⟩
      have hle : ¬ atouint32 v % 2 ^ 32 > UINT32_MAX := by
        have := Nat.mod_lt (atouint32 v) (show 0 < 2 ^ 32 by norm_num)
        unfold UINT32_MAX; omega
      rw [create_options_loop, create_option_step_max_files]
      by_cases h0 : atouint32 v % 2 ^ 32 = 0
      · rw [if_pos (Or.inl h0)]
        simp only [first_invalid, create_option.invalid, if_pos h0]
      · rw [if_neg (by tauto)]
        simp only [first_invalid, create_option.invalid, if_neg h0, List.foldl_cons]
        exact ih n _ (by simp only [List.length_cons] at hlen; omega)
    | thumb_res w h =>
      have hl : (create_option.thumb_res w h :: rest).flatMap create_option.args =
          "-thumb_res" :: w :: h :: rest.flatMap create_option.args := rfl
      rw [hl] at hlen ⊢
      obtain ⟨n, rfl⟩ : ∃ n, argc = n + 1 := ⟨argc - 1, by simp only [List.length_cons] at hlen; omega⟩
      rw [create_options_loop, create_option_step_thumb_res]
      by_cases hb : atouint16 w % 2 ^ 16 = 0 ∨ 128 < atouint16 w % 2 ^ 16 ∨
          atouint16 h % 2 ^ 16 = 0 ∨ 128 < atouint16 h % 2 ^ 16
      · rw [if_pos (show _ ∨ _ > MAX_THUMB_RES ∨ _ ∨ _ > MAX_THUMB_RES from hb)]
        simp only [first_invalid, create_option.invalid, if_pos hb]
      · rw [if_neg (show ¬ (_ ∨ _ > MAX_THUMB_RES ∨ _ ∨ _ > MAX_THUMB_RES) from hb)]
        simp only [first_invalid, create_option.invalid, if_neg hb, List.foldl_cons]
        exact ih n _ (by simp only [List.length_cons] at hlen; omega)
    | small_res w h =>
      have hl : (create_option.small_res w h :: rest).flatMap create_option.args =
          "-small_res" :: w :: h :: rest.flatMap create_option.args := rfl
      rw [hl] at hlen ⊢
      obtain ⟨n, rfl⟩ : ∃ n, argc = n + 1 := ⟨argc - 1, by simp only [List.length_cons] at hlen; omega⟩
      rw [create_options_loop, create_option_step_small_res]
      by_cases hb : atouint16 w % 2 ^ 16 = 0 ∨ 512 < atouint16 w % 2 ^ 16 ∨
          atouint16 h % 2 ^ 16 = 0 ∨ 512 < atouint16 h % 2 ^ 16
      · rw [if_pos (show _ ∨ _ > MAX_SMALL_RES ∨ _ ∨ _ > MAX_SMALL_RES from hb)]
        simp only [first_invalid, create_option.invalid, if_pos hb]
      · rw [if_neg (show ¬ (_ ∨ _ > MAX_SMALL_RES ∨ _ ∨ _ > MAX_SMALL_RES) from hb)]
        simp only [first_invalid, create_option.invalid, if_neg hb, List.foldl_cons]
        exact ih n _ (by simp only [List.length_cons] at hlen; omega)

theorem getD_getLast?_cons {α : Type} (a d : α) (l : List α) :
    ((a :: l).getLast?).getD d = (l.getLast?).getD a := by
  rw [List.getLast?_cons]; rfl

theorem foldl_store (atouint32 atouint16 : String → Nat) (options : List create_option) :
    ∀ (header : imgfs_header) (a b c d : Nat), header.resized_res = [a, b, c, d] →
      options.foldl (create_option.store atouint32 atouint16) header =
        { header with
          max_files :=
            ((options.filterMap (create_option.max_files_value atouint32)).getLast?).getD
              header.max_files
          resized_res :=
            [(((options.filterMap (create_option.thumb_res_value atouint16)).getLast?).getD
                (a, b)).1,
              (((options.filterMap (create_option.thumb_res_value atouint16)).getLast?).getD
                (a, b)).2,
              (((options.filterMap (create_option.small_res_value atouint16)).getLast?).getD
                (c, d)).1,
              (((options.filterMap (create_option.small_res_value atouint16)).getLast?).getD
                (c, d)).2] } := by
  induction options with
  | nil => intro header a b c d h; cases header; simp_all
  | cons o rest ih =>
    intro header a b c d h
    cases o with
    | max_files v =>
      rw [List.foldl_cons, ih _ a b c d (by simpa [create_option.store] using h)]
      simp [create_option.store, create_option.max_files_value,
        create_option.thumb_res_value, create_option.small_res_value, getD_getLast?_cons]
    | thumb_res w x =>
      rw [List.foldl_cons, ih _ (atouint16 w % 2 ^ 16) (atouint16 x % 2 ^ 16) c d
        (by simp [create_option.store, h])]
      simp [create_option.store, create_option.max_files_value,
        create_option.thumb_res_value, create_option.small_res_value, getD_getLast?_cons]
    | small_res w x =>
      rw [List.foldl_cons, ih _ a b (atouint16 w % 2 ^ 16) (atouint16 x % 2 ^ 16)
        (by simp [create_option.store, h])]
      simp [create_option.store, create_option.max_files_value,
        create_option.thumb_res_value, create_option.small_res_value, getD_getLast?_cons]

/-- C16. Run on a file name followed by any sequence of `-max_files`,
`-thumb_res` and `-small_res` options, `do_create_cmd` returns the error of
the first option that fails validation (ERR_MAX_FILES for a `-max_files`
value that parses to 0, ERR_RESOLUTIONS for a thumbnail component that is 0
or above 128 or a small component that is 0 or above 512) without calling
`do_create`; when every option is valid it calls `do_create` once, with a
header whose `max_files` and resolutions are the given values, and 128,
64 x 64 and 256 x 256 for the options that are not given, and returns the
code of that call. -/
theorem do_create_cmd_validation (env : Env) (atouint32 atouint16 : String → Nat)
    (stdio : Nat → Bool) (local_file : imgfs_file) (imgfs_filename : String)
    (options : List create_option) :
    do_create_cmd env atouint32 atouint16 stdio local_file
        (imgfs_filename :: options.flatMap create_option.args) =
      match first_invalid atouint32 atouint16 options with
      | some err => (err, none)
      | none =>
        ((do_create env stdio
            { local_file with
              header :=
                { local_file.header with
                  max_files := requested_max_files atouint32 options
                  resized_res :=
                    [(requested_thumb_res atouint16 options).1,
                      (requested_thumb_res atouint16 options).2,
                      (requested_small_res atouint16 options).1,
                      (requested_small_res atouint16 options).2] } }).1,
          some (do_create env stdio
            { local_file with
              header :=
                { local_file.header with
                  max_files := requested_max_files atouint32 options
                  resized_res :=
                    [(requested_thumb_res atouint16 options).1,
                      (requested_thumb_res atouint16 options).2,
                      (requested_small_res atouint16 options).1,
                      (requested_small_res atouint16 options).2] } })) := by
  unfold do_create_cmd create_options
  simp only
  rw [create_options_loop_args atouint32 atouint16 options _ _ (le_refl _)]
  cases hv : first_invalid atouint32 atouint16 options with
  | some err => rfl
  | none =>
    simp only
    rw [foldl_store atouint32 atouint16 options _ default_thumb_res default_thumb_res
      default_small_res default_small_res rfl]
    rfl

/-! ### C19 -/

/-- C19. On the URI `/imgfs/read?img_id=5&id=7` and the name `id`,
`http_get_var` returns 1 and writes `5`, the value of the parameter
`img_id`, whose key ends in `id`, and not the value `7` of the parameter
`id`; on `/imgfs/read?img_id=5`, where no parameter has the key `id`, it
returns 1 with the same `5`, not 0. -/
theorem http_get_var_inside_key :
    http_get_var (sample_uri "/imgfs/read?img_id=5&id=7") (ascii "id") (List.replicate 8 1) 8 =
        (int_result.value 1, ascii "5" ++ [0] ++ List.replicate 6 1) ∧
      http_get_var (sample_uri "/imgfs/read?img_id=5") (ascii "id") (List.replicate 8 1) 8 =
        (int_result.value 1, ascii "5" ++ [0] ++ List.replicate 6 1) := by
  decide

/-! ### C20 -/

theorem to_int_pos (v : Nat) (hv : v < 2 ^ 32) (h : 0 < to_int v) : to_int v = (v : Int) := by
  unfold to_int at h ⊢
  rw [Nat.mod_eq_of_lt hv] at h ⊢
  split
  · rfl
  · rename_i hge
    rw [if_neg hge] at h
    omega

theorem length_strncpy (dst src : List Nat) (n : Nat) (h : n ≤ dst.length) :
    (strncpy dst src n).length = dst.length := by
  unfold strncpy
  simp only [List.length_append, List.length_replicate, List.length_take, List.length_drop]
  omega

theorem drop_strncpy (dst src : List Nat) (n : Nat) :
    (strncpy dst src n).drop n = dst.drop n := by
  have hlen : ((c_str src).take n ++
      List.replicate (n - ((c_str src).take n).length) 0).length = n := by
    simp only [List.length_append, List.length_replicate, List.length_take]
    omega
  unfold strncpy
  exact List.drop_left' hlen

theorem http_get_var_none (url : http_string) (name out : List Nat) (out_len : Nat)
    (h : get_var_start url name = none) :
    http_get_var url name out out_len = (int_result.value 0, out) := by
  unfold http_get_var; rw [h]

theorem http_get_var_long (url : http_string) (name out : List Nat) (out_len start : Nat)
    (h : get_var_start url name = some start) (hv : out_len ≤ get_var_value_len url start) :
    http_get_var url name out out_len = (int_result.error ERR_RUNTIME, out) := by
  unfold http_get_var; rw [h]; exact if_pos hv

theorem http_get_var_copy (url : http_string) (name out : List Nat) (out_len start : Nat)
    (h : get_var_start url name = some start) (hv : get_var_value_len url start < out_len) :
    http_get_var url name out out_len =
      (int_result.value (to_int (get_var_value_len url start)),
        (strncpy out (url.val.drop start) (get_var_value_len url start)).set
          (get_var_value_len url start) 0) := by
  unfold http_get_var; rw [h]; exact if_neg (by omega)

theorem find_sub_bound (needle : List Nat) :
    ∀ (s : List Nat) (p : Nat), find_sub needle s = some p → p + needle.length ≤ s.length := by
  intro s
  induction s with
  | nil =>
    intro p h
    unfold find_sub at h
    split at h
    · rename_i hn; cases h; simp [hn]
    · cases h
  | cons c t ih =>
    intro p h
    unfold find_sub at h
    split at h
    · rename_i hp
      cases h
      have := (List.isPrefixOf_iff_prefix.mp hp).length_le
      simpa using this
    · cases hr : find_sub needle t with
      | none => rw [hr] at h; cases h
      | some q =>
        rw [hr] at h
        cases h
        have := ih q hr
        simp only [List.length_cons]
        omega

theorem get_var_start_bound (url : http_string) (name : List Nat) (start : Nat)
    (h : get_var_start url name = some start) : start ≤ strlen url.val := by
  unfold get_var_start strstr at h
  cases hs : find_sub (c_str (c_str name ++ ascii "=")) (c_str url.val) with
  | none => rw [hs] at h; cases h
  | some p =>
    rw [hs] at h
    simp only at h
    split at h
    · cases h
    · cases h
      exact find_sub_bound _ _ _ hs

theorem get_var_end_le (url : http_string) (start : Nat) : get_var_end url start ≤ url.len := by
  unfold get_var_end
  split
  · exact le_refl _
  · split
    · exact le_refl _
    · omega

theorem takeWhile_drop_comm (p : Nat → Bool) :
    ∀ (l : List Nat) (n : Nat), n ≤ (l.takeWhile p).length →
      (l.drop n).takeWhile p = (l.takeWhile p).drop n := by
  intro l
  induction l with
  | nil => intro n _; simp
  | cons a l ih =>
    intro n hn
    cases n with
    | zero => simp
    | succ n =>
      by_cases ha : p a = true
      · rw [List.takeWhile_cons_of_pos ha] at hn ⊢
        simp only [List.length_cons, Nat.add_le_add_iff_right] at hn
        simpa using ih n hn
      · rw [List.takeWhile_cons_of_neg ha] at hn
        simp at hn

theorem take_drop_c_str (s : List Nat) (start v : Nat) (h : start + v ≤ strlen s) :
    (c_str (s.drop start)).take v = (s.drop start).take v ∧
      ((c_str (s.drop start)).take v).length = v := by
  unfold strlen at h
  have h1 : c_str (s.drop start) = (c_str s).drop start := by
    unfold c_str at h ⊢
    exact takeWhile_drop_comm _ s start (by omega)
  have h2 : s = c_str s ++ s.dropWhile (fun c => c != 0) := by
    unfold c_str; exact (List.takeWhile_append_dropWhile _ s).symm
  constructor
  · rw [h1]
    conv_rhs => rw [h2]
    rw [List.drop_append_of_le_length (by omega),
      List.take_append_of_le_length (by rw [List.length_drop]; omega)]
  · rw [h1, List.length_take, List.length_drop]; omega

theorem get_var_value_in_url (url : http_string) (name : List Nat) (start : Nat)
    (h : get_var_start url name = some start) (hnul : url.len ≤ strlen url.val)
    (hsize : strlen url.val < 2 ^ 63) (hv : get_var_value_len url start < 2 ^ 32) :
    start + get_var_value_len url start ≤ strlen url.val := by
  have h1 := get_var_start_bound url name start h
  have h2 := get_var_end_le url start
  unfold get_var_value_len at hv ⊢
  omega

theorem http_get_var_long_value (n : Nat) (hn : n < 2 ^ 64) :
    http_get_var { val := ascii "a=" ++ List.replicate n 120, len := n + 2 } (ascii "a")
        (List.replicate (n + 1) 1) (n + 1) =
      (int_result.value (to_int n), List.replicate n 120 ++ [0]) := by
  have hc : ∀ m : Nat, c_str (List.replicate m 120) = List.replicate m 120 := by
    intro m
    unfold c_str
    rw [List.takeWhile_eq_self_iff]
    intro x hx
    rw [(List.mem_replicate.mp hx).2]; rfl
  have hstart : get_var_start { val := ascii "a=" ++ List.replicate n 120, len := n + 2 }
      (ascii "a") = some 2 := by
    have h1 : c_str (ascii "a=" ++ List.replicate n 120) = 97 :: 61 :: List.replicate n 120 := by
      show c_str (97 :: 61 :: List.replicate n 120) = _
      unfold c_str
      rw [List.takeWhile_cons_of_pos (by decide), List.takeWhile_cons_of_pos (by decide)]
      exact congrArg _ (congrArg _ (hc n))
    have h2 : c_str (c_str (ascii "a") ++ ascii "=") = [97, 61] := by decide
    unfold get_var_start strstr strlen
    rw [h1, h2]
    simp [find_sub]
  have hend : get_var_end { val := ascii "a=" ++ List.replicate n 120, len := n + 2 } 2 =
      n + 2 := by
    unfold get_var_end strchr
    have h1 : (ascii "a=" ++ List.replicate n 120).drop 2 = List.replicate n 120 := rfl
    simp only [h1, hc]
    have h2 : (List.replicate n 120).findIdx? (fun x => x == 38) = none := by
      rw [List.findIdx?_eq_none_iff]
      intro x hx
      rw [(List.mem_replicate.mp hx).2]; rfl
    rw [h2]
  have hlen : get_var_value_len { val := ascii "a=" ++ List.replicate n 120, len := n + 2 } 2 =
      n := by
    unfold get_var_value_len
    rw [hend]
    omega
  rw [http_get_var_copy _ _ _ _ 2 hstart (by rw [hlen]; omega), hlen]
  have h1 : (ascii "a=" ++ List.replicate n 120).drop 2 = List.replicate n 120 := rfl
  have h3 : strncpy (List.replicate (n + 1) 1) (List.replicate n 120) n =
      List.replicate n 120 ++ [1] := by
    unfold strncpy
    rw [hc, List.take_of_length_le (by simp), List.length_replicate, Nat.sub_self]
    simp [List.drop_replicate]
  simp only [h1, h3]
  rw [List.set_append_right _ _ (by simp)]
  simp

/-- C20, counterexample. For the URL `a=` followed by `2 ^ 32 + 1` bytes
`x`, the name `a` and a buffer of `2 ^ 32 + 2` bytes, the value has
`2 ^ 32 + 1` bytes and fits the buffer; the conversion `(int)value_len`
makes `http_get_var` return 1, and `out[1]` is the second `x` of the value
(120), not NUL. -/
theorem http_get_var_int_wraps :
    (http_get_var { val := ascii "a=" ++ List.replicate (2 ^ 32 + 1) 120, len := 2 ^ 32 + 1 + 2 }
        (ascii "a") (List.replicate (2 ^ 32 + 1 + 1) 1) (2 ^ 32 + 1 + 1)).1 =
        int_result.value 1 ∧
      (http_get_var { val := ascii "a=" ++ List.replicate (2 ^ 32 + 1) 120, len := 2 ^ 32 + 1 + 2 }
        (ascii "a") (List.replicate (2 ^ 32 + 1 + 1) 1) (2 ^ 32 + 1 + 1)).2[1]? = some 120 := by
  rw [http_get_var_long_value (2 ^ 32 + 1) (by norm_num)]
  constructor
  · show int_result.value (to_int (2 ^ 32 + 1)) = int_result.value 1
    exact congrArg _ (by decide)
  · show (List.replicate (2 ^ 32 + 1) 120 ++ [0])[1]? = some 120
    rw [List.getElem?_append_left (by rw [List.length_replicate]; norm_num)]
    rw [List.getElem?_replicate]
    exact if_pos (by norm_num)

theorem take_set_self (l : List Nat) (i a : Nat) : (l.set i a).take i = l.take i := by
  rw [List.set_take, List.set_eq_of_length_le (by simp)]

/-- C20, amended. For every URL and name and every buffer `out` of `out_len`
bytes with `out_len <= 2 ^ 32`: the buffer keeps its length, so no byte at
an index `>= out_len` is written; whenever `http_get_var` returns `n > 0`,
`n` is the length `end - start` of the value and `n < out_len`, `out[0..n)`
holds the first `n` bytes of the C string that starts after `name=`, padded
with NUL (they are the `n` bytes of the URL from `start` on when the URL has
no NUL byte and its buffer is smaller than `2 ^ 63` bytes), `out[n]` is NUL
and the bytes after index `n` are unchanged. For every `out_len`, whenever
the length of the value is `>= out_len` the function returns ERR_RUNTIME and
leaves `out` as it was, and ERR_RUNTIME is the only error it returns. -/
theorem http_get_var_bounds (url : http_string) (name out : List Nat) (out_len : Nat)
    (hout : out.length = out_len) (hint : out_len ≤ 2 ^ 32) :
    (http_get_var url name out out_len).2.length = out_len ∧
      (∀ n : Int, (http_get_var url name out out_len).1 = int_result.value n → 0 < n →
        ∃ start, get_var_start url name = some start ∧
          n = (get_var_value_len url start : Int) ∧ n < (out_len : Int) ∧
          (http_get_var url name out out_len).2.take n.toNat =
            (c_str (url.val.drop start)).take n.toNat ++
              List.replicate (n.toNat - ((c_str (url.val.drop start)).take n.toNat).length) 0 ∧
          (url.len ≤ strlen url.val → strlen url.val < 2 ^ 63 →
            (http_get_var url name out out_len).2.take n.toNat =
              (url.val.drop start).take n.toNat) ∧
          (http_get_var url name out out_len).2[n.toNat]? = some 0 ∧
          (http_get_var url name out out_len).2.drop (n.toNat + 1) = out.drop (n.toNat + 1)) ∧
      (∀ start, get_var_start url name = some start →
        out_len ≤ get_var_value_len url start →
        http_get_var url name out out_len = (int_result.error ERR_RUNTIME, out)) ∧
      (∀ e, (http_get_var url name out out_len).1 = int_result.error e →
        e = ERR_RUNTIME ∧ (http_get_var url name out out_len).2 = out) := by
  cases hs : get_var_start url name with
  | none =>
    rw [http_get_var_none url name out out_len hs]
    refine ⟨hout, ?_, ?_, ?_⟩
    · intro n hn hpos
      cases hn
      exact absurd hpos (lt_irrefl _)
    · intro start h; cases h
    · intro e h; cases h
  | some start =>
    by_cases hv : out_len ≤ get_var_value_len url start
    · rw [http_get_var_long url name out out_len start hs hv]
      refine ⟨hout, ?_, ?_, ?_⟩
      · intro n hn; cases hn
      · intro start1 _ _; rfl
      · intro e h; cases h; exact ⟨rfl, rfl⟩
    · have hv1 : get_var_value_len url start < out_len := by omega
      rw [http_get_var_copy url name out out_len start hs hv1]
      have hl : (strncpy out (url.val.drop start) (get_var_value_len url start)).length =
          out_len := by
        rw [length_strncpy _ _ _ (by omega), hout]
      refine ⟨by rw [List.length_set]; exact hl, ?_, ?_, ?_⟩
      · intro n hn hpos
        cases hn
        have hn : to_int (get_var_value_len url start) = (get_var_value_len url start : Int) :=
          to_int_pos _ (by omega) hpos
        rw [hn, Int.toNat_ofNat]
        have htake : ((strncpy out (url.val.drop start) (get_var_value_len url start)).set
            (get_var_value_len url start) 0).take (get_var_value_len url start) =
            (c_str (url.val.drop start)).take (get_var_value_len url start) ++
              List.replicate (get_var_value_len url start -
                ((c_str (url.val.drop start)).take (get_var_value_len url start)).length) 0 := by
          rw [take_set_self, take_strncpy]
        refine ⟨start, rfl, rfl, by omega, htake, ?_, ?_, ?_⟩
        · intro hnul hsize
          have hb := get_var_value_in_url url name start hs hnul hsize (by omega)
          have ht := take_drop_c_str url.val start _ hb
          rw [htake, ht.2, Nat.sub_self, ← ht.1]
          simp
        · rw [List.getElem?_set_self (by omega)]
        · rw [List.drop_set_of_lt _ _ (by omega), ← List.drop_drop, drop_strncpy,
            List.drop_drop]
      · intro start1 h1 h2
        cases h1
        omega
      · intro e h; cases h

/-- Witness of C20: the variable `res` of `/imgfs/read?res=orig&img_id=pic1`
read into a buffer of 10 bytes. -/
theorem http_get_var_bounds_witness :
    (List.replicate 10 1).length = 10 ∧ 10 ≤ 2 ^ 32 ∧
      http_get_var (sample_uri "/imgfs/read?res=orig&img_id=pic1") (ascii "res")
          (List.replicate 10 1) 10 =
        (int_result.value 4, ascii "orig" ++ [0] ++ List.replicate 5 1) ∧
      http_get_var (sample_uri "/imgfs/read?res=orig&img_id=pic1") (ascii "res")
          (List.replicate 4 1) 4 =
        (int_result.error ERR_RUNTIME, List.replicate 4 1) ∧
      (http_get_var (sample_uri "/imgfs/read?res=orig&img_id=pic1") (ascii "res")
          (List.replicate 10 1) 10).2.length = 10 :=
  ⟨by decide, by norm_num, by decide, by decide,
    (http_get_var_bounds (sample_uri "/imgfs/read?res=orig&img_id=pic1") (ascii "res")
      (List.replicate 10 1) 10 (by decide) (by norm_num)).1⟩

/-! ### C18 -/

theorem store_header_keeps (output : http_message) (key value : http_string) :
    (store_header output key value).method = output.method ∧
      (store_header output key value).uri = output.uri ∧
      (store_header output key value).body = output.body ∧
      (output.headers.length ≤ MAX_HEADERS →
        (store_header output key value).headers.length ≤ MAX_HEADERS) := by
  unfold store_header http_message.num_headers
  split
  · refine ⟨rfl, rfl, rfl, fun _ => ?_⟩
    simp only [List.length_append, List.length_singleton]
    omega
  · exact ⟨rfl, rfl, rfl, fun h => h⟩

theorem http_parse_headers_loop_keeps (fuel : Nat) :
    ∀ (current_pos : List Nat) (output : http_message),
      (http_parse_headers_loop fuel current_pos output).2.method = output.method ∧
      (http_parse_headers_loop fuel current_pos output).2.uri = output.uri ∧
      (http_parse_headers_loop fuel current_pos output).2.body = output.body ∧
      (output.headers.length ≤ MAX_HEADERS →
        (http_parse_headers_loop fuel current_pos output).2.headers.length ≤ MAX_HEADERS) := by
  induction fuel with
  | zero => intro current_pos output; exact ⟨rfl, rfl, rfl, fun h => h⟩
  | succ fuel ih =>
    intro current_pos output
    unfold http_parse_headers_loop
    split
    · exact ⟨rfl, rfl, rfl, fun h => h⟩
    · split
      · exact ⟨rfl, rfl, rfl, fun h => h⟩
      · split
        · exact ⟨rfl, rfl, rfl, fun h => h⟩
        · split
          · exact store_header_keeps _ _ _
          · have hk : ∀ (p : List Nat) (k v : http_string),
                (http_parse_headers_loop fuel p (store_header output k v)).2.method =
                    output.method ∧
                  (http_parse_headers_loop fuel p (store_header output k v)).2.uri =
                    output.uri ∧
                  (http_parse_headers_loop fuel p (store_header output k v)).2.body =
                    output.body ∧
                  (output.headers.length ≤ MAX_HEADERS →
                    (http_parse_headers_loop fuel p
                      (store_header output k v)).2.headers.length ≤ MAX_HEADERS) := by
              intro p k v
              have h1 := store_header_keeps output k v
              have h2 := ih p (store_header output k v)
              exact ⟨h2.1.trans h1.1, h2.2.1.trans h1.2.1, h2.2.2.1.trans h1.2.2.1,
                fun h => h2.2.2.2 (h1.2.2.2 h)⟩
            exact hk _ _ _

theorem http_parse_message_accepted (atoi : List Nat → Int) (stream : List Nat)
    (bytes_received : Nat) (out : http_message) (content_len : Int) (r : Int)
    (out1 : http_message) (len : Int)
    (h : http_parse_message atoi stream bytes_received out content_len = some (r, out1, len))
    (hend : strstr stream HTTP_HDR_END_DELIM ≠ none) (hr : 0 ≤ r) :
    content_length_loop atoi out1.headers 0 = some len ∧
      out1.headers.length ≤ MAX_HEADERS ∧
      (len ≤ 0 → r = 1 ∧ out1.body = { val := [], len := 0 }) := by
  unfold http_parse_message at h
  split at h
  · rename_i hs; exact absurd hs hend
  · simp only at h
    split at h
    · cases h; omega
    · split at h
      · cases h; omega
      · split at h
        · cases h; omega
        · split at h
          · cases h; omega
          · split at h
            · cases h; omega
            · rename_i p4 out3 hp
              have h3 : (http_parse_headers _ _).2 = out3 := congrArg Prod.snd hp
              have hk : out3.body = { val := [], len := 0 } ∧
                  out3.headers.length ≤ MAX_HEADERS := by
                rw [← h3]
                unfold http_parse_headers
                exact ⟨(http_parse_headers_loop_keeps _ _ _).2.2.1,
                  (http_parse_headers_loop_keeps _ _ _).2.2.2 (Nat.zero_le _)⟩
              cases hc : content_length_loop atoi out3.headers 0 with
              | none => rw [hc] at h; cases h
              | some l =>
                rw [hc] at h
                simp only at h
                split at h
                · rename_i hl
                  split at h
                  · cases h
                    exact ⟨hc, hk.2, fun h0 => absurd hl (by omega)⟩
                  · cases h
                    exact ⟨hc, hk.2, fun h0 => absurd hl (by omega)⟩
                · cases h
                  exact ⟨hc, hk.2, fun _ => ⟨rfl, hk.1⟩⟩

theorem key_test_of_eq (hd : http_header) (h : hd.key.bytes = ascii "Content-Length") :
    strncmp_eq hd.key.val (ascii "Content-Length") hd.key.len = true := by
  unfold http_string.bytes at h
  have hlen : (ascii "Content-Length").length ≤ hd.key.len := by
    rw [← h, List.length_take]; omega
  unfold strncmp_eq
  rw [h, List.take_of_length_le hlen]
  exact beq_self_eq_true _

theorem key_test_iff_of_no_nul (hd : http_header) (hnul : ∀ x ∈ hd.key.bytes, x ≠ 0)
    (hlen : hd.key.len ≤ hd.key.val.length) :
    strncmp_eq hd.key.val (ascii "Content-Length") hd.key.len = true ↔
      hd.key.bytes <+: ascii "Content-Length" := by
  unfold http_string.bytes at hnul ⊢
  have h1 : c_str (hd.key.val.take hd.key.len) = hd.key.val.take hd.key.len := by
    unfold c_str
    rw [List.takeWhile_eq_self_iff]
    intro x hx
    simpa using hnul x hx
  have h2 : c_str ((ascii "Content-Length").take hd.key.len) =
      (ascii "Content-Length").take hd.key.len := by
    unfold c_str
    rw [takeWhile_take_comm]
    exact congrArg _ (by decide)
  have h3 : (hd.key.val.take hd.key.len).length = hd.key.len := by
    rw [List.length_take]; omega
  unfold strncmp_eq
  rw [h1, h2, beq_iff_eq]
  constructor
  · intro h; rw [h]; exact List.take_prefix _ _
  · intro h
    have := List.prefix_iff_eq_take.mp h
    rw [h3] at this
    exact this

theorem content_length_loop_spec (atoi : List Nat → Int) :
    ∀ (headers : List http_header) (content_len len : Int),
      content_length_loop atoi headers content_len = some len →
      (∀ hd ∈ headers, strncmp_eq hd.key.val (ascii "Content-Length") hd.key.len = true →
        hd.key.bytes = ascii "Content-Length") →
      len =
        match headers.find? (fun hd => hd.key.bytes == ascii "Content-Length") with
        | some hd => atoi (c_str hd.value.bytes)
        | none => content_len := by
  intro headers
  induction headers with
  | nil => intro content_len len h _; cases h; rfl
  | cons hd rest ih =>
    intro content_len len h hkeys
    unfold content_length_loop at h
    by_cases ht : strncmp_eq hd.key.val (ascii "Content-Length") hd.key.len = true
    · rw [if_pos ht] at h
      have hb := hkeys hd (List.mem_cons_self _ _) ht
      rw [List.find?_cons_of_pos _ (by rw [hb]; exact beq_self_eq_true _)]
      split at h
      · cases h
      · cases h; rfl
    · rw [if_neg ht] at h
      have hb : ¬ (hd.key.bytes == ascii "Content-Length") = true := by
        intro hb
        exact ht (key_test_of_eq hd (beq_iff_eq.mp hb))
      have hf : (hd :: rest).find? (fun hd => hd.key.bytes == ascii "Content-Length") =
          rest.find? (fun hd => hd.key.bytes == ascii "Content-Length") :=
        List.find?_cons_of_neg _ hb
      rw [hf]
      exact ih content_len len h (fun x hx => hkeys x (List.mem_cons_of_mem _ hx))

/-- C18, counterexample. The request whose only header is `Content: 7` has
no header with the key `Content-Length`, yet `*content_len` becomes 7 and
the message is reported as not yet received; in the request with 41 headers
whose last header is `Content-Length: 3`, `*content_len` stays 0. -/
theorem content_length_other_keys :
    (http_parse_message sample_atoi request_content_key request_content_key.length
        zero_message 0).map (fun x => (x.1, x.2.2)) = some (0, 7) ∧
      (http_parse_message sample_atoi request_many_headers request_many_headers.length
        zero_message 0).map (fun x => (x.1, x.2.2)) = some (1, 0) := by
  decide

/-- C18, amended. Whenever `http_parse_message` finds the header terminator
and returns 0 or 1, the message holds at most `MAX_HEADERS` stored headers
and, provided every stored key that passes the comparison of line 171 is
exactly `Content-Length`, `*content_len` is `atoi` of the value of the first
stored header whose key is exactly `Content-Length`; when no stored header
has that key it is 0, the result is 1 and the body is empty. A key without
NUL byte passes the comparison of line 171 exactly when it is a prefix of
`Content-Length`, so the proviso holds when no stored key is a proper prefix
of `Content-Length`. -/
theorem content_length_stored (atoi : List Nat → Int) (stream : List Nat)
    (bytes_received : Nat) (out : http_message) (content_len : Int) (r : Int)
    (out1 : http_message) (len : Int)
    (h : http_parse_message atoi stream bytes_received out content_len = some (r, out1, len))
    (hend : strstr stream HTTP_HDR_END_DELIM ≠ none) (hr : 0 ≤ r)
    (hkeys : ∀ hd ∈ out1.headers,
      strncmp_eq hd.key.val (ascii "Content-Length") hd.key.len = true →
        hd.key.bytes = ascii "Content-Length") :
    (len =
        match out1.headers.find? (fun hd => hd.key.bytes == ascii "Content-Length") with
        | some hd => atoi (c_str hd.value.bytes)
        | none => 0) ∧
      out1.headers.length ≤ MAX_HEADERS ∧
      ((∀ hd ∈ out1.headers, hd.key.bytes ≠ ascii "Content-Length") →
        len = 0 ∧ r = 1 ∧ out1.body = { val := [], len := 0 }) ∧
      (∀ hd : http_header, (∀ x ∈ hd.key.bytes, x ≠ 0) → hd.key.len ≤ hd.key.val.length →
        (strncmp_eq hd.key.val (ascii "Content-Length") hd.key.len = true ↔
          hd.key.bytes <+: ascii "Content-Length")) := by
  have ha := http_parse_message_accepted atoi stream bytes_received out content_len r out1 len
    h hend hr
  have hl := content_length_loop_spec atoi out1.headers 0 len ha.1 hkeys
  refine ⟨hl, ha.2.1, ?_, fun hd hnul hlen => key_test_iff_of_no_nul hd hnul hlen⟩
  intro hnone
  have hf : out1.headers.find? (fun hd => hd.key.bytes == ascii "Content-Length") = none := by
    rw [List.find?_eq_none]
    intro hd hmem hb
    exact hnone hd hmem (beq_iff_eq.mp hb)
  rw [hf] at hl
  have hl0 : len = 0 := hl
  exact ⟨hl0, ha.2.2 (by omega)⟩

/-- Witness of C18: the request `request_with_body`, whose second header is
`Content-Length: 3`. -/
theorem content_length_stored_witness :
    http_parse_message sample_atoi request_with_body request_with_body.length zero_message 0 =
        some (1, parsed_with_body.2.1, 3) ∧
      parsed_with_body.2.1.headers.map (fun hd => (hd.key.bytes, hd.value.bytes)) =
        [(ascii "Host", ascii "localhost"), (ascii "Content-Length", ascii "3")] ∧
      ((3 : Int) =
        match parsed_with_body.2.1.headers.find?
          (fun hd => hd.key.bytes == ascii "Content-Length") with
        | some hd => sample_atoi (c_str hd.value.bytes)
        | none => 0) :=
  ⟨by decide, by decide,
    (content_length_stored sample_atoi request_with_body request_with_body.length zero_message 0
      1 parsed_with_body.2.1 3 (by decide) (by decide) (by decide) (by decide)).1⟩

/-! ### C17 -/

theorem c_str_append (a b : List Nat) (ha : ∀ x ∈ a, x ≠ 0) : c_str (a ++ b) = a ++ c_str b := by
  unfold c_str
  exact List.takeWhile_append_of_pos (fun x hx => by simpa using ha x hx)

theorem c_str_of_no_nul (a : List Nat) (ha : ∀ x ∈ a, x ≠ 0) : c_str a = a := by
  have := c_str_append a [] ha
  simpa [c_str] using this

theorem find_sub_here (needle s : List Nat) (h : needle <+: s) : find_sub needle s = some 0 := by
  cases s with
  | nil =>
    have : needle = [] := List.prefix_nil.mp h
    unfold find_sub; rw [if_pos this]
  | cons c t =>
    unfold find_sub
    rw [if_pos (List.isPrefixOf_iff_prefix.mpr h)]

theorem find_sub_skip (c : Nat) (needle : List Nat) (rest : List Nat) :
    ∀ a : List Nat, (∀ x ∈ a, x ≠ c) →
      find_sub (c :: needle) (a ++ rest) =
        (find_sub (c :: needle) rest).map (fun p => p + a.length) := by
  intro a
  induction a with
  | nil => intro _; simp
  | cons x a ih =>
    intro ha
    have hx : x ≠ c := ha x (List.mem_cons_self _ _)
    have hp : (c :: needle).isPrefixOf (x :: (a ++ rest)) = false := by
      simp [List.isPrefixOf, Ne.symm hx]
    rw [List.cons_append, find_sub, hp, ih (fun y hy => ha y (List.mem_cons_of_mem _ hy))]
    simp only [Bool.false_eq_true, if_false, Option.map_map, List.length_cons]
    congr 1

theorem find_sub_short (needle : List Nat) :
    ∀ s : List Nat, s.length < needle.length → find_sub needle s = none := by
  intro s
  induction s with
  | nil =>
    intro h
    unfold find_sub
    rw [if_neg]
    intro hn; rw [hn] at h; simp at h
  | cons c t ih =>
    intro h
    unfold find_sub
    have hp : needle.isPrefixOf (c :: t) = false := by
      rw [Bool.eq_false_iff]
      intro hp
      have := (List.isPrefixOf_iff_prefix.mp hp).length_le
      omega
    rw [hp, ih (by simp only [List.length_cons] at h; omega)]
    rfl

theorem find_sub_take (needle : List Nat) :
    ∀ (s : List Nat) (p k : Nat), find_sub needle s = some p →
      (k < p + needle.length → find_sub needle (s.take k) = none) ∧
      (p + needle.length ≤ k → find_sub needle (s.take k) = some p) := by
  intro s
  induction s with
  | nil =>
    intro p k h
    have hb := find_sub_bound needle [] p h
    simp only [List.length_nil] at hb
    have hn : needle = [] := List.length_eq_zero.mp (by omega)
    have hp : p = 0 := by omega
    subst hn; subst hp
    constructor
    · intro hk; simp at hk
    · intro _; simpa using h
  | cons c t ih =>
    intro p k h
    cases k with
    | zero =>
      constructor
      · intro hk
        rcases Nat.eq_zero_or_pos needle.length with h0 | h0
        · have hn : needle = [] := List.length_eq_zero.mp h0
          subst hn
          have hp : p = 0 := by
            rw [find_sub_here [] (c :: t) (List.nil_prefix)] at h
            cases h; rfl
          subst hp
          simp at hk
        · exact find_sub_short needle _ (by simpa using h0)
      · intro hk
        have hn : needle = [] := List.length_eq_zero.mp (by omega)
        have hp : p = 0 := by omega
        subst hn; subst hp
        rfl
    | succ k =>
      rw [List.take_succ_cons]
      by_cases hpre : needle.isPrefixOf (c :: t) = true
      · have hp0 : p = 0 := by
          unfold find_sub at h
          rw [if_pos hpre] at h
          cases h; rfl
        subst hp0
        constructor
        · intro hk
          exact find_sub_short needle _ (by
            simp only [List.length_cons, List.length_take]; omega)
        · intro hk
          apply find_sub_here
          have h1 := List.isPrefixOf_iff_prefix.mp hpre
          have h3 : (c :: t.take k) = (c :: t).take (k + 1) := rfl
          rw [h3]
          exact List.prefix_take_iff.mpr ⟨h1, by omega⟩
      · have hpre2 : needle.isPrefixOf (c :: t.take k) = false := by
          rw [Bool.eq_false_iff]
          intro hp
          apply hpre
          have h1 := List.isPrefixOf_iff_prefix.mp hp
          have h3 : (c :: t.take k) = (c :: t).take (k + 1) := rfl
          rw [h3] at h1
          exact List.isPrefixOf_iff_prefix.mpr (h1.trans (List.take_prefix _ _))
        unfold find_sub at h ⊢
        rw [if_neg hpre] at h
        rw [hpre2]
        simp only [Bool.false_eq_true, if_false]
        cases hq : find_sub needle t with
        | none => rw [hq] at h; cases h
        | some q =>
          rw [hq] at h
          simp only [Option.map_some', Option.some.injEq] at h
          subst h
          have := ih q k hq
          constructor
          · intro hk; rw [this.1 (by omega)]; rfl
          · intro hk; rw [this.2 (by omega)]; rfl

theorem strstr_delim (tok rest delim : List Nat) (c : Nat) (d : List Nat) (hdl : delim = c :: d)
    (hd : ∀ x ∈ delim, x ≠ 0) (htok : ∀ x ∈ tok, x ≠ c ∧ x ≠ 0) :
    strstr (tok ++ (delim ++ rest)) delim = some tok.length := by
  unfold strstr
  rw [c_str_of_no_nul delim hd, c_str_append tok _ (fun x hx => (htok x hx).2),
    c_str_append delim _ hd]
  subst hdl
  rw [find_sub_skip c d _ tok (fun x hx => (htok x hx).1),
    find_sub_here _ _ (List.prefix_append _ _)]
  simp

theorem get_next_token_delim (tok rest delim : List Nat) (c : Nat) (d : List Nat)
    (hdl : delim = c :: d) (hd : ∀ x ∈ delim, x ≠ 0) (htok : ∀ x ∈ tok, x ≠ c ∧ x ≠ 0) :
    get_next_token (tok ++ (delim ++ rest)) delim =
      ({ val := tok ++ (delim ++ rest), len := tok.length }, some rest) := by
  unfold get_next_token
  rw [strstr_delim tok rest delim c d hdl hd htok]
  simp only [strlen, c_str_of_no_nul delim hd]
  rw [← List.drop_drop, List.drop_left, List.drop_left]

theorem kv_delim_eq : HTTP_HDR_KV_DELIM = 58 :: [32] := by decide

theorem line_delim_eq : HTTP_LINE_DELIM = 13 :: [10] := by decide

theorem kv_delim_no_nul : ∀ x ∈ HTTP_HDR_KV_DELIM, x ≠ 0 := by decide

theorem line_delim_no_nul : ∀ x ∈ HTTP_LINE_DELIM, x ≠ 0 := by decide

theorem strlen_line_delim : strlen HTTP_LINE_DELIM = 2 := by decide

theorem header_block_head (kv : List Nat × List Nat) (lines : List (List Nat × List Nat))
    (rest : List Nat) (hk : ∀ x ∈ kv.1, x ≠ 13 ∧ x ≠ 0) :
    ∃ y r, header_block (kv :: lines) rest = y :: r ∧ y ≠ 13 ∧ y ≠ 0 := by
  unfold header_block
  cases hkey : kv.1 with
  | nil => exact ⟨58, _, rfl, by decide, by decide⟩
  | cons y r =>
    refine ⟨y, _, rfl, ?_⟩
    exact hk y (by rw [hkey]; exact List.mem_cons_self _ _)

theorem strncmp_line_delim_of_ne (y : Nat) (r : List Nat) (hy : y ≠ 13) :
    strncmp_eq (y :: r) HTTP_LINE_DELIM 2 = false := by
  rw [line_delim_eq]
  unfold strncmp_eq c_str
  have hr : [13, 10].take 2 = [13, 10] := rfl
  have hc : List.takeWhile (fun c => c != 0) [13, 10] = [13, 10] := rfl
  rw [hr, hc, List.take_succ_cons]
  by_cases h0 : y = 0
  · subst h0
    rw [List.takeWhile_cons_of_neg (by simp)]
    rfl
  · rw [List.takeWhile_cons_of_pos (by simpa using h0)]
    simp [hy]

theorem strncmp_line_delim_self (rest : List Nat) :
    strncmp_eq (HTTP_LINE_DELIM ++ rest) HTTP_LINE_DELIM 2 = true := by
  rw [line_delim_eq]
  unfold strncmp_eq
  rfl

theorem http_parse_headers_loop_block :
    ∀ (lines : List (List Nat × List Nat)) (kv : List Nat × List Nat) (fuel : Nat)
      (output : http_message) (rest : List Nat),
      lines.length < fuel →
      (∀ p ∈ kv :: lines,
        (∀ x ∈ p.1, x ≠ 58 ∧ x ≠ 13 ∧ x ≠ 0) ∧ (∀ x ∈ p.2, x ≠ 13 ∧ x ≠ 0)) →
      http_parse_headers_loop fuel (header_block (kv :: lines) (HTTP_LINE_DELIM ++ rest))
          output =
        (some rest,
          (block_headers (kv :: lines) (HTTP_LINE_DELIM ++ rest)).foldl
            (fun o hd => store_header o hd.key hd.value) output) := by
  intro lines
  induction lines with
  | nil =>
    intro kv fuel output rest hfuel hok
    obtain ⟨f, rfl⟩ : ∃ f, fuel = f + 1 := ⟨fuel - 1, by omega⟩
    have hkv := hok kv (List.mem_cons_self _ _)
    obtain ⟨y, r, hy, _, hy0⟩ := header_block_head kv [] (HTTP_LINE_DELIM ++ rest)
      (fun x hx => ⟨(hkv.1 x hx).2.1, (hkv.1 x hx).2.2⟩)
    have hhead : ¬ (header_block [kv] (HTTP_LINE_DELIM ++ rest)).headD 0 = 0 := by
      rw [hy]; exact hy0
    have h1 : get_next_token (header_block [kv] (HTTP_LINE_DELIM ++ rest)) HTTP_HDR_KV_DELIM =
        ({ val := header_block [kv] (HTTP_LINE_DELIM ++ rest), len := kv.1.length },
          some (kv.2 ++ (HTTP_LINE_DELIM ++ (HTTP_LINE_DELIM ++ rest)))) :=
      get_next_token_delim kv.1 _ HTTP_HDR_KV_DELIM 58 [32] kv_delim_eq kv_delim_no_nul
        (fun x hx => ⟨(hkv.1 x hx).1, (hkv.1 x hx).2.2⟩)
    have h2 : get_next_token (kv.2 ++ (HTTP_LINE_DELIM ++ (HTTP_LINE_DELIM ++ rest)))
        HTTP_LINE_DELIM =
        ({ val := kv.2 ++ (HTTP_LINE_DELIM ++ (HTTP_LINE_DELIM ++ rest)), len := kv.2.length },
          some (HTTP_LINE_DELIM ++ rest)) :=
      get_next_token_delim kv.2 _ HTTP_LINE_DELIM 13 [10] line_delim_eq line_delim_no_nul
        (fun x hx => hkv.2 x hx)
    rw [http_parse_headers_loop, if_neg hhead, h1]
    simp only
    rw [h2]
    simp only
    rw [strlen_line_delim, strncmp_line_delim_self, if_pos rfl]
    rfl
  | cons kv1 lines ih =>
    intro kv fuel output rest hfuel hok
    obtain ⟨f, rfl⟩ : ∃ f, fuel = f + 1 := ⟨fuel - 1, by omega⟩
    have hkv := hok kv (List.mem_cons_self _ _)
    have hkv1 := hok kv1 (List.mem_cons_of_mem _ (List.mem_cons_self _ _))
    obtain ⟨y, r, hy, _, hy0⟩ := header_block_head kv (kv1 :: lines) (HTTP_LINE_DELIM ++ rest)
      (fun x hx => ⟨(hkv.1 x hx).2.1, (hkv.1 x hx).2.2⟩)
    have hhead : ¬ (header_block (kv :: kv1 :: lines) (HTTP_LINE_DELIM ++ rest)).headD 0 = 0 := by
      rw [hy]; exact hy0
    have h1 : get_next_token (header_block (kv :: kv1 :: lines) (HTTP_LINE_DELIM ++ rest))
        HTTP_HDR_KV_DELIM =
        ({ val := header_block (kv :: kv1 :: lines) (HTTP_LINE_DELIM ++ rest),
           len := kv.1.length },
          some (kv.2 ++ (HTTP_LINE_DELIM ++
            header_block (kv1 :: lines) (HTTP_LINE_DELIM ++ rest)))) :=
      get_next_token_delim kv.1 _ HTTP_HDR_KV_DELIM 58 [32] kv_delim_eq kv_delim_no_nul
        (fun x hx => ⟨(hkv.1 x hx).1, (hkv.1 x hx).2.2⟩)
    have h2 : get_next_token
        (kv.2 ++ (HTTP_LINE_DELIM ++ header_block (kv1 :: lines) (HTTP_LINE_DELIM ++ rest)))
        HTTP_LINE_DELIM =
        ({ val := kv.2 ++ (HTTP_LINE_DELIM ++
              header_block (kv1 :: lines) (HTTP_LINE_DELIM ++ rest)),
           len := kv.2.length },
          some (header_block (kv1 :: lines) (HTTP_LINE_DELIM ++ rest))) :=
      get_next_token_delim kv.2 _ HTTP_LINE_DELIM 13 [10] line_delim_eq line_delim_no_nul
        (fun x hx => hkv.2 x hx)
    obtain ⟨y1, r1, hy1, hy13, _⟩ := header_block_head kv1 lines (HTTP_LINE_DELIM ++ rest)
      (fun x hx => ⟨(hkv1.1 x hx).2.1, (hkv1.1 x hx).2.2⟩)
    have h3 : strncmp_eq (header_block (kv1 :: lines) (HTTP_LINE_DELIM ++ rest))
        HTTP_LINE_DELIM 2 = false := by
      rw [hy1]; exact strncmp_line_delim_of_ne y1 r1 hy13
    rw [http_parse_headers_loop, if_neg hhead, h1]
    simp only
    rw [h2]
    simp only
    rw [strlen_line_delim, h3]
    simp only [Bool.false_eq_true, if_false]
    rw [ih kv1 f _ rest (by simp only [List.length_cons] at hfuel; omega)
      (fun p hp => hok p (List.mem_cons_of_mem _ hp))]
    rfl

theorem foldl_store_header (hs : List http_header) :
    ∀ o : http_message,
      hs.foldl (fun o hd => store_header o hd.key hd.value) o =
        { o with headers := o.headers ++ hs.take (MAX_HEADERS - o.headers.length) } := by
  induction hs with
  | nil => intro o; simp
  | cons hd hs ih =>
    intro o
    cases hd with
    | mk key value =>
    rw [List.foldl_cons, ih]
    unfold store_header http_message.num_headers
    by_cases hn : o.headers.length < MAX_HEADERS
    · rw [if_pos hn]
      obtain ⟨m, hm⟩ : ∃ m, MAX_HEADERS - o.headers.length = m + 1 :=
        ⟨MAX_HEADERS - o.headers.length - 1, by omega⟩
      have hm2 : MAX_HEADERS - (o.headers ++ [({ key := key, value := value } : http_header)]).length =
          m := by
        simp only [List.length_append, List.length_singleton]; omega
      simp only [hm, hm2, List.take_succ_cons, List.append_assoc, List.singleton_append]
    · rw [if_neg hn]
      have hm : MAX_HEADERS - o.headers.length = 0 := by omega
      simp only [hm, List.take_zero]

theorem block_header_key_bytes (kv : List Nat × List Nat) (lines : List (List Nat × List Nat))
    (rest : List Nat) : (block_header kv lines rest).key.bytes = kv.1 := by
  unfold block_header http_string.bytes header_block
  exact List.take_left' rfl

theorem block_header_value (kv : List Nat × List Nat) (lines : List (List Nat × List Nat))
    (rest : List Nat) (hv : ∀ x ∈ kv.2, x ≠ 0) :
    (block_header kv lines rest).value.len = kv.2.length ∧
      c_str ((block_header kv lines rest).value.val.take (block_header kv lines rest).value.len) =
        kv.2 := by
  refine ⟨rfl, ?_⟩
  unfold block_header
  simp only
  rw [List.take_left' rfl, c_str_of_no_nul kv.2 hv]

theorem block_header_key_len (kv : List Nat × List Nat) (lines : List (List Nat × List Nat))
    (rest : List Nat) :
    (block_header kv lines rest).key.len ≤ (block_header kv lines rest).key.val.length := by
  unfold block_header header_block
  simp only [List.length_append]
  omega

theorem content_length_block (atoi : List Nat → Int) (rest : List Nat) (content_len : Int) :
    ∀ (lines : List (List Nat × List Nat)) (n : Nat),
      (∀ p ∈ lines,
        (∀ x ∈ p.1, x ≠ 58 ∧ x ≠ 13 ∧ x ≠ 0) ∧ (∀ x ∈ p.2, x ≠ 13 ∧ x ≠ 0)) →
      (∀ p ∈ lines.take n, p.1 <+: ascii "Content-Length" → p.1 = ascii "Content-Length") →
      (∀ p ∈ lines.take n, p.1 = ascii "Content-Length" → p.2.length < 32) →
      content_length_loop atoi ((block_headers lines rest).take n) content_len =
        some (match (lines.take n).find? (fun kv => kv.1 == ascii "Content-Length") with
          | some kv => atoi kv.2
          | none => content_len) := by
  intro lines
  induction lines with
  | nil => intro n _ _ _; simp [block_headers, content_length_loop]
  | cons kv lines ih =>
    intro n hok hpre hval
    cases n with
    | zero => simp [content_length_loop]
    | succ n =>
      have hkv := hok kv (List.mem_cons_self _ _)
      simp only [block_headers, List.take_succ_cons]
      unfold content_length_loop
      have hbytes := block_header_key_bytes kv lines rest
      have htest := key_test_iff_of_no_nul (block_header kv lines rest)
        (by rw [hbytes]; exact fun x hx => (hkv.1 x hx).2.2)
        (block_header_key_len kv lines rest)
      rw [hbytes] at htest
      have hvalue := block_header_value kv lines rest (fun x hx => (hkv.2 x hx).2)
      by_cases hk : kv.1 = ascii "Content-Length"
      · have ht := htest.mpr (by rw [hk])
        have hv := hval kv (by simp) hk
        rw [if_pos ht, if_neg (by rw [hvalue.1]; omega),
          List.find?_cons_of_pos _ (by rw [hk]; exact beq_self_eq_true _), hvalue.2]
      · have ht : ¬ strncmp_eq (block_header kv lines rest).key.val (ascii "Content-Length")
            (block_header kv lines rest).key.len = true := by
          intro ht
          exact hk (hpre kv (by simp) (htest.mp ht))
        rw [if_neg ht]
        have hf : (kv :: lines.take n).find? (fun kv => kv.1 == ascii "Content-Length") =
            (lines.take n).find? (fun kv => kv.1 == ascii "Content-Length") :=
          List.find?_cons_of_neg _ (by simpa using hk)
        rw [hf]
        exact ih n (fun p hp => hok p (List.mem_cons_of_mem _ hp))
          (fun p hp => hpre p (by simp [hp]))
          (fun p hp => hval p (by simp [hp]))

theorem header_block_append (a b : List Nat) :
    ∀ lines : List (List Nat × List Nat),
      header_block lines (a ++ b) = header_block lines a ++ b := by
  intro lines
  induction lines with
  | nil => rfl
  | cons kv lines ih => simp only [header_block, ih, List.append_assoc]

theorem length_header_block_cons (kv : List Nat × List Nat)
    (lines : List (List Nat × List Nat)) (rest : List Nat) :
    (header_block (kv :: lines) rest).length =
      kv.1.length + 2 + kv.2.length + 2 + (header_block lines rest).length := by
  simp only [header_block, List.length_append, kv_delim_eq, line_delim_eq, List.length_cons,
    List.length_nil]
  omega

theorem length_header_block (lines : List (List Nat × List Nat)) (rest : List Nat) :
    (header_block lines rest).length = (header_block lines []).length + rest.length := by
  have := header_block_append [] rest lines
  rw [List.nil_append] at this
  rw [this, List.length_append]

theorem c_str_header_block (rest : List Nat) :
    ∀ lines : List (List Nat × List Nat),
      (∀ p ∈ lines,
        (∀ x ∈ p.1, x ≠ 58 ∧ x ≠ 13 ∧ x ≠ 0) ∧ (∀ x ∈ p.2, x ≠ 13 ∧ x ≠ 0)) →
      c_str (header_block lines rest) = header_block lines (c_str rest) := by
  intro lines
  induction lines with
  | nil => intro _; rfl
  | cons kv lines ih =>
    intro hok
    have hkv := hok kv (List.mem_cons_self _ _)
    simp only [header_block]
    rw [c_str_append _ _ (fun x hx => (hkv.1 x hx).2.2), c_str_append _ _ kv_delim_no_nul,
      c_str_append _ _ (fun x hx => (hkv.2 x hx).2), c_str_append _ _ line_delim_no_nul,
      ih (fun p hp => hok p (List.mem_cons_of_mem _ hp))]

theorem end_delim_eq : HTTP_HDR_END_DELIM = 13 :: [10, 13, 10] := by decide

theorem find_sub_line_skip (y : Nat) (r : List Nat) (hy : y ≠ 13) :
    find_sub HTTP_HDR_END_DELIM (HTTP_LINE_DELIM ++ (y :: r)) =
      (find_sub HTTP_HDR_END_DELIM (y :: r)).map (fun p => p + 2) := by
  rw [end_delim_eq, line_delim_eq]
  have h1 : ([13, 10, 13, 10] : List Nat).isPrefixOf (13 :: 10 :: y :: r) = false := by
    simp [List.isPrefixOf, Ne.symm hy]
  have h2 : ([13, 10, 13, 10] : List Nat).isPrefixOf (10 :: y :: r) = false := by
    simp [List.isPrefixOf]
  show find_sub [13, 10, 13, 10] (13 :: 10 :: y :: r) = _
  rw [find_sub, h1, find_sub, h2]
  simp only [Bool.false_eq_true, if_false, Option.map_map]
  congr 1

theorem find_sub_end_block (rest : List Nat) :
    ∀ (lines : List (List Nat × List Nat)) (kv : List Nat × List Nat),
      (∀ p ∈ kv :: lines,
        (∀ x ∈ p.1, x ≠ 58 ∧ x ≠ 13 ∧ x ≠ 0) ∧ (∀ x ∈ p.2, x ≠ 13 ∧ x ≠ 0)) →
      find_sub HTTP_HDR_END_DELIM (header_block (kv :: lines) (HTTP_LINE_DELIM ++ rest)) =
        some ((header_block (kv :: lines) []).length - 2) := by
  intro lines
  induction lines with
  | nil =>
    intro kv hok
    have hkv := hok kv (List.mem_cons_self _ _)
    have hskip : find_sub HTTP_HDR_END_DELIM (header_block [kv] (HTTP_LINE_DELIM ++ rest)) =
        (((find_sub HTTP_HDR_END_DELIM (HTTP_LINE_DELIM ++ (HTTP_LINE_DELIM ++ rest))).map
          (fun p => p + kv.2.length)).map (fun p => p + HTTP_HDR_KV_DELIM.length)).map
            (fun p => p + kv.1.length) := by
      show find_sub HTTP_HDR_END_DELIM (kv.1 ++ (HTTP_HDR_KV_DELIM ++ (kv.2 ++
        (HTTP_LINE_DELIM ++ (HTTP_LINE_DELIM ++ rest))))) = _
      rw [end_delim_eq, find_sub_skip 13 _ _ kv.1 (fun x hx => (hkv.1 x hx).2.1),
        find_sub_skip 13 _ _ HTTP_HDR_KV_DELIM (by decide),
        find_sub_skip 13 _ _ kv.2 (fun x hx => (hkv.2 x hx).1)]
    rw [hskip, find_sub_here _ _ (by
      show HTTP_LINE_DELIM ++ HTTP_LINE_DELIM <+: HTTP_LINE_DELIM ++ (HTTP_LINE_DELIM ++ rest)
      rw [← List.append_assoc]; exact List.prefix_append _ _)]
    rw [length_header_block_cons]
    simp only [Option.map_some', kv_delim_eq, List.length_cons, List.length_nil, header_block]
    congr 1
    omega
  | cons kv1 lines ih =>
    intro kv hok
    have hkv := hok kv (List.mem_cons_self _ _)
    have hkv1 := hok kv1 (List.mem_cons_of_mem _ (List.mem_cons_self _ _))
    obtain ⟨y1, r1, hy1, hy13, _⟩ := header_block_head kv1 lines (HTTP_LINE_DELIM ++ rest)
      (fun x hx => ⟨(hkv1.1 x hx).2.1, (hkv1.1 x hx).2.2⟩)
    have hskip : find_sub HTTP_HDR_END_DELIM
        (header_block (kv :: kv1 :: lines) (HTTP_LINE_DELIM ++ rest)) =
        (((find_sub HTTP_HDR_END_DELIM
          (HTTP_LINE_DELIM ++ header_block (kv1 :: lines) (HTTP_LINE_DELIM ++ rest))).map
          (fun p => p + kv.2.length)).map (fun p => p + HTTP_HDR_KV_DELIM.length)).map
            (fun p => p + kv.1.length) := by
      show find_sub HTTP_HDR_END_DELIM (kv.1 ++ (HTTP_HDR_KV_DELIM ++ (kv.2 ++
        (HTTP_LINE_DELIM ++ header_block (kv1 :: lines) (HTTP_LINE_DELIM ++ rest))))) = _
      rw [end_delim_eq, find_sub_skip 13 _ _ kv.1 (fun x hx => (hkv.1 x hx).2.1),
        find_sub_skip 13 _ _ HTTP_HDR_KV_DELIM (by decide),
        find_sub_skip 13 _ _ kv.2 (fun x hx => (hkv.2 x hx).1)]
    have hlen := length_header_block_cons kv1 lines []
    rw [hskip, hy1, find_sub_line_skip y1 r1 hy13, ← hy1,
      ih kv1 (fun p hp => hok p (List.mem_cons_of_mem _ hp)),
      length_header_block_cons kv (kv1 :: lines)]
    simp only [Option.map_some', kv_delim_eq, List.length_cons, List.length_nil]
    congr 1
    omega

theorem request_append (method uri : List Nat) (lines : List (List Nat × List Nat))
    (body : List Nat) : request method uri lines body = request method uri lines [] ++ body := by
  unfold request request_from_uri
  have h : header_block lines (HTTP_LINE_DELIM ++ body) =
      header_block lines (HTTP_LINE_DELIM ++ []) ++ body := by
    rw [← header_block_append, List.append_assoc, List.nil_append]
  rw [h]
  simp only [List.append_assoc]

theorem head_length_eq (method uri : List Nat) (lines : List (List Nat × List Nat)) :
    head_length method uri lines =
      method.length + 1 + uri.length + 1 + 8 + 2 + (header_block lines []).length + 2 := by
  unfold head_length request request_from_uri
  rw [List.length_append, List.length_append, List.length_append, List.length_append,
    List.length_append, List.length_append, length_header_block]
  have h1 : (ascii " ").length = 1 := rfl
  have h2 : (ascii "HTTP/1.1").length = 8 := rfl
  have h3 : HTTP_LINE_DELIM.length = 2 := rfl
  have h4 : (HTTP_LINE_DELIM ++ ([] : List Nat)).length = 2 := rfl
  rw [h1, h2, h3, h4]
  omega

theorem length_request (method uri : List Nat) (lines : List (List Nat × List Nat))
    (body : List Nat) :
    (request method uri lines body).length = head_length method uri lines + body.length := by
  rw [request_append, List.length_append]; rfl

theorem length_le_header_block (rest : List Nat) :
    ∀ lines : List (List Nat × List Nat), lines.length ≤ (header_block lines rest).length := by
  intro lines
  induction lines with
  | nil => exact Nat.zero_le _
  | cons kv lines ih =>
    rw [length_header_block_cons, List.length_cons]
    omega

theorem c_str_request (method uri : List Nat) (lines : List (List Nat × List Nat))
    (body : List Nat) (hm : ∀ x ∈ method, x ≠ 32 ∧ x ≠ 13 ∧ x ≠ 0)
    (hu : ∀ x ∈ uri, x ≠ 32 ∧ x ≠ 13 ∧ x ≠ 0)
    (hok : ∀ p ∈ lines,
      (∀ x ∈ p.1, x ≠ 58 ∧ x ≠ 13 ∧ x ≠ 0) ∧ (∀ x ∈ p.2, x ≠ 13 ∧ x ≠ 0)) :
    c_str (request method uri lines body) = request method uri lines (c_str body) := by
  unfold request request_from_uri
  rw [c_str_append _ _ (fun x hx => (hm x hx).2.2), c_str_append _ _ (by decide),
    c_str_append _ _ (fun x hx => (hu x hx).2.2), c_str_append _ _ (by decide),
    c_str_append _ _ (by decide), c_str_append _ _ line_delim_no_nul,
    c_str_header_block _ lines hok, c_str_append _ _ line_delim_no_nul]

theorem strstr_end_request (method uri : List Nat) (kv : List Nat × List Nat)
    (lines : List (List Nat × List Nat)) (body : List Nat)
    (hm : ∀ x ∈ method, x ≠ 32 ∧ x ≠ 13 ∧ x ≠ 0) (hu : ∀ x ∈ uri, x ≠ 32 ∧ x ≠ 13 ∧ x ≠ 0)
    (hok : ∀ p ∈ kv :: lines,
      (∀ x ∈ p.1, x ≠ 58 ∧ x ≠ 13 ∧ x ≠ 0) ∧ (∀ x ∈ p.2, x ≠ 13 ∧ x ≠ 0)) :
    strstr (request method uri (kv :: lines) body) HTTP_HDR_END_DELIM =
      some (head_length method uri (kv :: lines) - 4) := by
  have hkv := hok kv (List.mem_cons_self _ _)
  obtain ⟨y, r, hy, hy13, _⟩ := header_block_head kv lines (HTTP_LINE_DELIM ++ c_str body)
    (fun x hx => ⟨(hkv.1 x hx).2.1, (hkv.1 x hx).2.2⟩)
  have hE : c_str HTTP_HDR_END_DELIM = HTTP_HDR_END_DELIM := by decide
  unfold strstr
  rw [hE, c_str_request method uri (kv :: lines) body hm hu hok]
  unfold request request_from_uri
  have hskip : find_sub HTTP_HDR_END_DELIM
      (method ++ (ascii " " ++ (uri ++ (ascii " " ++ (ascii "HTTP/1.1" ++
        (HTTP_LINE_DELIM ++ header_block (kv :: lines) (HTTP_LINE_DELIM ++ c_str body))))))) =
      (((((find_sub HTTP_HDR_END_DELIM
        (HTTP_LINE_DELIM ++ header_block (kv :: lines) (HTTP_LINE_DELIM ++ c_str body))).map
        (fun p => p + (ascii "HTTP/1.1").length)).map (fun p => p + (ascii " ").length)).map
        (fun p => p + uri.length)).map (fun p => p + (ascii " ").length)).map
        (fun p => p + method.length) := by
    rw [end_delim_eq, find_sub_skip 13 _ _ method (fun x hx => (hm x hx).2.1),
      find_sub_skip 13 _ _ (ascii " ") (by decide),
      find_sub_skip 13 _ _ uri (fun x hx => (hu x hx).2.1),
      find_sub_skip 13 _ _ (ascii " ") (by decide),
      find_sub_skip 13 _ _ (ascii "HTTP/1.1") (by decide)]
  rw [hskip, hy, find_sub_line_skip y r hy13, ← hy, find_sub_end_block _ lines kv hok,
    head_length_eq, length_header_block_cons]
  have h1 : (ascii " ").length = 1 := rfl
  have h2 : (ascii "HTTP/1.1").length = 8 := rfl
  simp only [Option.map_some', h1, h2]
  congr 1
  omega

theorem http_parse_message_request (atoi : List Nat → Int) (method uri : List Nat)
    (kv : List Nat × List Nat) (lines : List (List Nat × List Nat)) (rest : List Nat)
    (bytes_received : Nat) (out : http_message) (content_len : Int)
    (hm : ∀ x ∈ method, x ≠ 32 ∧ x ≠ 13 ∧ x ≠ 0) (hu : ∀ x ∈ uri, x ≠ 32 ∧ x ≠ 13 ∧ x ≠ 0)
    (hok : ∀ p ∈ kv :: lines,
      (∀ x ∈ p.1, x ≠ 58 ∧ x ≠ 13 ∧ x ≠ 0) ∧ (∀ x ∈ p.2, x ≠ 13 ∧ x ≠ 0))
    (hpre : ∀ p ∈ (kv :: lines).take MAX_HEADERS,
      p.1 <+: ascii "Content-Length" → p.1 = ascii "Content-Length")
    (hval : ∀ p ∈ (kv :: lines).take MAX_HEADERS,
      p.1 = ascii "Content-Length" → p.2.length < 32) :
    http_parse_message atoi (request method uri (kv :: lines) rest) bytes_received out
        content_len =
      if 0 < declared_length atoi (kv :: lines) then
        if bytes_received <
            head_length method uri (kv :: lines) +
              (declared_length atoi (kv :: lines)).toNat then
          some (0, parsed_head method uri (kv :: lines) rest, declared_length atoi (kv :: lines))
        else
          some (1,
            { parsed_head method uri (kv :: lines) rest with
              body :=
                { val := (request method uri (kv :: lines) rest).drop
                    (head_length method uri (kv :: lines))
                  len := (declared_length atoi (kv :: lines)).toNat } },
            declared_length atoi (kv :: lines))
      else
        some (1, parsed_head method uri (kv :: lines) rest,
          declared_length atoi (kv :: lines)) := by
  have h1 : get_next_token (request method uri (kv :: lines) rest) (ascii " ") =
      ({ val := request method uri (kv :: lines) rest, len := method.length },
        some (request_from_uri uri (kv :: lines) rest)) :=
    get_next_token_delim method _ (ascii " ") 32 [] rfl (by decide)
      (fun x hx => ⟨(hm x hx).1, (hm x hx).2.2⟩)
  have h2 : get_next_token (request_from_uri uri (kv :: lines) rest) (ascii " ") =
      ({ val := request_from_uri uri (kv :: lines) rest, len := uri.length },
        some (ascii "HTTP/1.1" ++
          (HTTP_LINE_DELIM ++ header_block (kv :: lines) (HTTP_LINE_DELIM ++ rest)))) :=
    get_next_token_delim uri _ (ascii " ") 32 [] rfl (by decide)
      (fun x hx => ⟨(hu x hx).1, (hu x hx).2.2⟩)
  have h3 : get_next_token (ascii "HTTP/1.1" ++
      (HTTP_LINE_DELIM ++ header_block (kv :: lines) (HTTP_LINE_DELIM ++ rest)))
      HTTP_LINE_DELIM =
      ({ val := ascii "HTTP/1.1" ++
            (HTTP_LINE_DELIM ++ header_block (kv :: lines) (HTTP_LINE_DELIM ++ rest)),
         len := (ascii "HTTP/1.1").length },
        some (header_block (kv :: lines) (HTTP_LINE_DELIM ++ rest))) :=
    get_next_token_delim (ascii "HTTP/1.1") _ HTTP_LINE_DELIM 13 [10] line_delim_eq
      line_delim_no_nul (by decide)
  have h4 : strncmp_eq (ascii "HTTP/1.1" ++
      (HTTP_LINE_DELIM ++ header_block (kv :: lines) (HTTP_LINE_DELIM ++ rest)))
      HTTP_PROTOCOL_ID (ascii "HTTP/1.1").length = true := by
    unfold strncmp_eq
    rw [List.take_left' rfl]
    decide
  have h5 : ∀ o : http_message,
      http_parse_headers (header_block (kv :: lines) (HTTP_LINE_DELIM ++ rest)) o =
        (some rest,
          (block_headers (kv :: lines) (HTTP_LINE_DELIM ++ rest)).foldl
            (fun o hd => store_header o hd.key hd.value) o) := by
    intro o
    unfold http_parse_headers
    exact http_parse_headers_loop_block lines kv _ o rest (by
      have := length_le_header_block (HTTP_LINE_DELIM ++ rest) (kv :: lines)
      simp only [List.length_cons] at this
      omega) hok
  have h6 := content_length_block atoi (HTTP_LINE_DELIM ++ rest) 0 (kv :: lines) MAX_HEADERS
    hok hpre hval
  have h7 : strlen HTTP_HDR_END_DELIM = 4 := by decide
  have h8 : 4 ≤ head_length method uri (kv :: lines) := by
    rw [head_length_eq]; omega
  have h9 : head_length method uri (kv :: lines) - 4 + 4 = head_length method uri (kv :: lines) :=
    by omega
  unfold http_parse_message
  rw [strstr_end_request method uri kv lines rest hm hu hok]
  simp only
  rw [h1]
  simp only
  rw [h2]
  simp only
  rw [h3]
  simp only
  rw [h4, h5, foldl_store_header]
  simp only [Bool.true_eq_false, if_false, zero_message, List.nil_append, List.length_nil,
    Nat.sub_zero]
  rw [h6, h7, h9]
  rfl

theorem take_request (method uri : List Nat) (lines : List (List Nat × List Nat))
    (body : List Nat) (k : Nat) (hk : head_length method uri lines ≤ k) :
    (request method uri lines body).take k =
      request method uri lines (body.take (k - head_length method uri lines)) := by
  rw [request_append, List.take_append_eq_append_take,
    List.take_of_length_le (show (request method uri lines []).length ≤ k from hk),
    ← request_append]
  rfl

theorem drop_request (method uri : List Nat) (lines : List (List Nat × List Nat))
    (body : List Nat) :
    (request method uri lines body).drop (head_length method uri lines) = body := by
  rw [request_append]
  exact List.drop_left' rfl

theorem drop_request_uri (method uri : List Nat) (lines : List (List Nat × List Nat))
    (body : List Nat) :
    (request method uri lines body).drop (method.length + 1) =
      request_from_uri uri lines body := by
  unfold request
  rw [← List.append_assoc]
  exact List.drop_left' (by rw [List.length_append]; rfl)

theorem strstr_end_take (method uri : List Nat) (kv : List Nat × List Nat)
    (lines : List (List Nat × List Nat)) (body : List Nat) (k : Nat)
    (hm : ∀ x ∈ method, x ≠ 32 ∧ x ≠ 13 ∧ x ≠ 0) (hu : ∀ x ∈ uri, x ≠ 32 ∧ x ≠ 13 ∧ x ≠ 0)
    (hok : ∀ p ∈ kv :: lines,
      (∀ x ∈ p.1, x ≠ 58 ∧ x ≠ 13 ∧ x ≠ 0) ∧ (∀ x ∈ p.2, x ≠ 13 ∧ x ≠ 0))
    (hk : k < head_length method uri (kv :: lines)) :
    strstr ((request method uri (kv :: lines) body).take k) HTTP_HDR_END_DELIM = none := by
  have h := strstr_end_request method uri kv lines body hm hu hok
  have h4 : 4 ≤ head_length method uri (kv :: lines) := by rw [head_length_eq]; omega
  unfold strstr at h ⊢
  have hc : c_str ((request method uri (kv :: lines) body).take k) =
      (c_str (request method uri (kv :: lines) body)).take k := by
    unfold c_str; exact takeWhile_take_comm _ _ _
  rw [hc]
  refine (find_sub_take _ _ _ k h).1 ?_
  have hE : (c_str HTTP_HDR_END_DELIM).length = 4 := by decide
  rw [hE]
  omega

/-- C17, counterexample. The request `GET / HTTP/1.1 CRLF CRLF`, which has
a request line, no header line and the blank line, is rejected once it is
received in full: `http_parse_message` returns -1. -/
theorem request_without_headers_rejected :
    (http_parse_message sample_atoi (request (ascii "GET") (ascii "/") [] [])
        (request (ascii "GET") (ascii "/") [] []).length zero_message 0).map (fun x => x.1) =
      some (-1) := by
  decide

/-- C17, amended. Take a request made of a request line `METHOD SP URI SP
HTTP/1.1 CRLF` (method and URI without space, CR and NUL), one or more
header lines `Key: Value CRLF` (keys without `:`, CR and NUL, values without
CR and NUL), a blank line and a body, in which, among the first
`MAX_HEADERS` headers, no key is a proper prefix of `Content-Length` and
the value of a `Content-Length` header has fewer than 32 bytes; let the
declared length be `atoi` of the value of the first `Content-Length` header
among the first `MAX_HEADERS` headers, 0 when there is none. On the first
`k` bytes of the request `http_parse_message` returns 0 and leaves its
outputs alone while the blank line is not received; it returns 0 with
`*content_len` set to the declared length while that length is positive and
fewer body bytes are received; otherwise it returns 1, with `out->method`
and `out->uri` the slices of the stream holding the method and the URI and
`out->body` the slice of the declared length that starts after the blank
line (empty when the declared length is not positive). In every case the
result is 0 or 1, never negative. -/
theorem http_parse_message_ready (atoi : List Nat → Int) (method uri : List Nat)
    (lines : List (List Nat × List Nat)) (body : List Nat) (k : Nat) (out : http_message)
    (content_len : Int)
    (hm : ∀ x ∈ method, x ≠ 32 ∧ x ≠ 13 ∧ x ≠ 0) (hu : ∀ x ∈ uri, x ≠ 32 ∧ x ≠ 13 ∧ x ≠ 0)
    (hne : lines ≠ [])
    (hok : ∀ p ∈ lines, (∀ x ∈ p.1, x ≠ 58 ∧ x ≠ 13 ∧ x ≠ 0) ∧ (∀ x ∈ p.2, x ≠ 13 ∧ x ≠ 0))
    (hpre : ∀ p ∈ lines.take MAX_HEADERS,
      p.1 <+: ascii "Content-Length" → p.1 = ascii "Content-Length")
    (hval : ∀ p ∈ lines.take MAX_HEADERS, p.1 = ascii "Content-Length" → p.2.length < 32)
    (hk : k ≤ (request method uri lines body).length) :
    (k < head_length method uri lines →
        http_parse_message atoi ((request method uri lines body).take k) k out content_len =
          some (0, out, content_len)) ∧
      (head_length method uri lines ≤ k → 0 < declared_length atoi lines →
        k < head_length method uri lines + (declared_length atoi lines).toNat →
        ∃ out1,
          http_parse_message atoi ((request method uri lines body).take k) k out content_len =
            some (0, out1, declared_length atoi lines)) ∧
      (head_length method uri lines ≤ k →
        (declared_length atoi lines ≤ 0 ∨
          head_length method uri lines + (declared_length atoi lines).toNat ≤ k) →
        ∃ out1,
          http_parse_message atoi ((request method uri lines body).take k) k out content_len =
            some (1, out1, declared_length atoi lines) ∧
          out1.method.val = (request method uri lines body).take k ∧
          out1.method.bytes = method ∧
          out1.uri.val = ((request method uri lines body).take k).drop (method.length + 1) ∧
          out1.uri.bytes = uri ∧
          (0 < declared_length atoi lines →
            out1.body.val =
                ((request method uri lines body).take k).drop (head_length method uri lines) ∧
              out1.body.len = (declared_length atoi lines).toNat ∧
              out1.body.bytes = body.take (declared_length atoi lines).toNat) ∧
          (declared_length atoi lines ≤ 0 → out1.body = { val := [], len := 0 })) ∧
      (∃ r out1 len,
        http_parse_message atoi ((request method uri lines body).take k) k out content_len =
          some (r, out1, len) ∧ (r = 0 ∨ r = 1)) := by
  obtain ⟨kv, l, rfl⟩ : ∃ kv l, lines = kv :: l := by
    cases lines with
    | nil => exact absurd rfl hne
    | cons kv l => exact ⟨kv, l, rfl⟩
  have hlast : ∀ A B C : Prop, A → B → C →
      (A → B → C →
        ∃ r out1 len,
          http_parse_message atoi ((request method uri (kv :: l) body).take k) k out
              content_len = some (r, out1, len) ∧ (r = 0 ∨ r = 1)) →
      A ∧ B ∧ C ∧
        ∃ r out1 len,
          http_parse_message atoi ((request method uri (kv :: l) body).take k) k out
              content_len = some (r, out1, len) ∧ (r = 0 ∨ r = 1) :=
    fun _ _ _ a b c f => ⟨a, b, c, f a b c⟩
  refine hlast _ _ _ ?_ ?_ ?_ ?_
  · intro hlt
    unfold http_parse_message
    rw [strstr_end_take method uri kv l body k hm hu hok hlt]
  · intro hge hpos hlt
    rw [take_request method uri (kv :: l) body k hge,
      http_parse_message_request atoi method uri kv l _ k out content_len hm hu hok hpre hval,
      if_pos hpos, if_pos hlt]
    exact ⟨_, rfl⟩
  · intro hge hcase
    rw [take_request method uri (kv :: l) body k hge,
      http_parse_message_request atoi method uri kv l _ k out content_len hm hu hok hpre hval]
    have hmb : (request method uri (kv :: l)
        (body.take (k - head_length method uri (kv :: l)))).take method.length = method := by
      unfold request; exact List.take_left' rfl
    have hub : (request_from_uri uri (kv :: l)
        (body.take (k - head_length method uri (kv :: l)))).take uri.length = uri := by
      unfold request_from_uri; exact List.take_left' rfl
    by_cases hpos : 0 < declared_length atoi (kv :: l)
    · have hle : head_length method uri (kv :: l) + (declared_length atoi (kv :: l)).toNat ≤ k := by
        rcases hcase with h | h
        · omega
        · exact h
      rw [if_pos hpos, if_neg (by omega)]
      refine ⟨_, rfl, rfl, hmb, (drop_request_uri _ _ _ _).symm, hub, ?_, ?_⟩
      · intro _
        refine ⟨rfl, rfl, ?_⟩
        show ((request method uri (kv :: l)
            (body.take (k - head_length method uri (kv :: l)))).drop
              (head_length method uri (kv :: l))).take (declared_length atoi (kv :: l)).toNat =
          body.take (declared_length atoi (kv :: l)).toNat
        rw [drop_request, List.take_take, Nat.min_eq_left (by omega)]
      · intro h0; omega
    · rw [if_neg hpos]
      refine ⟨_, rfl, rfl, hmb, (drop_request_uri _ _ _ _).symm, hub, ?_, ?_⟩
      · intro h0; exact absurd h0 hpos
      · intro _; rfl
  · intro h1 h2 h3
    by_cases hlt : k < head_length method uri (kv :: l)
    · exact ⟨0, out, content_len, h1 hlt, Or.inl rfl⟩
    · by_cases hc : declared_length atoi (kv :: l) ≤ 0 ∨
          head_length method uri (kv :: l) + (declared_length atoi (kv :: l)).toNat ≤ k
      · obtain ⟨out1, ho, _⟩ := h3 (by omega) hc
        exact ⟨1, out1, _, ho, Or.inr rfl⟩
      · obtain ⟨out1, ho⟩ := h2 (by omega) (by omega) (by omega)
        exact ⟨0, out1, _, ho, Or.inl rfl⟩

/-- Witness of C17: the example request, received in full and received up
to its second body byte. -/
theorem http_parse_message_ready_witness :
    sample_lines ≠ [] ∧
      (sample_request.length - 1 <
        head_length (ascii "POST") (ascii "/imgfs/insert?name=a") sample_lines +
          (declared_length sample_atoi sample_lines).toNat) ∧
      (http_parse_message sample_atoi sample_request sample_request.length zero_message 0).map
          (fun x => (x.1, x.2.1.method.bytes, x.2.1.uri.bytes, x.2.1.body.bytes, x.2.2)) =
        some (1, ascii "POST", ascii "/imgfs/insert?name=a", ascii "abc", 3) ∧
      ∃ out1,
        http_parse_message sample_atoi (sample_request.take (sample_request.length - 1))
            (sample_request.length - 1) zero_message 0 =
          some (0, out1, declared_length sample_atoi sample_lines) :=
  ⟨by decide, by decide, by decide,
    (http_parse_message_ready sample_atoi (ascii "POST") (ascii "/imgfs/insert?name=a")
      sample_lines (ascii "abc") (sample_request.length - 1) zero_message 0 (by decide)
      (by decide) (by decide) (by decide) (by decide) (by decide) (by decide)).2.1
      (by decide) (by decide) (by decide)⟩

/-! ### C30 -/

/-- C30. The streams `GET / HTTP CRLF Host: localhost CRLF CRLF` and
`GET /  CRLF Host: localhost CRLF CRLF` contain the terminator and have the
third token `HTTP`, a proper prefix of `HTTP/1.1`, and the empty token; on
both `http_parse_message` returns 1, not a negative value. -/
theorem http_version_prefix_accepted :
    (http_parse_message sample_atoi (ascii "GET / HTTP\r\nHost: localhost\r\n\r\n")
        (ascii "GET / HTTP\r\nHost: localhost\r\n\r\n").length zero_message 0).map
        (fun x => (x.1, x.2.1.method.bytes, x.2.1.uri.bytes)) =
        some (1, ascii "GET", ascii "/") ∧
      (http_parse_message sample_atoi (ascii "GET / \r\nHost: localhost\r\n\r\n")
        (ascii "GET / \r\nHost: localhost\r\n\r\n").length zero_message 0).map
        (fun x => (x.1, x.2.1.method.bytes, x.2.1.uri.bytes)) =
        some (1, ascii "GET", ascii "/") := by
  decide

/-! ### C29 -/

theorem find_sub_cons_none {needle : List Nat} {x : Nat} {t : List Nat}
    (h : find_sub needle (x :: t) = none) :
    needle.isPrefixOf (x :: t) = false ∧ find_sub needle t = none := by
  unfold find_sub at h
  by_cases hp : needle.isPrefixOf (x :: t) = true
  · rw [if_pos hp] at h; cases h
  · rw [if_neg hp] at h
    refine ⟨Bool.eq_false_iff.mpr hp, ?_⟩
    cases hf : find_sub needle t with
    | none => rfl
    | some q => rw [hf] at h; cases h

theorem find_sub_two (a b : Nat) (hab : a ≠ b) (rest : List Nat) :
    ∀ tok : List Nat, find_sub [a, b] tok = none →
      find_sub [a, b] (tok ++ ([a, b] ++ rest)) = some tok.length := by
  intro tok
  induction tok with
  | nil => intro _; exact find_sub_here _ _ (List.prefix_append _ _)
  | cons x t ih =>
    intro h
    obtain ⟨hp, ht⟩ := find_sub_cons_none h
    have hp2 : ([a, b] : List Nat).isPrefixOf (x :: (t ++ ([a, b] ++ rest))) = false := by
      cases t with
      | nil =>
        by_cases hx : a = x
        · simp [List.isPrefixOf, hx, Ne.symm hab]
          intro hbx
          exact hab (hx.trans hbx.symm)
        · simp [List.isPrefixOf, hx]
      | cons y t1 =>
        simp only [List.isPrefixOf, Bool.and_true, Bool.and_eq_false_imp, beq_iff_eq,
          beq_eq_false_iff_ne, ne_eq] at hp
        simp only [List.cons_append, List.isPrefixOf, Bool.and_true, Bool.and_eq_false_imp,
          beq_iff_eq, beq_eq_false_iff_ne, ne_eq]
        exact hp
    rw [List.cons_append, find_sub, hp2, ih ht]
    rfl

theorem get_next_token_two (tok rest delim : List Nat) (a b : Nat) (hdl : delim = [a, b])
    (hab : a ≠ b) (hd : ∀ x ∈ delim, x ≠ 0) (hnul : ∀ x ∈ tok, x ≠ 0)
    (htok : find_sub delim tok = none) :
    get_next_token (tok ++ (delim ++ rest)) delim =
      ({ val := tok ++ (delim ++ rest), len := tok.length }, some rest) := by
  have hs : strstr (tok ++ (delim ++ rest)) delim = some tok.length := by
    unfold strstr
    rw [c_str_of_no_nul delim hd, c_str_append tok _ hnul, c_str_append delim _ hd]
    subst hdl
    exact find_sub_two a b hab _ tok htok
  unfold get_next_token
  rw [hs]
  simp only [strlen, c_str_of_no_nul delim hd]
  rw [← List.drop_drop, List.drop_left, List.drop_left]

theorem strncmp_line_delim_iff (s : List Nat) :
    strncmp_eq s HTTP_LINE_DELIM 2 = true ↔ HTTP_LINE_DELIM <+: s := by
  rw [line_delim_eq]
  unfold strncmp_eq c_str
  have hr : List.takeWhile (fun c => c != 0) (([13, 10] : List Nat).take 2) = [13, 10] := rfl
  rw [hr, beq_iff_eq]
  match s with
  | [] => simp
  | [x] =>
    by_cases h0 : x = 0
    · subst h0
      simp [List.takeWhile]
    · rw [List.take_of_length_le (by simp), List.takeWhile_cons_of_pos (by simpa using h0)]
      simp [List.prefix_cons_iff] 
  | x :: y :: r =>
    have ht : (x :: y :: r).take 2 = [x, y] := rfl
    rw [ht]
    constructor
    · intro h
      by_cases hx : x = 0
      · subst hx; simp [List.takeWhile] at h
      · rw [List.takeWhile_cons_of_pos (by simpa using hx)] at h
        by_cases hy : y = 0
        · subst hy; simp [List.takeWhile] at h
        · rw [List.takeWhile_cons_of_pos (by simpa using hy)] at h
          simp only [List.takeWhile_nil, List.cons.injEq, and_true] at h
          rw [h.1, h.2]
          exact List.prefix_append [13, 10] r
    · intro h
      have h2 := List.prefix_iff_eq_take.mp h
      simp only [List.length_cons, List.length_nil, List.take_succ_cons, List.take_zero,
        List.cons.injEq, and_true] at h2
      rw [← h2.1, ← h2.2]
      rfl

theorem header_block_not_blank (kv : List Nat × List Nat) (lines : List (List Nat × List Nat))
    (rest : List Nat) (hk : find_sub HTTP_LINE_DELIM kv.1 = none) (hnul : ∀ x ∈ kv.1, x ≠ 0) :
    (header_block (kv :: lines) rest).headD 0 ≠ 0 ∧
      strncmp_eq (header_block (kv :: lines) rest) HTTP_LINE_DELIM 2 = false := by
  unfold header_block
  rw [kv_delim_eq]
  constructor
  · cases hkey : kv.1 with
    | nil => exact (by decide : (58 : Nat) ≠ 0)
    | cons y r => exact hnul y (by rw [hkey]; exact List.mem_cons_self _ _)
  · rw [Bool.eq_false_iff, ne_eq, strncmp_line_delim_iff, line_delim_eq]
    intro hpre
    rw [line_delim_eq] at hk
    cases hkey : kv.1 with
    | nil =>
      rw [hkey] at hpre
      have := List.prefix_iff_eq_take.mp hpre
      simp at this
    | cons y r =>
      cases r with
      | nil =>
        rw [hkey] at hpre
        have := List.prefix_iff_eq_take.mp hpre
        simp at this
      | cons z r1 =>
        rw [hkey] at hpre hk
        have h2 := List.prefix_iff_eq_take.mp hpre
        simp only [List.cons_append, List.length_cons, List.length_nil, List.take_succ_cons,
          List.take_zero, List.cons.injEq, and_true] at h2
        have hp := (find_sub_cons_none hk).1
        rw [← h2.1, ← h2.2] at hp
        simp [List.isPrefixOf] at hp

theorem http_parse_headers_loop_lines (rest : List Nat) :
    ∀ (lines : List (List Nat × List Nat)) (kv : List Nat × List Nat) (fuel : Nat)
      (output : http_message),
      lines.length < fuel →
      (∀ p ∈ kv :: lines,
        find_sub HTTP_HDR_KV_DELIM p.1 = none ∧ find_sub HTTP_LINE_DELIM p.1 = none ∧
          find_sub HTTP_LINE_DELIM p.2 = none ∧ (∀ x ∈ p.1, x ≠ 0) ∧ (∀ x ∈ p.2, x ≠ 0)) →
      http_parse_headers_loop fuel (header_block (kv :: lines) rest) output =
        if strncmp_eq rest HTTP_LINE_DELIM 2 then
          (some (rest.drop 2),
            (block_headers (kv :: lines) rest).foldl
              (fun o hd => store_header o hd.key hd.value) output)
        else
          http_parse_headers_loop (fuel - (lines.length + 1)) rest
            ((block_headers (kv :: lines) rest).foldl
              (fun o hd => store_header o hd.key hd.value) output) := by
  intro lines
  induction lines with
  | nil =>
    intro kv fuel output hfuel hok
    obtain ⟨f, rfl⟩ : ∃ f, fuel = f + 1 := ⟨fuel - 1, by omega⟩
    have hkv := hok kv (List.mem_cons_self _ _)
    have hhead := (header_block_not_blank kv [] rest hkv.2.1 hkv.2.2.2.1).1
    have h1 : get_next_token (header_block [kv] rest) HTTP_HDR_KV_DELIM =
        ({ val := header_block [kv] rest, len := kv.1.length },
          some (kv.2 ++ (HTTP_LINE_DELIM ++ rest))) :=
      get_next_token_two kv.1 _ HTTP_HDR_KV_DELIM 58 32 kv_delim_eq (by decide) kv_delim_no_nul
        hkv.2.2.2.1 hkv.1
    have h2 : get_next_token (kv.2 ++ (HTTP_LINE_DELIM ++ rest)) HTTP_LINE_DELIM =
        ({ val := kv.2 ++ (HTTP_LINE_DELIM ++ rest), len := kv.2.length }, some rest) :=
      get_next_token_two kv.2 _ HTTP_LINE_DELIM 13 10 line_delim_eq (by decide)
        line_delim_no_nul hkv.2.2.2.2 hkv.2.2.1
    rw [http_parse_headers_loop, if_neg hhead, h1]
    simp only
    rw [h2]
    simp only
    rw [strlen_line_delim]
    rfl
  | cons kv1 lines ih =>
    intro kv fuel output hfuel hok
    obtain ⟨f, rfl⟩ : ∃ f, fuel = f + 1 := ⟨fuel - 1, by omega⟩
    have hkv := hok kv (List.mem_cons_self _ _)
    have hkv1 := hok kv1 (List.mem_cons_of_mem _ (List.mem_cons_self _ _))
    have hhead := (header_block_not_blank kv (kv1 :: lines) rest hkv.2.1 hkv.2.2.2.1).1
    have h1 : get_next_token (header_block (kv :: kv1 :: lines) rest) HTTP_HDR_KV_DELIM =
        ({ val := header_block (kv :: kv1 :: lines) rest, len := kv.1.length },
          some (kv.2 ++ (HTTP_LINE_DELIM ++ header_block (kv1 :: lines) rest))) :=
      get_next_token_two kv.1 _ HTTP_HDR_KV_DELIM 58 32 kv_delim_eq (by decide) kv_delim_no_nul
        hkv.2.2.2.1 hkv.1
    have h2 : get_next_token (kv.2 ++ (HTTP_LINE_DELIM ++ header_block (kv1 :: lines) rest))
        HTTP_LINE_DELIM =
        ({ val := kv.2 ++ (HTTP_LINE_DELIM ++ header_block (kv1 :: lines) rest),
           len := kv.2.length },
          some (header_block (kv1 :: lines) rest)) :=
      get_next_token_two kv.2 _ HTTP_LINE_DELIM 13 10 line_delim_eq (by decide)
        line_delim_no_nul hkv.2.2.2.2 hkv.2.2.1
    have h3 := (header_block_not_blank kv1 lines rest hkv1.2.1 hkv1.2.2.2.1).2
    rw [http_parse_headers_loop, if_neg hhead, h1]
    simp only
    rw [h2]
    simp only
    rw [strlen_line_delim, h3]
    simp only [Bool.false_eq_true, if_false]
    rw [ih kv1 f _ (by simp only [List.length_cons] at hfuel; omega)
      (fun p hp => hok p (List.mem_cons_of_mem _ hp))]
    have hf : f + 1 - ((kv1 :: lines).length + 1) = f - (lines.length + 1) := by
      simp only [List.length_cons]; omega
    rw [hf]
    rfl

theorem block_headers_bytes (rest : List Nat) :
    ∀ lines : List (List Nat × List Nat),
      (block_headers lines rest).map (fun hd => (hd.key.bytes, hd.value.bytes)) = lines := by
  intro lines
  induction lines with
  | nil => rfl
  | cons kv lines ih =>
    have hv : (block_header kv lines rest).value.bytes = kv.2 := by
      unfold block_header http_string.bytes
      exact List.take_left' rfl
    simp only [block_headers, List.map_cons, ih, block_header_key_bytes, hv]

theorem http_parse_headers_loop_nil (fuel : Nat) (output : http_message) :
    http_parse_headers_loop fuel [] output = (none, output) := by
  cases fuel with
  | zero => rfl
  | succ f => rw [http_parse_headers_loop]; rfl

/-- C29, amended. For every block of one or more header lines
`k1: v1 CRLF ... kn: vn CRLF` followed by the blank line `CRLF` (keys
without `: ` and without CRLF, values without CRLF, no NUL byte in a key or
a value), parsed into a message with `num_headers = 0`, `http_parse_headers`
returns the position right after the blank line and stores exactly the
first `min(n, MAX_HEADERS)` pairs `(ki, vi)` in order, so that `num_headers`
is `min(n, MAX_HEADERS)` and at most `MAX_HEADERS`; on the same lines with
no blank line after them it returns NULL. -/
theorem http_parse_headers_block (lines : List (List Nat × List Nat)) (rest : List Nat)
    (output : http_message) (hne : lines ≠ [])
    (hok : ∀ p ∈ lines,
      find_sub HTTP_HDR_KV_DELIM p.1 = none ∧ find_sub HTTP_LINE_DELIM p.1 = none ∧
        find_sub HTTP_LINE_DELIM p.2 = none ∧ (∀ x ∈ p.1, x ≠ 0) ∧ (∀ x ∈ p.2, x ≠ 0))
    (hnum : output.num_headers = 0) :
    (http_parse_headers (header_block lines (HTTP_LINE_DELIM ++ rest)) output).1 = some rest ∧
      (http_parse_headers (header_block lines (HTTP_LINE_DELIM ++ rest)) output).2.headers.map
          (fun hd => (hd.key.bytes, hd.value.bytes)) = lines.take MAX_HEADERS ∧
      (http_parse_headers (header_block lines (HTTP_LINE_DELIM ++ rest)) output).2.num_headers =
        min lines.length MAX_HEADERS ∧
      (http_parse_headers (header_block lines (HTTP_LINE_DELIM ++ rest)) output).2.num_headers ≤
        MAX_HEADERS ∧
      (http_parse_headers (header_block lines []) output).1 = none := by
  obtain ⟨kv, l, rfl⟩ : ∃ kv l, lines = kv :: l := by
    cases lines with
    | nil => exact absurd rfl hne
    | cons kv l => exact ⟨kv, l, rfl⟩
  have hh : output.headers = [] := List.length_eq_zero.mp hnum
  have hfuel : ∀ t : List Nat, l.length < (header_block (kv :: l) t).length + 1 := by
    intro t
    have := length_le_header_block t (kv :: l)
    simp only [List.length_cons] at this
    omega
  have h1 : http_parse_headers (header_block (kv :: l) (HTTP_LINE_DELIM ++ rest)) output =
      (some rest,
        { output with
          headers := (block_headers (kv :: l) (HTTP_LINE_DELIM ++ rest)).take MAX_HEADERS }) := by
    unfold http_parse_headers
    rw [http_parse_headers_loop_lines _ l kv _ output (hfuel _) hok,
      strncmp_line_delim_self, if_pos rfl, foldl_store_header, hh]
    have hd : (HTTP_LINE_DELIM ++ rest).drop 2 = rest := List.drop_left' rfl
    rw [hd]
    rfl
  have h2 : http_parse_headers (header_block (kv :: l) []) output =
      (none,
        (block_headers (kv :: l) []).foldl (fun o hd => store_header o hd.key hd.value)
          output) := by
    unfold http_parse_headers
    rw [http_parse_headers_loop_lines _ l kv _ output (hfuel _) hok]
    have hs : strncmp_eq [] HTTP_LINE_DELIM 2 = false := by decide
    rw [hs]
    exact http_parse_headers_loop_nil _ _
  have hlen : ((block_headers (kv :: l) (HTTP_LINE_DELIM ++ rest)).take MAX_HEADERS).length =
      min (kv :: l).length MAX_HEADERS := by
    have := congrArg List.length (block_headers_bytes (HTTP_LINE_DELIM ++ rest) (kv :: l))
    rw [List.length_map] at this
    rw [List.length_take, this, Nat.min_comm]
  rw [h1, h2]
  refine ⟨rfl, ?_, hlen, ?_, rfl⟩
  · show ((block_headers (kv :: l) (HTTP_LINE_DELIM ++ rest)).take MAX_HEADERS).map _ = _
    rw [List.map_take, block_headers_bytes]
  · show ((block_headers (kv :: l) (HTTP_LINE_DELIM ++ rest)).take MAX_HEADERS).length ≤ _
    rw [hlen]
    exact Nat.min_le_right _ _

/-- Witness of C29: a block of 41 lines `A: b`, of which the first 40 are
stored. -/
theorem http_parse_headers_block_witness :
    (List.replicate 41 (ascii "A", ascii "b")) ≠ [] ∧
      (http_parse_headers
        (header_block (List.replicate 41 (ascii "A", ascii "b")) (HTTP_LINE_DELIM ++ ascii "xyz"))
        zero_message).1 = some (ascii "xyz") ∧
      (http_parse_headers
        (header_block (List.replicate 41 (ascii "A", ascii "b")) (HTTP_LINE_DELIM ++ ascii "xyz"))
        zero_message).2.num_headers = min (List.replicate 41 (ascii "A", ascii "b")).length
          MAX_HEADERS ∧
      min (List.replicate 41 (ascii "A", ascii "b")).length MAX_HEADERS = 40 :=
  ⟨by decide,
    (http_parse_headers_block (List.replicate 41 (ascii "A", ascii "b")) (ascii "xyz")
      zero_message (by decide) (by decide) (by decide)).1,
    (http_parse_headers_block (List.replicate 41 (ascii "A", ascii "b")) (ascii "xyz")
      zero_message (by decide) (by decide) (by decide)).2.2.1,
    by decide⟩

/-! ### C21 -/

theorem length_decimal_loop :
    ∀ (fuel n : Nat) (acc : List Nat), n < fuel →
      (decimal_loop fuel n acc).length = Nat.log 10 n + 1 + acc.length := by
  intro fuel
  induction fuel with
  | zero => intro n acc h; omega
  | succ fuel ih =>
    intro n acc h
    unfold decimal_loop
    by_cases hn : n < 10
    · rw [if_pos hn, Nat.log_of_lt hn, List.length_cons]
      omega
    · rw [if_neg hn, ih (n / 10) _ (by omega),
        Nat.log_of_one_lt_of_le (by norm_num) (by omega : 10 ≤ n), List.length_cons]
      omega

theorem length_decimal (n : Nat) : (decimal n).length = Nat.log 10 n + 1 := by
  unfold decimal
  rw [length_decimal_loop (n + 1) n [] (by omega)]
  rfl

theorem length_reply_text (log10_size : Nat → Nat) (status headers : List Nat) (body_len : Nat)
    (hlog : body_len ≠ 0 → log10_size body_len = Nat.log 10 body_len) :
    (reply_text status headers body_len).length =
      reply_total_size log10_size status headers body_len := by
  unfold reply_text reply_total_size strlen
  have h1 : (c_str HTTP_PROTOCOL_ID).length = 9 := by decide
  have h2 : (c_str HTTP_LINE_DELIM).length = 2 := by decide
  have h3 : (c_str (ascii "Content-Length: ")).length = 16 := by decide
  have h4 : (c_str HTTP_HDR_END_DELIM).length = 4 := by decide
  have h5 : (ascii "Content-Length: ").length = 16 := by decide
  simp only [List.length_append, h1, h2, h3, h4, h5, length_decimal]
  by_cases h0 : body_len = 0
  · subst h0
    simp
    omega
  · rw [if_neg h0, hlog h0]
    omega

theorem http_reply_sent (log10_size : Nat → Nat) (tcp_send_ok : Bool)
    (status headers body : List Nat) (body_len : Nat)
    (hlog : body_len ≠ 0 → log10_size body_len = Nat.log 10 body_len)
    (hbody : body.length = body_len) :
    http_reply log10_size tcp_send_ok status headers (some body) body_len =
      (if tcp_send_ok then ERR_NONE else ERR_IO,
        some (reply_text status headers body_len ++ body)) := by
  have hlen := length_reply_text log10_size status headers body_len hlog
  unfold http_reply
  rw [if_neg (by simp)]
  simp only
  have ht : snprintf (reply_total_size log10_size status headers body_len + 1)
      (reply_text status headers body_len) = reply_text status headers body_len := by
    unfold snprintf
    exact List.take_of_length_le (by omega)
  rw [ht, hlen]
  congr 2
  by_cases h0 : 0 < body_len
  · rw [if_pos h0]
    unfold memcpy_at
    have hb1 : body.take body_len = body := List.take_of_length_le (by omega)
    rw [hb1, List.take_left' hlen]
    exact List.take_left' (by rw [List.length_append, hlen, hbody])
  · have hb : body = [] := List.length_eq_zero.mp (by omega)
    have hz : body_len = 0 := by omega
    subst hb
    subst hz
    rw [if_neg h0, Nat.add_zero, List.take_left' hlen, List.append_nil]

theorem http_reply_null (log10_size : Nat → Nat) (tcp_send_ok : Bool)
    (status headers : List Nat) :
    http_reply log10_size tcp_send_ok status headers none 0 =
      http_reply log10_size tcp_send_ok status headers (some []) 0 := by
  unfold http_reply
  simp

/-- C21. Reply framing: for every status, headers string and body of
`body_len` bytes, when `(size_t)log10((double)body_len)` is the floor of the
decimal logarithm of `body_len`, the bytes `http_reply` hands to `tcp_send`
are exactly `HTTP/1.1 `, the status, CRLF, the headers, `Content-Length: `,
the decimal digits of `body_len`, CRLF CRLF and the body; `total_size` is
the length of the header text, so the text is not cut and the body follows
it directly, and `total_size + body_len` bytes are sent. A NULL body with
`body_len = 0` gives the header text alone. -/
theorem http_reply_framing (log10_size : Nat → Nat) (tcp_send_ok : Bool)
    (status headers body : List Nat) (body_len : Nat)
    (hlog : body_len ≠ 0 → log10_size body_len = Nat.log 10 body_len)
    (hbody : body.length = body_len) :
    http_reply log10_size tcp_send_ok status headers (some body) body_len =
        (if tcp_send_ok then ERR_NONE else ERR_IO,
          some (ascii "HTTP/1.1 " ++ c_str status ++ ascii "\r\n" ++ c_str headers ++
            ascii "Content-Length: " ++ decimal body_len ++ ascii "\r\n\r\n" ++ body)) ∧
      reply_total_size log10_size status headers body_len =
        (ascii "HTTP/1.1 " ++ c_str status ++ ascii "\r\n" ++ c_str headers ++
          ascii "Content-Length: " ++ decimal body_len ++ ascii "\r\n\r\n").length ∧
      (ascii "HTTP/1.1 " ++ c_str status ++ ascii "\r\n" ++ c_str headers ++
          ascii "Content-Length: " ++ decimal body_len ++ ascii "\r\n\r\n" ++ body).length =
        reply_total_size log10_size status headers body_len + body_len ∧
      (body_len = 0 →
        http_reply log10_size tcp_send_ok status headers none body_len =
          (if tcp_send_ok then ERR_NONE else ERR_IO,
            some (ascii "HTTP/1.1 " ++ c_str status ++ ascii "\r\n" ++ c_str headers ++
              ascii "Content-Length: " ++ decimal body_len ++ ascii "\r\n\r\n"))) := by
  have e1 : c_str HTTP_PROTOCOL_ID = ascii "HTTP/1.1 " := by decide
  have e2 : c_str HTTP_LINE_DELIM = ascii "\r\n" := by decide
  have e3 : c_str HTTP_HDR_END_DELIM = ascii "\r\n\r\n" := by decide
  have htext : reply_text status headers body_len =
      ascii "HTTP/1.1 " ++ c_str status ++ ascii "\r\n" ++ c_str headers ++
        ascii "Content-Length: " ++ decimal body_len ++ ascii "\r\n\r\n" := by
    unfold reply_text
    rw [e1, e2, e3]
    simp only [List.append_assoc]
  have hlen := length_reply_text log10_size status headers body_len hlog
  rw [htext] at hlen
  refine ⟨?_, hlen.symm, ?_, ?_⟩
  · rw [http_reply_sent log10_size tcp_send_ok status headers body body_len hlog hbody, htext]
  · rw [List.length_append, hlen, hbody]
  · intro h0
    subst h0
    have hnil := http_reply_sent log10_size tcp_send_ok status headers [] 0 hlog rfl
    rw [htext, List.append_nil] at hnil
    rw [http_reply_null, hnil]

/-- Witness of C21: a `200 OK` reply with a body of 12 bytes. -/
theorem http_reply_framing_witness :
    (List.replicate 12 7).length = 12 ∧
      http_reply sample_log10 true (ascii "200 OK") (ascii "Content-Type: image/jpeg\r\n")
          (some (List.replicate 12 7)) 12 =
        (ERR_NONE,
          some (ascii "HTTP/1.1 200 OK\r\nContent-Type: image/jpeg\r\nContent-Length: 12\r\n\r\n" ++
            List.replicate 12 7)) :=
  ⟨by decide,
    (http_reply_framing sample_log10 true (ascii "200 OK") (ascii "Content-Type: image/jpeg\r\n")
      (List.replicate 12 7) 12
      (fun _ => by rw [sample_log10, length_decimal]; rfl) (by decide)).1.trans (by decide)⟩

/-! ### C22 -/

theorem c_str_eq_self_of_length (v : List Nat) (h : v.length ≤ (c_str v).length) :
    c_str v = v := by
  unfold c_str at h ⊢
  exact (List.takeWhile_prefix _).eq_of_length_le h

theorem strncmp_eq_target (val target : List Nat) (ht : ∀ x ∈ target, x ≠ 0) :
    strncmp_eq val target (strlen target) = true ↔ val.take target.length = target := by
  have hs : strlen target = target.length := by
    unfold strlen; rw [c_str_of_no_nul target ht]
  unfold strncmp_eq
  rw [hs, List.take_of_length_le (le_refl _), c_str_of_no_nul target ht, beq_iff_eq]
  constructor
  · intro h
    have hl : (val.take target.length).length ≤ (c_str (val.take target.length)).length := by
      rw [h, List.length_take]; omega
    rw [c_str_eq_self_of_length _ hl] at h
    exact h
  · intro h
    rw [h]
    exact c_str_of_no_nul target ht

theorem http_match_uri_iff (msg : http_message) (target : List Nat)
    (ht : ∀ x ∈ target, x ≠ 0) :
    http_match_uri msg target = true ↔ target <+: msg.uri.bytes := by
  have hs : strlen target = target.length := by
    unfold strlen; rw [c_str_of_no_nul target ht]
  unfold http_match_uri http_string.bytes
  constructor
  · intro h
    by_cases hl : msg.uri.len < strlen target
    · rw [if_pos hl] at h; cases h
    · rw [if_neg hl, strncmp_eq_target _ _ ht] at h
      rw [hs] at hl
      rw [List.prefix_iff_eq_take]
      rw [List.take_take, Nat.min_eq_left (by omega)]
      exact h.symm
  · intro h
    have hle := h.length_le
    rw [List.length_take] at hle
    rw [if_neg (by rw [hs]; omega), strncmp_eq_target _ _ ht]
    have h2 := List.prefix_iff_eq_take.mp h
    rw [List.take_take, Nat.min_eq_left (by omega)] at h2
    exact h2.symm

theorem http_match_verb_iff (s : http_string) (verb : List Nat) (hv : ∀ x ∈ verb, x ≠ 0)
    (hwf : s.len ≤ s.val.length) : http_match_verb s verb = true ↔ s.bytes = verb := by
  have hs : strlen verb = verb.length := by
    unfold strlen; rw [c_str_of_no_nul verb hv]
  unfold http_match_verb http_string.bytes
  constructor
  · intro h
    by_cases hl : s.len ≠ strlen verb
    · rw [if_pos hl] at h; cases h
    · rw [if_neg hl, strncmp_eq_target _ _ hv] at h
      have hl2 : s.len = verb.length := by rw [← hs]; exact not_not.mp hl
      rw [hl2]
      exact h
  · intro h
    have hl : s.len = verb.length := by
      have := congrArg List.length h
      rw [List.length_take] at this
      omega
    rw [if_neg (by rw [hs]; exact not_not.mpr hl), strncmp_eq_target _ _ hv, ← hl]
    exact h

theorem reply_error_msg_sent (senv : server_env) (error : error_code)
    (hlog : (snprintf ERR_MSG_SIZE
        (ascii "Error: " ++ c_str (senv.ERR_MSG error) ++ ascii "\n")).length ≠ 0 →
      senv.log10_size (snprintf ERR_MSG_SIZE
        (ascii "Error: " ++ c_str (senv.ERR_MSG error) ++ ascii "\n")).length =
      Nat.log 10 (snprintf ERR_MSG_SIZE
        (ascii "Error: " ++ c_str (senv.ERR_MSG error) ++ ascii "\n")).length) :
    reply_error_msg senv error =
      (if senv.tcp_send_ok then ERR_NONE else ERR_IO,
        some (ascii "HTTP/1.1 500 Internal Server Error\r\nContent-Length: " ++
          decimal (snprintf ERR_MSG_SIZE
            (ascii "Error: " ++ c_str (senv.ERR_MSG error) ++ ascii "\n")).length ++
          ascii "\r\n\r\n" ++
          snprintf ERR_MSG_SIZE (ascii "Error: " ++ c_str (senv.ERR_MSG error) ++ ascii "\n"))) := by
  have hnul : ∀ x ∈ snprintf ERR_MSG_SIZE
      (ascii "Error: " ++ c_str (senv.ERR_MSG error) ++ ascii "\n"), x ≠ 0 := by
    intro x hx
    have hx2 := List.mem_of_mem_take hx
    rw [List.mem_append, List.mem_append] at hx2
    rcases hx2 with (h | h) | h
    · exact (by decide : ∀ y ∈ ascii "Error: ", y ≠ 0) x h
    · have := List.mem_takeWhile_imp h
      simpa using this
    · exact (by decide : ∀ y ∈ ascii "\n", y ≠ 0) x h
  have hs : strlen (snprintf ERR_MSG_SIZE
      (ascii "Error: " ++ c_str (senv.ERR_MSG error) ++ ascii "\n")) =
      (snprintf ERR_MSG_SIZE
        (ascii "Error: " ++ c_str (senv.ERR_MSG error) ++ ascii "\n")).length := by
    unfold strlen; rw [c_str_of_no_nul _ hnul]
  unfold reply_error_msg
  rw [hs, http_reply_sent _ _ _ _ _ _ hlog rfl]
  have ht : ∀ n : Nat, reply_text (ascii "500 Internal Server Error") (ascii "") n =
      ascii "HTTP/1.1 500 Internal Server Error\r\nContent-Length: " ++ decimal n ++
        ascii "\r\n\r\n" := by
    intro n
    unfold reply_text
    have e1 : c_str HTTP_PROTOCOL_ID ++ (c_str (ascii "500 Internal Server Error") ++
        (c_str HTTP_LINE_DELIM ++ (c_str (ascii "") ++ ascii "Content-Length: "))) =
        ascii "HTTP/1.1 500 Internal Server Error\r\nContent-Length: " := by decide
    have e3 : c_str HTTP_HDR_END_DELIM = ascii "\r\n\r\n" := by decide
    rw [e3, ← e1]
    simp only [List.append_assoc]
  rw [ht]

/-- C22. Route table: for every parsed message (whose method and URI lie
inside the stream) `handle_http_message` does what the route table of the
specification says: it serves `index.html` for the URI `/` or a URI that
starts with `/index.html`; otherwise it calls the list, read and delete
handlers for a URI that starts with `/imgfs/list`, `/imgfs/read`,
`/imgfs/delete`, whatever the method, and the insert handler for a URI that
starts with `/imgfs/insert` when the method is exactly `POST`; every other
request, a non-POST request to `/imgfs/insert` included, gets the reply of
`reply_error_msg` for ERR_INVALID_COMMAND, which is `500 Internal Server
Error` with the body `Error: ` followed by the text of that error, and leaves
the store as it was. -/
theorem handle_http_message_routes (senv : server_env) (env : Env) (stdio : Nat → Bool)
    (msg : http_message) (res img_id img_name : List Nat) (f : imgfs_file)
    (huri : msg.uri.len ≤ msg.uri.val.length)
    (hmethod : msg.method.len ≤ msg.method.val.length) :
    handle_http_message senv env stdio msg res img_id img_name f =
        (match route_of msg with
          | route.index =>
            { code := (http_serve_file senv).1, sent := (http_serve_file senv).2, fs_file := f }
          | route.list => handle_list_call senv f
          | route.read => handle_read_call senv env stdio msg res img_id f
          | route.insert => handle_insert_call senv env stdio msg img_name f
          | route.delete => handle_delete_call senv env stdio msg img_id f
          | route.invalid_command =>
            { code := (reply_error_msg senv ERR_INVALID_COMMAND).1
              sent := (reply_error_msg senv ERR_INVALID_COMMAND).2
              fs_file := f }) ∧
      (route_of msg = route.invalid_command →
        (handle_http_message senv env stdio msg res img_id img_name f).fs_file = f ∧
        ((∀ n, n ≠ 0 → senv.log10_size n = Nat.log 10 n) →
          (handle_http_message senv env stdio msg res img_id img_name f).sent =
            some (ascii "HTTP/1.1 500 Internal Server Error\r\nContent-Length: " ++
              decimal (snprintf ERR_MSG_SIZE
                (ascii "Error: " ++ c_str (senv.ERR_MSG ERR_INVALID_COMMAND) ++
                  ascii "\n")).length ++
              ascii "\r\n\r\n" ++
              snprintf ERR_MSG_SIZE
                (ascii "Error: " ++ c_str (senv.ERR_MSG ERR_INVALID_COMMAND) ++ ascii "\n")))) := by
  have hv := http_match_verb_iff msg.uri (ascii "/") (by decide) huri
  have hp := http_match_verb_iff msg.method (ascii "POST") (by decide) hmethod
  have hi := http_match_uri_iff msg (ascii "/index.html") (by decide)
  have hl := http_match_uri_iff msg (ascii "/imgfs/list") (by decide)
  have hr := http_match_uri_iff msg (ascii "/imgfs/read") (by decide)
  have hn := http_match_uri_iff msg (ascii "/imgfs/insert") (by decide)
  have hd := http_match_uri_iff msg (ascii "/imgfs/delete") (by decide)
  have main : handle_http_message senv env stdio msg res img_id img_name f =
      (match route_of msg with
        | route.index =>
          { code := (http_serve_file senv).1, sent := (http_serve_file senv).2, fs_file := f }
        | route.list => handle_list_call senv f
        | route.read => handle_read_call senv env stdio msg res img_id f
        | route.insert => handle_insert_call senv env stdio msg img_name f
        | route.delete => handle_delete_call senv env stdio msg img_id f
        | route.invalid_command =>
          { code := (reply_error_msg senv ERR_INVALID_COMMAND).1
            sent := (reply_error_msg senv ERR_INVALID_COMMAND).2
            fs_file := f }) := by
    unfold handle_http_message route_of
    by_cases c1 : msg.uri.bytes = ascii "/" ∨ ascii "/index.html" <+: msg.uri.bytes
    · rw [if_pos (by rw [Bool.or_eq_true, hv, hi]; exact c1), if_pos c1]
    · rw [if_neg (by rw [Bool.or_eq_true, hv, hi]; exact c1), if_neg c1]
      by_cases c2 : ascii "/imgfs/list" <+: msg.uri.bytes
      · rw [if_pos (hl.mpr c2), if_pos c2]
      · rw [if_neg (fun h => c2 (hl.mp h)), if_neg c2]
        by_cases c3 : ascii "/imgfs/read" <+: msg.uri.bytes
        · rw [if_pos (hr.mpr c3), if_pos c3]
        · rw [if_neg (fun h => c3 (hr.mp h)), if_neg c3]
          by_cases c4 : ascii "/imgfs/insert" <+: msg.uri.bytes ∧ msg.method.bytes = ascii "POST"
          · rw [if_pos (by rw [Bool.and_eq_true, hn, hp]; exact c4), if_pos c4]
          · rw [if_neg (by rw [Bool.and_eq_true, hn, hp]; exact c4), if_neg c4]
            by_cases c5 : ascii "/imgfs/delete" <+: msg.uri.bytes
            · rw [if_pos (hd.mpr c5), if_pos c5]
            · rw [if_neg (fun h => c5 (hd.mp h)), if_neg c5]
  refine ⟨main, ?_⟩
  intro hroute
  rw [main, hroute]
  refine ⟨rfl, fun hlog => ?_⟩
  show (reply_error_msg senv ERR_INVALID_COMMAND).2 = _
  rw [reply_error_msg_sent senv ERR_INVALID_COMMAND (hlog _)]

/-- Witness of C22: a GET request to `/imgfs/insert` is no route. -/
theorem handle_http_message_routes_witness :
    route_of (sample_msg "GET" "/imgfs/insert?name=a" [7]) = route.invalid_command ∧
      handle_http_message sample_senv sample_env stdio_ok
          (sample_msg "GET" "/imgfs/insert?name=a" [7]) [] [] [] store_a =
        { code := ERR_NONE
          sent := some (ascii
            "HTTP/1.1 500 Internal Server Error\r\nContent-Length: 23\r\n\r\nError: Invalid command\n")
          fs_file := store_a } ∧
      route_of (sample_msg "POST" "/imgfs/insert?name=a" [7]) = route.insert :=
  ⟨by decide,
    (handle_http_message_routes sample_senv sample_env stdio_ok
      (sample_msg "GET" "/imgfs/insert?name=a" [7]) [] [] [] store_a (by decide)
      (by decide)).1.trans (by decide),
    by decide⟩

/-! ### C23 -/

theorem resolution_atoi_unknown (str : List Nat)
    (hnames : ∀ name ∈ [ascii "thumb", ascii "thumbnail", ascii "small", ascii "orig",
      ascii "original"], c_str str ≠ name) : resolution_atoi str = -1 := by
  unfold resolution_atoi
  rw [if_neg (by
      intro h
      rcases h with h | h
      · exact hnames _ (by simp) h
      · exact hnames _ (by simp) h),
    if_neg (fun h => hnames _ (by simp) h),
    if_neg (by
      intro h
      rcases h with h | h
      · exact hnames _ (by simp) h
      · exact hnames _ (by simp) h)]

/-- C23, counterexample. For the request `/imgfs/read?res=big&img_id=a`,
whose `res` is none of the five names, `handle_read_call` sends the reply of
`reply_error_msg` for ERR_RESOLUTIONS, whatever the texts of the errors are;
with the example texts that reply carries `Invalid resolution(s)` and is not
the reply for ERR_INVALID_ARGUMENT. -/
theorem unknown_res_is_resolutions :
    (∀ senv : server_env,
      handle_read_call senv sample_env stdio_ok
          (sample_msg "GET" "/imgfs/read?res=big&img_id=a" []) (List.replicate 10 1)
          (List.replicate 127 1) store_a =
        { code := (reply_error_msg senv ERR_RESOLUTIONS).1
          sent := (reply_error_msg senv ERR_RESOLUTIONS).2
          fs_file := store_a }) ∧
      (reply_error_msg sample_senv ERR_RESOLUTIONS).2 =
        some (ascii
          "HTTP/1.1 500 Internal Server Error\r\nContent-Length: 29\r\n\r\nError: Invalid resolution(s)\n") ∧
      (reply_error_msg sample_senv ERR_RESOLUTIONS).2 ≠
        (reply_error_msg sample_senv ERR_INVALID_ARGUMENT).2 := by
  refine ⟨?_, by decide, by decide⟩
  intro senv
  have h1 : (http_get_var (sample_msg "GET" "/imgfs/read?res=big&img_id=a" []).uri (ascii "res")
      (List.replicate 10 1) 10).1.le_zero = false := by decide
  have h2 : resolution_atoi (http_get_var
      (sample_msg "GET" "/imgfs/read?res=big&img_id=a" []).uri (ascii "res")
      (List.replicate 10 1) 10).2 = -1 := by decide
  unfold handle_read_call
  rw [h1, h2]
  rfl

/-- C23, amended. For every read request whose `res` variable is read by
`http_get_var` into the 10-byte buffer with a positive length and is none of
`thumb`, `thumbnail`, `small`, `orig`, `original`, so that `resolution_atoi`
returns -1, `handle_read_call` sends the reply of `reply_error_msg` for
ERR_RESOLUTIONS, a `500 Internal Server Error` whose body is `Error: `
followed by the text of that error, and leaves the store as it was: `do_read`
is not called, the result depends neither on the store environment nor on
the outcome of file operations. -/
theorem handle_read_call_unknown_res (senv : server_env) (env : Env) (stdio : Nat → Bool)
    (msg : http_message) (res img_id : List Nat) (f : imgfs_file)
    (hres : (http_get_var msg.uri (ascii "res") res 10).1.le_zero = false)
    (hnames : ∀ name ∈ [ascii "thumb", ascii "thumbnail", ascii "small", ascii "orig",
      ascii "original"], c_str (http_get_var msg.uri (ascii "res") res 10).2 ≠ name) :
    resolution_atoi (http_get_var msg.uri (ascii "res") res 10).2 = -1 ∧
      handle_read_call senv env stdio msg res img_id f =
        { code := (reply_error_msg senv ERR_RESOLUTIONS).1
          sent := (reply_error_msg senv ERR_RESOLUTIONS).2
          fs_file := f } ∧
      ((∀ n, n ≠ 0 → senv.log10_size n = Nat.log 10 n) →
        (handle_read_call senv env stdio msg res img_id f).sent =
          some (ascii "HTTP/1.1 500 Internal Server Error\r\nContent-Length: " ++
            decimal (snprintf ERR_MSG_SIZE
              (ascii "Error: " ++ c_str (senv.ERR_MSG ERR_RESOLUTIONS) ++ ascii "\n")).length ++
            ascii "\r\n\r\n" ++
            snprintf ERR_MSG_SIZE
              (ascii "Error: " ++ c_str (senv.ERR_MSG ERR_RESOLUTIONS) ++ ascii "\n"))) := by
  have hat := resolution_atoi_unknown _ hnames
  have main : handle_read_call senv env stdio msg res img_id f =
      { code := (reply_error_msg senv ERR_RESOLUTIONS).1
        sent := (reply_error_msg senv ERR_RESOLUTIONS).2
        fs_file := f } := by
    unfold handle_read_call
    rw [hres, hat]
    rfl
  refine ⟨hat, main, fun hlog => ?_⟩
  rw [main]
  show (reply_error_msg senv ERR_RESOLUTIONS).2 = _
  rw [reply_error_msg_sent senv ERR_RESOLUTIONS (hlog _)]

/-- Witness of C23: the request `/imgfs/read?res=big&img_id=a`. -/
theorem handle_read_call_unknown_res_witness :
    (http_get_var (sample_msg "GET" "/imgfs/read?res=big&img_id=a" []).uri (ascii "res")
        (List.replicate 10 1) 10).1 = int_result.value 3 ∧
      handle_read_call sample_senv sample_env stdio_ok
          (sample_msg "GET" "/imgfs/read?res=big&img_id=a" []) (List.replicate 10 1)
          (List.replicate 127 1) store_a =
        { code := (reply_error_msg sample_senv ERR_RESOLUTIONS).1
          sent := (reply_error_msg sample_senv ERR_RESOLUTIONS).2
          fs_file := store_a } :=
  ⟨by decide,
    (handle_read_call_unknown_res sample_senv sample_env stdio_ok
      (sample_msg "GET" "/imgfs/read?res=big&img_id=a" []) (List.replicate 10 1)
      (List.replicate 127 1) store_a (by decide) (by decide)).2.1⟩

/-! ### C27 -/

theorem decimal_loop_no_nul :
    ∀ (fuel n : Nat) (acc : List Nat), (∀ x ∈ acc, x ≠ 0) →
      ∀ x ∈ decimal_loop fuel n acc, x ≠ 0 := by
  intro fuel
  induction fuel with
  | zero => intro n acc h; exact h
  | succ fuel ih =>
    intro n acc h
    unfold decimal_loop
    split
    · intro x hx
      rcases List.mem_cons.mp hx with hx | hx
      · omega
      · exact h x hx
    · apply ih
      intro x hx
      rcases List.mem_cons.mp hx with hx | hx
      · omega
      · exact h x hx

theorem decimal_no_nul (n : Nat) : ∀ x ∈ decimal n, x ≠ 0 :=
  decimal_loop_no_nul (n + 1) n [] (fun x hx => by cases hx)

theorem reply_302_msg_sent (senv : server_env) (hport : senv.server_port < 2 ^ 16) :
    reply_302_msg senv =
      (if senv.tcp_send_ok then ERR_NONE else ERR_IO,
        some (ascii "HTTP/1.1 302 Found\r\nLocation: http://localhost:" ++
          decimal senv.server_port ++ ascii "/index.html\r\nContent-Length: 0\r\n\r\n")) := by
  have hdig : (decimal senv.server_port).length ≤ 5 := by
    rw [length_decimal]
    by_cases h0 : senv.server_port = 0
    · rw [h0]; simp
    · have : Nat.log 10 senv.server_port < 5 := Nat.log_lt_of_lt_pow h0 (by omega)
      omega
  have hloc : snprintf ERR_MSG_SIZE
      (ascii "Location: http://localhost:" ++ decimal senv.server_port ++ ascii "/index.html" ++
        HTTP_LINE_DELIM) =
      ascii "Location: http://localhost:" ++ decimal senv.server_port ++ ascii "/index.html" ++
        HTTP_LINE_DELIM := by
    unfold snprintf
    apply List.take_of_length_le
    have h1 : (ascii "Location: http://localhost:").length = 27 := by decide
    have h2 : (ascii "/index.html").length = 11 := by decide
    have h3 : HTTP_LINE_DELIM.length = 2 := by decide
    have h4 : ERR_MSG_SIZE = 256 := rfl
    simp only [List.length_append, h1, h2, h3, h4]
    omega
  have hnul : ∀ x ∈ ascii "Location: http://localhost:" ++ decimal senv.server_port ++
      ascii "/index.html" ++ HTTP_LINE_DELIM, x ≠ 0 := by
    intro x hx
    rw [List.mem_append, List.mem_append, List.mem_append] at hx
    rcases hx with ((h | h) | h) | h
    · exact (by decide : ∀ y ∈ ascii "Location: http://localhost:", y ≠ 0) x h
    · exact decimal_no_nul _ x h
    · exact (by decide : ∀ y ∈ ascii "/index.html", y ≠ 0) x h
    · exact line_delim_no_nul x h
  unfold reply_302_msg
  rw [hloc, http_reply_sent _ _ _ _ (ascii "") 0 (fun h => absurd rfl h) rfl]
  unfold reply_text
  rw [c_str_of_no_nul _ hnul]
  have e1 : c_str HTTP_PROTOCOL_ID ++ (c_str (ascii "302 Found") ++ (c_str HTTP_LINE_DELIM ++
      ascii "Location: http://localhost:")) =
      ascii "HTTP/1.1 302 Found\r\nLocation: http://localhost:" := by decide
  have e2 : ascii "/index.html" ++ (HTTP_LINE_DELIM ++ (ascii "Content-Length: " ++
      (decimal 0 ++ (c_str HTTP_HDR_END_DELIM ++ ascii "")))) =
      ascii "/index.html\r\nContent-Length: 0\r\n\r\n" := by decide
  rw [← e1, ← e2]
  simp only [List.append_assoc]

/-- C27, counterexample. A successful insertion through `handle_insert_call`
(port 8000) is answered with `302 Found` and an empty body, and the header
line of the reply is `Location: http://localhost:8000/index.html`; the text
`Location: /index.html` does not occur in the reply. -/
theorem redirect_location_is_absolute :
    (do_insert sample_env stdio_ok [255, 216, 3] (ascii "c") store_a).1 = ERR_NONE ∧
      (handle_insert_call sample_senv sample_env stdio_ok
        (sample_msg "POST" "/imgfs/insert?name=c" [255, 216, 3]) (List.replicate 128 1)
        store_a).sent =
        some (ascii
          "HTTP/1.1 302 Found\r\nLocation: http://localhost:8000/index.html\r\nContent-Length: 0\r\n\r\n") ∧
      find_sub (ascii "Location: /index.html")
        (ascii
          "HTTP/1.1 302 Found\r\nLocation: http://localhost:8000/index.html\r\nContent-Length: 0\r\n\r\n") =
        none := by
  decide

/-- C27, amended. Whenever the `do_insert` of `handle_insert_call` or the
`do_delete` of `handle_delete_call` succeeds, the store is the one the
operation leaves and the reply is `HTTP/1.1 302 Found`, the header line
`Location: http://localhost:<server_port>/index.html`, `Content-Length: 0`
and an empty body. -/
theorem redirect_after_mutation (senv : server_env) (env : Env) (stdio : Nat → Bool)
    (msg : http_message) (img_name img_id : List Nat) (f : imgfs_file)
    (hport : senv.server_port < 2 ^ 16) :
    ((http_get_var msg.uri (ascii "name") img_name 128).1.le_zero = false →
        msg.body.len ≠ 0 →
        (do_insert env stdio (msg.body.val.take msg.body.len)
          (http_get_var msg.uri (ascii "name") img_name 128).2 f).1 = ERR_NONE →
        handle_insert_call senv env stdio msg img_name f =
          { code := if senv.tcp_send_ok then ERR_NONE else ERR_IO
            sent := some (ascii "HTTP/1.1 302 Found\r\nLocation: http://localhost:" ++
              decimal senv.server_port ++ ascii "/index.html\r\nContent-Length: 0\r\n\r\n")
            fs_file := (do_insert env stdio (msg.body.val.take msg.body.len)
              (http_get_var msg.uri (ascii "name") img_name 128).2 f).2 }) ∧
      ((http_get_var msg.uri (ascii "img_id") img_id MAX_IMG_ID).1.le_zero = false →
        (do_delete env stdio
          (http_get_var msg.uri (ascii "img_id") img_id MAX_IMG_ID).2 f).1 = ERR_NONE →
        handle_delete_call senv env stdio msg img_id f =
          { code := if senv.tcp_send_ok then ERR_NONE else ERR_IO
            sent := some (ascii "HTTP/1.1 302 Found\r\nLocation: http://localhost:" ++
              decimal senv.server_port ++ ascii "/index.html\r\nContent-Length: 0\r\n\r\n")
            fs_file := (do_delete env stdio
              (http_get_var msg.uri (ascii "img_id") img_id MAX_IMG_ID).2 f).2 }) := by
  have h302 := reply_302_msg_sent senv hport
  constructor
  · intro hname hbody hok
    unfold handle_insert_call
    rw [hname, if_neg hbody]
    simp only [Bool.false_eq_true, if_false]
    rw [if_neg (not_not.mpr hok), h302]
  · intro hid hok
    unfold handle_delete_call
    rw [hid]
    simp only [Bool.false_eq_true, if_false]
    rw [if_neg (not_not.mpr hok), h302]

/-- Witness of C27: the deletion of `a` through `handle_delete_call`. -/
theorem redirect_after_mutation_witness :
    sample_senv.server_port < 2 ^ 16 ∧
      (do_delete sample_env stdio_ok
        (http_get_var (sample_msg "GET" "/imgfs/delete?img_id=a" []).uri (ascii "img_id")
          (List.replicate 127 1) MAX_IMG_ID).2 store_a).1 = ERR_NONE ∧
      handle_delete_call sample_senv sample_env stdio_ok
          (sample_msg "GET" "/imgfs/delete?img_id=a" []) (List.replicate 127 1) store_a =
        { code := if sample_senv.tcp_send_ok then ERR_NONE else ERR_IO
          sent := some (ascii "HTTP/1.1 302 Found\r\nLocation: http://localhost:" ++
            decimal sample_senv.server_port ++
            ascii "/index.html\r\nContent-Length: 0\r\n\r\n")
          fs_file := (do_delete sample_env stdio_ok
            (http_get_var (sample_msg "GET" "/imgfs/delete?img_id=a" []).uri (ascii "img_id")
              (List.replicate 127 1) MAX_IMG_ID).2 store_a).2 } :=
  ⟨by decide, by decide,
    (redirect_after_mutation sample_senv sample_env stdio_ok
      (sample_msg "GET" "/imgfs/delete?img_id=a" []) [] (List.replicate 127 1) store_a
      (by decide)).2 (by decide) (by decide)⟩

/-! ### C24 -/

/-- C24, divergence. On the store `store_a` (one image, three slots), opened
without error, `do_insert_cmd` with the empty id and with an id of 128 bytes
returns `ERR_NONE` and leaves a store with two images, and `do_delete_cmd`
with the empty id returns `ERR_IMAGE_NOT_FOUND`; only `do_delete_cmd` with
an id of 128 bytes returns `ERR_INVALID_IMGID`. -/
theorem cmd_invalid_id_not_rejected :
    (do_insert_cmd sample_env stdio_ok (ERR_NONE, store_a) sample_disk
        [ascii "store", [], ascii "c.jpg"]).1 = ERR_NONE ∧
      (do_insert_cmd sample_env stdio_ok (ERR_NONE, store_a) sample_disk
        [ascii "store", [], ascii "c.jpg"]).2.map (fun f => f.header.nb_files) = some 2 ∧
      (do_insert_cmd sample_env stdio_ok (ERR_NONE, store_a) sample_disk
        [ascii "store", [], ascii "c.jpg"]).2 ≠ some store_a ∧
      (do_insert_cmd sample_env stdio_ok (ERR_NONE, store_a) sample_disk
        [ascii "store", List.replicate 128 98, ascii "c.jpg"]).1 = ERR_NONE ∧
      (do_insert_cmd sample_env stdio_ok (ERR_NONE, store_a) sample_disk
        [ascii "store", List.replicate 128 98, ascii "c.jpg"]).2.map
          (fun f => f.header.nb_files) = some 2 ∧
      do_delete_cmd sample_env stdio_ok (ERR_NONE, store_a) [ascii "store", []] =
        (ERR_IMAGE_NOT_FOUND, some store_a) ∧
      do_delete_cmd sample_env stdio_ok (ERR_NONE, store_a)
        [ascii "store", List.replicate 128 98] = (ERR_INVALID_IMGID, none) := by
  decide

/-! ### C25 -/

theorem findIdx_congr_map {α : Type} (p : α → Bool) :
    ∀ (l1 l2 : List α), l1.map p = l2.map p → l1.findIdx? p = l2.findIdx? p
  | [], [], _ => rfl
  | [], _ :: _, h => by simp at h
  | _ :: _, [], h => by simp at h
  | a :: l1, b :: l2, h => by
    simp only [List.map_cons, List.cons.injEq] at h
    rw [List.findIdx?_cons, List.findIdx?_cons, h.1, List.findIdx?_succ, List.findIdx?_succ,
      findIdx_congr_map p l1 l2 h.2]

theorem map_set_same {α : Type} (p : α → Bool) (l : List α) (i : Nat) (d m : α)
    (h : p m = p (l.getD i d)) : (l.set i m).map p = l.map p := by
  by_cases hi : i < l.length
  · have hg : l.getD i d = l[i] := by
      rw [List.getD_eq_getElem?_getD, List.getElem?_eq_getElem hi]; rfl
    apply List.ext_getElem?
    intro n
    rw [List.getElem?_map, List.getElem?_map, List.getElem?_set]
    by_cases hn : i = n
    · subst hn
      simp [hi, h, hg]
    · simp [hn]
  · rw [List.set_eq_of_length_le (by omega)]

theorem find_read_index_lazily_resize (env : Env) (stdio : Nat → Bool) (resolution : Int)
    (img_id : List Nat) (f : imgfs_file) (index : Nat) :
    find_read_index img_id (lazily_resize env stdio resolution f index).2 =
      find_read_index img_id f := by
  rcases lazily_resize_effect env stdio resolution f index with h | ⟨a, b, file1, -, -, -, h⟩
  · rw [h]
  · rw [h]
    unfold find_read_index
    apply findIdx_congr_map
    rw [List.map_take, List.map_take]
    congr 1
    exact map_set_same _ _ index zero_metadata _ rfl

theorem do_read_ok (env : Env) (stdio : Nat → Bool) (img_id : List Nat) (resolution : Int)
    (f f1 : imgfs_file) (buf : List Nat) (size : Nat)
    (h1 : do_read env stdio img_id resolution f = (ERR_NONE, f1, some (buf, size))) :
    ∃ i, find_read_index img_id f = some i ∧
      (f1 = f ∨ f1 = (lazily_resize env stdio resolution f i).2) ∧
      (f1.entry i).size.get resolution = size ∧
      fread_at f1.file ((f1.entry i).offset.get resolution) size = some buf := by
  unfold do_read at h1
  split at h1
  · simp at h1
  · rename_i i hi
    refine ⟨i, hi, ?_⟩
    have key : ∀ f2 : imgfs_file,
        (if ¬ stdio 6 then ( ERR_IO, f2, none)
          else
            match fread_at f2.file ((f2.entry i).offset.get resolution)
                ((f2.entry i).size.get resolution) with
            | none => ( ERR_IO, f2, none)
            | some image_buffer =>
              (ERR_NONE, f2, some (image_buffer, (f2.entry i).size.get resolution))) =
          (ERR_NONE, f1, some (buf, size)) →
        f1 = f2 ∧ (f1.entry i).size.get resolution = size ∧
          fread_at f1.file ((f1.entry i).offset.get resolution) size = some buf := by
      intro f2 h
      split at h
      · simp at h
      · split at h
        · simp at h
        · rename_i b hb
          simp only [Prod.mk.injEq, Option.some.injEq, true_and] at h
          obtain ⟨hf, hbuf, hsize⟩ := h
          subst hf
          subst hbuf
          refine ⟨rfl, hsize, ?_⟩
          rw [← hsize]
          exact hb
    by_cases hsz : (f.entry i).size.get resolution = 0
    · rw [if_pos hsz] at h1
      generalize hlr : lazily_resize env stdio resolution f i = lr at h1
      obtain ⟨err, f2⟩ := lr
      cases err <;> try (simp at h1; done)
      obtain ⟨hf, h2, h3⟩ := key f2 h1
      refine ⟨Or.inr ?_, h2, h3⟩
      exact hf
    · rw [if_neg hsz] at h1
      obtain ⟨hf, h2, h3⟩ := key f h1
      exact ⟨Or.inl hf, h2, h3⟩

theorem find_read_index_lt {img_id : List Nat} {f : imgfs_file} {i : Nat}
    (hi : find_read_index img_id f = some i) : i < f.header.max_files := by
  unfold find_read_index at hi
  rw [List.findIdx?_eq_some_iff_getElem] at hi
  obtain ⟨h, -, -⟩ := hi
  have h1 : i < f.header.max_files ∧ i < f.metadata.length := by
    simpa [List.length_take] using h
  exact h1.1

/-- C25. When a first `do_read(id, r)` succeeds with a buffer of `size`
bytes, `size` not zero, a second `do_read(id, r)` on the store left by the
first one, whose final seek and read succeed, returns the same buffer and
the same size and leaves the store (header, metadata table and file
content) as it was. The slot that the second call finds has `size[r]` equal
to `size`, so `do_read` does not call `lazily_resize`, and `lazily_resize`
on that slot, when it is NON_EMPTY and `r` is a resolution, returns
`ERR_NONE` with the store as it was. -/
theorem do_read_twice (env : Env) (stdio1 stdio2 : Nat → Bool) (img_id : List Nat)
    (resolution : Int) (f f1 : imgfs_file) (buf : List Nat) (size : Nat)
    (h1 : do_read env stdio1 img_id resolution f = (ERR_NONE, f1, some (buf, size)))
    (hsize : size ≠ 0) (h2 : stdio2 6 = true) :
    do_read env stdio2 img_id resolution f1 = (ERR_NONE, f1, some (buf, size)) ∧
      ∃ i, find_read_index img_id f1 = some i ∧ (f1.entry i).size.get resolution = size ∧
        ((f1.entry i).is_valid = NON_EMPTY → 0 ≤ resolution → resolution < NB_RES →
          lazily_resize env stdio2 resolution f1 i = (ERR_NONE, f1)) := by
  obtain ⟨i, hi, hf, hsz, hread⟩ := do_read_ok env stdio1 img_id resolution f f1 buf size h1
  have hi1 : find_read_index img_id f1 = some i := by
    rcases hf with hf | hf
    · rw [hf]; exact hi
    · rw [hf, find_read_index_lazily_resize]; exact hi
  have hne : (f1.entry i).size.get resolution ≠ 0 := by rw [hsz]; exact hsize
  constructor
  · unfold do_read
    rw [hi1]
    dsimp only
    rw [if_neg hne]
    dsimp only
    rw [if_neg (by simp [h2]), hsz, hread]
  · refine ⟨i, hi1, hsz, ?_⟩
    intro hv h0 h3
    unfold lazily_resize
    rw [if_neg (by simp [find_read_index_lt hi1, hv, NON_EMPTY]), if_neg (by omega),
      if_neg (by simp [hv]), if_pos hne]

/-- Witness of C25: the thumbnail of `a` in `store_a`, read twice. -/
theorem do_read_twice_witness :
    do_read sample_env stdio_ok [97] THUMB_RES store_a =
        (ERR_NONE, (do_read sample_env stdio_ok [97] THUMB_RES store_a).2.1,
          some ([255, 216, 1], 3)) ∧
      (do_read sample_env stdio_ok [97] THUMB_RES store_a).2.1 ≠ store_a ∧
      do_read sample_env stdio_ok [97] THUMB_RES
          (do_read sample_env stdio_ok [97] THUMB_RES store_a).2.1 =
        (ERR_NONE, (do_read sample_env stdio_ok [97] THUMB_RES store_a).2.1,
          some ([255, 216, 1], 3)) :=
  ⟨by decide, by decide,
    (do_read_twice sample_env stdio_ok stdio_ok [97] THUMB_RES store_a
      (do_read sample_env stdio_ok [97] THUMB_RES store_a).2.1 [255, 216, 1] 3
      (by decide) (by decide) rfl).1⟩

/-! ### C26 -/

theorem blob_kept_refl (base : Nat) (file : List Nat) : blob_kept base file file :=
  ⟨Nat.le_refl _, fun _ _ _ => rfl⟩

theorem blob_kept_trans {base : Nat} {a b c : List Nat} (h1 : blob_kept base a b)
    (h2 : blob_kept base b c) : blob_kept base a c :=
  ⟨Nat.le_trans h1.1 h2.1, fun p hp hlt =>
    (h2.2 p hp (Nat.lt_of_lt_of_le hlt h1.1)).trans (h1.2 p hp hlt)⟩

theorem blob_kept_append (base : Nat) (file b : List Nat) : blob_kept base file (file ++ b) :=
  ⟨by simp, fun _ _ hlt => List.getElem?_append_left hlt⟩

theorem blob_kept_fwrite (base : Nat) (file : List Nat) (pos : Nat) (data : List Nat)
    (hpos : pos + data.length ≤ base) (hbase : base ≤ file.length) :
    blob_kept base file (fwrite_at file pos data) :=
  ⟨length_fwrite_at_ge _ _ _, fun p hp _ =>
    getElem?_fwrite_at_outside file pos data p (by omega) (Or.inr (by omega))⟩

theorem blob_kept_header (env : Env) (n : Nat) (file : List Nat) (hd : imgfs_header)
    (hlen : metadata_pos env n ≤ file.length) :
    blob_kept (metadata_pos env n) file (fwrite_at file 0 (header_bytes env hd)) := by
  apply blob_kept_fwrite _ _ _ _ _ hlen
  rw [length_header_bytes]
  have := sizeof_header_le_metadata_pos env n
  omega

theorem blob_kept_entry (env : Env) (k n : Nat) (file : List Nat) (m : img_metadata)
    (hk : k < n) (hlen : metadata_pos env n ≤ file.length) :
    blob_kept (metadata_pos env n) file
      (fwrite_at file (metadata_pos env k) (metadata_bytes env m)) := by
  apply blob_kept_fwrite _ _ _ _ _ hlen
  rw [length_metadata_bytes]
  exact metadata_pos_succ_le env k n hk

theorem dedup_file (g : imgfs_file) (k : Nat) :
    (do_name_and_content_dedup g k).2.file = g.file ∧
      (do_name_and_content_dedup g k).2.header = g.header := by
  unfold do_name_and_content_dedup
  split
  · exact ⟨rfl, rfl⟩
  · dsimp only
    split
    · exact ⟨rfl, rfl⟩
    · split <;> exact ⟨rfl, rfl⟩

theorem insert_append_file (stdio : Nat → Bool) (b : List Nat) (k : Nat) (g : imgfs_file) :
    (insert_append stdio b k g).2.header = g.header ∧
      ((insert_append stdio b k g).2.file = g.file ∨
        (insert_append stdio b k g).2.file = g.file ++ b) := by
  unfold insert_append
  dsimp only
  split
  · split
    · exact ⟨rfl, Or.inl rfl⟩
    · split
      · exact ⟨rfl, Or.inl rfl⟩
      · exact ⟨rfl, Or.inr rfl⟩
  · exact ⟨rfl, Or.inl rfl⟩

theorem insert_write_back_file (env : Env) (stdio : Nat → Bool) (k : Nat) (g : imgfs_file)
    (hk : k < g.header.max_files) (hlen : metadata_pos env g.header.max_files ≤ g.file.length) :
    blob_kept (metadata_pos env g.header.max_files) g.file
      (insert_write_back env stdio k g).2.file := by
  have h1 : ∀ hd, blob_kept (metadata_pos env g.header.max_files) g.file
      (fwrite_at g.file 0 (header_bytes env hd)) := fun hd => blob_kept_header env _ _ hd hlen
  have h2 : ∀ hd m, blob_kept (metadata_pos env g.header.max_files) g.file
      (fwrite_at (fwrite_at g.file 0 (header_bytes env hd)) (metadata_pos env k)
        (metadata_bytes env m)) := fun hd m =>
    blob_kept_trans (h1 hd)
      (blob_kept_entry env k _ _ m hk (Nat.le_trans hlen (h1 hd).1))
  unfold insert_write_back
  dsimp only
  split
  · exact blob_kept_refl _ _
  split
  · exact blob_kept_refl _ _
  split
  · exact h1 _
  split
  · exact h1 _
  · exact h2 _ _

theorem do_insert_file (env : Env) (stdio : Nat → Bool) (b id : List Nat) (f : imgfs_file)
    (hlen : metadata_pos env f.header.max_files ≤ f.file.length) :
    blob_kept (metadata_pos env f.header.max_files) f.file (do_insert env stdio b id f).2.file := by
  unfold do_insert
  split
  · exact blob_kept_refl _ _
  split
  · exact blob_kept_refl _ _
  rename_i k hk
  obtain ⟨hkm, -, -, -⟩ := find_free_index_some hk
  dsimp only
  split
  · exact blob_kept_refl _ _
  rename_i h w hr
  generalize hg : do_name_and_content_dedup
    (f.set_entry k (tentative_metadata env b id (f.entry k) h w)) k = dedup
  have hd := dedup_file (f.set_entry k (tentative_metadata env b id (f.entry k) h w)) k
  rw [hg] at hd
  have hdf : dedup.2.file = f.file := hd.1
  have hdh : dedup.2.header = f.header := hd.2
  split
  · show blob_kept _ f.file dedup.2.file
    rw [hdf]
    exact blob_kept_refl _ _
  obtain ⟨hah, haf⟩ := insert_append_file stdio b k dedup.2
  have hkept : blob_kept (metadata_pos env f.header.max_files) f.file
      (insert_append stdio b k dedup.2).2.file := by
    rcases haf with haf | haf
    · rw [haf, hdf]
      exact blob_kept_refl _ _
    · rw [haf, hdf]
      exact blob_kept_append _ _ _
  split
  · exact hkept
  · apply blob_kept_trans hkept
    have hmax : (insert_append stdio b k dedup.2).2.header.max_files = f.header.max_files := by
      rw [hah, hdh]
    have := insert_write_back_file env stdio k (insert_append stdio b k dedup.2).2
      (by rw [hmax]; exact hkm) (by rw [hmax]; exact Nat.le_trans hlen hkept.1)
    rw [hmax] at this
    exact this

theorem do_delete_file (env : Env) (stdio : Nat → Bool) (id : List Nat) (f : imgfs_file)
    (hlen : metadata_pos env f.header.max_files ≤ f.file.length) :
    blob_kept (metadata_pos env f.header.max_files) f.file (do_delete env stdio id f).2.file := by
  unfold do_delete
  split
  · exact blob_kept_refl _ _
  split
  · exact blob_kept_refl _ _
  rename_i i hi
  obtain ⟨him, -, -, -, -⟩ := find_delete_index_some hi
  have h1 : ∀ m, blob_kept (metadata_pos env f.header.max_files) f.file
      (fwrite_at f.file (metadata_pos env i) (metadata_bytes env m)) := fun m =>
    blob_kept_entry env i _ _ m him hlen
  dsimp only
  split
  · exact blob_kept_refl _ _
  split
  · exact h1 _
  · exact blob_kept_trans (h1 _) (blob_kept_header env _ _ _ (Nat.le_trans hlen (h1 _).1))

theorem append_variant_file (env : Env) (stdio : Nat → Bool) (resolution : Int) (f : imgfs_file)
    (index : Nat) (buf : List Nat) (hi : index < f.header.max_files)
    (hlen : metadata_pos env f.header.max_files ≤ f.file.length) :
    blob_kept (metadata_pos env f.header.max_files) f.file
      (append_variant env stdio resolution f index buf).2.file := by
  have h1 := blob_kept_append (metadata_pos env f.header.max_files) f.file buf
  unfold append_variant
  split
  · exact blob_kept_refl _ _
  split
  · exact blob_kept_refl _ _
  dsimp only
  split
  · exact h1
  split
  · exact h1
  · exact blob_kept_trans h1 (blob_kept_entry env index _ _ _ hi (Nat.le_trans hlen h1.1))

theorem lazily_resize_file (env : Env) (stdio : Nat → Bool) (resolution : Int) (f : imgfs_file)
    (index : Nat) (hlen : metadata_pos env f.header.max_files ≤ f.file.length) :
    blob_kept (metadata_pos env f.header.max_files) f.file
      (lazily_resize env stdio resolution f index).2.file := by
  unfold lazily_resize
  split
  · exact blob_kept_refl _ _
  rename_i hidx
  have hi : index < f.header.max_files := (not_not.mp hidx).1
  split
  · exact blob_kept_refl _ _
  split
  · exact blob_kept_refl _ _
  split
  · exact blob_kept_refl _ _
  split
  · exact blob_kept_refl _ _
  split
  · exact blob_kept_refl _ _
  split
  · exact blob_kept_refl _ _
  split
  · exact blob_kept_refl _ _
  · exact append_variant_file env stdio resolution f index _ hi hlen

/-- C26. In a store whose file holds the header and the whole metadata table
(`sizeof(header) + max_files * sizeof(metadata) ≤ file length`), every call
of `do_insert`, `do_delete` and `lazily_resize`, whatever stdio call fails,
leaves a file that is not shorter, and every byte that existed at an offset
`≥ sizeof(header) + max_files * sizeof(metadata)` has the same value after
the call. -/
theorem blob_region_append_only (env : Env) (stdio : Nat → Bool) (f : imgfs_file)
    (hlen : env.sizeof_imgfs_header + f.header.max_files * env.sizeof_img_metadata ≤
      f.file.length) :
    (∀ image_buffer img_id p,
        f.file.length ≤ (do_insert env stdio image_buffer img_id f).2.file.length ∧
        (env.sizeof_imgfs_header + f.header.max_files * env.sizeof_img_metadata ≤ p →
          p < f.file.length →
          (do_insert env stdio image_buffer img_id f).2.file[p]? = f.file[p]?)) ∧
      (∀ img_id p,
        f.file.length ≤ (do_delete env stdio img_id f).2.file.length ∧
        (env.sizeof_imgfs_header + f.header.max_files * env.sizeof_img_metadata ≤ p →
          p < f.file.length → (do_delete env stdio img_id f).2.file[p]? = f.file[p]?)) ∧
      (∀ resolution index p,
        f.file.length ≤ (lazily_resize env stdio resolution f index).2.file.length ∧
        (env.sizeof_imgfs_header + f.header.max_files * env.sizeof_img_metadata ≤ p →
          p < f.file.length →
          (lazily_resize env stdio resolution f index).2.file[p]? = f.file[p]?)) := by
  refine ⟨fun b id p => ?_, fun id p => ?_, fun r i p => ?_⟩
  · exact ⟨(do_insert_file env stdio b id f hlen).1, (do_insert_file env stdio b id f hlen).2 p⟩
  · exact ⟨(do_delete_file env stdio id f hlen).1, (do_delete_file env stdio id f hlen).2 p⟩
  · exact ⟨(lazily_resize_file env stdio r f i hlen).1, (lazily_resize_file env stdio r f i hlen).2 p⟩

/-- Witness of C26: the store `store_ab`, deletion of `a`, the first blob
byte (offset 10) is still `255`. -/
theorem blob_region_append_only_witness :
    sample_env.sizeof_imgfs_header + store_ab.header.max_files * sample_env.sizeof_img_metadata ≤
        store_ab.file.length ∧
      (do_delete sample_env stdio_ok [97] store_ab).1 = ERR_NONE ∧
      (do_delete sample_env stdio_ok [97] store_ab).2.file[10]? = store_ab.file[10]? :=
  ⟨by decide, by decide,
    ((blob_region_append_only sample_env stdio_ok store_ab (by decide)).2.1 [97] 10).2
      (by decide) (by decide)⟩

/-! ### C28 -/

theorem insert_run_unlock (env : Env) (req : insert_request) (r : error_code) (fs : imgfs_file) :
    ∀ n, insert_run env req n (insert_pc.at_unlock r, fs) = (insert_pc.at_unlock r, fs) := by
  intro n
  induction n with
  | zero => rfl
  | succ n ih => exact ih

theorem insert_run_succ (env : Env) (req : insert_request) :
    ∀ n x, insert_run env req (n + 1) x =
      insert_step env req (insert_run env req n x).1 (insert_run env req n x).2 := by
  intro n
  induction n with
  | zero => intro x; rfl
  | succ n ih =>
    intro x
    show insert_run env req (n + 1) (insert_step env req x.1 x.2) = _
    rw [ih]
    rfl

theorem insert_run_add (env : Env) (req : insert_request) :
    ∀ n m x, insert_run env req (n + m) x = insert_run env req m (insert_run env req n x) := by
  intro n
  induction n with
  | zero => intro m x; simp [insert_run]
  | succ n ih =>
    intro m x
    have : n + 1 + m = (n + m) + 1 := by omega
    rw [this]
    show insert_run env req (n + m) (insert_step env req x.1 x.2) = _
    rw [ih]
    rfl

/-- The parts of `do_insert`, run one after the other by a thread alone, are
`do_insert`: after five parts the thread stands before
`pthread_mutex_unlock` with the code and the store of `do_insert`. -/
theorem insert_run_do_insert (env : Env) (req : insert_request) (f : imgfs_file) :
    insert_run env req 5 (insert_pc.at_search, f) =
      (insert_pc.at_unlock (do_insert env req.stdio req.image_buffer req.img_name f).1,
        (do_insert env req.stdio req.image_buffer req.img_name f).2) := by
  have stop := insert_run_unlock env req
  by_cases hfull : f.header.nb_files ≥ f.header.max_files
  · have h1 : insert_step env req insert_pc.at_search f =
        (insert_pc.at_unlock ERR_IMGFS_FULL, f) := by
      simp only [insert_step]
      rw [if_pos hfull]
    have hd : do_insert env req.stdio req.image_buffer req.img_name f = (ERR_IMGFS_FULL, f) := by
      unfold do_insert
      rw [if_pos hfull]
    rw [hd]
    show insert_run env req 4 (insert_step env req insert_pc.at_search f) = _
    rw [h1, stop]
  · cases hk : find_free_index f with
    | none =>
      have h1 : insert_step env req insert_pc.at_search f =
          (insert_pc.at_unlock ERR_IMGFS_FULL, f) := by
        simp only [insert_step]
        rw [if_neg hfull]
        simp only [hk]
      have hd : do_insert env req.stdio req.image_buffer req.img_name f =
          (ERR_IMGFS_FULL, f) := by
        unfold do_insert
        rw [if_neg hfull]
        simp only [hk]
      rw [hd]
      show insert_run env req 4 (insert_step env req insert_pc.at_search f) = _
      rw [h1, stop]
    | some k =>
      have h1 : insert_step env req insert_pc.at_search f = (insert_pc.at_fill k, f) := by
        simp only [insert_step]
        rw [if_neg hfull]
        simp only [hk]
      show insert_run env req 4 (insert_step env req insert_pc.at_search f) = _
      rw [h1]
      show insert_run env req 3 (insert_step env req (insert_pc.at_fill k) f) = _
      cases hr : get_resolution env req.image_buffer with
      | none =>
        have h2 : insert_step env req (insert_pc.at_fill k) f =
            (insert_pc.at_unlock ERR_IMGLIB,
              f.set_entry k
                { f.entry k with
                  SHA := env.SHA256 req.image_buffer
                  img_id := strncpy (f.entry k).img_id req.img_name MAX_IMG_ID
                  size := (f.entry k).size.set ORIG_RES (req.image_buffer.length % 2 ^ 32) }) := by
          simp only [insert_step, hr]
        have hd : do_insert env req.stdio req.image_buffer req.img_name f =
            (ERR_IMGLIB,
              f.set_entry k
                { f.entry k with
                  SHA := env.SHA256 req.image_buffer
                  img_id := strncpy (f.entry k).img_id req.img_name MAX_IMG_ID
                  size := (f.entry k).size.set ORIG_RES (req.image_buffer.length % 2 ^ 32) }) := by
          unfold do_insert
          rw [if_neg hfull]
          simp only [hk, hr]
        rw [h2, hd, stop]
      | some hw =>
        obtain ⟨h, w⟩ := hw
        have h2 : insert_step env req (insert_pc.at_fill k) f =
            (insert_pc.at_dedup k (f.entry k),
              f.set_entry k
                (tentative_metadata env req.image_buffer req.img_name (f.entry k) h w)) := by
          simp only [insert_step, hr]
        rw [h2]
        generalize hg : f.set_entry k
          (tentative_metadata env req.image_buffer req.img_name (f.entry k) h w) = g
        show insert_run env req 2 (insert_step env req (insert_pc.at_dedup k (f.entry k)) g) = _
        by_cases hdd : (do_name_and_content_dedup g k).1 ≠ ERR_NONE
        · have h3 : insert_step env req (insert_pc.at_dedup k (f.entry k)) g =
              (insert_pc.at_unlock (do_name_and_content_dedup g k).1,
                (do_name_and_content_dedup g k).2.set_entry k (f.entry k)) := by
            simp only [insert_step]
            rw [if_pos hdd]
          have hd : do_insert env req.stdio req.image_buffer req.img_name f =
              ((do_name_and_content_dedup g k).1,
                (do_name_and_content_dedup g k).2.set_entry k (f.entry k)) := by
            unfold do_insert
            rw [if_neg hfull]
            simp only [hk, hr]
            rw [hg, if_pos hdd]
          rw [h3, hd, stop]
        · have h3 : insert_step env req (insert_pc.at_dedup k (f.entry k)) g =
              (insert_pc.at_append k, (do_name_and_content_dedup g k).2) := by
            simp only [insert_step]
            rw [if_neg hdd]
          rw [h3]
          generalize hg2 : (do_name_and_content_dedup g k).2 = g2
          show insert_run env req 1 (insert_step env req (insert_pc.at_append k) g2) = _
          by_cases ha : (insert_append req.stdio req.image_buffer k g2).1 ≠ ERR_NONE
          · have h4 : insert_step env req (insert_pc.at_append k) g2 =
                (insert_pc.at_unlock (insert_append req.stdio req.image_buffer k g2).1,
                  (insert_append req.stdio req.image_buffer k g2).2) := by
              simp only [insert_step]
              rw [if_pos ha]
            have hd : do_insert env req.stdio req.image_buffer req.img_name f =
                insert_append req.stdio req.image_buffer k g2 := by
              unfold do_insert
              rw [if_neg hfull]
              simp only [hk, hr]
              rw [hg, if_neg hdd, hg2, if_pos ha]
            rw [h4, hd, stop]
          · have h4 : insert_step env req (insert_pc.at_append k) g2 =
                (insert_pc.at_write_back k, (insert_append req.stdio req.image_buffer k g2).2) := by
              simp only [insert_step]
              rw [if_neg ha]
            have hd : do_insert env req.stdio req.image_buffer req.img_name f =
                insert_write_back env req.stdio k
                  (insert_append req.stdio req.image_buffer k g2).2 := by
              unfold do_insert
              rw [if_neg hfull]
              simp only [hk, hr]
              rw [hg, if_neg hdd, hg2, if_neg ha]
            rw [h4, hd]
            rfl

theorem insert_step_holding (env : Env) (req : insert_request) (pc : insert_pc)
    (fs : imgfs_file) (h : pc.holding = true) :
    (insert_step env req pc fs).1.holding = true := by
  cases pc with
  | at_lock => simp [insert_pc.holding] at h
  | done r => simp [insert_pc.holding] at h
  | at_unlock r => rfl
  | at_search =>
    simp only [insert_step]
    split
    · rfl
    · split <;> rfl
  | at_fill i =>
    simp only [insert_step]
    split <;> rfl
  | at_dedup i old =>
    simp only [insert_step]
    split <;> rfl
  | at_append i =>
    simp only [insert_step]
    split <;> rfl
  | at_write_back i => rfl

theorem insert_run_holding (env : Env) (req : insert_request) (f : imgfs_file) :
    ∀ k, (insert_run env req k (insert_pc.at_search, f)).1.holding = true := by
  intro k
  induction k with
  | zero => rfl
  | succ k ih =>
    rw [insert_run_succ]
    exact insert_step_holding env req _ _ ih

/-- A thread alone that stands before `pthread_mutex_unlock` has run the
whole of `do_insert`. -/
theorem insert_run_at_unlock (env : Env) (req : insert_request) (f : imgfs_file) (k : Nat)
    (r : error_code)
    (h : (insert_run env req k (insert_pc.at_search, f)).1 = insert_pc.at_unlock r) :
    insert_run env req k (insert_pc.at_search, f) =
      (insert_pc.at_unlock (do_insert env req.stdio req.image_buffer req.img_name f).1,
        (do_insert env req.stdio req.image_buffer req.img_name f).2) := by
  have hx : insert_run env req k (insert_pc.at_search, f) =
      (insert_pc.at_unlock r, (insert_run env req k (insert_pc.at_search, f)).2) := by
    rw [← h]
  by_cases hk : k ≤ 5
  · have h5 : insert_run env req (k + (5 - k)) (insert_pc.at_search, f) =
        insert_run env req (5 - k) (insert_run env req k (insert_pc.at_search, f)) :=
      insert_run_add env req k (5 - k) _
    have hk5 : k + (5 - k) = 5 := by omega
    rw [hk5, insert_run_do_insert, hx, insert_run_unlock, ← hx] at h5
    exact h5.symm
  · have h5 : insert_run env req (5 + (k - 5)) (insert_pc.at_search, f) =
        insert_run env req (k - 5) (insert_run env req 5 (insert_pc.at_search, f)) :=
      insert_run_add env req 5 (k - 5) _
    have hk5 : 5 + (k - 5) = k := by omega
    rw [hk5, insert_run_do_insert, insert_run_unlock] at h5
    exact h5

/-- A step of a thread that has run `k` parts of `do_insert` alone since it
took the mutex: it either unlocks, with the code and the store of
`do_insert`, or runs the next part. -/
theorem thread_step_insert_run (env : Env) (req : insert_request) (me : Bool)
    (m : Option Bool) (f : imgfs_file) (k : Nat) :
    thread_step env req me (insert_run env req k (insert_pc.at_search, f)).1 m
        (insert_run env req k (insert_pc.at_search, f)).2 =
        (insert_pc.done (do_insert env req.stdio req.image_buffer req.img_name f).1, none,
          (do_insert env req.stdio req.image_buffer req.img_name f).2) ∨
      thread_step env req me (insert_run env req k (insert_pc.at_search, f)).1 m
        (insert_run env req k (insert_pc.at_search, f)).2 =
        ((insert_run env req (k + 1) (insert_pc.at_search, f)).1, m,
          (insert_run env req (k + 1) (insert_pc.at_search, f)).2) := by
  have hold := insert_run_holding env req f k
  have hsucc := insert_run_succ env req k (insert_pc.at_search, f)
  cases hpc : (insert_run env req k (insert_pc.at_search, f)).1 with
  | at_lock => rw [hpc] at hold; simp [insert_pc.holding] at hold
  | done r => rw [hpc] at hold; simp [insert_pc.holding] at hold
  | at_unlock r =>
    left
    have hx := insert_run_at_unlock env req f k r hpc
    have hr : r = (do_insert env req.stdio req.image_buffer req.img_name f).1 := by
      rw [hx] at hpc
      exact (insert_pc.at_unlock.inj hpc).symm
    rw [hx, hr]
    rfl
  | at_search => right; rw [hsucc, hpc]; rfl
  | at_fill i => right; rw [hsucc, hpc]; rfl
  | at_dedup i old => right; rw [hsucc, hpc]; rfl
  | at_append i => right; rw [hsucc, hpc]; rfl
  | at_write_back i => right; rw [hsucc, hpc]; rfl

theorem server_step_mine (env : Env) (first second : insert_request) (me : Bool)
    (fs : imgfs_file) (m : Option Bool) (mine other : insert_pc) :
    server_step env first second (server_state.of me fs m mine other) me =
      server_state.of me (thread_step env (request_of first second me) me mine m fs).2.2
        (thread_step env (request_of first second me) me mine m fs).2.1
        (thread_step env (request_of first second me) me mine m fs).1 other := by
  cases me <;> rfl

theorem server_step_other (env : Env) (first second : insert_request) (me : Bool)
    (fs : imgfs_file) (m : Option Bool) (mine other : insert_pc) :
    server_step env first second (server_state.of me fs m mine other) (!me) =
      server_state.of me (thread_step env (request_of first second (!me)) (!me) other m fs).2.2
        (thread_step env (request_of first second (!me)) (!me) other m fs).2.1 mine
        (thread_step env (request_of first second (!me)) (!me) other m fs).1 := by
  cases me <;> rfl

theorem thread_step_blocked (env : Env) (req : insert_request) (me owner : Bool)
    (fs : imgfs_file) :
    thread_step env req me insert_pc.at_lock (some owner) fs =
      (insert_pc.at_lock, some owner, fs) := by
  simp [thread_step]

theorem thread_step_lock (env : Env) (req : insert_request) (me : Bool) (fs : imgfs_file) :
    thread_step env req me insert_pc.at_lock none fs = (insert_pc.at_search, some me, fs) := by
  simp [thread_step]

theorem thread_step_done (env : Env) (req : insert_request) (me : Bool) (r : error_code)
    (m : Option Bool) (fs : imgfs_file) :
    thread_step env req me (insert_pc.done r) m fs = (insert_pc.done r, m, fs) := rfl

theorem server_start_of (f : imgfs_file) (t : Bool) :
    server_start f = server_state.of t f none insert_pc.at_lock insert_pc.at_lock := by
  cases t <;> rfl

theorem bool_eq_or_not (t me : Bool) : t = me ∨ t = !me := by
  cases t <;> cases me <;> simp

/-- Every step leads from a state of the serial orders to a state of the
serial orders: while a thread is inside `do_insert` the other one is blocked
at `pthread_mutex_lock`. -/
theorem server_step_serial (env : Env) (first second : insert_request) (f : imgfs_file)
    (s : server_state) (t : Bool) (hs : serial_states env first second f s) :
    serial_states env first second f (server_step env first second s t) := by
  rcases hs with h0 | ⟨me, hs⟩
  · rw [h0, server_start_of f t, server_step_mine, thread_step_lock]
    exact Or.inr ⟨t, Or.inl ⟨0, rfl⟩⟩
  · refine Or.inr ⟨me, ?_⟩
    rcases hs with ⟨k, hs⟩ | hs | ⟨k, hs⟩ | hs
    · rw [hs]
      rcases bool_eq_or_not t me with ht | ht
      · rw [ht, server_step_mine]
        rcases thread_step_insert_run env (request_of first second me) me (some me) f k with
          h | h
        · rw [h]
          exact Or.inr (Or.inl rfl)
        · rw [h]
          exact Or.inl ⟨k + 1, rfl⟩
      · rw [ht, server_step_other, thread_step_blocked]
        exact Or.inl ⟨k, rfl⟩
    · rw [hs]
      rcases bool_eq_or_not t me with ht | ht
      · rw [ht, server_step_mine, thread_step_done]
        exact Or.inr (Or.inl rfl)
      · rw [ht, server_step_other, thread_step_lock]
        exact Or.inr (Or.inr (Or.inl ⟨0, rfl⟩))
    · rw [hs]
      rcases bool_eq_or_not t me with ht | ht
      · rw [ht, server_step_mine, thread_step_done]
        exact Or.inr (Or.inr (Or.inl ⟨k, rfl⟩))
      · rw [ht, server_step_other]
        rcases thread_step_insert_run env (request_of first second (!me)) (!me) (some (!me))
          (do_insert env (request_of first second me).stdio
            (request_of first second me).image_buffer
            (request_of first second me).img_name f).2 k with h | h
        · rw [h]
          exact Or.inr (Or.inr (Or.inr rfl))
        · rw [h]
          exact Or.inr (Or.inr (Or.inl ⟨k + 1, rfl⟩))
    · rw [hs]
      rcases bool_eq_or_not t me with ht | ht
      · rw [ht, server_step_mine, thread_step_done]
        exact Or.inr (Or.inr (Or.inr rfl))
      · rw [ht, server_step_other, thread_step_done]
        exact Or.inr (Or.inr (Or.inr rfl))

theorem server_run_serial (env : Env) (first second : insert_request) (f : imgfs_file)
    (schedule : List Bool) :
    ∀ s, serial_states env first second f s →
      serial_states env first second f (server_run env first second schedule s) := by
  induction schedule with
  | nil => intro s hs; exact hs
  | cons t rest ih =>
    intro s hs
    exact ih _ (server_step_serial env first second f s t hs)

theorem server_run_append (env : Env) (first second : insert_request) (a b : List Bool)
    (s : server_state) :
    server_run env first second (a ++ b) s =
      server_run env first second b (server_run env first second a s) := by
  simp [server_run, List.foldl_append]

theorem server_start_serial (env : Env) (first second : insert_request) (f : imgfs_file) :
    serial_states env first second f (server_start f) := Or.inl rfl

/-- When both threads are done, the run was one of the two serial orders. -/
theorem serial_states_done (env : Env) (first second : insert_request) (f : imgfs_file)
    (s : server_state) (ra rb : error_code) (hs : serial_states env first second f s)
    (ha : s.first = insert_pc.done ra) (hb : s.second = insert_pc.done rb) :
    (ra = (do_insert env first.stdio first.image_buffer first.img_name f).1 ∧
        (rb, s.fs_file) = do_insert env second.stdio second.image_buffer second.img_name
          (do_insert env first.stdio first.image_buffer first.img_name f).2) ∨
      (rb = (do_insert env second.stdio second.image_buffer second.img_name f).1 ∧
        (ra, s.fs_file) = do_insert env first.stdio first.image_buffer first.img_name
          (do_insert env second.stdio second.image_buffer second.img_name f).2) := by
  rcases hs with h0 | ⟨me, ⟨k, hs⟩ | hs | ⟨k, hs⟩ | hs⟩
  · rw [h0] at ha
    simp [server_start] at ha
  · have hold := insert_run_holding env (request_of first second me) f k
    cases me
    · rw [hs] at hb
      simp [server_state.of] at hb
    · rw [hs] at ha
      simp [server_state.of] at ha
  · cases me
    · rw [hs] at hb
      simp [server_state.of] at hb
    · rw [hs] at ha
      simp [server_state.of] at ha
  · have hold := insert_run_holding env (request_of first second (!me))
      (do_insert env (request_of first second me).stdio
        (request_of first second me).image_buffer
        (request_of first second me).img_name f).2 k
    cases me
    · rw [hs] at hb
      simp only [server_state.of, Bool.false_eq_true, if_false] at hb
      rw [hb] at hold
      simp [insert_pc.holding] at hold
    · rw [hs] at ha
      simp only [server_state.of, if_true] at ha
      rw [ha] at hold
      simp [insert_pc.holding] at hold
  · cases me
    · rw [hs] at ha hb ⊢
      simp only [server_state.of, request_of, Bool.false_eq_true, if_false, Bool.not_false,
        if_true, insert_pc.done.injEq] at ha hb ⊢
      left
      exact ⟨ha.symm, by rw [← hb]⟩
    · rw [hs] at ha hb ⊢
      simp only [server_state.of, request_of, Bool.false_eq_true, if_false, Bool.not_true,
        if_true, insert_pc.done.injEq] at ha hb ⊢
      right
      exact ⟨hb.symm, by rw [← ha]⟩

theorem holding_at_lock : insert_pc.at_lock.holding = false := rfl

theorem holding_done (r : error_code) : (insert_pc.done r).holding = false := rfl

/-- Mutual exclusion: in every state of the serial orders a thread that
stands between `pthread_mutex_lock` and `pthread_mutex_unlock` owns the
mutex and the other thread does not stand there; and the owner of the mutex
stands there. -/
theorem serial_states_exclusion (env : Env) (first second : insert_request) (f : imgfs_file)
    (s : server_state) (hs : serial_states env first second f s) (t : Bool) :
    ((s.pc t).holding = true → s.mutex = some t ∧ (s.pc (!t)).holding = false) ∧
      (s.mutex = some t → (s.pc t).holding = true) := by
  rcases hs with h0 | ⟨me, ⟨k, hs⟩ | hs | ⟨k, hs⟩ | hs⟩
  · rw [h0]
    cases t <;> simp [server_start, server_state.pc, holding_at_lock]
  · have hold := insert_run_holding env (request_of first second me) f k
    rw [hs]
    cases me <;> cases t <;>
      simp [server_state.of, server_state.pc, holding_at_lock, hold]
  · rw [hs]
    cases me <;> cases t <;>
      simp [server_state.of, server_state.pc, holding_at_lock, holding_done]
  · have hold := insert_run_holding env (request_of first second (!me))
      (do_insert env (request_of first second me).stdio
        (request_of first second me).image_buffer
        (request_of first second me).img_name f).2 k
    rw [hs]
    cases me <;> cases t <;>
      simp [server_state.of, server_state.pc, holding_done] <;> simpa using hold
  · rw [hs]
    cases me <;> cases t <;>
      simp [server_state.of, server_state.pc, holding_at_lock, holding_done]

theorem todo_insert_step (env : Env) (req : insert_request) (pc : insert_pc) (fs : imgfs_file)
    (h : pc.holding = true) (hu : ∀ r, pc ≠ insert_pc.at_unlock r) :
    (insert_step env req pc fs).1.todo ≤ pc.todo - 1 ∧
      (insert_step env req pc fs).1 ≠ insert_pc.at_lock := by
  cases pc with
  | at_lock => simp [insert_pc.holding] at h
  | done r => simp [insert_pc.holding] at h
  | at_unlock r => exact absurd rfl (hu r)
  | at_search =>
    simp only [insert_step]
    split
    · exact ⟨by simp [insert_pc.todo], by simp⟩
    · split
      · exact ⟨by simp [insert_pc.todo], by simp⟩
      · exact ⟨by simp [insert_pc.todo], by simp⟩
  | at_fill i =>
    simp only [insert_step]
    split
    · exact ⟨by simp [insert_pc.todo], by simp⟩
    · exact ⟨by simp [insert_pc.todo], by simp⟩
  | at_dedup i old =>
    simp only [insert_step]
    split
    · exact ⟨by simp [insert_pc.todo], by simp⟩
    · exact ⟨by simp [insert_pc.todo], by simp⟩
  | at_append i =>
    simp only [insert_step]
    split
    · exact ⟨by simp [insert_pc.todo], by simp⟩
    · exact ⟨by simp [insert_pc.todo], by simp⟩
  | at_write_back i => exact ⟨by simp [insert_step, insert_pc.todo], by simp [insert_step]⟩

/-- A step of a thread that is not blocked brings it nearer to the end. -/
theorem todo_thread_step (env : Env) (req : insert_request) (me : Bool) (pc : insert_pc)
    (m : Option Bool) (fs : imgfs_file) (h : pc ≠ insert_pc.at_lock ∨ m = none) :
    (thread_step env req me pc m fs).1.todo ≤ pc.todo - 1 ∧
      (thread_step env req me pc m fs).1 ≠ insert_pc.at_lock := by
  cases pc with
  | at_lock =>
    rcases h with h | h
    · exact absurd rfl h
    · rw [h, thread_step_lock]
      exact ⟨by simp [insert_pc.todo], by simp⟩
  | done r => exact ⟨by simp [thread_step, insert_pc.todo], by simp [thread_step]⟩
  | at_unlock r => exact ⟨by simp [thread_step, insert_pc.todo], by simp [thread_step]⟩
  | at_search => exact todo_insert_step env req insert_pc.at_search fs rfl (by intro r h; cases h)
  | at_fill i => exact todo_insert_step env req (insert_pc.at_fill i) fs rfl (by intro r h; cases h)
  | at_dedup i old => exact todo_insert_step env req (insert_pc.at_dedup i old) fs rfl (by intro r h; cases h)
  | at_append i => exact todo_insert_step env req (insert_pc.at_append i) fs rfl (by intro r h; cases h)
  | at_write_back i => exact todo_insert_step env req (insert_pc.at_write_back i) fs rfl (by intro r h; cases h)

theorem server_step_pc_self (env : Env) (first second : insert_request) (s : server_state)
    (t : Bool) :
    (server_step env first second s t).pc t =
      (thread_step env (request_of first second t) t (s.pc t) s.mutex s.fs_file).1 := by
  cases t <;> rfl

theorem server_step_pc_other (env : Env) (first second : insert_request) (s : server_state)
    (t : Bool) : (server_step env first second s t).pc (!t) = s.pc (!t) := by
  cases t <;> rfl

theorem server_run_pc_other (env : Env) (first second : insert_request) (t : Bool) (n : Nat) :
    ∀ s, (server_run env first second (List.replicate n t) s).pc (!t) = s.pc (!t) := by
  induction n with
  | zero => intro s; rfl
  | succ n ih =>
    intro s
    show (server_run env first second (List.replicate n t) (server_step env first second s t)).pc
      (!t) = _
    rw [ih, server_step_pc_other]

theorem server_run_todo (env : Env) (first second : insert_request) (t : Bool) (n : Nat) :
    ∀ s, (s.pc t ≠ insert_pc.at_lock ∨ s.mutex = none) →
      ((server_run env first second (List.replicate n t) s).pc t).todo ≤ (s.pc t).todo - n := by
  induction n with
  | zero => intro s _; exact Nat.le_refl _
  | succ n ih =>
    intro s hs
    have hstep := todo_thread_step env (request_of first second t) t (s.pc t) s.mutex s.fs_file hs
    rw [← server_step_pc_self] at hstep
    have := ih (server_step env first second s t) (Or.inl hstep.2)
    show ((server_run env first second (List.replicate n t)
      (server_step env first second s t)).pc t).todo ≤ _
    omega

theorem todo_le_seven (pc : insert_pc) : pc.todo ≤ 7 := by
  cases pc <;> simp [insert_pc.todo]

theorem done_of_todo (pc : insert_pc) (h : pc.todo = 0) : ∃ r, pc = insert_pc.done r := by
  cases pc <;> simp [insert_pc.todo] at h
  exact ⟨_, rfl⟩

/-- Seven steps end a thread that is not blocked. -/
theorem server_run_seven (env : Env) (first second : insert_request) (t : Bool)
    (s : server_state) (h : s.pc t ≠ insert_pc.at_lock ∨ s.mutex = none) :
    ∃ r, (server_run env first second (List.replicate 7 t) s).pc t = insert_pc.done r := by
  apply done_of_todo
  have h1 := server_run_todo env first second t 7 s h
  have h2 := todo_le_seven (s.pc t)
  omega

/-- In a state of the serial orders a thread is not blocked when the other
one is done. -/
theorem not_blocked_of_done (env : Env) (first second : insert_request) (f : imgfs_file)
    (s : server_state) (hs : serial_states env first second f s) (t : Bool) (r : error_code)
    (hd : s.pc (!t) = insert_pc.done r) : s.pc t ≠ insert_pc.at_lock ∨ s.mutex = none := by
  by_cases hl : s.pc t = insert_pc.at_lock
  · right
    cases hm : s.mutex with
    | none => rfl
    | some u =>
      exfalso
      have hu := (serial_states_exclusion env first second f s hs u).2 hm
      rcases bool_eq_or_not u t with h | h
      · rw [h, hl] at hu
        simp [holding_at_lock] at hu
      · rw [h, hd] at hu
        simp [holding_done] at hu
  · exact Or.inl hl

/-- From every state of the serial orders the closing schedule ends both
threads: no state is a deadlock. -/
theorem closing_schedule_ends (env : Env) (first second : insert_request) (f : imgfs_file)
    (s : server_state) (hs : serial_states env first second f s) :
    ∃ ra rb, (server_run env first second closing_schedule s).first = insert_pc.done ra ∧
      (server_run env first second closing_schedule s).second = insert_pc.done rb := by
  unfold closing_schedule
  rw [server_run_append, server_run_append]
  generalize hs1 : server_run env first second (List.replicate 7 false) s = s1
  generalize hs2 : server_run env first second (List.replicate 7 true) s1 = s2
  generalize hs3 : server_run env first second (List.replicate 7 false) s2 = s3
  have hser1 : serial_states env first second f s1 := by
    rw [← hs1]; exact server_run_serial env first second f _ s hs
  have hser2 : serial_states env first second f s2 := by
    rw [← hs2]; exact server_run_serial env first second f _ s1 hser1
  have hb1 : s1.pc true ≠ insert_pc.at_lock ∨ s1.mutex = none := by
    by_cases hblocked : s.pc false ≠ insert_pc.at_lock ∨ s.mutex = none
    · obtain ⟨r, hr⟩ := server_run_seven env first second false s hblocked
      rw [hs1] at hr
      exact not_blocked_of_done env first second f s1 hser1 true r hr
    · left
      have hl : s.pc false = insert_pc.at_lock := by
        by_contra h
        exact hblocked (Or.inl h)
      have hother := server_run_pc_other env first second false 7 s
      rw [hs1] at hother
      have hother2 : s1.pc true = s.pc true := hother
      rw [hother2]
      cases hm : s.mutex with
      | none => exact absurd (Or.inr hm) hblocked
      | some u =>
        have hu := (serial_states_exclusion env first second f s hs u).2 hm
        cases u with
        | false =>
          rw [hl] at hu
          simp [holding_at_lock] at hu
        | true =>
          intro h
          rw [h] at hu
          simp [holding_at_lock] at hu
  obtain ⟨rb, hrb⟩ := server_run_seven env first second true s1 hb1
  rw [hs2] at hrb
  have ha2 := not_blocked_of_done env first second f s2 hser2 false rb hrb
  obtain ⟨ra, hra⟩ := server_run_seven env first second false s2 ha2
  rw [hs3] at hra
  have hother := server_run_pc_other env first second false 7 s2
  rw [hs3] at hother
  have hb3 : s3.pc true = insert_pc.done rb := by
    have : s3.pc true = s2.pc true := hother
    rw [this, hrb]
  exact ⟨ra, rb, hra, hb3⟩
theorem insert_commit_stdio (env : Env) (stdio : Nat → Bool) (b : List Nat) (k : Nat)
    (g : imgfs_file) (hio : ∀ n, stdio n = true) :
    (insert_commit env stdio b k g).1 = ERR_NONE := by
  have ha : (insert_append stdio b k g).1 = ERR_NONE := by
    unfold insert_append
    simp only [hio, not_true_eq_false, if_false]
    split <;> rfl
  have hw : ∀ g2, (insert_write_back env stdio k g2).1 = ERR_NONE := by
    intro g2
    unfold insert_write_back
    simp only [hio, not_true_eq_false, if_false]
  unfold insert_commit
  rw [if_neg (not_not.mpr ha)]
  exact hw _

theorem do_insert_succeeds (env : Env) (stdio : Nat → Bool) (b id : List Nat) (f : imgfs_file)
    (k : Nat) (hnf : f.header.nb_files < f.header.max_files) (hk : find_free_index f = some k)
    (hdec : get_resolution env b ≠ none) (hio : ∀ n, stdio n = true)
    (hid : ∀ m ∈ f.metadata, m.is_valid ≠ EMPTY → strncmp_eq m.img_id id MAX_IMG_ID = false) :
    (do_insert env stdio b id f).1 = ERR_NONE := by
  obtain ⟨hkm, hkl, hkv, -⟩ := find_free_index_some hk
  cases hr : get_resolution env b with
  | none => exact absurd hr hdec
  | some hw =>
    obtain ⟨h, w⟩ := hw
    rw [do_insert_eq env stdio b id f k h w hnf hk hr]
    cases hs : dedup_loop (tentative_metadata env b id (f.entry k) h w) k 0
        ((f.metadata.set k (tentative_metadata env b id (f.entry k) h w)).take
          f.header.max_files) with
    | duplicate =>
      exfalso
      obtain ⟨n, hn, hnk, hv, hidn⟩ := dedup_loop_duplicate hs
      rw [length_take_set] at hn
      have hnk2 : n ≠ k := by omega
      have hget : (List.take f.header.max_files
          (f.metadata.set k (tentative_metadata env b id (f.entry k) h w))).getD n
            zero_metadata = f.entry n := by
        rw [getD_take_set _ _ _ _ _ hn, if_neg hnk2]
        rfl
      rw [hget] at hv hidn
      rw [tentative_img_id, hid _ (entry_mem f n (by omega)) hv] at hidn
      cases hidn
    | shared cur => exact insert_commit_stdio env stdio b k _ hio
    | fresh => exact insert_commit_stdio env stdio b k _ hio

/-- The statement that a slot holding the id makes `do_insert` answer
`ERR_DUPLICATE_ID`, when no live entry below that slot has the buffer's
digest. -/
theorem do_insert_duplicate_of_slot (env : Env) (stdio : Nat → Bool) (b id : List Nat)
    (f : imgfs_file) (k j : Nat)
    (hnf : f.header.nb_files < f.header.max_files)
    (hk : find_free_index f = some k)
    (hdec : get_resolution env b ≠ none)
    (hj : j < f.header.max_files) (hjl : j < f.metadata.length)
    (hjv : (f.entry j).is_valid = NON_EMPTY)
    (hjid : strncmp_eq (f.entry j).img_id id MAX_IMG_ID = true)
    (hsha : ∀ i, i < j → (f.entry i).is_valid ≠ EMPTY → (f.entry i).SHA ≠ env.SHA256 b) :
    do_insert env stdio b id f = (ERR_DUPLICATE_ID, f) := by
  obtain ⟨hkm, hkl, hkv, -⟩ := find_free_index_some hk
  cases hr : get_resolution env b with
  | none => exact absurd hr hdec
  | some hw =>
    obtain ⟨h, w⟩ := hw
    have hjk : j ≠ k := by
      intro hjk
      rw [hjk, hkv] at hjv
      simp [EMPTY, NON_EMPTY] at hjv
    have hjne : (f.entry j).is_valid ≠ EMPTY := by
      rw [hjv]; simp [EMPTY, NON_EMPTY]
    have hget : ∀ n, n < min f.header.max_files f.metadata.length → n ≠ k →
        (List.take f.header.max_files
          (f.metadata.set k (tentative_metadata env b id (f.entry k) h w))).getD n
            zero_metadata = f.entry n := by
      intro n hn hnk
      rw [getD_take_set _ _ _ _ _ hn, if_neg hnk]
      rfl
    have hjmin : j < min f.header.max_files f.metadata.length := by omega
    rw [do_insert_eq env stdio b id f k h w hnf hk hr]
    cases hs : dedup_loop (tentative_metadata env b id (f.entry k) h w) k 0
        ((f.metadata.set k (tentative_metadata env b id (f.entry k) h w)).take
          f.header.max_files) with
    | duplicate => rfl
    | shared cur =>
      exfalso
      obtain ⟨n, hn, hnk, hcur, hcv, hcs, hcid, hbefore⟩ := dedup_loop_shared hs
      rw [length_take_set] at hn
      have hnk2 : n ≠ k := by omega
      have hcur2 : f.entry n = cur := by rw [← hget n hn hnk2]; exact hcur
      rcases Nat.lt_trichotomy j n with hlt | heq | hgt
      · have := (hbefore j hlt (by omega) (by rw [hget j hjmin hjk]; exact hjne)).2
        rw [hget j hjmin hjk, tentative_img_id, hjid] at this
        cases this
      · subst heq
        rw [← hcur2, tentative_img_id, hjid] at hcid
        cases hcid
      · apply hsha n hgt (by rw [hcur2]; exact hcv)
        rw [hcur2, hcs]
        rfl
    | fresh =>
      exfalso
      have := (dedup_loop_fresh hs j (by rw [length_take_set]; exact hjmin) (by omega)
        (by rw [hget j hjmin hjk]; exact hjne)).2
      rw [hget j hjmin hjk, tentative_img_id, hjid] at this
      cases this

/-- A store that keeps the count of its NON_EMPTY entries and whose flags
are EMPTY or NON_EMPTY has an EMPTY slot as long as it is not full. -/
theorem free_slot_of_count (g : imgfs_file) (hinv : count_inv g)
    (hflags : ∀ m ∈ g.metadata, m.is_valid = EMPTY ∨ m.is_valid = NON_EMPTY)
    (hnf : g.header.nb_files < g.header.max_files) : ∃ k, find_free_index g = some k := by
  obtain ⟨hlen, -, hcnt⟩ := hinv
  cases hf : find_free_index g with
  | some k => exact ⟨k, rfl⟩
  | none =>
    exfalso
    unfold find_free_index at hf
    rw [List.findIdx?_eq_none_iff, List.take_of_length_le (by omega)] at hf
    have hall : ∀ m ∈ g.metadata, (fun m : img_metadata => m.is_valid == NON_EMPTY) m = true := by
      intro m hm
      rcases hflags m hm with h | h
      · have := hf m hm
        simp [h] at this
      · simp [h]
    have : count_non_empty g = g.metadata.length := by
      unfold count_non_empty
      exact List.countP_eq_length.mpr hall
    omega

theorem count_filter_map_set {α β : Type} [BEq β] [LawfulBEq β] (p : α → Bool) (g : α → β) (x : β)
    (m : α) (hp : p m = true) (hg : g m = x) :
    ∀ (l : List α) (k : Nat), k < l.length → (∀ e ∈ l, p e = true → g e ≠ x) →
      (((l.set k m).filter p).map g).count x = 1 := by
  intro l
  induction l with
  | nil => intro k hk; simp at hk
  | cons a l ih =>
    intro k hk hl
    cases k with
    | zero =>
      have hrest : ((l.filter p).map g).count x = 0 := by
        rw [List.count_eq_zero]
        intro hx
        obtain ⟨e, he, hge⟩ := List.mem_map.mp hx
        obtain ⟨hel, hpe⟩ := List.mem_filter.mp he
        exact hl e (List.mem_cons_of_mem _ hel) hpe hge
      rw [List.set_cons_zero, List.filter_cons_of_pos hp, List.map_cons, hg,
        List.count_cons_self, hrest]
    | succ k =>
      have hih := ih k (by simpa using hk) (fun e he => hl e (List.mem_cons_of_mem _ he))
      rw [List.set_cons_succ]
      by_cases hpa : p a = true
      · rw [List.filter_cons_of_pos hpa, List.map_cons,
          List.count_cons_of_ne (Ne.symm (hl a (List.mem_cons_self _ _) hpa)), hih]
      · rw [List.filter_cons_of_neg hpa, hih]

theorem c_str_ne_of_strncmp (a id : List Nat) (h : strncmp_eq a id MAX_IMG_ID = false) :
    c_str a ≠ c_str id := by
  intro heq
  unfold strncmp_eq at h
  have : c_str (a.take MAX_IMG_ID) = c_str (id.take MAX_IMG_ID) := by
    unfold c_str at heq ⊢
    rw [takeWhile_take_comm, takeWhile_take_comm, heq]
  rw [this] at h
  simp at h

theorem c_str_replicate_zero (n : Nat) (rest : List Nat) (hn : 0 < n) :
    c_str (List.replicate n 0 ++ rest) = [] := by
  cases n with
  | zero => omega
  | succ n => simp [c_str, List.replicate_succ]

theorem c_str_no_nul (s : List Nat) : ∀ x ∈ c_str s, x ≠ 0 := by
  intro x hx
  have := List.mem_takeWhile_imp (p := fun c : Nat => c != 0) hx
  simpa using this

/-- The string stored by `strncpy(dst, id, MAX_IMG_ID)` reads back as the id
when the id has at most `MAX_IMG_ID` bytes and `dst[MAX_IMG_ID]` is NUL. -/
theorem c_str_strncpy_full (dst id : List Nat) (hshort : (c_str id).length ≤ MAX_IMG_ID)
    (hterm : c_str (dst.drop MAX_IMG_ID) = []) :
    c_str (strncpy dst id MAX_IMG_ID) = c_str id := by
  unfold strncpy
  rw [List.take_of_length_le hshort, List.append_assoc, c_str_append _ _ (c_str_no_nul id)]
  by_cases hlt : (c_str id).length < MAX_IMG_ID
  · rw [c_str_replicate_zero _ _ (by omega)]
    simp
  · have h0 : MAX_IMG_ID - (c_str id).length = 0 := by omega
    rw [h0, List.replicate_zero, List.nil_append, hterm]
    simp

/-- Two inserts of the same id one after the other, in a store with room for
two more images that holds neither the id nor the digest of the second
buffer: the first succeeds, the second is refused as a duplicate and changes
nothing, and the list of the store holds the id once. -/
theorem insert_twice (env : Env) (stdio1 stdio2 : Nat → Bool) (b1 b2 id : List Nat)
    (f : imgfs_file) (hinv : count_inv f)
    (hflags : ∀ m ∈ f.metadata, m.is_valid = EMPTY ∨ m.is_valid = NON_EMPTY)
    (hroom : f.header.nb_files + 2 ≤ f.header.max_files)
    (hdec1 : get_resolution env b1 ≠ none) (hdec2 : get_resolution env b2 ≠ none)
    (hio1 : ∀ n, stdio1 n = true)
    (hid : ∀ m ∈ f.metadata, m.is_valid ≠ EMPTY → strncmp_eq m.img_id id MAX_IMG_ID = false)
    (hsha : ∀ m ∈ f.metadata, m.is_valid ≠ EMPTY → m.SHA ≠ env.SHA256 b2)
    (hshort : (c_str id).length ≤ MAX_IMG_ID)
    (hterm : ∀ m ∈ f.metadata, c_str (m.img_id.drop MAX_IMG_ID) = []) :
    (do_insert env stdio1 b1 id f).1 = ERR_NONE ∧
      do_insert env stdio2 b2 id (do_insert env stdio1 b1 id f).2 =
        (ERR_DUPLICATE_ID, (do_insert env stdio1 b1 id f).2) ∧
      ∃ images, do_list (do_insert env stdio1 b1 id f).2 do_list_mode.JSON =
          (ERR_NONE, some ⟨[("Images", images)]⟩) ∧ images.count (c_str id) = 1 := by
  obtain ⟨k, hk⟩ := free_slot_of_count f hinv hflags (by omega)
  obtain ⟨hkm, hkl, hkv, -⟩ := find_free_index_some hk
  have hok := do_insert_succeeds env stdio1 b1 id f k (by omega) hk hdec1 hio1 hid
  have hinv2 := count_inv_insert env stdio1 b1 id f hinv (by rw [hok]; decide)
  obtain ⟨k1, hk1, himg, -, -, -⟩ := do_insert_ok_entry env stdio1 b1 id f hok
  obtain ⟨-, k2, file1, m, hk2, heq, -, hmv, -, -⟩ := do_insert_ok env stdio1 b1 id f hok
  have hk1k : k1 = k := by
    rw [hk] at hk1
    exact (Option.some.inj hk1).symm
  have hk2k : k2 = k := by
    rw [hk] at hk2
    exact (Option.some.inj hk2).symm
  rw [hk1k] at himg
  rw [hk2k] at heq
  obtain ⟨hlen, hmax, hcnt⟩ := hinv
  refine ⟨hok, ?_⟩
  rw [heq] at himg hinv2 ⊢
  have hent : ∀ i, i < f.metadata.length →
      (imgfs_file.entry
        { file := file1, header := bump_header f.header, metadata := f.metadata.set k m } i) =
        if i = k then m else f.entry i := fun i hi => entry_update f file1 _ k i m hi
  have hmid : m.img_id = strncpy (f.entry k).img_id id MAX_IMG_ID := by
    have := hent k hkl
    rw [if_pos rfl] at this
    rw [← this]
    exact himg
  have hflags2 : ∀ x ∈ f.metadata.set k m, x.is_valid = EMPTY ∨ x.is_valid = NON_EMPTY := by
    intro x hx
    rcases List.mem_or_eq_of_mem_set hx with h | h
    · exact hflags x h
    · right
      rw [h]
      exact hmv
  have hnf2 : (bump_header f.header).nb_files < f.header.max_files := by
    show (f.header.nb_files + 1) % 2 ^ 32 < f.header.max_files
    rw [Nat.mod_eq_of_lt (by omega)]
    omega
  obtain ⟨k3, hk3⟩ := free_slot_of_count _ hinv2 hflags2 hnf2
  constructor
  · apply do_insert_duplicate_of_slot env stdio2 b2 id _ k3 k hnf2 hk3 hdec2 hkm
      (by simpa using hkl)
    · rw [hent k hkl, if_pos rfl]
      exact hmv
    · rw [hent k hkl, if_pos rfl, hmid]
      unfold strncmp_eq
      rw [c_str_strncpy]
      simp
    · intro i hi hv
      have hil : i < f.metadata.length := by omega
      have hik : i ≠ k := by omega
      rw [hent i hil, if_neg hik] at hv ⊢
      exact hsha _ (entry_mem f i hil) hv
  · refine ⟨list_loop [] ((f.metadata.set k m).take f.header.max_files), rfl, ?_⟩
    rw [list_loop_eq, List.nil_append, List.take_of_length_le (by simp; omega)]
    apply count_filter_map_set (fun m : img_metadata => m.is_valid == NON_EMPTY)
      (fun m : img_metadata => c_str m.img_id) (c_str id) m (by simp [hmv]) _ f.metadata k hkl
    · intro e he hpe
      apply c_str_ne_of_strncmp
      apply hid e he
      intro h0
      rw [h0] at hpe
      simp [EMPTY, NON_EMPTY] at hpe
    · show c_str m.img_id = c_str id
      rw [hmid]
      exact c_str_strncpy_full _ _ hshort (hterm _ (entry_mem f k hkl))


/-- What the mutex excludes. Two threads that are both inside `do_insert`
on the store `store_a`, as they would be if `pthread_mutex_lock` let both
pass, and that take their steps in turn: both `do_insert` return `ERR_NONE`
for the same id, the two threads have filled the same slot, and the header
counts three images where the table holds two. -/
theorem inserts_overlap_without_mutex :
    (server_run sample_env insert_c_first insert_c_second
        [false, true, false, true, false, true, false, true, false, true, false, true]
        ⟨store_a, none, insert_pc.at_search, insert_pc.at_search⟩).first =
        insert_pc.done ERR_NONE ∧
      (server_run sample_env insert_c_first insert_c_second
        [false, true, false, true, false, true, false, true, false, true, false, true]
        ⟨store_a, none, insert_pc.at_search, insert_pc.at_search⟩).second =
        insert_pc.done ERR_NONE ∧
      (server_run sample_env insert_c_first insert_c_second
        [false, true, false, true, false, true, false, true, false, true, false, true]
        ⟨store_a, none, insert_pc.at_search, insert_pc.at_search⟩).fs_file.header.nb_files = 3 ∧
      count_non_empty (server_run sample_env insert_c_first insert_c_second
        [false, true, false, true, false, true, false, true, false, true, false, true]
        ⟨store_a, none, insert_pc.at_search, insert_pc.at_search⟩).fs_file = 2 := by
  decide

/-- C28, counterexample. The store `store_ab` has free capacity
(`nb_files = 2 < max_files = 3`). Two threads insert the id `c`, each with a
decodable image; when the first thread runs before the second, and when the
second runs before the first, the thread that comes first gets `ERR_NONE`
and the other one `ERR_IMGFS_FULL`, not `ERR_DUPLICATE_ID`. -/
theorem second_insert_reports_full :
    store_ab.header.nb_files < store_ab.header.max_files ∧
      insert_c_first.img_name = insert_c_second.img_name ∧
      (server_run sample_env insert_c_first insert_c_second
        (List.replicate 7 false ++ List.replicate 7 true) (server_start store_ab)).first =
        insert_pc.done ERR_NONE ∧
      (server_run sample_env insert_c_first insert_c_second
        (List.replicate 7 false ++ List.replicate 7 true) (server_start store_ab)).second =
        insert_pc.done ERR_IMGFS_FULL ∧
      (server_run sample_env insert_c_first insert_c_second
        (List.replicate 7 true ++ List.replicate 7 false) (server_start store_ab)).first =
        insert_pc.done ERR_IMGFS_FULL ∧
      (server_run sample_env insert_c_first insert_c_second
        (List.replicate 7 true ++ List.replicate 7 false) (server_start store_ab)).second =
        insert_pc.done ERR_NONE := by
  decide

/-- C28, amended. Two connection threads run lines 266-268 of
`handle_insert_call` with the same id: `pthread_mutex_lock`, then
`do_insert` part by part on the shared store, then `pthread_mutex_unlock`,
interleaved by any schedule. The store keeps the count of its NON_EMPTY
entries, its flags are EMPTY or NON_EMPTY, it has room for two more images,
no live entry has the id or the digest of one of the two images, the id has
at most `MAX_IMG_ID` bytes (and byte `MAX_IMG_ID` of every stored id is
NUL), the codec decodes both images and the stdio calls succeed. Then, after
every schedule, a thread that is inside `do_insert` owns the mutex and the
other thread is not inside; every schedule can be continued until both
threads are done; and whenever both are done one `do_insert` has returned
`ERR_NONE`, the other `ERR_DUPLICATE_ID`, and the list of the store holds
the id exactly once. -/
theorem concurrent_insert_same_id (env : Env) (first second : insert_request) (f : imgfs_file)
    (schedule : List Bool)
    (hname : second.img_name = first.img_name)
    (hinv : count_inv f)
    (hflags : ∀ m ∈ f.metadata, m.is_valid = EMPTY ∨ m.is_valid = NON_EMPTY)
    (hroom : f.header.nb_files + 2 ≤ f.header.max_files)
    (hdec1 : get_resolution env first.image_buffer ≠ none)
    (hdec2 : get_resolution env second.image_buffer ≠ none)
    (hio1 : ∀ n, first.stdio n = true) (hio2 : ∀ n, second.stdio n = true)
    (hid : ∀ m ∈ f.metadata, m.is_valid ≠ EMPTY →
      strncmp_eq m.img_id first.img_name MAX_IMG_ID = false)
    (hsha : ∀ m ∈ f.metadata, m.is_valid ≠ EMPTY →
      m.SHA ≠ env.SHA256 first.image_buffer ∧ m.SHA ≠ env.SHA256 second.image_buffer)
    (hshort : (c_str first.img_name).length ≤ MAX_IMG_ID)
    (hterm : ∀ m ∈ f.metadata, c_str (m.img_id.drop MAX_IMG_ID) = []) :
    (∀ t,
        ((server_run env first second schedule (server_start f)).pc t).holding = true →
        (server_run env first second schedule (server_start f)).mutex = some t ∧
          ((server_run env first second schedule (server_start f)).pc (!t)).holding = false) ∧
      (∃ ra rb,
        (server_run env first second (schedule ++ closing_schedule) (server_start f)).first =
          insert_pc.done ra ∧
        (server_run env first second (schedule ++ closing_schedule) (server_start f)).second =
          insert_pc.done rb) ∧
      ∀ ra rb,
        (server_run env first second schedule (server_start f)).first = insert_pc.done ra →
        (server_run env first second schedule (server_start f)).second = insert_pc.done rb →
        ((ra = ERR_NONE ∧ rb = ERR_DUPLICATE_ID) ∨ (ra = ERR_DUPLICATE_ID ∧ rb = ERR_NONE)) ∧
          ∃ images,
            do_list (server_run env first second schedule (server_start f)).fs_file
                do_list_mode.JSON = (ERR_NONE, some ⟨[("Images", images)]⟩) ∧
              images.count (c_str first.img_name) = 1 := by
  have hs := server_run_serial env first second f schedule _
    (server_start_serial env first second f)
  refine ⟨fun t => (serial_states_exclusion env first second f _ hs t).1, ?_, ?_⟩
  · rw [server_run_append]
    exact closing_schedule_ends env first second f _ hs
  · intro ra rb ha hb
    rcases serial_states_done env first second f _ ra rb hs ha hb with ⟨h1, h2⟩ | ⟨h1, h2⟩
    · obtain ⟨hok, hdup, images, hl, hc⟩ := insert_twice env first.stdio second.stdio
        first.image_buffer second.image_buffer first.img_name f hinv hflags hroom hdec1 hdec2
        hio1 hid (fun m hm hv => (hsha m hm hv).2) hshort hterm
      rw [hname, hdup] at h2
      simp only [Prod.mk.injEq] at h2
      refine ⟨Or.inl ⟨h1.trans hok, h2.1⟩, images, ?_, hc⟩
      rw [h2.2]
      exact hl
    · obtain ⟨hok, hdup, images, hl, hc⟩ := insert_twice env second.stdio first.stdio
        second.image_buffer first.image_buffer first.img_name f hinv hflags hroom hdec2 hdec1
        hio2 hid (fun m hm hv => (hsha m hm hv).1) hshort hterm
      rw [hname] at h1 h2
      rw [hdup] at h2
      simp only [Prod.mk.injEq] at h2
      refine ⟨Or.inr ⟨h2.1, h1.trans hok⟩, images, ?_, hc⟩
      rw [h2.2]
      exact hl

/-- Witness of C28: the store `store_a` (one image, three slots); the second
thread locks first, the first thread is scheduled while the second is inside
`do_insert` and waits for the mutex. -/
theorem concurrent_insert_same_id_witness :
    count_inv store_a ∧ store_a.header.nb_files + 2 ≤ store_a.header.max_files ∧
      (server_run sample_env insert_c_first insert_c_second
        [true, false, true, false, true, true, true, true, true, false, false, false, false,
          false] (server_start store_a)).first = insert_pc.done ERR_DUPLICATE_ID ∧
      (server_run sample_env insert_c_first insert_c_second
        [true, false, true, false, true, true, true, true, true, false, false, false, false,
          false] (server_start store_a)).second = insert_pc.done ERR_NONE ∧
      ∃ images,
        do_list (server_run sample_env insert_c_first insert_c_second
            [true, false, true, false, true, true, true, true, true, false, false, false, false,
              false] (server_start store_a)).fs_file
            do_list_mode.JSON = (ERR_NONE, some ⟨[("Images", images)]⟩) ∧
          images.count (c_str insert_c_first.img_name) = 1 :=
  ⟨by decide, by decide, by decide, by decide,
    ((concurrent_insert_same_id sample_env insert_c_first insert_c_second store_a
      [true, false, true, false, true, true, true, true, true, false, false, false, false,
        false] rfl (by decide) (by decide)
      (by decide) (by decide) (by decide) (fun _ => rfl) (fun _ => rfl) (by decide) (by decide)
      (by decide) (by decide)).2.2 ERR_DUPLICATE_ID ERR_NONE (by decide) (by decide)).2⟩

/-! ### C29, the block without a header line -/

/-- C29, counterexample. The header block with no header line is the blank
line alone; on it, alone and followed by a body, `http_parse_headers`
returns NULL, not the position after the blank line. -/
theorem empty_header_block_rejected :
    header_block [] (HTTP_LINE_DELIM ++ []) = ascii "\r\n" ∧
      (http_parse_headers (header_block [] (HTTP_LINE_DELIM ++ [])) zero_message).1 = none ∧
      header_block [] (HTTP_LINE_DELIM ++ ascii "abc") = ascii "\r\nabc" ∧
      (http_parse_headers (header_block [] (HTTP_LINE_DELIM ++ ascii "abc")) zero_message).1 =
        none ∧
      zero_message.num_headers = 0 := by
  decide

end ImgFS
